import Mathlib

/-!
# ESP32-CAM motion detection: a shallow embedding

Lean model of the frame-to-frame motion driver (`motionDetect.cpp`), of the
motion-estimation context (`motion.c`, `motion.h`), of the two block matchers
(`epzs.c`, `block_matching.c`), of the separable convolution
(`convolution.c`), of the brightness rescaling (`deflicker.c`) and of the
window loop of the Lucas-Kanade optical flow
(`lucas_kanade_opitcal_flow.c`), with the properties of the debouncers, the
change metric, the previous-frame copy, the sampling of the bitmap, the
context initialisation, the vectors the block matchers emit, the exits and the
range of the EPZS search, the stages of the rood pattern search, the
convolutions, the brightness queue and the offsets of the analysis window.

Conventions of the embedding

* C `int` values are `Int`; signed overflow, a shift by 32 or more, a division
  by zero, an access through a null pointer, a write outside a buffer and a
  read outside a vector table are undefined in C and are reported as
  `Fault.undefinedBehaviour`.
* `uint8_t` / `uint16_t` values are `Nat`, reduced `% 256` / `% 65536` at each
  narrowing store.
* `assert` aborts the program: `Fault.assertFailed`.
* `static` and global variables are fields of an explicit state that each
  function takes and returns.
* Memory allocation and the JPEG decoder are outside the program: their
  outcome is an input of the function that calls them.
* The decoded bitmap is read through its pointer as a map from byte offsets to
  bytes, so a read past the end of the bitmap yields the byte memory holds
  there.
* An image plane is a list of samples; a read outside it is undefined. A plane
  lies in the 32-bit address space of the target, so the offset of a sample
  inside a plane is an `int` value: `me_comp_sad` computes offsets as exact
  integers, `costFuncSAD` with the conversions between `int` and `size_t` the
  source makes.
* A `while` loop is run for a bound of passes that the loop provably does not
  exceed (`Fault.outOfFuel` otherwise); `for` loops over a counter are
  recursions on the number of passes.
* A `float` is the rational number it denotes, with exact arithmetic (see the
  section on `convolution.c`); a division by zero, which yields no rational, is
  a fault.
-/

namespace Esp32Motion

/-! ## Faults -/

/-- The ways a call can fail to return. `outOfFuel` is the answer of the model
when the iteration bound it gives to a `while` loop is used up. -/
inductive Fault where
  | assertFailed
  | undefinedBehaviour
  | outOfFuel
deriving DecidableEq, Repr

deriving instance DecidableEq for Except

/-- Largest value of a C `int` (32 bits). -/
def INT_MAX : Int := 2147483647

/-- Smallest value of a C `int` (32 bits). -/
def INT_MIN : Int := -2147483648

/-- Result of an `int` operation: the value when it is representable, undefined
behaviour when it overflows. -/
def checkedInt (x : Int) : Except Fault Int :=
  if INT_MIN ≤ x ∧ x ≤ INT_MAX then .ok x else .error .undefinedBehaviour

/-! ## motionDetect.cpp: configuration constants -/

/-- Constant `MOTION_SEQUENCE`: min sequence of changed frames to confirm motion. -/
def MOTION_SEQUENCE : Nat := 5

/-- Constant `NIGHT_SEQUENCE`: frames of sequential darkness to avoid spurious
day / night switching. -/
def NIGHT_SEQUENCE : Nat := 10

/-- Constant `WANT_BMP`. -/
def WANT_BMP : Bool := false

/-- Constant `RGB888_BYTES`: number of bytes per pixel. -/
def RGB888_BYTES : Nat := 3

/-- Constant `BMP_HEADER`: size of the BMP header in bytes. -/
def BMP_HEADER : Nat := 54

/-- Size of the static buffer `prevGrayIm`. -/
def PREV_GRAY_SIZE : Nat := 43000

/-! ## motionDetect.cpp: `isNight` -/

/-- The two `static` locals of `isNight`. -/
structure NightState where
  nightTime : Bool
  nightCnt : Nat
deriving DecidableEq, Repr

/-- Initial values of the `static` locals of `isNight`. -/
def NightState.init : NightState := { nightTime := false, nightCnt := 0 }

/-- Function `isNight(nightSwitch)` of motionDetect.cpp, lines 191-212; the
global `lightLevel` is an argument. `nightCnt` is a `uint16_t`. -/
def isNight (lightLevel nightSwitch : Nat) (s : NightState) : Bool × NightState :=
  let s1 : NightState :=
    if !s.nightTime && decide (lightLevel < nightSwitch) then
      let cnt := (s.nightCnt + 1) % 65536
      if cnt > NIGHT_SEQUENCE then { nightTime := true, nightCnt := cnt }
      else { nightTime := s.nightTime, nightCnt := cnt }
    else s
  let s2 : NightState :=
    if lightLevel > nightSwitch then
      if s1.nightTime then { nightTime := false, nightCnt := 0 }
      else { nightTime := s1.nightTime, nightCnt := 0 }
    else s1
  (s2.nightTime, s2)

/-- One call of `isNight` per entry of `levels` (the successive values of
`lightLevel`), threading the static state; returns the flags in call order. -/
def isNightRun (nightSwitch : Nat) : NightState → List Nat → List Bool × NightState
  | s, [] => ([], s)
  | s, l :: ls =>
    let r := isNight l nightSwitch s
    let rest := isNightRun nightSwitch r.2 ls
    (r.1 :: rest.1, rest.2)

/-! ## motionDetect.cpp: the motion decision of `checkMotion` -/

/-- Lines 163-179 of `checkMotion`: `changed` is the value of the condition
`sum / nb_mv > 10 - motionVal`; returns the new `motionStatus` and the new
value of the `static uint16_t motionCnt`. -/
def motionDecision (changed motionStatus : Bool) (motionCnt : Nat) : Bool × Nat :=
  if changed then
    let cnt := if !motionStatus then (motionCnt + 1) % 65536 else motionCnt
    if !motionStatus && decide (cnt ≥ MOTION_SEQUENCE) then (true, cnt)
    else (motionStatus, cnt)
  else
    if motionStatus then (false, 0)
    else (motionStatus, motionCnt)

/-! ## motion.h -/

/-- Method `LK_OPTICAL_FLOW_8BIT`. -/
def LK_OPTICAL_FLOW_8BIT : Int := 0

/-- Method `LK_OPTICAL_FLOW`. -/
def LK_OPTICAL_FLOW : Int := 1

/-- Method `BLOCK_MATCHING_ARPS`. -/
def BLOCK_MATCHING_ARPS : Int := 2

/-- Method `BLOCK_MATCHING_EPZS`. -/
def BLOCK_MATCHING_EPZS : Int := 3

/-- Struct `MotionVector16_t`: `int16_t vx, vy; uint16_t mag2`. -/
structure MotionVector16_t where
  vx : Int
  vy : Int
  mag2 : Nat
deriving DecidableEq, Repr

/-- The vector `calloc` produces: all fields zero. -/
def MotionVector16_t.zero : MotionVector16_t := { vx := 0, vy := 0, mag2 := 0 }

/-- Array `MotionVector16_t *mv_table[3]`: three pointers, `none` when null,
otherwise the vectors of the array pointed to. -/
structure MvTables where
  t0 : Option (List MotionVector16_t)
  t1 : Option (List MotionVector16_t)
  t2 : Option (List MotionVector16_t)
deriving DecidableEq, Repr

/-- Pointer `mv_table[i]`, for `i` in 0..2. -/
def MvTables.get (t : MvTables) : Nat → Option (List MotionVector16_t)
  | 0 => t.t0
  | 1 => t.t1
  | 2 => t.t2
  | _ => none

/-- Assignment `mv_table[i] = p`, for `i` in 0..2. -/
def MvTables.set (t : MvTables) (i : Nat) (p : Option (List MotionVector16_t)) : MvTables :=
  match i with
  | 0 => { t with t0 := p }
  | 1 => { t with t1 := p }
  | 2 => { t with t2 := p }
  | _ => t

/-- Struct `MotionEstPredictor`: the first `nb` entries of `mvs`, each an
(x, y) pair. -/
structure MotionEstPredictor where
  mvs : List (Int × Int)
deriving DecidableEq, Repr

/-- Field `nb` of a predictor list. -/
def MotionEstPredictor.nb (p : MotionEstPredictor) : Nat := p.mvs.length

/-- Struct `MotionEstContext`. A pointer field is `none` when null and otherwise
holds the contents of the buffer it points to. `preds0` and `preds1` are
`preds[0]` and `preds[1]`. The field `name` and the two function pointers
(`get_cost` is always `me_comp_sad`, `motion_func` is chosen from `method` at
each call) carry no state of their own between calls and are left out. -/
structure MotionEstContext where
  data_cur : Option (List Nat)
  data_ref : Option (List Nat)
  method : Int
  width : Int
  height : Int
  b_width : Int
  b_height : Int
  b_count : Int
  mbSize : Int
  log2_mbSize : Int
  search_param : Int
  pred_x : Int
  pred_y : Int
  preds0 : MotionEstPredictor
  preds1 : MotionEstPredictor
  mv_table : MvTables
  max : Int
deriving DecidableEq, Repr

/-- Value of `new MotionEstContext()`: every field zero, every pointer null. -/
def MotionEstContext.init : MotionEstContext :=
  { data_cur := none, data_ref := none, method := 0, width := 0, height := 0,
    b_width := 0, b_height := 0, b_count := 0, mbSize := 0, log2_mbSize := 0,
    search_param := 0, pred_x := 0, pred_y := 0, preds0 := { mvs := [] },
    preds1 := { mvs := [] }, mv_table := { t0 := none, t1 := none, t2 := none }, max := 0 }

/-! ## motion.c: `uninit` and `init_context` -/

/-- Function `freep(&ctx->mv_table[i])`: frees the array and nulls the pointer. -/
def freep (ctx : MotionEstContext) (i : Nat) : MotionEstContext :=
  { ctx with mv_table := ctx.mv_table.set i none }

/-- Function `uninit` of motion.c, lines 16-37, on the pair (`mv_allocated`,
context). The `BLOCK_MATCHING_EPZS` case has no `break`: it falls through to
`default: return`, so `mv_allocated` keeps its value there. -/
def uninit (mv_allocated : Bool) (ctx : MotionEstContext) : Bool × MotionEstContext :=
  let ctx := { ctx with data_ref := none, data_cur := none }
  if !mv_allocated then (mv_allocated, ctx)
  else if ctx.method = LK_OPTICAL_FLOW_8BIT ∨ ctx.method = LK_OPTICAL_FLOW
      ∨ ctx.method = BLOCK_MATCHING_ARPS then
    (false, freep ctx 0)
  else if ctx.method = BLOCK_MATCHING_EPZS then
    (mv_allocated, freep (freep (freep ctx 0) 1) 2)
  else (mv_allocated, ctx)

/-- Search used by `ceilLog2`: the first `n`, counting up, with `m ≤ 2 ^ n`. -/
def ceilLog2Aux (m : Nat) : Nat → Nat → Nat
  | 0, n => n
  | fuel + 1, n => if m ≤ 2 ^ n then n else ceilLog2Aux m fuel (n + 1)

/-- Value of `ceil(log2(m))` for an integer `m ≥ 1`: the least `n` with
`m ≤ 2 ^ n`. (`log2` is exact on powers of two, and on any other `int` its
distance to the next integer is far above the rounding error of a double.) -/
def ceilLog2 (m : Nat) : Nat := ceilLog2Aux m m 0

/-- Call `calloc(n, sizeof(MotionVector16_t))` with `n` an `int` converted to
`size_t`: `ok` says whether the allocator finds the memory; a negative `n`
converts to a request no allocator satisfies. -/
def callocVectors (ok : Bool) (n : Int) : Option (List MotionVector16_t) :=
  if ok ∧ 0 ≤ n then some (List.replicate n.toNat MotionVector16_t.zero) else none

/-- Lines 52-60 and, identically, 66-74 of `init_context`: the two asserts
(both on `width`), the macroblock size redefined as `1 << ceil(log2(mbSize))`
and the block grid. `ceil(log2(x))` is converted to `int`, which is undefined
for `x ≤ 0` (minus infinity or NaN). -/
def blockGeometry (ctx : MotionEstContext) : Except Fault MotionEstContext := do
  let m4 ← checkedInt (4 * ctx.mbSize)
  if ¬ (ctx.width > m4) then throw Fault.assertFailed
  let m3 ← checkedInt (3 * ctx.mbSize)
  if ¬ (ctx.width > m3) then throw Fault.assertFailed
  if ctx.mbSize ≤ 0 then throw Fault.undefinedBehaviour
  let l := ceilLog2 ctx.mbSize.toNat
  if l ≥ 31 then throw Fault.undefinedBehaviour
  let ctx := { ctx with log2_mbSize := (l : Int) }
  let ctx := { ctx with mbSize := 2 ^ l }
  let ctx := { ctx with b_width := ctx.width / 2 ^ l }
  let ctx := { ctx with b_height := ctx.height / 2 ^ l }
  let bc ← checkedInt (ctx.b_width * ctx.b_height)
  pure { ctx with b_count := bc }

/-- The allocation loop of the EPZS case, lines 75-79: tables `i`, `i+1`, ...
below 3 are allocated in turn; the first failure returns `false` at once. -/
def allocTables (allocOk : Nat → Bool) (ctx : MotionEstContext) : Nat → Nat → Bool × MotionEstContext
  | 0, _ => (true, ctx)
  | k + 1, i =>
    let t := callocVectors (allocOk i) ctx.b_count
    let ctx1 := { ctx with mv_table := ctx.mv_table.set i t }
    if t.isNone then (false, ctx1) else allocTables allocOk ctx1 k (i + 1)

/-- Function `init_context` of motion.c, lines 39-88, on the pair
(`mv_allocated`, context). `allocOk i` says whether the `calloc` for
`mv_table[i]` succeeds. Returns the `bool` result, the new `mv_allocated` and
the context as the call leaves it (it is modified in place also when the
result is `false`). -/
def init_context (allocOk : Nat → Bool) (mv_allocated : Bool) (ctx : MotionEstContext) :
    Except Fault (Bool × Bool × MotionEstContext) := do
  let (mv_allocated, ctx) := if mv_allocated then uninit mv_allocated ctx else (mv_allocated, ctx)
  if ctx.method = LK_OPTICAL_FLOW_8BIT ∨ ctx.method = LK_OPTICAL_FLOW then
    let n ← checkedInt (ctx.width * ctx.height)
    let t := callocVectors (allocOk 0) n
    let ctx := { ctx with mv_table := ctx.mv_table.set 0 t }
    if t.isNone then pure (false, mv_allocated, ctx)
    else pure (true, true, { ctx with max := 0 })
  else if ctx.method = BLOCK_MATCHING_ARPS then
    let ctx ← blockGeometry ctx
    let t := callocVectors (allocOk 0) ctx.b_count
    let ctx := { ctx with mv_table := ctx.mv_table.set 0 t }
    if t.isNone then pure (false, mv_allocated, ctx)
    else pure (true, true, { ctx with max := 0 })
  else if ctx.method = BLOCK_MATCHING_EPZS then
    let ctx ← blockGeometry ctx
    let (ok, ctx) := allocTables allocOk ctx 3 0
    if !ok then pure (false, mv_allocated, ctx)
    else pure (true, true, { ctx with max := 0 })
  else pure (false, mv_allocated, ctx)

/-! ## motion.c: `motion_estimation` -/

/-- The four search routines `motion_estimation` dispatches to, each on the
context whose `data_ref` / `data_cur` hold the two planes. They are defined in
other translation units (`lucas_kanade_opitcal_flow.c`, `block_matching.c`,
`epzs.c`); the driver is modelled for any implementation of them. -/
structure MotionAlgorithms where
  LK_optical_flow_wrapper : MotionEstContext → Except Fault (Bool × MotionEstContext)
  LK_optical_flow8_wrapper : MotionEstContext → Except Fault (Bool × MotionEstContext)
  motionEstARPS_wrapper : MotionEstContext → Except Fault (Bool × MotionEstContext)
  motionEstEPZS : MotionEstContext → Except Fault (Bool × MotionEstContext)

/-- Function `motion_estimation(ctx, img_prev, img_cur)` of motion.c, lines
107-129. -/
def motion_estimation (alg : MotionAlgorithms) (ctx : MotionEstContext)
    (img_prev img_cur : List Nat) : Except Fault (Bool × MotionEstContext) :=
  let ctx := { ctx with data_cur := some img_cur }
  let ctx := { ctx with data_ref := some img_prev }
  if ctx.method = LK_OPTICAL_FLOW then alg.LK_optical_flow_wrapper ctx
  else if ctx.method = LK_OPTICAL_FLOW_8BIT then alg.LK_optical_flow8_wrapper ctx
  else if ctx.method = BLOCK_MATCHING_ARPS then alg.motionEstARPS_wrapper ctx
  else if ctx.method = BLOCK_MATCHING_EPZS then alg.motionEstEPZS ctx
  else .ok (false, ctx)

/-! ## motionDetect.cpp: `checkMotion` -/

/-- Struct `frameStruct` (the numeric fields of one row of `frameData`). -/
structure frameStruct where
  frameWidth : Nat
  frameHeight : Nat
  defaultFPS : Nat
  scaleFactor : Nat
  sampleRate : Nat
deriving DecidableEq, Repr

/-- Everything one call of `checkMotion` receives from outside the program:
`frameData[fsizePtr]` and `motionVal` (extern globals), the result of
`jpg2rgb` on the captured frame (`converted`, and `bmpBuf`: `none` for a null
pointer, otherwise the byte found at each offset from the pointer, which is the
decoded RGB888 bitmap followed by whatever memory holds after it), and the
outcome of the allocations made during the call. -/
structure FrameInput where
  frameData : frameStruct
  motionVal : Nat
  converted : Bool
  bmpBuf : Option (Nat → Nat)
  grayAlloc : Bool
  mvAlloc : Nat → Bool

/-- The statics the driver keeps between frames: `prevGrayIm`, `me_ctx`,
`first`, `motionCnt` of motionDetect.cpp and `mv_allocated` of motion.c. -/
structure MotionState where
  prevGrayIm : List Nat
  me_ctx : MotionEstContext
  first : Bool
  mv_allocated : Bool
  motionCnt : Nat
deriving DecidableEq, Repr

/-- State at program start. -/
def MotionState.init : MotionState :=
  { prevGrayIm := List.replicate PREV_GRAY_SIZE 0, me_ctx := MotionEstContext.init,
    first := true, mv_allocated := false, motionCnt := 0 }

/-- Search used by `floorLog2`: the first `n`, counting down, with `2 ^ n ≤ m`. -/
def floorLog2Aux (m : Nat) : Nat → Nat
  | 0 => 0
  | n + 1 => if 2 ^ (n + 1) ≤ m then n + 1 else floorLog2Aux m n

/-- Integer part of `log2(m)` for an integer `m ≥ 1`. -/
def floorLog2 (m : Nat) : Nat := floorLog2Aux m m

/-- One pass of the inner loop of `bmp2gray` (lines 74-79): `c` columns left,
`p` the offset of `bmpBuf` from its initial value. -/
def bmp2grayRow (bmpBuf : Nat → Nat) (pixelSpan : Nat) : Nat → Nat → List Nat
  | 0, _ => []
  | c + 1, p =>
    ((19595 * (bmpBuf p % 256) + 38469 * (bmpBuf (p + 1) % 256)
        + 7472 * (bmpBuf (p + 2) % 256)) / 65536) % 256
      :: bmp2grayRow bmpBuf pixelSpan c (p + pixelSpan)

/-- The outer loop of `bmp2gray` (lines 73-82): `r` rows left, `p` the offset
of `bmpBuf`; after each row the pointer advances by `bitmapWidth * pixelSpan`
on top of the `numCols * pixelSpan` of the inner loop. -/
def bmp2grayRows (bmpBuf : Nat → Nat) (numCols pixelSpan bitmapWidth : Nat) : Nat → Nat → List Nat
  | 0, _ => []
  | r + 1, p =>
    bmp2grayRow bmpBuf pixelSpan numCols p
      ++ bmp2grayRows bmpBuf numCols pixelSpan bitmapWidth r
          (p + numCols * pixelSpan + bitmapWidth * pixelSpan)

/-- Function `bmp2gray` of motionDetect.cpp, lines 71-83: the samples written
to `gray`, in order. -/
def bmp2gray (bmpBuf : Nat → Nat) (numCols numRows pixelSpan bitmapWidth : Nat) : List Nat :=
  bmp2grayRows bmpBuf numCols pixelSpan bitmapWidth numRows 0

/-- The sample-size parameters of lines 109-114. -/
structure SampleSize where
  numCols : Nat
  numRows : Nat
  pixelSpan : Nat
  bitmapWidth : Nat
  numSamples : Nat
deriving DecidableEq, Repr

/-- Lines 109-114 of `checkMotion`. `log2_downsize` is the conversion to
`uint8_t` of the double `scaleFactor + log2(sampleRate)`, undefined when the
truncated value is not below 256 or `sampleRate` is 0. -/
def sampleSize (fd : frameStruct) : Except Fault SampleSize := do
  if fd.sampleRate = 0 then throw Fault.undefinedBehaviour
  let log2_downsize := fd.scaleFactor + floorLog2 fd.sampleRate
  if log2_downsize ≥ 256 then throw Fault.undefinedBehaviour
  if log2_downsize ≥ 32 then throw Fault.undefinedBehaviour
  let numCols := (fd.frameWidth / 2 ^ log2_downsize) % 256
  let numRows := (fd.frameHeight / 2 ^ log2_downsize) % 256
  let pixelSpan := (fd.sampleRate * RGB888_BYTES) % 65536
  let bitmapWidth := (numCols * fd.sampleRate) % 65536
  pure { numCols := numCols, numRows := numRows, pixelSpan := pixelSpan,
         bitmapWidth := bitmapWidth, numSamples := numCols * numRows }

/-- The copy loop of lines 146-147, `for (int i = numSamples; --i; )
prevGrayIm[i] = grayIm[i];`, entered with `i = k`: the decrement comes first
and the loop stops as soon as it yields 0. -/
def copyLoop (grayIm : List Nat) : Nat → List Nat → List Nat
  | 0, prevGrayIm => prevGrayIm
  | i + 1, prevGrayIm =>
    if i = 0 then prevGrayIm
    else copyLoop grayIm i (prevGrayIm.set i (grayIm.getD i 0))

/-- Search used by `isqrt16`: the first `k`, counting down, with `k * k ≤ n`. -/
def isqrtAux (n : Nat) : Nat → Nat
  | 0 => 0
  | k + 1 => if (k + 1) * (k + 1) ≤ n then k + 1 else isqrtAux n k

/-- Value of `(int) sqrtf(mag2)` for a `uint16_t mag2`: the integer part of the
square root (at most 255; `sqrtf` is correctly rounded and a non-square below
65536 has its root more than 2^-10 below the next integer). -/
def isqrt16 (mag2 : Nat) : Nat := isqrtAux (mag2 % 65536) 255

/-- The loop of lines 156-157, `for (i = 0; i < nb_mv; i++, mv++) sum += (int)
sqrtf(mv->mag2);`, with `n` vectors still to read from `mv`. -/
def sumLoop : Nat → List MotionVector16_t → Int → Except Fault Int
  | 0, _, sum => .ok sum
  | _ + 1, [], _ => .error Fault.undefinedBehaviour
  | n + 1, v :: mv, sum => do
    let sum ← checkedInt (sum + (isqrt16 v.mag2 : Int))
    sumLoop n mv sum

/-- Lines 152-163 of `checkMotion`: the value `sum / nb_mv` that is compared
with `10 - motionVal`. -/
def changeMetric (ctx : MotionEstContext) (numSamples : Nat) : Except Fault Int := do
  let nb_mv : Int := if ctx.method = LK_OPTICAL_FLOW then (numSamples : Int) else ctx.b_count
  let sum ← match ctx.mv_table.get 0 with
    | some mv => sumLoop nb_mv.toNat mv 0
    | none => if nb_mv ≤ 0 then pure 0 else throw Fault.undefinedBehaviour
  if nb_mv = 0 then throw Fault.undefinedBehaviour
  pure (Int.tdiv sum nb_mv)

/-- Lines 108-148 of `checkMotion`, for a non-null `bmpBuf`: grayscale
conversion, context (re)initialisation or motion estimation, copy to
`prevGrayIm`. Returns `grayIm` as it is when copied, `numSamples` and the new
statics. The results of `init_context` and `motion_estimation` are not used
by the caller. `grayIm` is read back through `data_ref` after
`motion_estimation`, the pointer through which a search routine can write to
it. -/
def updateFrame (alg : MotionAlgorithms) (s : MotionState) (fb : FrameInput) (bmpBuf : Nat → Nat) :
    Except Fault (List Nat × Nat × MotionState) := do
  let sz ← sampleSize fb.frameData
  if !fb.grayAlloc && decide (sz.numSamples > 0) then throw Fault.undefinedBehaviour
  let bmpOffset := if WANT_BMP then BMP_HEADER else 0
  let grayIm := bmp2gray (fun p => bmpBuf (bmpOffset + p)) sz.numCols sz.numRows sz.pixelSpan
    sz.bitmapWidth
  let (grayIm, s) ←
    if s.first || decide ((sz.numCols : Int) ≠ s.me_ctx.width)
        || decide ((sz.numRows : Int) ≠ s.me_ctx.height) then do
      let ctx := { s.me_ctx with method := BLOCK_MATCHING_EPZS }
      let ctx := { ctx with width := (sz.numCols : Int) }
      let ctx := { ctx with height := (sz.numRows : Int) }
      let ctx := { ctx with mbSize := 6 }
      let ctx := { ctx with search_param := 9 }
      let (_, mv_allocated, ctx) ← init_context fb.mvAlloc s.mv_allocated ctx
      pure (grayIm, { s with me_ctx := ctx, mv_allocated := mv_allocated, first := false })
    else do
      let (_, ctx) ← motion_estimation alg s.me_ctx grayIm s.prevGrayIm
      pure (ctx.data_ref.getD grayIm, { s with me_ctx := ctx })
  if sz.numSamples = 0 then throw Fault.undefinedBehaviour
  if sz.numSamples > PREV_GRAY_SIZE then throw Fault.undefinedBehaviour
  pure (grayIm, sz.numSamples, { s with prevGrayIm := copyLoop grayIm sz.numSamples s.prevGrayIm })

/-- Function `checkMotion(fb, motionStatus)` of motionDetect.cpp, lines 85-189.
The block of lines 93-99 never runs (`bmpOffset` is 0 as `WANT_BMP` is
false) and the `show...` calls only print. -/
def checkMotion (alg : MotionAlgorithms) (s : MotionState) (fb : FrameInput) (motionStatus : Bool) :
    Except Fault (Bool × MotionState) :=
  if fb.converted then
    match fb.bmpBuf with
    | none => .ok (false, s)
    | some bmpBuf => do
      let (_, numSamples, s) ← updateFrame alg s fb bmpBuf
      let avg ← changeMetric s.me_ctx numSamples
      let (motionStatus, motionCnt) :=
        motionDecision (decide (avg > 10 - (fb.motionVal : Int))) motionStatus s.motionCnt
      pure (motionStatus, { s with motionCnt := motionCnt })
  else .ok (motionStatus, s)

/-- The condition `sum / nb_mv > 10 - motionVal` that `checkMotion` evaluates
on frame `fb` in state `s`: `none` when the call does not reach line 163. -/
def rawCondition (alg : MotionAlgorithms) (s : MotionState) (fb : FrameInput) : Option Bool :=
  if fb.converted then
    match fb.bmpBuf with
    | none => none
    | some bmpBuf =>
      match updateFrame alg s fb bmpBuf with
      | .ok (_, numSamples, s1) =>
        match changeMetric s1.me_ctx numSamples with
        | .ok avg => some (decide (avg > 10 - (fb.motionVal : Int)))
        | .error _ => none
      | .error _ => none
  else none

/-- Successive calls of `checkMotion`, one per frame, each given the flag the
previous call returned: the returned flags with the raw condition of each
frame, in call order, up to the first call that does not return. -/
def checkMotionRun (alg : MotionAlgorithms) :
    MotionState → Bool → List FrameInput → List (Option Bool × Bool)
  | _, _, [] => []
  | s, motionStatus, fb :: fbs =>
    match checkMotion alg s fb motionStatus with
    | .ok (flag, s1) => (rawCondition alg s fb, flag) :: checkMotionRun alg s1 flag fbs
    | .error _ => []

/-- The decision step of `checkMotion` iterated over the successive values of
the raw condition, each call given the flag and counter the previous one
left: the returned flags in order. -/
def motionDecisionRun : Bool → Nat → List Bool → List Bool
  | _, _, [] => []
  | motionStatus, motionCnt, r :: rs =>
    let d := motionDecision r motionStatus motionCnt
    d.1 :: motionDecisionRun d.1 d.2 rs

/-! ## Sample inputs -/

/-- A stand-in for the four search routines: each writes the vector `v` into
every entry of `mv_table[0]` and reports success. -/
def constantSearch (v : MotionVector16_t) : MotionAlgorithms :=
  let f : MotionEstContext → Except Fault (Bool × MotionEstContext) := fun c =>
    .ok (true, { c with mv_table := c.mv_table.set 0 ((c.mv_table.get 0).map (List.map fun _ => v)) })
  { LK_optical_flow_wrapper := f, LK_optical_flow8_wrapper := f,
    motionEstARPS_wrapper := f, motionEstEPZS := f }

/-- A converted frame sampled to a 25 x 8 grid (frame 25 x 8, scale factor 0,
sample rate 1): the first pixel white, the second mid-grey, the others black;
every allocation succeeds. -/
def sampleFrame (motionVal : Nat) : FrameInput :=
  { frameData := { frameWidth := 25, frameHeight := 8, defaultFPS := 30, scaleFactor := 0,
                   sampleRate := 1 },
    motionVal := motionVal, converted := true,
    bmpBuf := some (fun p => if p < 3 then 255 else if p < 6 then 100 else 0),
    grayAlloc := true, mvAlloc := fun _ => true }

/-- The statics after the first call of `checkMotion` of a run, on
`sampleFrame`, with the run counter then set to `motionCnt`. -/
def sampleState (motionCnt : Nat) : MotionState :=
  match checkMotion (constantSearch MotionVector16_t.zero) MotionState.init (sampleFrame 5) false with
  | .ok (_, s) => { s with motionCnt := motionCnt }
  | .error _ => MotionState.init

/-- An EPZS context for a 33 x 8 grid (macroblock 8, 4 x 1 blocks) as a search
leaves it when the first block moved by (1,1) and the second by (2,2). -/
def metricContext : MotionEstContext :=
  { MotionEstContext.init with
    method := BLOCK_MATCHING_EPZS, width := 33, height := 8, b_width := 4, b_height := 1,
    b_count := 4, mbSize := 8, log2_mbSize := 3, search_param := 9,
    mv_table :=
      { t0 := some [{ vx := 1, vy := 1, mag2 := 2 }, { vx := 2, vy := 2, mag2 := 8 },
                    MotionVector16_t.zero, MotionVector16_t.zero],
        t1 := some (List.replicate 4 MotionVector16_t.zero),
        t2 := some (List.replicate 4 MotionVector16_t.zero) } }

/-! ## motion.c: `me_comp_sad` -/

/-- Largest value of a `uint64_t`. -/
def UINT64_MAX : Nat := 18446744073709551615

/-- Largest value of a `uint32_t`. -/
def UINT32_MAX : Nat := 4294967295

/-- Conversion of an `int` to `int16_t` (two's complement wrap). -/
def wrap16 (x : Int) : Int := (x + 32768) % 65536 - 32768

/-- Left shift `x << n` of an `int`: undefined for a shift count outside
0..31 and when the result overflows; otherwise `x * 2 ^ n` (as GCC defines
it, also for a negative `x`). -/
def shiftLeft (x n : Int) : Except Fault Int :=
  if 0 ≤ n ∧ n < 32 then checkedInt (x * 2 ^ n.toNat) else .error Fault.undefinedBehaviour

/-- Read `buf[i]` from a plane of samples: undefined through a null pointer and
outside the plane. -/
def readPlane (buf : Option (List Nat)) (i : Int) : Except Fault Nat :=
  match buf with
  | none => .error Fault.undefinedBehaviour
  | some l =>
    if 0 ≤ i then
      match l.get? i.toNat with
      | some v => .ok v
      | none => .error Fault.undefinedBehaviour
    else .error Fault.undefinedBehaviour

/-- The inner loop of `me_comp_sad` (lines 143-144) over `n` columns: `pr` and
`pc` are the indices in `data_ref` and `data_cur` of the first sample of the
row. The accumulator is a `uint64_t`. -/
def sadRow (data_ref data_cur : Option (List Nat)) (pr pc : Int) : Nat → Except Fault Nat
  | 0 => .ok 0
  | n + 1 => do
    let sad ← sadRow data_ref data_cur pr pc n
    let a ← readPlane data_ref (pr + (n : Int))
    let b ← readPlane data_cur (pc + (n : Int))
    pure ((sad + ((a : Int) - (b : Int)).natAbs) % (UINT64_MAX + 1))

/-- The outer loop of `me_comp_sad` (lines 141-145) over `n` rows of `mbSize`
samples. -/
def sadRows (data_ref data_cur : Option (List Nat)) (linesize x_mb y_mb x_mv y_mv : Int)
    (mbSize : Nat) : Nat → Except Fault Nat
  | 0 => .ok 0
  | n + 1 => do
    let sad ← sadRows data_ref data_cur linesize x_mb y_mb x_mv y_mv mbSize n
    let row ← sadRow data_ref data_cur (y_mv * linesize + x_mv + (n : Int) * linesize)
      (y_mb * linesize + x_mb + (n : Int) * linesize) mbSize
    pure ((sad + row) % (UINT64_MAX + 1))

/-- Function `me_comp_sad(me_ctx, x_mb, y_mb, x_mv, y_mv)` of motion.c, lines
131-147: sum of absolute differences between the `mbSize` x `mbSize` window
of `data_ref` at (`x_mv`, `y_mv`) and that of `data_cur` at (`x_mb`, `y_mb`). -/
def me_comp_sad (me_ctx : MotionEstContext) (x_mb y_mb x_mv y_mv : Int) : Except Fault Nat :=
  sadRows me_ctx.data_ref me_ctx.data_cur me_ctx.width x_mb y_mb x_mv y_mv me_ctx.mbSize.toNat
    me_ctx.mbSize.toNat

/-! ## epzs.c -/

/-- Function `mid_pred(a, b, c)` of epzs.c, lines 10-24. -/
def mid_pred (a b c : Int) : Int :=
  if a > b then
    if c > b then
      if c > a then a else c
    else b
  else
    if b > c then
      if c > a then c else a
    else b

/-- The locals `cost_min` and `mv` of `me_search_epzs`. -/
structure EpzsSearch where
  cost_min : Nat
  mv0 : Int
  mv1 : Int
deriving DecidableEq, Repr

/-- The locals `x_min`, `x_max`, `y_min`, `y_max` of `me_search_epzs`. -/
structure SearchRange where
  x_min : Int
  x_max : Int
  y_min : Int
  y_max : Int
deriving DecidableEq, Repr

/-- Macro `COST_MV(x, y)` of epzs.c, lines 27-35; `get_cost` is `me_comp_sad`. -/
def COST_MV (me_ctx : MotionEstContext) (x_mb y_mb : Int) (s : EpzsSearch) (x y : Int) :
    Except Fault EpzsSearch := do
  let cost ← me_comp_sad me_ctx x_mb y_mb x y
  if cost < s.cost_min then pure { cost_min := cost, mv0 := x, mv1 := y } else pure s

/-- Macro `COST_P_MV(x, y)` of epzs.c, lines 37-39. -/
def COST_P_MV (me_ctx : MotionEstContext) (r : SearchRange) (x_mb y_mb : Int) (s : EpzsSearch)
    (x y : Int) : Except Fault EpzsSearch :=
  if x ≥ r.x_min ∧ x ≤ r.x_max ∧ y ≥ r.y_min ∧ y ≤ r.y_max then COST_MV me_ctx x_mb y_mb s x y
  else pure s

/-- A loop `for (i = 0; i < n; i++) COST_P_MV(x + o[i][0], y + o[i][1])` over
the offsets `o` (lines 76-77, 82-83 and 93-94). -/
def costOffsets (me_ctx : MotionEstContext) (r : SearchRange) (x_mb y_mb x y : Int) :
    List (Int × Int) → EpzsSearch → Except Fault EpzsSearch
  | [], s => pure s
  | o :: os, s => do
    let s ← COST_P_MV me_ctx r x_mb y_mb s (x + o.1) (y + o.2)
    costOffsets me_ctx r x_mb y_mb x y os s

/-- Table `dia1` of epzs.c, line 49. -/
def dia1 : List (Int × Int) := [(-1, 0), (0, -1), (1, 0), (0, 1)]

/-- The `do ... while` loop of `me_search_epzs`, lines 88-96, run for at most
`fuel` passes. -/
def epzsDiamond (me_ctx : MotionEstContext) (r : SearchRange) (x_mb y_mb : Int) :
    Nat → EpzsSearch → Except Fault EpzsSearch
  | 0, _ => .error Fault.outOfFuel
  | fuel + 1, s => do
    let x := s.mv0
    let y := s.mv1
    let s1 ← costOffsets me_ctx r x_mb y_mb x y dia1 s
    if x ≠ s1.mv0 ∨ y ≠ s1.mv1 then epzsDiamond me_ctx r x_mb y_mb fuel s1 else pure s1

/-- Function `me_search_epzs(me_ctx, x_mb, y_mb, mv)` of epzs.c, lines 57-99:
returns `cost_min` and the final `mv`. Each further pass of the final loop
follows a strict decrease of `cost_min` to a position of the search range not
taken before, so the loop is given one pass more than the range has
positions. -/
def me_search_epzs (me_ctx : MotionEstContext) (x_mb y_mb : Int) (mv : Int × Int) :
    Except Fault (Nat × (Int × Int)) := do
  let xl ← checkedInt (x_mb - me_ctx.search_param)
  let yl ← checkedInt (y_mb - me_ctx.search_param)
  let xh ← checkedInt (x_mb + me_ctx.search_param)
  let yh ← checkedInt (y_mb + me_ctx.search_param)
  let xg ← shiftLeft (me_ctx.b_width - 1) me_ctx.log2_mbSize
  let yg ← shiftLeft (me_ctx.b_height - 1) me_ctx.log2_mbSize
  let r : SearchRange := { x_min := max 0 xl, x_max := min xh xg, y_min := max 0 yl,
                           y_max := min yh yg }
  let s : EpzsSearch := { cost_min := UINT64_MAX, mv0 := mv.1, mv1 := mv.2 }
  let s ← COST_P_MV me_ctx r x_mb y_mb s (x_mb + me_ctx.pred_x) (y_mb + me_ctx.pred_y)
  if s.cost_min < 256 then pure (s.cost_min, (s.mv0, s.mv1))
  else do
    let s ← costOffsets me_ctx r x_mb y_mb x_mb y_mb me_ctx.preds0.mvs s
    if s.cost_min < 256 then pure (s.cost_min, (s.mv0, s.mv1))
    else do
      let s ← costOffsets me_ctx r x_mb y_mb x_mb y_mb me_ctx.preds1.mvs s
      if s.cost_min < 256 then pure (s.cost_min, (s.mv0, s.mv1))
      else do
        let fuel := ((r.x_max - r.x_min + 1) * (r.y_max - r.y_min + 1)).toNat + 1
        let s ← epzsDiamond me_ctx r x_mb y_mb fuel s
        pure (s.cost_min, (s.mv0, s.mv1))

/-- Macro `ADD_PRED(preds, px, py)` of epzs.c, lines 42-47 (no list receives
more than 5 of the 10 entries it can hold). -/
def ADD_PRED (p : MotionEstPredictor) (px py : Int) : MotionEstPredictor :=
  { mvs := p.mvs ++ [(px, py)] }

/-- Read `table[i]` from a vector table: undefined through a null pointer and
outside the table. -/
def readVector (table : Option (List MotionVector16_t)) (i : Int) : Except Fault MotionVector16_t :=
  match table with
  | none => .error Fault.undefinedBehaviour
  | some l =>
    if 0 ≤ i then
      match l.get? i.toNat with
      | some v => .ok v
      | none => .error Fault.undefinedBehaviour
    else .error Fault.undefinedBehaviour

/-- Write `table[i] = v` to a vector table: undefined through a null pointer
and outside the table. -/
def writeVector (table : Option (List MotionVector16_t)) (i : Int) (v : MotionVector16_t) :
    Except Fault (List MotionVector16_t) :=
  match table with
  | none => .error Fault.undefinedBehaviour
  | some l =>
    if 0 ≤ i ∧ i.toNat < l.length then .ok (l.set i.toNat v)
    else .error Fault.undefinedBehaviour

/-- Statement `ADD_PRED(preds, table[i].vx, table[i].vy)` under the condition
`cond`. -/
def addPredIf (cond : Bool) (p : MotionEstPredictor) (table : Option (List MotionVector16_t))
    (i : Int) : Except Fault MotionEstPredictor :=
  if cond then do
    let v ← readVector table i
    pure (ADD_PRED p v.vx v.vy)
  else pure p

/-- Lines 134-147 of `motionEstEPZS`: the median predictor from the list
`preds[0]` as it stands after the current-frame neighbours were added. -/
def medianPredictor (p : MotionEstPredictor) : Int × Int :=
  if p.nb = 4 then
    (mid_pred (p.mvs.getD 1 (0, 0)).1 (p.mvs.getD 2 (0, 0)).1 (p.mvs.getD 3 (0, 0)).1,
     mid_pred (p.mvs.getD 1 (0, 0)).2 (p.mvs.getD 2 (0, 0)).2 (p.mvs.getD 3 (0, 0)).2)
  else if p.nb = 3 then
    (mid_pred 0 (p.mvs.getD 1 (0, 0)).1 (p.mvs.getD 2 (0, 0)).1,
     mid_pred 0 (p.mvs.getD 1 (0, 0)).2 (p.mvs.getD 2 (0, 0)).2)
  else if p.nb = 2 then ((p.mvs.getD 1 (0, 0)).1, (p.mvs.getD 1 (0, 0)).2)
  else (0, 0)

/-- Lines 118-132 of `motionEstEPZS`: the list `preds[0]` after the zero
vector and the left, top and top-right vectors of the current frame. -/
def currentPredictors (me_ctx : MotionEstContext) (mb_x mb_y : Int) :
    Except Fault MotionEstPredictor := do
  let mb_i := mb_x + mb_y * me_ctx.b_width
  let t0 := me_ctx.mv_table.get 0
  let p := ADD_PRED { mvs := [] } 0 0
  let p ← addPredIf (decide (mb_x > 0)) p t0 (mb_i - 1)
  let p ← addPredIf (decide (mb_y > 0)) p t0 (mb_i - me_ctx.b_width)
  addPredIf (decide (mb_y > 0) && decide (mb_x + 1 < me_ctx.b_width)) p t0
    (mb_i - me_ctx.b_width + 1)

/-- Lines 152-169 of `motionEstEPZS`: the list `preds[1]`. -/
def previousPredictors (me_ctx : MotionEstContext) (mb_x mb_y : Int) :
    Except Fault MotionEstPredictor := do
  let mb_i := mb_x + mb_y * me_ctx.b_width
  let t1 := me_ctx.mv_table.get 1
  let v1 ← readVector t1 mb_i
  let v2 ← readVector (me_ctx.mv_table.get 2) mb_i
  let p := ADD_PRED { mvs := [] } (v1.vx + (v1.vx - v2.vx)) (v1.vy + (v1.vy - v2.vy))
  let p ← addPredIf (decide (mb_x > 0)) p t1 (mb_i - 1)
  let p ← addPredIf (decide (mb_y > 0)) p t1 (mb_i - me_ctx.b_width)
  let p ← addPredIf (decide (mb_x + 1 < me_ctx.b_width)) p t1 (mb_i + 1)
  addPredIf (decide (mb_y + 1 < me_ctx.b_height)) p t1 (mb_i + me_ctx.b_width)

/-- Value stored by `mag2 = (uint16_t) pow(dx, 2) + pow(dy, 2)` (line 174): the
cast binds to the first `pow` only; a double outside 0..65535 has no defined
conversion to `uint16_t`. -/
def epzsMag2 (dx dy : Int) : Except Fault Nat :=
  if dx * dx > 65535 then .error Fault.undefinedBehaviour
  else if dx * dx + dy * dy > 65535 then .error Fault.undefinedBehaviour
  else .ok (dx * dx + dy * dy).toNat

/-- The body of the inner loop of `motionEstEPZS`, lines 112-175, for the
macroblock in column `mb_x` of row `mb_y`. -/
def epzsBlock (me_ctx : MotionEstContext) (mb_x mb_y : Int) : Except Fault MotionEstContext := do
  let mb_i := mb_x + mb_y * me_ctx.b_width
  let x_mb ← shiftLeft mb_x me_ctx.log2_mbSize
  let y_mb ← shiftLeft mb_y me_ctx.log2_mbSize
  let p0 ← currentPredictors me_ctx mb_x mb_y
  let pred := medianPredictor p0
  let c1 ← readVector (me_ctx.mv_table.get 1) mb_i
  let p0 := ADD_PRED p0 c1.vx c1.vy
  let p1 ← previousPredictors me_ctx mb_x mb_y
  let me_ctx := { me_ctx with pred_x := pred.1, pred_y := pred.2, preds0 := p0, preds1 := p1 }
  let (_, mv) ← me_search_epzs me_ctx x_mb y_mb (x_mb, y_mb)
  let mag2 ← epzsMag2 (mv.1 - x_mb) (mv.2 - y_mb)
  let v : MotionVector16_t :=
    { vx := wrap16 (wrap16 mv.1 - x_mb), vy := wrap16 (wrap16 mv.2 - y_mb), mag2 := mag2 }
  let t0 ← writeVector (me_ctx.mv_table.get 0) mb_i v
  pure { me_ctx with mv_table := me_ctx.mv_table.set 0 (some t0),
                     max := max me_ctx.max (mag2 : Int) }

/-- The inner loop of `motionEstEPZS` (line 111) over the first `n` columns of
row `mb_y`. -/
def epzsCols (mb_y : Int) : Nat → MotionEstContext → Except Fault MotionEstContext
  | 0, me_ctx => pure me_ctx
  | n + 1, me_ctx => do
    let me_ctx ← epzsCols mb_y n me_ctx
    epzsBlock me_ctx (n : Int) mb_y

/-- The outer loop of `motionEstEPZS` (line 109) over the first `n` rows. -/
def epzsRows : Nat → MotionEstContext → Except Fault MotionEstContext
  | 0, me_ctx => pure me_ctx
  | n + 1, me_ctx => do
    let me_ctx ← epzsRows n me_ctx
    epzsCols (n : Int) me_ctx.b_width.toNat me_ctx

/-- Call `memcpy(dst, src, sizeof(*src) * n)` on two vector tables: the first
`n` vectors of `dst` become those of `src`. -/
def memcpyVectors (dst src : Option (List MotionVector16_t)) (n : Int) :
    Except Fault (List MotionVector16_t) :=
  match dst, src with
  | some d, some s =>
    if 0 ≤ n ∧ n.toNat ≤ d.length ∧ n.toNat ≤ s.length then .ok (s.take n.toNat ++ d.drop n.toNat)
    else .error Fault.undefinedBehaviour
  | _, _ => .error Fault.undefinedBehaviour

/-- Function `motionEstEPZS(me_ctx)` of epzs.c, lines 101-179. -/
def motionEstEPZS (me_ctx : MotionEstContext) : Except Fault (Bool × MotionEstContext) := do
  let me_ctx := { me_ctx with max := 0 }
  let t2 ← memcpyVectors (me_ctx.mv_table.get 2) (me_ctx.mv_table.get 1) me_ctx.b_count
  let me_ctx := { me_ctx with mv_table := me_ctx.mv_table.set 2 (some t2) }
  let t1 ← memcpyVectors (me_ctx.mv_table.get 1) (me_ctx.mv_table.get 0) me_ctx.b_count
  let me_ctx := { me_ctx with mv_table := me_ctx.mv_table.set 1 (some t1) }
  let me_ctx ← epzsRows me_ctx.b_height.toNat me_ctx
  pure (true, me_ctx)



/-! ## block_matching.c: `costFuncSAD` and `motionEstARPS`

`size_t` and `unsigned` have 32 bits on the ESP32. -/

/-- Conversion of an integer value to `size_t` / `unsigned`. -/
def u32 (x : Int) : Nat := (x % 4294967296).toNat

/-- Conversion of an integer value to `int` where it is not UB (from an
unsigned type: two's complement wrap, as GCC defines it). -/
def wrap32 (x : Int) : Int := (x + 2147483648) % 4294967296 - 2147483648

/-- The inner loop of `costFuncSAD` (lines 24-25) over `n` columns of the row
at offset `iw`, on the accumulator `err`. -/
def sadCols (currentImg refImg : Option (List Nat)) (iw offset_curr offset_ref : Int) :
    Nat → Int → Except Fault Int
  | 0, err => pure err
  | j + 1, err => do
    let err ← sadCols currentImg refImg iw offset_curr offset_ref j err
    let ij ← checkedInt (iw + (j : Int))
    let a ← readPlane currentImg (← checkedInt (ij + offset_curr))
    let b ← readPlane refImg (← checkedInt (ij + offset_ref))
    checkedInt (err + |(a : Int) - (b : Int)|)

/-- The outer loop of `costFuncSAD` (lines 22-26) over `n` rows. -/
def sadLines (currentImg refImg : Option (List Nat)) (offset_curr offset_ref : Int)
    (mbSize w : Nat) : Nat → Int → Except Fault Int
  | 0, err => pure err
  | i + 1, err => do
    let err ← sadLines currentImg refImg offset_curr offset_ref mbSize w i err
    sadCols currentImg refImg (wrap32 ((i : Int) * (w : Int))) offset_curr offset_ref mbSize err

/-- Function `costFuncSAD(currentImg, refImg, offset_curr, offset_ref, mbSize,
w)` of block_matching.c, lines 19-28. With `mbSize` above `INT_MAX` the `int`
counter `j` overflows unless a read fails first. -/
def costFuncSAD (currentImg refImg : Option (List Nat)) (offset_curr offset_ref : Int)
    (mbSize w : Nat) : Except Fault Int :=
  if (mbSize : Int) > INT_MAX then .error Fault.undefinedBehaviour
  else sadLines currentImg refImg offset_curr offset_ref mbSize w mbSize 0

/-- Table `SDSP` of block_matching.c, lines 96-101. -/
def SDSP : List (Int × Int) := [(0, -1), (-1, 0), (0, 0), (1, 0), (0, 1), (1, 1)]

/-- The locals of `motionEstARPS` that live across macroblocks: the table
behind `vectors` with the index the pointer stands at, `costs`, `stepSize`,
`maxIndex`, `LDSP`, the positions of `checkArray` that hold 1 (all others hold
0), and `*max_mag2`. -/
structure ArpsState where
  vectors : Option (List MotionVector16_t)
  vi : Int
  costs : List Nat
  stepSize : Int
  maxIndex : Int
  LDSP : List (Int × Int)
  checkArray : List (Int × Int)
  max_mag2 : Int
deriving DecidableEq, Repr

/-- An access `checkArray[a][b]` of the array `int checkArray[2*p+1][2*p+1]`:
undefined when an index leaves 0..2p. -/
def checkIndex (p a b : Int) : Except Fault Unit :=
  if 0 ≤ a ∧ a ≤ 2 * p ∧ 0 ≤ b ∧ b ≤ 2 * p then pure () else .error Fault.undefinedBehaviour

/-- The operator `a || b` with the right operand evaluated only when the left
one is false. -/
def shortOr (a : Bool) (b : Except Fault Bool) : Except Fault Bool :=
  if a then pure true else b

/-- The current minimum `cost` and its index `point`. -/
structure ArpsBest where
  cost : Nat
  point : Nat
deriving DecidableEq, Repr

/-- One pass of the body of the LDSP loop (lines 199-215) for index `k`. -/
def ldspPoint (imgP imgI : Option (List Nat)) (w h mbSize : Nat) (p : Int) (offset_curr : Int)
    (x y : Int) (k : Nat) (sb : ArpsState × ArpsBest) : Except Fault (ArpsState × ArpsBest) := do
  let s := sb.1
  let o := s.LDSP.getD k (0, 0)
  let refBlkVer ← checkedInt (y + o.2)
  let refBlkHor ← checkedInt (x + o.1)
  if refBlkVer < 0 ∨ u32 (refBlkVer + (mbSize : Int) - 1) > u32 ((h : Int) - 1)
      ∨ refBlkHor < 0 ∨ u32 (refBlkHor + (mbSize : Int) - 1) > u32 ((w : Int) - 1) then pure sb
  else if k = 2 ∨ s.stepSize = 0 then pure sb
  else do
    let c ← costFuncSAD imgP imgI offset_curr (wrap32 (refBlkVer * (w : Int) + refBlkHor)) mbSize w
    let a ← checkedInt ((← checkedInt (o.2 + p)) + 1)
    let b ← checkedInt ((← checkedInt (o.1 + p)) + 1)
    checkIndex p a b
    let s := { s with costs := s.costs.set k (u32 c), checkArray := (a, b) :: s.checkArray }
    if u32 c < sb.2.cost then pure (s, { cost := u32 c, point := k }) else pure (s, sb.2)

/-- The loop `for (k = 0; k < n; k++)` over the body `f`. -/
def forK {σ : Type} (f : Nat → σ → Except Fault σ) : Nat → σ → Except Fault σ
  | 0, s => pure s
  | n + 1, s => do
    let s ← forK f n s
    f n s

/-- One pass of the body of the inner SDSP loop (lines 235-262) for index `k`. -/
def sdspPoint (imgP imgI : Option (List Nat)) (w h mbSize : Nat) (p : Int) (offset_curr : Int)
    (i j x y : Int) (k : Nat) (sb : ArpsState × ArpsBest) : Except Fault (ArpsState × ArpsBest) := do
  let s := sb.1
  let o := SDSP.getD k (0, 0)
  let refBlkVer ← checkedInt (y + o.2)
  let refBlkHor ← checkedInt (x + o.1)
  if refBlkVer < 0 ∨ u32 (refBlkVer + (mbSize : Int)) > h
      ∨ refBlkVer < 0 ∨ u32 (refBlkHor + (mbSize : Int)) > w then pure sb
  else if k = 2 then pure sb
  else do
    let outside ←
      shortOr (decide (refBlkHor < (← checkedInt (j - p))))
        (do shortOr (decide (refBlkHor > (← checkedInt (j + p))))
              (do shortOr (decide (refBlkVer < (← checkedInt (i - p))))
                    (do pure (decide (refBlkVer > (← checkedInt (i + p)))))))
    if outside then pure sb
    else do
      let a ← checkedInt ((← checkedInt ((← checkedInt ((← checkedInt (y - i)) + o.2)) + p)) + 1)
      let b ← checkedInt ((← checkedInt ((← checkedInt ((← checkedInt (x - j)) + o.1)) + p)) + 1)
      checkIndex p a b
      if (a, b) ∈ s.checkArray then
        if s.costs.getD k 0 < sb.2.cost then pure (s, { cost := s.costs.getD k 0, point := k })
        else pure sb
      else do
        let c ← costFuncSAD imgP imgI offset_curr (wrap32 (refBlkVer * (w : Int) + refBlkHor))
          mbSize w
        let s := { s with costs := s.costs.set k (u32 c), checkArray := (a, b) :: s.checkArray }
        if u32 c < sb.2.cost then pure (s, { cost := u32 c, point := k }) else pure (s, sb.2)

/-- Call `memset(costs, UINT32_MAX, 6 * sizeof(int))` followed by
`costs[2] = cost`. -/
def resetCosts (cost : Nat) : List Nat := (List.replicate 6 UINT32_MAX).set 2 cost

/-- The loop `while (!doneFlag)` of lines 232-273, run for at most `fuel`
passes, on `x`, `y` and the state. -/
def sdspLoop (imgP imgI : Option (List Nat)) (w h mbSize : Nat) (p : Int) (offset_curr : Int)
    (i j : Int) : Nat → Int × Int × ArpsState → Except Fault (Int × Int × ArpsState)
  | 0, _ => .error Fault.outOfFuel
  | fuel + 1, (x, y, s) => do
    let (s, best) ← forK (sdspPoint imgP imgI w h mbSize p offset_curr i j x y) 5
      (s, { cost := s.costs.getD 2 0, point := 2 })
    if best.point = 2 then pure (x, y, s)
    else do
      let x ← checkedInt (x + (SDSP.getD best.point (0, 0)).1)
      let x ← checkedInt (x + (SDSP.getD best.point (0, 0)).2)
      sdspLoop imgP imgI w h mbSize p offset_curr i j fuel
        (x, y, { s with costs := resetCosts best.cost })

/-- Value stored by `vectors->mag2 = powf(vectors->vx, 2) + powf(vectors->vx, 2)`
(line 286): both operands are the square of `vx`; a float outside 0..65535 has
no defined conversion to `uint16_t`. -/
def arpsMag2 (vx : Int) : Except Fault Nat :=
  if vx * vx + vx * vx > 65535 then .error Fault.undefinedBehaviour
  else .ok (vx * vx + vx * vx).toNat

/-- The body of the inner `for` loop of `motionEstARPS` (lines 152-290) for the
macroblock at row offset `i` and column offset `j`; `iw` is `i * w`. -/
def arpsBlock (imgP imgI : Option (List Nat)) (w h mbSize : Nat) (p zmp_T : Int) (i iw j : Int)
    (s : ArpsState) : Except Fault ArpsState := do
  let offset_curr ← checkedInt (iw + j)
  let c ← costFuncSAD imgP imgI offset_curr offset_curr mbSize w
  let s := { s with costs := s.costs.set 2 (u32 c) }
  if u32 c < u32 zmp_T then do
    let t ← writeVector s.vectors s.vi MotionVector16_t.zero
    pure { s with vectors := some t, vi := s.vi + 1 }
  else do
    let c1 ← checkedInt (p + 1)
    checkIndex p c1 c1
    let s := { s with checkArray := (c1, c1) :: s.checkArray }
    let s ←
      if j = 0 then pure { s with stepSize := 2, maxIndex := 4 }
      else do
        let v ← readVector s.vectors (s.vi - 1)
        let stepSize := max |v.vx| |v.vy|
        if (|v.vx| = stepSize ∧ v.vy = 0) ∨ (|v.vy| = stepSize ∧ v.vx = 0) then
          pure { s with stepSize := stepSize, maxIndex := 4 }
        else pure { s with stepSize := stepSize, maxIndex := 5, LDSP := s.LDSP.set 5 (v.vy, v.vx) }
    let s := { s with LDSP := [(0, -s.stepSize), (-s.stepSize, 0), (0, 0), (s.stepSize, 0),
                               (0, s.stepSize), s.LDSP.getD 5 (0, 0)] }
    let (s, best) ← forK (ldspPoint imgP imgI w h mbSize p offset_curr j i) s.maxIndex.toNat
      (s, { cost := s.costs.getD 2 0, point := 2 })
    let x ← checkedInt (j + (s.LDSP.getD best.point (0, 0)).1)
    let y ← checkedInt (i + (s.LDSP.getD best.point (0, 0)).2)
    let s := { s with costs := resetCosts best.cost }
    let (x, y, s) ← sdspLoop imgP imgI w h mbSize p offset_curr i j (best.cost + 1) (x, y, s)
    let vx := wrap16 (← checkedInt (y - i))
    let vy := wrap16 (← checkedInt (x - j))
    let mag2 ← arpsMag2 vx
    let t ← writeVector s.vectors s.vi { vx := vx, vy := vy, mag2 := mag2 }
    pure { s with vectors := some t, vi := s.vi + 1, max_mag2 := max s.max_mag2 (mag2 : Int),
                  costs := List.replicate 6 UINT32_MAX, checkArray := [] }

/-- Number of passes of a loop `for (i = 0; i < bound; i += step)` with
`step > 0`. -/
def loopCount (bound step : Nat) : Nat := (bound + step - 1) / step

/-- The test that ends a loop `for (i = 0; i < bound; i += step)` after the
passes counted by `loopCount`: when the counter has passed 2^32 by then it has
wrapped to a value below `bound`, and the model does not follow the loop
further. -/
def loopEnd (bound step : Nat) : Except Fault Unit :=
  if loopCount bound step * step ≥ 4294967296 then .error Fault.outOfFuel else pure ()

/-- The inner `for` loop of `motionEstARPS` (line 152) over the first `n`
macroblocks of the row at offset `i`; the counter is `j = n * mbSize`, added
in `size_t` and converted to `int`. -/
def arpsCols (imgP imgI : Option (List Nat)) (w h mbSize : Nat) (p zmp_T : Int) (i : Int) :
    Nat → ArpsState → Except Fault ArpsState
  | 0, s => pure s
  | n + 1, s => do
    let s ← arpsCols imgP imgI w h mbSize p zmp_T i n s
    arpsBlock imgP imgI w h mbSize p zmp_T i (wrap32 (i * (w : Int)))
      (wrap32 ((n : Int) * (mbSize : Int))) s

/-- The outer `for` loop of `motionEstARPS` (line 150) over the first `n` rows
of macroblocks; the counter is `i = n * mbSize`. -/
def arpsRows (imgP imgI : Option (List Nat)) (w h mbSize : Nat) (p zmp_T : Int) :
    Nat → ArpsState → Except Fault ArpsState
  | 0, s => pure s
  | n + 1, s => do
    let s ← arpsRows imgP imgI w h mbSize p zmp_T n s
    let s ← arpsCols imgP imgI w h mbSize p zmp_T (wrap32 ((n : Int) * (mbSize : Int)))
      (loopCount (u32 ((w : Int) - (mbSize : Int) + 1)) mbSize) s
    loopEnd (u32 ((w : Int) - (mbSize : Int) + 1)) mbSize
    pure s

/-- Function `motionEstARPS(imgP, imgI, w, h, mbSize, p, MotionVect, zmp_T,
max_mag2)` of block_matching.c, lines 120-295: returns the result, the table
behind `MotionVect` and `*max_mag2`. `LDSP[5]` is uninitialised until line 183
writes it and is never read. The array `checkArray` needs `2 * p + 1 > 0`.
With `mbSize = 0` the loop counters never advance while `vectors` does, so that
the writes leave the table. Each further pass of the `while` loop follows a
strict decrease of `cost`, so the loop is given one pass more than `cost`. -/
def motionEstARPS (imgP imgI : Option (List Nat)) (w h mbSize : Nat) (p : Int)
    (MotionVect : Option (List MotionVector16_t)) (zmp_T : Int) :
    Except Fault (Bool × Option (List MotionVector16_t) × Int) := do
  let n ← checkedInt ((← checkedInt (2 * p)) + 1)
  if n ≤ 0 then .error Fault.undefinedBehaviour
  else if mbSize = 0 then .error Fault.undefinedBehaviour
  else do
    let s : ArpsState :=
      { vectors := MotionVect, vi := 0, costs := [UINT32_MAX, 0, 0, 0, 0, 0], stepSize := 0,
        maxIndex := -1, LDSP := List.replicate 6 (0, 0), checkArray := [], max_mag2 := 0 }
    let s ← arpsRows imgP imgI w h mbSize p zmp_T
      (loopCount (u32 ((h : Int) - (mbSize : Int) + 1)) mbSize) s
    loopEnd (u32 ((h : Int) - (mbSize : Int) + 1)) mbSize
    pure (true, s.vectors, s.max_mag2)

/-- Function `motionEstARPS_wrapper(c)` of motion.c, lines 99-105. -/
def motionEstARPS_wrapper (c : MotionEstContext) : Except Fault (Bool × MotionEstContext) := do
  let zmp_threshold ← shiftLeft c.mbSize (← checkedInt (c.log2_mbSize + 1))
  let w ← shiftLeft c.b_width c.log2_mbSize
  let h ← shiftLeft c.b_height c.log2_mbSize
  let (r, vectors, max_mag2) ← motionEstARPS c.data_cur c.data_ref (u32 w) (u32 h) (u32 c.mbSize)
    c.search_param (c.mv_table.get 0) zmp_threshold
  pure (r, { c with mv_table := c.mv_table.set 0 vectors, max := max_mag2 })


/-! ## convolution.c: `convolve2DSeparable8` and `convolve2DSeparable`

A `float` is modelled by the rational number it denotes and its arithmetic is
exact. This is the arithmetic of the program whenever every intermediate
result is representable in binary32, as it is for sample values 0..255,
half-integers of that size and kernel coefficients 0 and 1, on which the
properties below are stated. -/

/-- Read `buf[i]` from an array of floats: undefined outside the array (for
`tmp`: outside the part written so far). -/
def readF (buf : List ℚ) (i : Int) : Except Fault ℚ :=
  if 0 ≤ i then
    match buf.get? i.toNat with
    | some v => .ok v
    | none => .error Fault.undefinedBehaviour
  else .error Fault.undefinedBehaviour

/-- The first `n` passes of an accumulation loop
`for (k = kStart, m = 0; ...; --k, ++m) *tmpPtr += *(inPtr + m) * kernelX[k]`
after `*tmpPtr = 0`. -/
def dotLoop (inp kernel : List ℚ) (inPtr kStart : Int) : Nat → Except Fault ℚ
  | 0 => pure 0
  | m + 1 => do
    let acc ← dotLoop inp kernel inPtr kStart m
    let a ← readF inp (inPtr + (m : Int))
    let c ← readF kernel (kStart - (m : Int))
    pure (acc + a * c)

/-- The working pointers of the horizontal pass: `inPtr` as an index into
`in`, and the samples stored through `tmpPtr` so far. -/
structure HState where
  inPtr : Int
  tmp : List ℚ
deriving DecidableEq

/-- Store the sample `v` through `tmpPtr` and advance it: undefined past the
`cap` floats of `tmp`. -/
def hStore (cap : Nat) (s : HState) (v : ℚ) : Except Fault (List ℚ) :=
  if s.tmp.length < cap then pure (s.tmp ++ [v]) else .error Fault.undefinedBehaviour

/-- Pass `j` of the loop over the columns 0 .. kCenter-1 (lines 51-61), where
`kOffset = j`. -/
def hFirst (inp kernelX : List ℚ) (cap : Nat) (kCenter : Int) (j : Nat) (s : HState) :
    Except Fault HState := do
  let v ← dotLoop inp kernelX s.inPtr (kCenter + (j : Int)) (kCenter + (j : Int) + 1).toNat
  let tmp ← hStore cap s v
  pure { s with tmp := tmp }

/-- One pass of the loop over the columns kCenter .. endIndex-1 (lines 64-74). -/
def hMiddle (inp kernelX : List ℚ) (cap : Nat) (kSizeX : Int) (_ : Nat) (s : HState) :
    Except Fault HState := do
  let v ← dotLoop inp kernelX s.inPtr (kSizeX - 1) kSizeX.toNat
  let tmp ← hStore cap s v
  pure { inPtr := s.inPtr + 1, tmp := tmp }

/-- Pass `j` of the loop over the columns endIndex .. dataSizeX-1 (lines
79-90), where `kOffset = 1 + j`. -/
def hLast (inp kernelX : List ℚ) (cap : Nat) (kSizeX : Int) (j : Nat) (s : HState) :
    Except Fault HState := do
  let v ← dotLoop inp kernelX s.inPtr (kSizeX - 1) (kSizeX - 1 - (j : Int)).toNat
  let tmp ← hStore cap s v
  pure { inPtr := s.inPtr + 1, tmp := tmp }

/-- One pass of the loop over the rows of the horizontal convolution (lines
45-93). -/
def hRow (inp kernelX : List ℚ) (cap : Nat) (dataSizeX kSizeX : Int) (_ : Nat) (s : HState) :
    Except Fault HState := do
  let kCenter := kSizeX / 2
  let endIndex := dataSizeX - kCenter
  let s ← forK (hFirst inp kernelX cap kCenter) kCenter.toNat s
  let s ← forK (hMiddle inp kernelX cap kSizeX) (endIndex - kCenter).toNat s
  let s ← forK (hLast inp kernelX cap kSizeX) (dataSizeX - endIndex).toNat s
  pure { s with inPtr := s.inPtr + kCenter }

/-- The working pointers of the vertical pass as indices (`tmpPtr`, `tmpPtr2`
into `tmp`, `outPtr` into `out`), the array `sum` and the array behind `out`. -/
structure VState (β : Type) where
  tmpPtr : Int
  tmpPtr2 : Int
  sum : List ℚ
  out : List β
  outPtr : Int

/-- Read the `n` floats `buf[i]`, ..., `buf[i + n - 1]`. -/
def readRow (buf : List ℚ) (i : Int) (n : Nat) : Except Fault (List ℚ) :=
  if 0 ≤ i ∧ i.toNat + n ≤ buf.length then pure ((buf.drop i.toNat).take n)
  else .error Fault.undefinedBehaviour

/-- The loop `for (j = 0; j < dataSizeX; ++j) { sum[j] += *tmpPtr * kernelY[k];
++tmpPtr; }` for the coefficient index `k`. -/
def vAdd {β : Type} (tmp kernelY : List ℚ) (dataSizeX : Nat) (k : Int) (s : VState β) :
    Except Fault (VState β) := do
  let row ← readRow tmp s.tmpPtr dataSizeX
  let c ← readF kernelY k
  pure { s with sum := List.zipWith (fun a t => a + t * c) s.sum row,
                tmpPtr := s.tmpPtr + (dataSizeX : Int) }

/-- Convert the sums with `conv`, first to last. -/
def convRow {β : Type} (conv : ℚ → Except Fault β) : List ℚ → Except Fault (List β)
  | [] => pure []
  | v :: vs => do
    let b ← conv v
    let bs ← convRow conv vs
    pure (b :: bs)

/-- Write the values `vals` to `buf[i]`, `buf[i + 1]`, ... -/
def writeRow {β : Type} (buf : List β) (i : Int) (vals : List β) : Except Fault (List β) :=
  if 0 ≤ i ∧ i.toNat + vals.length ≤ buf.length then
    pure (buf.take i.toNat ++ vals ++ buf.drop (i.toNat + vals.length))
  else .error Fault.undefinedBehaviour

/-- The loop `for (n = 0; n < dataSizeX; ++n) { *outPtr = conv(sum[n]);
sum[n] = 0; ++outPtr; }` (lines 126-132, 150-156, 176-182). -/
def vEmit {β : Type} (conv : ℚ → Except Fault β) (s : VState β) : Except Fault (VState β) := do
  let vals ← convRow conv s.sum
  let out ← writeRow s.out s.outPtr vals
  pure { s with out := out, sum := List.replicate s.sum.length 0,
                outPtr := s.outPtr + (s.sum.length : Int) }

/-- Pass `i` of the loop over the rows 0 .. kCenter-1 (lines 115-136), where
`kOffset = i`. -/
def vFirst {β : Type} (conv : ℚ → Except Fault β) (tmp kernelY : List ℚ) (dataSizeX : Nat)
    (kCenter : Int) (i : Nat) (s : VState β) : Except Fault (VState β) := do
  let s ← forK (fun r s => vAdd tmp kernelY dataSizeX (kCenter + (i : Int) - (r : Int)) s)
    (kCenter + (i : Int) + 1).toNat s
  let s ← vEmit conv s
  pure { s with tmpPtr := s.tmpPtr2 }

/-- One pass of the loop over the rows kCenter .. endIndex-1 (lines 139-161). -/
def vMiddle {β : Type} (conv : ℚ → Except Fault β) (tmp kernelY : List ℚ) (dataSizeX : Nat)
    (kSizeY : Int) (_ : Nat) (s : VState β) : Except Fault (VState β) := do
  let s ← forK (fun r s => vAdd tmp kernelY dataSizeX (kSizeY - 1 - (r : Int)) s) kSizeY.toNat s
  let s ← vEmit conv s
  pure { s with tmpPtr2 := s.tmpPtr2 + (dataSizeX : Int), tmpPtr := s.tmpPtr2 + (dataSizeX : Int) }

/-- Pass `i` of the loop over the rows endIndex .. dataSizeY-1 (lines
164-188), where `kOffset = 1 + i`. -/
def vLast {β : Type} (conv : ℚ → Except Fault β) (tmp kernelY : List ℚ) (dataSizeX : Nat)
    (kSizeY : Int) (i : Nat) (s : VState β) : Except Fault (VState β) := do
  let s ← forK (fun r s => vAdd tmp kernelY dataSizeX (kSizeY - 1 - (r : Int)) s)
    (kSizeY - 1 - (i : Int)).toNat s
  let s ← vEmit conv s
  pure { s with tmpPtr2 := s.tmpPtr2 + (dataSizeX : Int), tmpPtr := s.tmpPtr2 + (dataSizeX : Int) }

/-- The text shared by `convolve2DSeparable8` (lines 13-194) and
`convolve2DSeparable` (lines 199-386) of convolution.c, which differ in the
element type of `in` and `out` only: `toF` is the conversion of an input sample
to `float`, `conv` the conversion stored through `outPtr`. `tmpOk` and `sumOk`
are the outcomes of the two calls of `malloc`. The result is the returned
value and the array behind `out`. -/
def convolveSeparable {α β : Type} (toF : α → ℚ) (conv : ℚ → Except Fault β)
    (tmpOk sumOk : Bool) (inp : Option (List α)) (out : Option (List β))
    (dataSizeX dataSizeY : Int) (kernelX : Option (List ℚ)) (kSizeX : Int)
    (kernelY : Option (List ℚ)) (kSizeY : Int) : Except Fault (Bool × Option (List β)) :=
  match inp, out, kernelX, kernelY with
  | some inp, some outBuf, some kernelX, some kernelY =>
    if dataSizeX ≤ 0 ∨ kSizeX ≤ 0 then pure (false, out)
    else do
      let n ← checkedInt (dataSizeX * dataSizeY)
      if !tmpOk then pure (false, out)
      else if !sumOk then pure (false, out)
      else do
        let h ← forK (hRow (inp.map toF) kernelX n.toNat dataSizeX kSizeX) dataSizeY.toNat
          { inPtr := 0, tmp := [] }
        let kCenter := kSizeY / 2
        let endIndex := dataSizeY - kCenter
        let v : VState β :=
          { tmpPtr := 0, tmpPtr2 := 0, sum := List.replicate dataSizeX.toNat 0, out := outBuf,
            outPtr := 0 }
        let v ← forK (vFirst conv h.tmp kernelY dataSizeX.toNat kCenter) kCenter.toNat v
        let v ← forK (vMiddle conv h.tmp kernelY dataSizeX.toNat kSizeY)
          (endIndex - kCenter).toNat v
        let v ← forK (vLast conv h.tmp kernelY dataSizeX.toNat kSizeY)
          (dataSizeY - endIndex).toNat v
        pure (true, some v.out)
  | _, _, _, _ => pure (false, out)

/-- Conversion `(unsigned char)((float)fabs(v) + 0.5f)`: truncation, undefined
when the truncated value is above 255. -/
def toByte (v : ℚ) : Except Fault Nat :=
  if |v| + 1 / 2 < 256 then pure ⌊|v| + 1 / 2⌋.toNat else .error Fault.undefinedBehaviour

/-- Conversion `(float)((float)fabs(v) + 0.5f)`. -/
def toFloat (v : ℚ) : Except Fault ℚ := pure (|v| + 1 / 2)

/-- Function `convolve2DSeparable8(in, out, dataSizeX, dataSizeY, kernelX,
kSizeX, kernelY, kSizeY)` of convolution.c, lines 13-194. -/
def convolve2DSeparable8 (tmpOk sumOk : Bool) (inp out : Option (List Nat))
    (dataSizeX dataSizeY : Int) (kernelX : Option (List ℚ)) (kSizeX : Int)
    (kernelY : Option (List ℚ)) (kSizeY : Int) : Except Fault (Bool × Option (List Nat)) :=
  convolveSeparable (fun (a : Nat) => (a : ℚ)) toByte tmpOk sumOk inp out dataSizeX dataSizeY kernelX
    kSizeX kernelY kSizeY

/-- Function `convolve2DSeparable(in, out, dataSizeX, dataSizeY, kernelX,
kSizeX, kernelY, kSizeY)` of convolution.c, lines 199-386. -/
def convolve2DSeparable (tmpOk sumOk : Bool) (inp out : Option (List ℚ))
    (dataSizeX dataSizeY : Int) (kernelX : Option (List ℚ)) (kSizeX : Int)
    (kernelY : Option (List ℚ)) (kSizeY : Int) : Except Fault (Bool × Option (List ℚ)) :=
  convolveSeparable id toFloat tmpOk sumOk inp out dataSizeX dataSizeY kernelX kSizeX kernelY
    kSizeY

/-- The kernel {0, 0, 1, 0, 0}. -/
def identityKernel : List ℚ := [0, 0, 1, 0, 0]

/-! ## States of the context the properties speak of -/

/-- The block geometry as a successful `init_context` leaves it for a
block-matching method: `mbSize` a power of two with exponent `log2_mbSize`, the
block grid that of the image, all within `int` range. -/
def BlockGeometry (ctx : MotionEstContext) : Prop :=
  0 ≤ ctx.log2_mbSize ∧ ctx.log2_mbSize < 31 ∧ ctx.mbSize = 2 ^ ctx.log2_mbSize.toNat
    ∧ 0 ≤ ctx.width ∧ ctx.width ≤ INT_MAX ∧ 0 ≤ ctx.height ∧ ctx.height ≤ INT_MAX
    ∧ ctx.b_width = ctx.width / ctx.mbSize ∧ ctx.b_height = ctx.height / ctx.mbSize
    ∧ ctx.b_count = ctx.b_width * ctx.b_height

instance (ctx : MotionEstContext) : Decidable (BlockGeometry ctx) := by
  unfold BlockGeometry
  infer_instance

/-- A successfully initialised EPZS context at any later frame: the block
geometry of `init_context` and three vector tables of `b_count` entries,
whatever they contain. -/
def EpzsReady (ctx : MotionEstContext) : Prop :=
  BlockGeometry ctx
    ∧ (ctx.mv_table.get 0).map List.length = some ctx.b_count.toNat
    ∧ (ctx.mv_table.get 1).map List.length = some ctx.b_count.toNat
    ∧ (ctx.mv_table.get 2).map List.length = some ctx.b_count.toNat

instance (ctx : MotionEstContext) : Decidable (EpzsReady ctx) := by
  unfold EpzsReady
  infer_instance

/-- A successfully initialised ARPS context at any later frame: the block
geometry of `init_context` and a vector table of `b_count` entries. -/
def ArpsReady (ctx : MotionEstContext) : Prop :=
  BlockGeometry ctx ∧ (ctx.mv_table.get 0).map List.length = some ctx.b_count.toNat

instance (ctx : MotionEstContext) : Decidable (ArpsReady ctx) := by
  unfold ArpsReady
  infer_instance



/-! ## States of the block loop of `motionEstEPZS` -/

/-- The fields the block loop of `motionEstEPZS` leaves alone: the planes, the
geometry, the search radius and generations 1 and 2. -/
def LoopFrame (c0 c : MotionEstContext) : Prop :=
  c.data_cur = c0.data_cur ∧ c.data_ref = c0.data_ref ∧ c.width = c0.width ∧ c.height = c0.height
    ∧ c.b_width = c0.b_width ∧ c.b_height = c0.b_height ∧ c.b_count = c0.b_count
    ∧ c.mbSize = c0.mbSize ∧ c.log2_mbSize = c0.log2_mbSize ∧ c.search_param = c0.search_param
    ∧ c.mv_table.get 1 = c0.mv_table.get 1 ∧ c.mv_table.get 2 = c0.mv_table.get 2

/-- The largest `mag2` of a list of vectors, 0 for the empty list. -/
def maxMag2 (l : List MotionVector16_t) : Int :=
  l.foldl (fun m v => max m (v.mag2 : Int)) 0

/-- State of the loop started at `c0` in which the first `k` vectors of
generation 0 are zero and `max` is 0. -/
def ZeroRun (c0 : MotionEstContext) (k : Nat) (c : MotionEstContext) : Prop :=
  LoopFrame c0 c ∧ c.max = 0 ∧ ∃ t, c.mv_table.get 0 = some t ∧ t.length = c0.b_count.toNat
    ∧ ∀ i, i < k → t.getD i MotionVector16_t.zero = MotionVector16_t.zero

/-- State of the loop started at `c0` in which each of the first `k` vectors of
generation 0 carries its squared length and `max` is the largest of them. -/
def MagRun (c0 : MotionEstContext) (k : Nat) (c : MotionEstContext) : Prop :=
  LoopFrame c0 c ∧ ∃ t, c.mv_table.get 0 = some t ∧ t.length = c0.b_count.toNat
    ∧ (∀ i, i < k → ((t.getD i MotionVector16_t.zero).mag2 : Int)
        = (t.getD i MotionVector16_t.zero).vx * (t.getD i MotionVector16_t.zero).vx
          + (t.getD i MotionVector16_t.zero).vy * (t.getD i MotionVector16_t.zero).vy)
    ∧ c.max = maxMag2 (t.take k)

/-- State of the loops of `motionEstARPS` over a table of `n` vectors in which
`vectors` stands at index `k`, the vectors before it are zero and `*max_mag2`
is 0. -/
def ZeroVectors (n k : Nat) (s : ArpsState) : Prop :=
  s.vi = (k : Int) ∧ s.max_mag2 = 0 ∧ ∃ t, s.vectors = some t ∧ t.length = n
    ∧ ∀ i, i < k → t.getD i MotionVector16_t.zero = MotionVector16_t.zero

/-- Position `q` lies in the search range `r`. -/
def InRange (r : SearchRange) (q : Int × Int) : Prop :=
  r.x_min ≤ q.1 ∧ q.1 ≤ r.x_max ∧ r.y_min ≤ q.2 ∧ q.2 ≤ r.y_max

/-- The SAD of the macroblock at (`x_mb`, `y_mb`) against position `q`, 0
where `me_comp_sad` does not return. -/
def sadAt (me_ctx : MotionEstContext) (x_mb y_mb : Int) (q : Int × Int) : Nat :=
  match me_comp_sad me_ctx x_mb y_mb q.1 q.2 with
  | .ok v => v
  | .error _ => 0

/-- The positions of the search range whose SAD is below `bound`: the
positions the final loop of `me_search_epzs` can still move to. -/
def betterPositions (me_ctx : MotionEstContext) (x_mb y_mb : Int) (r : SearchRange)
    (bound : Nat) : Finset (Int × Int) :=
  ((Finset.Icc r.x_min r.x_max) ×ˢ (Finset.Icc r.y_min r.y_max)).filter
    (fun q => sadAt me_ctx x_mb y_mb q < bound)

/-- State `s'` of the search is state `s`, or a position of the range with a
smaller cost, which is its SAD. -/
def SearchStep (me_ctx : MotionEstContext) (x_mb y_mb : Int) (r : SearchRange)
    (s s' : EpzsSearch) : Prop :=
  s' = s ∨ (s'.cost_min < s.cost_min ∧ InRange r (s'.mv0, s'.mv1)
    ∧ sadAt me_ctx x_mb y_mb (s'.mv0, s'.mv1) = s'.cost_min)


/-! ## Sample planes and contexts -/

/-- A 10 x 4 plane of samples with texture: sample `i` is `37 * i mod 256`. -/
def texturePlane : List Nat := (List.range 40).map (fun i => (i * 37) % 256)

/-- The plane `texturePlane` moved one sample to the left: sample `i` is sample
`i + 1` of `texturePlane`. -/
def shiftedPlane : List Nat := (List.range 40).map (fun i => ((i + 1) * 37) % 256)

/-- A 10 x 4 plane with a gradient: the sample at column `x` of row `y` is
`x + 20 * y`. -/
def gradientPlane : List Nat := (List.range 40).map (fun i => i % 10 + 20 * (i / 10))

/-- The plane `gradientPlane` moved one sample to the left, the gradient
continued into the last column: the sample at column `x` of row `y` is
`x + 1 + 20 * y`. -/
def gradientShifted : List Nat := (List.range 40).map (fun i => i % 10 + 1 + 20 * (i / 10))

/-- The plane `texturePlane` with the macroblock at columns 2-3 of rows 0-1
replaced by the samples of `texturePlane` at columns 3-4 of those rows. -/
def movedBlockPlane : List Nat :=
  (((texturePlane.set 2 111).set 3 148).set 12 225).set 13 6

/-- An EPZS context as `init_context` leaves it for a 10 x 4 image and
macroblocks of 2, at a later frame: planes `cur` and `ref`, search radius 2 and
vector history from earlier frames. -/
def epzsFrame (cur ref : List Nat) : MotionEstContext :=
  { MotionEstContext.init with
    data_cur := some cur, data_ref := some ref, method := BLOCK_MATCHING_EPZS,
    width := 10, height := 4, b_width := 5, b_height := 2, b_count := 10,
    mbSize := 2, log2_mbSize := 1, search_param := 2,
    mv_table := { t0 := some (List.replicate 10 { vx := 3, vy := -1, mag2 := 10 }),
                  t1 := some (List.replicate 10 { vx := 1, vy := 1, mag2 := 2 }),
                  t2 := some (List.replicate 10 MotionVector16_t.zero) } }

/-- The context `epzsFrame texturePlane shiftedPlane` at the head of the block
loop of `motionEstEPZS`: the history moved on by one generation. -/
def epzsLoopStart : MotionEstContext :=
  { epzsFrame texturePlane shiftedPlane with
    mv_table := { t0 := some (List.replicate 10 { vx := 3, vy := -1, mag2 := 10 }),
                  t1 := some (List.replicate 10 { vx := 3, vy := -1, mag2 := 10 }),
                  t2 := some (List.replicate 10 { vx := 1, vy := 1, mag2 := 2 }) },
    max := 0 }

/-- The context `epzsLoopStart` after the first two macroblocks of row 0. -/
def epzsMidRow : MotionEstContext :=
  { epzsLoopStart with
    pred_x := 0, pred_y := 0,
    preds0 := { mvs := [(0, 0), (0, 0), (3, -1)] },
    preds1 := { mvs := [(5, -3), (3, -1), (3, -1), (3, -1)] },
    mv_table := { t0 := some ([MotionVector16_t.zero, { vx := -1, vy := 0, mag2 := 1 }]
                          ++ List.replicate 8 { vx := 3, vy := -1, mag2 := 10 }),
                  t1 := some (List.replicate 10 { vx := 3, vy := -1, mag2 := 10 }),
                  t2 := some (List.replicate 10 { vx := 1, vy := 1, mag2 := 2 }) },
    max := 1 }

/-- The context `epzsFrame texturePlane shiftedPlane` after `motionEstEPZS`. -/
def epzsShiftedResult : MotionEstContext :=
  { epzsLoopStart with
    pred_x := -1, pred_y := 0,
    preds0 := { mvs := [(0, 0), (-1, 0), (-1, 0), (3, -1)] },
    preds1 := { mvs := [(5, -3), (3, -1), (3, -1)] },
    mv_table := { t0 := some ([MotionVector16_t.zero] ++ List.replicate 4 { vx := -1, vy := 0, mag2 := 1 }
                          ++ [MotionVector16_t.zero]
                          ++ List.replicate 4 { vx := -1, vy := 0, mag2 := 1 }),
                  t1 := some (List.replicate 10 { vx := 3, vy := -1, mag2 := 10 }),
                  t2 := some (List.replicate 10 { vx := 1, vy := 1, mag2 := 2 }) },
    max := 1 }

/-- An ARPS context as `init_context` leaves it for a 10 x 4 image and
macroblocks of 2, at a later frame: search radius 4 and the vectors of an
earlier frame. -/
def arpsFrame : MotionEstContext :=
  { MotionEstContext.init with
    method := BLOCK_MATCHING_ARPS,
    width := 10, height := 4, b_width := 5, b_height := 2, b_count := 10,
    mbSize := 2, log2_mbSize := 1, search_param := 4,
    mv_table := { t0 := some (List.replicate 10 { vx := 3, vy := -1, mag2 := 10 }),
                  t1 := none, t2 := none } }

/-- The driver with the two block matchers of the source; the optical flow
routines stand as in `constantSearch`. -/
def blockSearch : MotionAlgorithms :=
  { constantSearch MotionVector16_t.zero with
    motionEstARPS_wrapper := motionEstARPS_wrapper, motionEstEPZS := motionEstEPZS }

/-- An ARPS configuration for a 10 x 2 image and macroblocks of 2. -/
def reinitConfig : MotionEstContext :=
  { MotionEstContext.init with
    method := BLOCK_MATCHING_ARPS, width := 10, height := 2, mbSize := 2 }

/-- The context `init_context` makes of `reinitConfig`. -/
def reinitContext : MotionEstContext :=
  { reinitConfig with
    b_width := 5, b_height := 1, b_count := 5, log2_mbSize := 1,
    mv_table := { t0 := some (List.replicate 5 MotionVector16_t.zero), t1 := none, t2 := none } }

/-- A 7 x 6 plane of 8-bit samples: sample `i` is `6 * i`. -/
def rampPlane : List Nat := (List.range 42).map (fun i => i * 6)

/-- A converted first frame sampled to a 25 x 7 grid (frame 25 x 7, scale
factor 0, sample rate 1), all black; `mvOk` is the outcome of the vector-table
allocations. -/
def shortFrame (mvOk : Bool) : FrameInput :=
  { frameData := { frameWidth := 25, frameHeight := 7, defaultFPS := 30, scaleFactor := 0,
                   sampleRate := 1 },
    motionVal := 5, converted := true, bmpBuf := some (fun _ => 0),
    grayAlloc := true, mvAlloc := fun _ => mvOk }


/-! ## deflicker.c

The brightness values are `float`s, modelled as the rationals they denote
with exact arithmetic. A division by zero yields no rational (an infinity or
a NaN under IEC 60559) and is a fault of the model. The source rounds the
result of each operation to binary32, so that a product the model holds as an
integer can come out just below it and be cut to the integer before: after
nine planes of level 5 and one of level 115 the factor is 16/115, the model
writes 16 and binary32 arithmetic writes 15. A statement that is to hold of
the samples the source writes is therefore given with a margin of one part in
100000 on the product, above the rounding of the binary32 operations for
planes of at most 33000 samples. -/

/-- Constant `MAXSIZE` of deflicker.h, line 4. -/
def MAXSIZE : Nat := 10

/-- Type `queue_t` of deflicker.h, lines 8-13: the rolling brightness values
and the number of them that are available. -/
structure queue_t where
  brightness : List ℚ
  available : Int
deriving DecidableEq

/-- The static `queue` of deflicker.c, line 8, as initialised: ten zeros,
none available. -/
def queue_t.empty : queue_t := { brightness := List.replicate 10 0, available := 0 }

/-- Function `clip_uint8(a)` of deflicker.c, lines 12-16: the negation `-a`
of an `int` is undefined when it overflows; `>>` of a negative `int` is the
arithmetic shift; the result is converted to `uint8_t`. -/
def clip_uint8 (a : Int) : Except Fault Nat :=
  if Int.land a (~~~(0xFF : Int)) ≠ 0 then do
    let n ← checkedInt (-a)
    pure ((n >>> (31 : Nat)) % 256).toNat
  else pure (a % 256).toNat

/-- Conversion of an integer to `int` on a two's-complement machine that wraps. -/
def wrapInt (x : Int) : Int := (x + 2147483648) % 4294967296 - 2147483648

/-- Function `clip_uint8(a)` of deflicker.c, lines 12-16, on a machine whose
negation wraps (two's complement) instead of being undefined. -/
def clip_uint8_wrapping (a : Int) : Nat :=
  if Int.land a (~~~(0xFF : Int)) ≠ 0 then ((wrapInt (-a) >>> (31 : Nat)) % 256).toNat
  else (a % 256).toNat

/-- Quotient `a / b` of two floats. -/
def divF (a b : ℚ) : Except Fault ℚ :=
  if b = 0 then .error Fault.undefinedBehaviour else pure (a / b)

/-- The loop `for (i = 0; i < size; i++) sum += img[i]` of `calc_brightness`
over the first `n` samples. -/
def sumLoopF (img : List Nat) : Nat → Except Fault ℚ
  | 0 => pure 0
  | n + 1 => do
    let sum ← sumLoopF img n
    let v ← readPlane (some img) (n : Int)
    pure (sum + (v : ℚ))

/-- Function `calc_brightness(img, size)` of deflicker.c, lines 18-26. -/
def calc_brightness (img : List Nat) (size : Int) : Except Fault ℚ := do
  let sum ← sumLoopF img size.toNat
  divF sum (size : ℚ)

/-- Function `get_factor()` of deflicker.c, lines 28-36, on the queue `q`. -/
def get_factor (q : queue_t) : Except Fault ℚ := do
  let sum ← forK (fun i sum => do
    let b ← readF q.brightness (i : Int)
    pure (sum + b)) MAXSIZE (0 : ℚ)
  let sum ← divF sum (MAXSIZE : ℚ)
  let last ← readF q.brightness ((MAXSIZE : Int) - 1)
  divF sum last

/-- Conversion of a float to `int`: the fraction is discarded, and the
conversion is undefined when the integer part is not representable. -/
def floatToInt (v : ℚ) : Except Fault Int :=
  checkedInt (if 0 ≤ v then ⌊v⌋ else ⌈v⌉)

/-- The loop `for (i = 0; i < size; i++) img[i] = clip_uint8(img[i] * f)` of
`deflicker` (lines 61-62) over the samples it visits, first to last. -/
def rescaleLoop (f : ℚ) : List Nat → Except Fault (List Nat)
  | [] => pure []
  | v :: vs => do
    let a ← floatToInt ((v : ℚ) * f)
    let b ← clip_uint8 a
    let bs ← rescaleLoop f vs
    pure (b :: bs)

/-- Lines 59-64 of `deflicker`: the factor of the queue applied to the first
`size` samples of the plane. -/
def rescale (q : queue_t) (img : List Nat) (size : Int) : Except Fault (Bool × queue_t × List Nat) := do
  let f ← get_factor q
  if size.toNat ≤ img.length then do
    let head ← rescaleLoop f (img.take size.toNat)
    pure (true, q, head ++ img.drop size.toNat)
  else .error Fault.undefinedBehaviour

/-- Store `buf[i] = v` into an array of floats: undefined outside the array. -/
def writeF (buf : List ℚ) (i : Int) (v : ℚ) : Except Fault (List ℚ) :=
  if 0 ≤ i ∧ i.toNat < buf.length then pure (buf.set i.toNat v)
  else .error Fault.undefinedBehaviour

/-- Function `deflicker(img, w, h)` of deflicker.c, lines 38-65, on the queue
`q`: the returned value, the queue and the plane after the call. -/
def deflicker (q : queue_t) (img : List Nat) (w h : Int) :
    Except Fault (Bool × queue_t × List Nat) := do
  let size ← checkedInt (w * h)
  let currBrightness ← calc_brightness img size
  if q.available < (MAXSIZE : Int) then do
    let b ← writeF q.brightness q.available currBrightness
    let available ← checkedInt (q.available + 1)
    let q : queue_t := { brightness := b, available := available }
    if q.available < (MAXSIZE : Int) then pure (false, q, img)
    else rescale q img size
  else
    let q : queue_t :=
      { q with brightness := (q.brightness.drop 1).take (MAXSIZE - 1) ++ [currBrightness] }
    rescale q img size

/-- A frame handed to `deflicker`: the plane and its dimensions. -/
structure DeflickerFrame where
  img : List Nat
  w : Int
  h : Int
deriving DecidableEq

/-- Successive calls of `deflicker` on the frames `fs`, first to last, from the
queue `q`: the queue after the last call and, per call, the returned value and
the plane after the call. -/
def deflickerRun : queue_t → List DeflickerFrame → Except Fault (queue_t × List (Bool × List Nat))
  | q, [] => pure (q, [])
  | q, f :: fs => do
    let (r, q1, img) ← deflicker q f.img f.w f.h
    let (q2, rs) ← deflickerRun q1 fs
    pure (q2, (r, img) :: rs)

/-- The mean of the first `w * h` samples of a frame, the brightness
`calc_brightness` observes. -/
def meanBrightness (f : DeflickerFrame) : ℚ :=
  (((f.img.take (f.w * f.h).toNat).sum : Nat) : ℚ) / ((f.w * f.h : Int) : ℚ)

/-! ## convolution.c: `convV` and `convH` -/

/-- The loop `for (i = 0; i < dataSizeX; ++i) tmpsum[i] += tmpx[row *
dataSizeX + i] * kernelY[k]` of `convV` (lines 431-435, 454-458, 475-479). -/
def cvAdd (tmpx kernelY : List ℚ) (dataSizeX : Nat) (row k : Int) (tmpsum : List ℚ) :
    Except Fault (List ℚ) := do
  let r ← readRow tmpx (row * (dataSizeX : Int)) dataSizeX
  let c ← readF kernelY k
  pure (List.zipWith (fun a t => a + t * c) tmpsum r)

/-- The loop `for (i = 0; i < dataSizeX; ++i) { out[j * dataSizeX + i] =
(float)tmpsum[i] + 0.5f; tmpsum[i] = 0; }` of `convV` (lines 441-446, 460-465,
482-487) on the pair of `tmpsum` and `out`. -/
def cvEmit (dataSizeX : Nat) (j : Int) (s : List ℚ × List ℚ) : Except Fault (List ℚ × List ℚ) := do
  let out ← writeRow s.2 (j * (dataSizeX : Int)) (s.1.map (fun v => v + 1 / 2))
  pure (List.replicate s.1.length 0, out)

/-- Pass `j` of the loop over the rows 0 .. kCenter-1 of `convV` (lines
427-447), where `offset = j`. -/
def cvFirst (tmpx kernelY : List ℚ) (dataSizeX : Nat) (kCenter : Int) (j : Nat)
    (s : List ℚ × List ℚ) : Except Fault (List ℚ × List ℚ) := do
  let sum ← forK (fun r sum => cvAdd tmpx kernelY dataSizeX (r : Int)
    (kCenter + (j : Int) - (r : Int)) sum) (kCenter + (j : Int) + 1).toNat s.1
  cvEmit dataSizeX (j : Int) (sum, s.2)

/-- Pass `j - kCenter` of the loop over the rows kCenter .. endIndex-1 of
`convV` (lines 449-466). -/
def cvMiddle (tmpx kernelY : List ℚ) (dataSizeX : Nat) (kSizeY kCenter right_half : Int) (n : Nat)
    (s : List ℚ × List ℚ) : Except Fault (List ℚ × List ℚ) := do
  let j := kCenter + (n : Int)
  let sum ← forK (fun m sum => cvAdd tmpx kernelY dataSizeX (j - right_half + (m : Int))
    (kSizeY - 1 - (m : Int)) sum) kSizeY.toNat s.1
  cvEmit dataSizeX j (sum, s.2)

/-- Pass `j - endIndex` of the loop over the rows endIndex .. dataSizeY-1 of
`convV` (lines 468-488), where `offset = 1 + (j - endIndex)`. -/
def cvLast (tmpx kernelY : List ℚ) (dataSizeX : Nat) (kSizeY endIndex right_half : Int) (n : Nat)
    (s : List ℚ × List ℚ) : Except Fault (List ℚ × List ℚ) := do
  let j := endIndex + (n : Int)
  let sum ← forK (fun m sum => cvAdd tmpx kernelY dataSizeX (j - right_half + (m : Int))
    (kSizeY - 1 - (m : Int)) sum) (kSizeY - 1 - (n : Int)).toNat s.1
  cvEmit dataSizeX j (sum, s.2)

/-- Function `convV(in, out, dataSizeX, dataSizeY, kernelY, kSizeY)` of
convolution.c, lines 391-492. `tmpxOk` and `tmpsumOk` are the outcomes of the
two calls of `calloc`, which zero the arrays `tmpx` and `tmpsum`. The result is
the returned value and the array behind `out`. -/
def convV (tmpxOk tmpsumOk : Bool) (inp out : Option (List ℚ)) (dataSizeX dataSizeY : Int)
    (kernelY : Option (List ℚ)) (kSizeY : Int) : Except Fault (Bool × Option (List ℚ)) :=
  match inp, out, kernelY with
  | some _, some outBuf, some kernelY =>
    if dataSizeX ≤ 0 then pure (false, out)
    else do
      let N ← checkedInt (dataSizeX * dataSizeY)
      if !tmpxOk then pure (false, out)
      else if !tmpsumOk then pure (false, out)
      else do
        let tmpx : List ℚ := List.replicate N.toNat 0
        let tmpsum : List ℚ := List.replicate dataSizeX.toNat 0
        let kCenter := kSizeY / 2
        let _ ← checkedInt (dataSizeX - kCenter)
        let right_half := kSizeY - kCenter - 1
        let endIndex ← checkedInt (dataSizeY - kCenter)
        let s ← forK (cvFirst tmpx kernelY dataSizeX.toNat kCenter) kCenter.toNat (tmpsum, outBuf)
        let s ← forK (cvMiddle tmpx kernelY dataSizeX.toNat kSizeY kCenter right_half)
          (endIndex - kCenter).toNat s
        let s ← forK (cvLast tmpx kernelY dataSizeX.toNat kSizeY endIndex right_half)
          (dataSizeY - endIndex).toNat s
        pure (true, some s.2)
  | _, _, _ => pure (false, out)

/-- Function `convH(in, out, dataSizeX, dataSizeY, kernelX, kSizeX)` of
convolution.c, lines 495-570: the horizontal pass of `convolve2DSeparable`
(`hRow`), its results stored through `tmpPtr = out`. The result is the returned
value and the array behind `out`. -/
def convH (inp out : Option (List ℚ)) (dataSizeX dataSizeY : Int) (kernelX : Option (List ℚ))
    (kSizeX : Int) : Except Fault (Bool × Option (List ℚ)) :=
  match inp, out, kernelX with
  | some inp, some outBuf, some kernelX =>
    if dataSizeX ≤ 0 ∨ kSizeX ≤ 0 then pure (false, out)
    else do
      let h ← forK (hRow inp kernelX outBuf.length dataSizeX kSizeX) dataSizeY.toNat
        { inPtr := 0, tmp := [] }
      pure (true, some (h.tmp ++ outBuf.drop h.tmp.length))
  | _, _, _ => pure (false, out)

/-! ## Notions the properties of the search, the convolution and `deflicker` speak of -/

/-- The search range of `me_search_epzs` for the macroblock at (`x_mb`,
`y_mb`), lines 60-63: `(b_width - 1) << log2_mbSize` is
`(b_width - 1) * mbSize` on an initialised context. -/
def epzsRange (me_ctx : MotionEstContext) (x_mb y_mb : Int) : SearchRange :=
  { x_min := max 0 (x_mb - me_ctx.search_param),
    x_max := min (x_mb + me_ctx.search_param) ((me_ctx.b_width - 1) * me_ctx.mbSize),
    y_min := max 0 (y_mb - me_ctx.search_param),
    y_max := min (y_mb + me_ctx.search_param) ((me_ctx.b_height - 1) * me_ctx.mbSize) }

/-- The positions `me_search_epzs` tries before its final loop: the predicted
point, then the predictors of set A (`preds[0]`) and of set B (`preds[1]`). -/
def epzsCandidates (me_ctx : MotionEstContext) (x_mb y_mb : Int) : List (Int × Int) :=
  (x_mb + me_ctx.pred_x, y_mb + me_ctx.pred_y)
    :: (me_ctx.preds0.mvs ++ me_ctx.preds1.mvs).map (fun o => (x_mb + o.1, y_mb + o.2))

/-- The horizontal convolution with the taps outside the row dropped, as the
specification states it for a kernel of length 2 c + 1 on rows of `W`
samples: the sum over the columns i of row `r` with |i - j| <= c and
0 <= i < W of in[r][i] * kernel[c + j - i]. -/
def truncatedTaps (inp kernel : List ℚ) (W c r j : Nat) : ℚ :=
  ∑ i ∈ (Finset.range W).filter (fun (i : Nat) => |(i : Int) - (j : Int)| ≤ (c : Int)),
    inp.getD (r * W + i) 0 * kernel.getD (c + j - i) 0

/-- The plane of `H` rows of `W` samples that holds `truncatedTaps` at every
position. -/
def truncatedPlane (inp kernel : List ℚ) (W H c : Nat) : List ℚ :=
  (List.range (H * W)).map (fun q => truncatedTaps inp kernel W c (q / W) (q % W))

/-- A frame whose `w * h` samples exist: a positive sample count within `int`
and a plane that holds at least that many samples. -/
def DeflickerFrame.Sized (f : DeflickerFrame) : Prop :=
  0 < f.w * f.h ∧ f.w * f.h ≤ INT_MAX ∧ (f.w * f.h).toNat ≤ f.img.length

instance (f : DeflickerFrame) : Decidable f.Sized := by
  unfold DeflickerFrame.Sized
  infer_instance

/-- The plane of a frame after `deflicker` rescaled its `w * h` samples by the
factor `F`: the integer part of each product, clamped to 255. -/
def DeflickerFrame.rescaled (f : DeflickerFrame) (F : ℚ) : List Nat :=
  (f.img.take (f.w * f.h).toNat).map (fun (v : Nat) => min 255 ⌊(v : ℚ) * F⌋.toNat)
    ++ f.img.drop (f.w * f.h).toNat

/-! ## Sample inputs, continued -/

instance (r : SearchRange) (q : Int × Int) : Decidable (InRange r q) := by
  unfold InRange
  infer_instance

/-- The context `epzsMidRow` with the predicted point of the third macroblock
of row 0: the vector (-1, 0) of its left neighbour. -/
def epzsPredicted : MotionEstContext := { epzsMidRow with pred_x := -1, pred_y := 0 }

/-- A frame of two samples of the same level `v`. -/
def levelFrame (v : Nat) : DeflickerFrame := { img := [v, v], w := 2, h := 1 }

/-! ## lucas_kanade_opitcal_flow.c: the window loop of `LK_optical_flow` and `LK_optical_flow8` -/

/-- Constant `WINDOW` of motion.h, line 22: convolution window size for Lucas
Kanade. -/
def WINDOW : Nat := 5

/-- Constant `half_window` (line 8): `WINDOW / 2`. -/
def half_window : Int := ((WINDOW / 2 : Nat) : Int)

/-- Constant `window_squared` (line 9): `WINDOW * WINDOW`. -/
def window_squared : Nat := WINDOW * WINDOW

/-- Constant `log2_window` (line 10): `(int)ceil(log2(WINDOW))`. -/
def log2_window : Nat := ceilLog2 WINDOW

/-- Table `kernel` (lines 13-15): the 5 x 5 Gaussian kernel, flattened. Every
coefficient is a multiple of 1/256 and so a `float`. -/
def kernel : List ℚ :=
  [1 / 256, 4 / 256, 6 / 256, 4 / 256, 1 / 256, 4 / 256, 16 / 256, 24 / 256, 16 / 256, 4 / 256,
   6 / 256, 24 / 256, 36 / 256, 24 / 256, 6 / 256, 4 / 256, 16 / 256, 24 / 256, 16 / 256, 4 / 256,
   1 / 256, 4 / 256, 6 / 256, 4 / 256, 1 / 256]

/-- Lines 96-97 of `LK_optical_flow`: the pair (`i_window`, `j_window`) for the
index `m` of the window loop, `(m >> log2_window) - half_window` and
`(m % WINDOW) - half_window`. -/
def lkOffset (m : Nat) : Int × Int :=
  (((m >>> log2_window : Nat) : Int) - half_window, ((m % WINDOW : Nat) : Int) - half_window)

/-- Lines 212-213 of `LK_optical_flow8`: the pair (`i_window`, `j_window`) for
the index `m` of the window loop, `m / WINDOW - half_window` and
`m % WINDOW - half_window`. -/
def lk8Offset (m : Nat) : Int × Int :=
  (((m / WINDOW : Nat) : Int) - half_window, ((m % WINDOW : Nat) : Int) - half_window)

/-- The sums `a`, `b`, `c`, `Atb0` and `Atb1` of the window loop. -/
structure LkSums where
  a : ℚ
  b : ℚ
  c : ℚ
  Atb0 : ℚ
  Atb1 : ℚ
deriving DecidableEq

/-- One pass of the window loop of `LK_optical_flow` (lines 94-106) and of
`LK_optical_flow8` (lines 210-222), which differ in the pair (`i_window`,
`j_window`) only: `offset` gives that pair for the index `m`. The index of the
sample is computed in `int` and converted to `unsigned`. -/
def lkAccumulate (offset : Nat → Int × Int) (fx fy ft : List ℚ) (w i j : Int) (m : Nat)
    (s : LkSums) : Except Fault LkSums := do
  let W ← readF kernel (m : Int)
  let o := offset m
  let col ← checkedInt (j + o.2)
  let row ← checkedInt (i + o.1)
  let index := u32 (← checkedInt (col + (← checkedInt (row * w))))
  let Ix := (← readF fx index) * W
  let Iy := (← readF fy index) * W
  let It := (← readF ft index) * W
  pure { a := s.a + Ix * Ix, c := s.c + Iy * Iy, b := s.b + Ix * Iy,
         Atb0 := s.Atb0 + -Ix * It, Atb1 := s.Atb1 + -Iy * It }

/-- The window loop of `LK_optical_flow` (lines 91-107) for the pixel in column
`j` of row `i`: the sums it leaves. -/
def lkWindow (fx fy ft : List ℚ) (w i j : Int) : Except Fault LkSums :=
  forK (lkAccumulate lkOffset fx fy ft w i j) window_squared
    { a := 0, b := 0, c := 0, Atb0 := 0, Atb1 := 0 }

/-- The window loop of `LK_optical_flow8` (lines 207-223) for the pixel in
column `j` of row `i`: the sums it leaves. -/
def lk8Window (fx fy ft : List ℚ) (w i j : Int) : Except Fault LkSums :=
  forK (lkAccumulate lk8Offset fx fy ft w i j) window_squared
    { a := 0, b := 0, c := 0, Atb0 := 0, Atb1 := 0 }

/-! ## Notions the properties of the block matchers and of `bmp2gray` speak of -/

/-- The call `r` returns or meets undefined behaviour: it does not abort on an
`assert` and does not use up an iteration bound of the model. -/
def OnlyUB {α : Type} (r : Except Fault α) : Prop :=
  ∀ e, r = .error e → e = Fault.undefinedBehaviour

/-- The luma `(19595 * R + 38469 * G + 7472 * B) >> 16`, as a `uint8_t`, of the
RGB pixel whose three bytes stand at offset `p` of the bitmap (lines 75-77 of
motionDetect.cpp). -/
def lumaAt (bmpBuf : Nat → Nat) (p : Nat) : Nat :=
  ((19595 * (bmpBuf p % 256) + 38469 * (bmpBuf (p + 1) % 256)
      + 7472 * (bmpBuf (p + 2) % 256)) / 65536) % 256

/-- The vector `v` of the macroblock in column `mb_x` of row `mb_y` stays within
the search radius, and the window it points to has its origin between the
origin of the first and of the last macroblock of the grid, in both
directions. -/
def VectorInRange (c : MotionEstContext) (mb_x mb_y : Int) (v : MotionVector16_t) : Prop :=
  |v.vx| ≤ c.search_param ∧ |v.vy| ≤ c.search_param
    ∧ 0 ≤ mb_x * c.mbSize + v.vx ∧ mb_x * c.mbSize + v.vx ≤ (c.b_width - 1) * c.mbSize
    ∧ 0 ≤ mb_y * c.mbSize + v.vy ∧ mb_y * c.mbSize + v.vy ≤ (c.b_height - 1) * c.mbSize

instance (c : MotionEstContext) (mb_x mb_y : Int) (v : MotionVector16_t) :
    Decidable (VectorInRange c mb_x mb_y v) := by
  unfold VectorInRange
  infer_instance

/-- State of the block loop of `motionEstEPZS` started at `c0` in which each of
the first `k` vectors of generation 0 is within the range of its macroblock
(entry `i` belongs to the macroblock in column `i mod b_width` of row
`i div b_width`). -/
def RangeRun (c0 : MotionEstContext) (k : Nat) (c : MotionEstContext) : Prop :=
  LoopFrame c0 c ∧ ∃ t, c.mv_table.get 0 = some t ∧ t.length = c0.b_count.toNat
    ∧ ∀ i, i < k → VectorInRange c0 ((i : Int) % c0.b_width) ((i : Int) / c0.b_width)
        (t.getD i MotionVector16_t.zero)

/-- The zero-displacement cost `costs[2]` that `motionEstARPS` computes at line
162 for the macroblock in column `mb_x` of row `mb_y` when it is called by
`motionEstARPS_wrapper`: the wrapper passes `b_width << log2_mbSize` as `w`
(motion.c, line 103), the loop counters stand at `i = mb_y * mbSize` and
`j = mb_x * mbSize` (lines 150-152), and the call is `costFuncSAD(imgP, imgI,
iw + j, iw + j, mbSize, w)` with `iw = i * w`. -/
def arpsZeroCost (c : MotionEstContext) (mb_x mb_y : Nat) : Except Fault Int := do
  let w ← shiftLeft c.b_width c.log2_mbSize
  let i := wrap32 ((mb_y : Int) * (u32 c.mbSize : Int))
  let iw := wrap32 (i * (u32 w : Int))
  let j := wrap32 ((mb_x : Int) * (u32 c.mbSize : Int))
  let offset_curr ← checkedInt (iw + j)
  costFuncSAD c.data_cur c.data_ref offset_curr offset_curr (u32 c.mbSize) (u32 w)

/-! ## Sample inputs of the block matchers and of the driver, continued -/

/-- A vector table of `n` entries left by an earlier frame. -/
def staleVectors (n : Nat) : List MotionVector16_t :=
  List.replicate n { vx := 3, vy := -1, mag2 := 10 }

/-- A 4 x 6 reference plane, black but for a diagonal pair of samples of level
10 in the macroblock at columns 0-1 of rows 4-5. -/
def armRef : List Nat := (List.range 24).map (fun i => if i = 16 ∨ i = 21 then 10 else 0)

/-- The plane `armRef` with the same diagonal pair also two rows higher, in the
macroblock at columns 0-1 of rows 2-3. -/
def armCur : List Nat :=
  (List.range 24).map (fun i => if i = 16 ∨ i = 21 ∨ i = 8 ∨ i = 13 then 10 else 0)

/-- A 4 x 4 reference plane: rows 0-1 of level 100, rows 2-3 black but for a
diagonal pair of samples of level 10 at columns 1-2. -/
def stepRef : List Nat :=
  (List.range 16).map (fun i => if i < 8 then 100 else if i = 9 ∨ i = 14 then 10 else 0)

/-- The plane `stepRef` with the diagonal pair one column to the left, in the
macroblock at columns 0-1 of rows 2-3. -/
def stepCur : List Nat :=
  (List.range 16).map (fun i => if i < 8 then 100 else if i = 8 ∨ i = 13 then 10 else 0)

/-- A 4 x 6 reference plane: rows 0-1 and columns 2-3 of level 100, the rest
black but for a diagonal pair of samples of level 10 at columns 0-1 of rows
3-4. -/
def dropRef : List Nat :=
  (List.range 24).map
    (fun i => if i < 8 ∨ 2 ≤ i % 4 then 100 else if i = 12 ∨ i = 17 then 10 else 0)

/-- The plane `dropRef` with the diagonal pair one row higher, in the
macroblock at columns 0-1 of rows 2-3. -/
def dropCur : List Nat :=
  (List.range 24).map
    (fun i => if i < 8 ∨ 2 ≤ i % 4 then 100 else if i = 8 ∨ i = 13 then 10 else 0)

/-- The locals of `motionEstARPS` (search parameter 4) for the macroblock at
columns 0-1 of rows 2-3 of a plane of two block columns, the third visited,
with zero-displacement cost `cost`: `maxIndex` and the pattern as the first
column gets them (step 2), before the LDSP loop. -/
def firstColumnState (n cost : Nat) : ArpsState :=
  { vectors := some ((staleVectors n).set 0 MotionVector16_t.zero |>.set 1 MotionVector16_t.zero),
    vi := 2, costs := [UINT32_MAX, 0, cost, 0, 0, 0], stepSize := 2, maxIndex := 4,
    LDSP := [(0, -2), (-2, 0), (0, 0), (2, 0), (0, 2), (0, 0)], checkArray := [(5, 5)],
    max_mag2 := 0 }

/-- The state `firstColumnState n cost` at the head of the `while` loop, when
the LDSP loop evaluated the arms (0, -2) and (2, 0) and kept the centre:
`costs` reset around `cost`, the two arms marked. -/
def refineState (n cost : Nat) : ArpsState :=
  { firstColumnState n cost with
    costs := resetCosts cost, checkArray := [(5, 7), (3, 5), (5, 5)] }

/-- An EPZS configuration for a 10 x 2 image and macroblocks of 2. -/
def epzsConfig : MotionEstContext :=
  { MotionEstContext.init with
    method := BLOCK_MATCHING_EPZS, width := 10, height := 2, mbSize := 2 }

/-- The context `init_context` makes of `epzsConfig`: three generations of 5
vectors. -/
def epzsContext : MotionEstContext :=
  { epzsConfig with
    b_width := 5, b_height := 1, b_count := 5, log2_mbSize := 1,
    mv_table := { t0 := some (List.replicate 5 MotionVector16_t.zero),
                  t1 := some (List.replicate 5 MotionVector16_t.zero),
                  t2 := some (List.replicate 5 MotionVector16_t.zero) } }

/-- An ARPS configuration for an 11 x 4 image and macroblocks of 2: the width
is not a multiple of the macroblock size. -/
def oddWidthConfig : MotionEstContext :=
  { MotionEstContext.init with
    method := BLOCK_MATCHING_ARPS, width := 11, height := 4, mbSize := 2, search_param := 4 }

/-- The context `init_context` makes of `oddWidthConfig`, with two planes of
11 x 4 samples that are black but for sample 20 of the current plane (column 9
of row 1). -/
def oddWidthContext : MotionEstContext :=
  { oddWidthConfig with
    b_width := 5, b_height := 2, b_count := 10, log2_mbSize := 1,
    mv_table := { t0 := some (List.replicate 10 MotionVector16_t.zero), t1 := none, t2 := none },
    data_cur := some ((List.replicate 44 0).set 20 50), data_ref := some (List.replicate 44 0) }

/-- A decoded bitmap of 2 x 3 RGB pixels (18 bytes, then zeros): row 1 is
white, rows 0 and 2 are black. -/
def whiteRowBitmap : Nat → Nat := fun p => if 6 ≤ p ∧ p < 12 then 255 else 0


/-! ## Sample inputs: translated planes and a refinement trap -/

/-- The plane `cur` is the plane `ref` translated by (dx, dy): wherever a
position and the position displaced by (dx, dy) both lie inside the image of
`w` x `h` samples, `cur` holds at the position the sample `ref` holds at the
displaced one. -/
def Translated (cur ref : List Nat) (w h dx dy : Int) : Prop :=
  ∀ x y : Int, 0 ≤ x → x < w → 0 ≤ y → y < h → 0 ≤ x + dx → x + dx < w → 0 ≤ y + dy →
    y + dy < h → cur.getD (y * w + x).toNat 0 = ref.getD ((y + dy) * w + (x + dx)).toNat 0

/-- The SAD of the macroblock in column `mb_x` of row `mb_y` has a lone minimum
at the displacement (dx, dy): every other position of the search range of the
macroblock has a SAD of at least 256, the bound of the early exits of
`me_search_epzs`, and a unit-step neighbour in the search range with a smaller
SAD. -/
def LoneMinimum (c : MotionEstContext) (mb_x mb_y dx dy : Int) : Prop :=
  ∀ q : Int × Int, InRange (epzsRange c (mb_x * c.mbSize) (mb_y * c.mbSize)) q →
    q ≠ (mb_x * c.mbSize + dx, mb_y * c.mbSize + dy) →
    256 ≤ sadAt c (mb_x * c.mbSize) (mb_y * c.mbSize) q
      ∧ ∃ o ∈ dia1,
          InRange (epzsRange c (mb_x * c.mbSize) (mb_y * c.mbSize)) (q.1 + o.1, q.2 + o.2)
            ∧ sadAt c (mb_x * c.mbSize) (mb_y * c.mbSize) (q.1 + o.1, q.2 + o.2)
                < sadAt c (mb_x * c.mbSize) (mb_y * c.mbSize) q

/-- State of the block loop of `motionEstEPZS` started at `c0` in which each of
the first `k` vectors of generation 0 is (dx, dy) when the SAD of its
macroblock has a lone minimum at that displacement (entry `i` belongs to the
macroblock in column `i mod b_width` of row `i div b_width`). -/
def RecoveredRun (c0 : MotionEstContext) (dx dy : Int) (k : Nat) (c : MotionEstContext) : Prop :=
  LoopFrame c0 c ∧ ∃ t, c.mv_table.get 0 = some t ∧ t.length = c0.b_count.toNat
    ∧ ∀ i, i < k → LoneMinimum c0 ((i : Int) % c0.b_width) ((i : Int) / c0.b_width) dx dy →
        t.getD i MotionVector16_t.zero
          = { vx := dx, vy := dy, mag2 := (dx * dx + dy * dy).toNat }

/-- A 10 x 4 reference plane: sample `i` is `16 * i mod 256`. -/
def stripePlane : List Nat := (List.range 40).map (fun i => (i * 16) % 256)

/-- The plane `stripePlane` translated by (2, 0): the sample at column `x < 8`
of a row is the sample of `stripePlane` at column `x + 2` of that row; the last
two columns are black. -/
def stripeShifted : List Nat :=
  (List.range 40).map (fun i => if i % 10 < 8 then ((i + 2) * 16) % 256 else 0)

/-- A 10 x 4 reference plane: the sample at column `x` of row `y` is
`31 * x + 127 * y mod 256`. -/
def weavePlane : List Nat := (List.range 40).map (fun i => (31 * (i % 10) + 127 * (i / 10)) % 256)

/-- The plane `weavePlane` translated by (0, 1): the sample at row `y < 3` of a
column is the sample of `weavePlane` at row `y + 1` of that column; the last
row is black. -/
def weaveShifted : List Nat :=
  (List.range 40).map (fun i => if i < 30 then (31 * (i % 10) + 127 * (i / 10 + 1)) % 256 else 0)

/-- A 6 x 6 reference plane, black but for six samples: levels 100 and 50 at
columns 3 and 4 of row 1, 50 at column 4 of row 2, 50 at column 3 of row 3 and
100 at columns 2 and 3 of row 4. -/
def trapRef : List Nat :=
  (List.range 36).map
    (fun i => if i = 9 ∨ i = 26 ∨ i = 27 then 100 else if i = 10 ∨ i = 16 ∨ i = 21 then 50 else 0)

/-- The plane `trapRef` with the macroblock at columns 2-3 of rows 2-3 at level
100; every other macroblock is as in `trapRef`. -/
def trapCur : List Nat :=
  (List.range 36).map
    (fun i => if i = 14 ∨ i = 15 ∨ i = 20 ∨ i = 21 then 100 else trapRef.getD i 0)

/-- The locals of `motionEstARPS` (search parameter 4) at the head of the
`while` loop for the macroblock at columns 2-3 of rows 2-3 of a plane of three
block columns, the fifth visited, with zero-displacement cost `cost`, when the
four macroblocks before it got the zero vector: the step taken from the
previous vector is 0, so that the LDSP loop evaluated no point. -/
def secondColumnState (cost : Nat) : ArpsState :=
  { vectors := some (List.replicate 4 MotionVector16_t.zero ++ staleVectors 5),
    vi := 4, costs := resetCosts cost, stepSize := 0, maxIndex := 4,
    LDSP := List.replicate 6 (0, 0), checkArray := [(5, 5)], max_mag2 := 0 }

/-! # Properties -/

/-! ## The motion driver -/

/-- What a returning frame update does to the statics it shares with the
decision step: the run counter is untouched, and `prevGrayIm` is the copy loop
applied to the grid, entered with a sample count between 1 and the buffer
size. -/
theorem updateFrame_spec (alg : MotionAlgorithms) (s : MotionState) (fb : FrameInput)
    (bmpBuf : Nat → Nat) (g : List Nat) (n : Nat) (s1 : MotionState)
    (h : updateFrame alg s fb bmpBuf = .ok (g, n, s1)) :
    s1.motionCnt = s.motionCnt ∧ s1.prevGrayIm = copyLoop g n s.prevGrayIm
      ∧ 1 ≤ n ∧ n ≤ PREV_GRAY_SIZE := by
  unfold updateFrame at h
  simp only [bind, Except.bind, pure, Except.pure] at h
  repeat' split at h
  all_goals first
    | (exfalso; exact Except.noConfusion h)
    | skip
  all_goals
    simp only [Except.ok.injEq, Prod.mk.injEq] at h
    obtain ⟨rfl, rfl, rfl⟩ := h
    refine ⟨rfl, rfl, ?_, ?_⟩ <;> omega

/-- When the raw condition of a frame is defined, `checkMotion` returns, and
its flag and run counter are those of the decision step applied to that
condition. -/
theorem checkMotion_of_rawCondition (alg : MotionAlgorithms) (s : MotionState) (fb : FrameInput)
    (motionStatus r : Bool) (h : rawCondition alg s fb = some r) :
    ∃ s1, checkMotion alg s fb motionStatus
        = .ok ((motionDecision r motionStatus s.motionCnt).1, s1)
      ∧ s1.motionCnt = (motionDecision r motionStatus s.motionCnt).2 := by
  unfold rawCondition at h
  split at h
  · rename_i hconv
    split at h
    · exact absurd h (by simp)
    · rename_i bmpBuf hbuf
      split at h
      · rename_i g n s1 hupd
        split at h
        · rename_i avg havg
          have hcnt := (updateFrame_spec alg s fb bmpBuf g n s1 hupd).1
          simp only [Option.some.injEq] at h
          refine ⟨{ s1 with motionCnt := (motionDecision r motionStatus s.motionCnt).2 }, ?_, rfl⟩
          simp [checkMotion, hconv, hbuf, hupd, havg, bind, Except.bind, pure, Except.pure, h, hcnt]
        · exact absurd h (by simp)
      · exact absurd h (by simp)
  · exact absurd h (by simp)

/-- C6 (as the code behaves): when the JPEG-to-RGB conversion of the frame
fails, every static (run counter, previous grayscale grid, motion-estimation
context) is unchanged; the call returns the `motionStatus` it was given when
`jpg2rgb` reports the failure (`converted` false, the branch "Image conversion
failed"), and `false` when `jpg2rgb` reports success but delivers no bitmap
(lines 104-107, the branch "failed jpg2rgb!"). -/
theorem checkMotion_conversion_failed (alg : MotionAlgorithms) (s : MotionState) (fb : FrameInput)
    (motionStatus : Bool) (h : fb.converted = false ∨ fb.bmpBuf = none) :
    checkMotion alg s fb motionStatus
      = .ok (if fb.converted then false else motionStatus, s) := by
  rcases h with h | h
  · simp [checkMotion, h]
  · cases hc : fb.converted <;> simp [checkMotion, hc, h]

/-- C3: whatever the run counter, a call with `motionStatus = true` on a
converted frame whose raw condition is inactive returns false on that frame and
leaves `motionCnt = 0`. -/
theorem checkMotion_stops_at_once (alg : MotionAlgorithms) (s : MotionState) (fb : FrameInput)
    (h : rawCondition alg s fb = some false) :
    ∃ s1, checkMotion alg s fb true = .ok (false, s1) ∧ s1.motionCnt = 0 := by
  obtain ⟨s1, h1, h2⟩ := checkMotion_of_rawCondition alg s fb true false h
  exact ⟨s1, by simpa [motionDecision] using h1, by simpa [motionDecision] using h2⟩

/-- C2 (as the code behaves): a converted frame whose raw condition is
inactive, processed while `motionStatus` is false, leaves `motionCnt` at the
value it had: the counter is reset only inside `if (motionStatus)`. -/
theorem checkMotion_inactive_keeps_count (alg : MotionAlgorithms) (s : MotionState)
    (fb : FrameInput) (h : rawCondition alg s fb = some false) :
    ∃ s1, checkMotion alg s fb false = .ok (false, s1) ∧ s1.motionCnt = s.motionCnt := by
  obtain ⟨s1, h1, h2⟩ := checkMotion_of_rawCondition alg s fb false false h
  exact ⟨s1, by simpa [motionDecision] using h1, by simpa [motionDecision] using h2⟩

set_option maxRecDepth 1000000 in
/-- Witness for C6: confirmed motion with the counter at 5, and a frame for
which `jpg2rgb` returned true with a null bitmap: the call returns false and
leaves the counter at 5; the same frame with `converted` false returns true. -/
theorem checkMotion_conversion_failed_witness :
    (({ sampleFrame 5 with bmpBuf := none } : FrameInput).converted = false
        ∨ ({ sampleFrame 5 with bmpBuf := none } : FrameInput).bmpBuf = none)
      ∧ checkMotion (constantSearch MotionVector16_t.zero) (sampleState 5)
          { sampleFrame 5 with bmpBuf := none } true
        = .ok (false, sampleState 5)
      ∧ checkMotion (constantSearch MotionVector16_t.zero) (sampleState 5)
          { sampleFrame 5 with converted := false } true
        = .ok (true, sampleState 5) :=
  ⟨Or.inr rfl,
   checkMotion_conversion_failed _ (sampleState 5) { sampleFrame 5 with bmpBuf := none } true
     (Or.inr rfl),
   checkMotion_conversion_failed _ (sampleState 5) { sampleFrame 5 with converted := false }
     true (Or.inl rfl)⟩

set_option maxRecDepth 1000000 in
/-- Witness for C3: confirmed motion, counter at 5, and
a frame with no displacement at sensitivity 5. -/
theorem checkMotion_stops_at_once_witness :
    rawCondition (constantSearch MotionVector16_t.zero) (sampleState 5) (sampleFrame 5) = some false ∧
      ∃ s1, checkMotion (constantSearch MotionVector16_t.zero) (sampleState 5) (sampleFrame 5) true
          = .ok (false, s1) ∧ s1.motionCnt = 0 :=
  ⟨by decide, checkMotion_stops_at_once _ _ _ (by decide)⟩

set_option maxRecDepth 1000000 in
/-- Witness for C2: three changed frames counted,
then a frame with no displacement: the counter is still 3. -/
theorem checkMotion_inactive_keeps_count_witness :
    rawCondition (constantSearch MotionVector16_t.zero) (sampleState 3) (sampleFrame 5) = some false ∧
      ∃ s1, checkMotion (constantSearch MotionVector16_t.zero) (sampleState 3) (sampleFrame 5) false
          = .ok (false, s1) ∧ s1.motionCnt = (sampleState 3).motionCnt :=
  ⟨by decide, checkMotion_inactive_keeps_count _ _ _ (by decide)⟩

/-- The flags of a run of `checkMotion` are those of the decision step iterated
over the raw conditions of its frames. -/
theorem checkMotionRun_flags (alg : MotionAlgorithms) (raws : List Bool) :
    ∀ (fbs : List FrameInput) (s : MotionState) (motionStatus : Bool),
      (checkMotionRun alg s motionStatus fbs).map Prod.fst = raws.map some →
      (checkMotionRun alg s motionStatus fbs).map Prod.snd
        = motionDecisionRun motionStatus s.motionCnt raws := by
  induction raws with
  | nil =>
    intro fbs s st h
    simp only [List.map_nil, List.map_eq_nil_iff] at h
    simp [h, motionDecisionRun]
  | cons r rs ih =>
    intro fbs s st h
    cases fbs with
    | nil => simp [checkMotionRun] at h
    | cons fb fbs =>
      unfold checkMotionRun at h ⊢
      split at h
      · rename_i flag s1 hcm
        simp only [List.map_cons, List.cons.injEq] at h
        obtain ⟨hr, hrest⟩ := h
        obtain ⟨s1', h1, h2⟩ := checkMotion_of_rawCondition alg s fb st r hr
        rw [hcm] at h1
        simp only [Except.ok.injEq, Prod.mk.injEq] at h1
        obtain ⟨rfl, rfl⟩ := h1
        simp only [hcm, List.map_cons, motionDecisionRun]
        rw [ih fbs s1 _ hrest, h2]
      · simp at h

/-- Changed frames fed to the decision step while motion is confirmed keep it
confirmed. -/
theorem motionDecisionRun_confirmed (k c : Nat) :
    motionDecisionRun true c (List.replicate k true) = List.replicate k true := by
  induction k with
  | zero => rfl
  | succ k ih => simp [List.replicate_succ, motionDecisionRun, motionDecision, ih]

/-- The decision step on a changed frame while motion is not confirmed: the
counter advances and the flag is set once it reaches `MOTION_SEQUENCE`. -/
theorem motionDecision_changed (c : Nat) (hc : c < 65535) :
    motionDecision true false c = (decide (5 ≤ c + 1), c + 1) := by
  have hmod : (c + 1) % 65536 = c + 1 := Nat.mod_eq_of_lt (by omega)
  by_cases h : 5 ≤ c + 1 <;> simp [motionDecision, MOTION_SEQUENCE, hmod, h]

/-- From an unconfirmed state with counter `c ≤ 4`, the `j`-th of `k` changed
frames (counting from 0) returns true exactly when `c + j + 1 ≥ 5`. -/
theorem motionDecisionRun_changed (k : Nat) :
    ∀ c, c ≤ 4 → motionDecisionRun false c (List.replicate k true)
      = (List.range k).map (fun j => decide (5 ≤ c + j + 1)) := by
  induction k with
  | zero => intro c _; rfl
  | succ k ih =>
    intro c hc
    rw [List.range_succ_eq_map]
    simp only [List.replicate_succ, motionDecisionRun, motionDecision_changed c (by omega)]
    by_cases h4 : c = 4
    · subst h4
      simp [motionDecisionRun_confirmed]
    · have hnot : decide (5 ≤ c + 1) = false := by simp; omega
      rw [hnot, ih (c + 1) (by omega)]
      simp [List.map_map, Function.comp_def]
      constructor
      · omega
      · intro a _
        constructor <;> intro h <;> omega

/-- C1: from `motionCnt = 0` and `motionStatus = false`, each returned flag
being fed back, a run of frames whose raw condition is active returns true on
its `j`-th frame exactly when `j ≥ 5` (so first on the 5th), and four active
frames followed by an inactive one return false five times. -/
theorem checkMotion_confirms_on_fifth (alg : MotionAlgorithms) (s : MotionState)
    (fbs : List FrameInput) (h0 : s.motionCnt = 0) :
    ((checkMotionRun alg s false fbs).map Prod.fst = List.replicate fbs.length (some true) →
      (checkMotionRun alg s false fbs).map Prod.snd
        = (List.range fbs.length).map (fun j => decide (5 ≤ j + 1)))
    ∧ ((checkMotionRun alg s false fbs).map Prod.fst
          = [some true, some true, some true, some true, some false] →
        (checkMotionRun alg s false fbs).map Prod.snd = [false, false, false, false, false]) := by
  constructor
  · intro h
    have h' : (checkMotionRun alg s false fbs).map Prod.fst
        = (List.replicate fbs.length true).map some := by simpa using h
    rw [checkMotionRun_flags alg _ fbs s false h', h0, motionDecisionRun_changed _ 0 (by omega)]
    simp
  · intro h
    have h' : (checkMotionRun alg s false fbs).map Prod.fst
        = [true, true, true, true, false].map some := by simpa using h
    rw [checkMotionRun_flags alg _ fbs s false h', h0]
    decide

set_option maxRecDepth 1000000 in
/-- Witness for C1: after the frame that initialised the context, six frames
whose vectors all have magnitude 5 at sensitivity 6 return false four times,
then true twice; four such frames followed by one at sensitivity 5 (5 is not
above 10 - 5) return false five times. -/
theorem checkMotion_confirms_on_fifth_witness :
    (sampleState 0).motionCnt = 0 ∧
    ((checkMotionRun (constantSearch { vx := 3, vy := 4, mag2 := 25 }) (sampleState 0) false
        (List.replicate 6 (sampleFrame 6))).map Prod.fst = List.replicate 6 (some true) ∧
      (checkMotionRun (constantSearch { vx := 3, vy := 4, mag2 := 25 }) (sampleState 0) false
        (List.replicate 6 (sampleFrame 6))).map Prod.snd
        = [false, false, false, false, true, true]) ∧
    ((checkMotionRun (constantSearch { vx := 3, vy := 4, mag2 := 25 }) (sampleState 0) false
        (List.replicate 4 (sampleFrame 6) ++ [sampleFrame 5])).map Prod.fst
        = [some true, some true, some true, some true, some false] ∧
      (checkMotionRun (constantSearch { vx := 3, vy := 4, mag2 := 25 }) (sampleState 0) false
        (List.replicate 4 (sampleFrame 6) ++ [sampleFrame 5])).map Prod.snd
        = [false, false, false, false, false]) :=
  ⟨by decide,
    ⟨by decide,
      (checkMotion_confirms_on_fifth (constantSearch { vx := 3, vy := 4, mag2 := 25 })
        (sampleState 0) (List.replicate 6 (sampleFrame 6)) (by decide)).1 (by decide)⟩,
    ⟨by decide,
      (checkMotion_confirms_on_fifth (constantSearch { vx := 3, vy := 4, mag2 := 25 })
        (sampleState 0) (List.replicate 4 (sampleFrame 6) ++ [sampleFrame 5]) (by decide)).2
        (by decide)⟩⟩

/-- Changed frames need not be consecutive to confirm motion: four changed
frames, one unchanged frame and one more changed frame set the flag on the
sixth frame, as the unchanged frame leaves the counter at 4. -/
theorem motionDecisionRun_gap_still_confirms :
    motionDecisionRun false 0 [true, true, true, true, false, true]
      = [false, false, false, false, false, true] := by
  decide

/-! ## Day/night debouncer -/

/-- A dark call (`lightLevel < nightSwitch`) while `nightTime` is false counts
the frame and signals night only once the count exceeds `NIGHT_SEQUENCE`. -/
theorem isNight_dark_step (l ns : Nat) (s : NightState) (hd : l < ns)
    (hn : s.nightTime = false) (hc : s.nightCnt < 65535) :
    isNight l ns s
      = (decide (s.nightCnt + 1 > NIGHT_SEQUENCE),
          { nightTime := decide (s.nightCnt + 1 > NIGHT_SEQUENCE), nightCnt := s.nightCnt + 1 }) := by
  have h1 : ¬ l > ns := by omega
  have h2 : (s.nightCnt + 1) % 65536 = s.nightCnt + 1 := Nat.mod_eq_of_lt (by omega)
  by_cases h3 : s.nightCnt + 1 > NIGHT_SEQUENCE <;>
    simp [isNight, hd, hn, h1, h2, h3]

/-- Dark calls from a day state whose count stays within `NIGHT_SEQUENCE`
all return false and only advance the count. -/
theorem isNightRun_dark_below (ns : Nat) (levels : List Nat) :
    ∀ s : NightState, s.nightTime = false → s.nightCnt + levels.length ≤ NIGHT_SEQUENCE →
      (∀ l ∈ levels, l < ns) →
      isNightRun ns s levels
        = (List.replicate levels.length false,
            { nightTime := false, nightCnt := s.nightCnt + levels.length }) := by
  induction levels with
  | nil => intro s hn _ _; cases s; simp_all [isNightRun]
  | cons l ls ih =>
    intro s hn hlen hdark
    have hl : l < ns := hdark l (by simp)
    simp only [List.length_cons, NIGHT_SEQUENCE] at hlen
    have hstep := isNight_dark_step l ns s hl hn (by omega)
    have hfalse : decide (s.nightCnt + 1 > NIGHT_SEQUENCE) = false := by
      simp [NIGHT_SEQUENCE]; omega
    rw [hfalse] at hstep
    have hrest := ih { nightTime := false, nightCnt := s.nightCnt + 1 } rfl
      (by simp [NIGHT_SEQUENCE]; omega) (fun x hx => hdark x (by simp [hx]))
    simp only [isNightRun, hstep, hrest, List.length_cons, List.replicate_succ]
    simp; omega

/-- C4 (as the code behaves): from the initial state, with `lightLevel <
nightSwitch` on every call, `isNight` returns false on each of the first 10
calls, the 10th included, and true on the 11th. -/
theorem isNight_dark_run_eleven (ns : Nat) (levels : List Nat) (hlen : levels.length = 11)
    (hdark : ∀ l ∈ levels, l < ns) :
    (isNightRun ns NightState.init levels).1 = List.replicate 10 false ++ [true] := by
  have hsplit : levels = levels.take 10 ++ levels.drop 10 := (List.take_append_drop 10 levels).symm
  obtain ⟨l, hl⟩ : ∃ l, levels.drop 10 = [l] := by
    have : (levels.drop 10).length = 1 := by simp [hlen]
    match h : levels.drop 10, this with
    | [l], _ => exact ⟨l, rfl⟩
  have hl_dark : l < ns := hdark l (by rw [hsplit, hl]; simp)
  have htake : (levels.take 10).length = 10 := by simp [hlen]
  have hrun : ∀ (xs ys : List Nat) (s : NightState),
      isNightRun ns s (xs ++ ys)
        = ((isNightRun ns s xs).1 ++ (isNightRun ns (isNightRun ns s xs).2 ys).1,
            (isNightRun ns (isNightRun ns s xs).2 ys).2) := by
    intro xs ys
    induction xs with
    | nil => intro s; simp [isNightRun]
    | cons x xs ih => intro s; simp [isNightRun, ih]
  have h10 := isNightRun_dark_below ns (levels.take 10) NightState.init rfl
    (by simp [NightState.init, NIGHT_SEQUENCE, hlen])
    (fun x hx => hdark x (List.mem_of_mem_take hx))
  rw [hsplit, hrun, h10, hl, htake]
  have hstep := isNight_dark_step l ns { nightTime := false, nightCnt := 10 } hl_dark rfl
    (by simp)
  simp [isNightRun, hstep, NightState.init, NIGHT_SEQUENCE]

/-- Witness for C4: eleven calls at light level 3 with
threshold 50. -/
theorem isNight_dark_run_eleven_witness :
    (List.replicate 11 3).length = 11 ∧ (∀ l ∈ List.replicate 11 3, l < 50) ∧
      (isNightRun 50 NightState.init (List.replicate 11 3)).1 = List.replicate 10 false ++ [true] :=
  ⟨by decide, by decide,
    isNight_dark_run_eleven 50 (List.replicate 11 3) (by decide) (by decide)⟩

/-- C5: in every state of `isNight`, a call with `lightLevel > nightSwitch`
returns false (day) on that call and leaves `nightCnt = 0`. -/
theorem isNight_light_returns_day (lightLevel nightSwitch : Nat) (s : NightState)
    (h : lightLevel > nightSwitch) :
    isNight lightLevel nightSwitch s = (false, { nightTime := false, nightCnt := 0 }) := by
  have h1 : ¬ lightLevel < nightSwitch := by omega
  cases hs : s.nightTime <;> simp [isNight, h, h1, hs]

/-- Witness for C5: night state with a full counter,
light level 200 above threshold 50. -/
theorem isNight_light_returns_day_witness :
    200 > 50 ∧ isNight 200 50 { nightTime := true, nightCnt := 11 }
      = (false, { nightTime := false, nightCnt := 0 }) :=
  ⟨by decide, isNight_light_returns_day 200 50 { nightTime := true, nightCnt := 11 } (by decide)⟩

/-! ## The change metric -/

/-- The downward search from `k` returns the integer square root of any `n`
below `(k + 1)²`. -/
theorem isqrtAux_eq_sqrt (n : Nat) : ∀ k, n < (k + 1) * (k + 1) → isqrtAux n k = Nat.sqrt n := by
  intro k
  induction k with
  | zero =>
    intro h
    have : n = 0 := by omega
    subst this
    rfl
  | succ k ih =>
    intro h
    unfold isqrtAux
    split
    · rename_i hk
      exact Nat.eq_sqrt.mpr ⟨hk, h⟩
    · rename_i hk
      exact ih (by omega)

/-- On a `uint16_t` value `isqrt16` is the integer square root. -/
theorem isqrt16_eq_sqrt (x : Nat) (hx : x < 65536) : isqrt16 x = Nat.sqrt x := by
  unfold isqrt16
  rw [Nat.mod_eq_of_lt hx]
  exact isqrtAux_eq_sqrt x 255 (by omega)

/-- The downward search from `k` returns at most `k`. -/
theorem isqrtAux_le (n : Nat) : ∀ k, isqrtAux n k ≤ k := by
  intro k
  induction k with
  | zero => exact le_refl 0
  | succ k ih =>
    unfold isqrtAux
    split
    · exact le_refl _
    · exact Nat.le_succ_of_le ih

/-- The summing loop over `n` vectors that are all present and cannot overflow
the accumulator returns the accumulator plus the sum of their integer roots. -/
theorem sumLoop_spec (n : Nat) :
    ∀ (mv : List MotionVector16_t) (acc : Int), n ≤ mv.length → 0 ≤ acc →
      acc + 255 * (n : Int) ≤ INT_MAX →
      sumLoop n mv acc = .ok (acc + (((mv.take n).map (fun v => isqrt16 v.mag2)).sum : Nat)) := by
  induction n with
  | zero => intro mv acc _ _ _; simp [sumLoop]
  | succ n ih =>
    intro mv acc hlen h0 hmax
    cases mv with
    | nil => simp at hlen
    | cons v mv =>
      have hv : isqrt16 v.mag2 ≤ 255 := isqrtAux_le _ 255
      have hmx : INT_MAX = 2147483647 := rfl
      have hmn : INT_MIN = -2147483648 := rfl
      have hc : checkedInt (acc + (isqrt16 v.mag2 : Int)) = .ok (acc + (isqrt16 v.mag2 : Int)) := by
        simp only [checkedInt, hmx, hmn]
        rw [if_pos (by omega)]
      simp only [sumLoop, hc, bind, Except.bind]
      rw [ih mv _ (by simpa using hlen) (by omega) (by push_cast at hmax ⊢; omega)]
      simp only [List.take_succ_cons, List.map_cons, List.sum_cons]
      push_cast
      rw [add_assoc]

/-- The sum of the integer roots is at most the sum of the real roots. -/
theorem sum_sqrt_le_sum_real_sqrt (l : List MotionVector16_t) :
    (((l.map (fun v => Nat.sqrt v.mag2)).sum : Nat) : ℝ)
      ≤ (l.map (fun v => Real.sqrt (v.mag2 : ℝ))).sum := by
  induction l with
  | nil => simp
  | cons v l ih =>
    simp only [List.map_cons, List.sum_cons, Nat.cast_add]
    exact add_le_add Real.nat_sqrt_le_real_sqrt ih

/-- C7 (as the code behaves): with `n ≥ 1` vectors (`n = numSamples` when the
method is `LK_OPTICAL_FLOW`, `b_count` otherwise) the metric is the integer
quotient by `n` of the sum of the integer parts of `sqrt(mag2_i)`: each root
is truncated before it is added. It never exceeds the integer part of the
real mean `(Σ sqrt(mag2_i)) / n`, and it is 0 when every `mag2_i` is 0. -/
theorem changeMetric_truncated_roots (ctx : MotionEstContext) (numSamples n : Nat)
    (mv : List MotionVector16_t) (hmv : ctx.mv_table.get 0 = some mv)
    (hn : (if ctx.method = LK_OPTICAL_FLOW then (numSamples : Int) else ctx.b_count) = (n : Int))
    (h1 : 1 ≤ n) (hlen : n ≤ mv.length) (hbig : 255 * n ≤ 2147483647)
    (h16 : ∀ v ∈ mv, v.mag2 < 65536) :
    changeMetric ctx numSamples
        = .ok ((((mv.take n).map (fun v => Nat.sqrt v.mag2)).sum / n : Nat) : Int)
    ∧ ((((mv.take n).map (fun v => Nat.sqrt v.mag2)).sum / n : Nat) : Int)
        ≤ ⌊((mv.take n).map (fun v => Real.sqrt (v.mag2 : ℝ))).sum / (n : ℝ)⌋
    ∧ ((∀ v ∈ mv.take n, v.mag2 = 0) → changeMetric ctx numSamples = .ok 0) := by
  have hroots : (mv.take n).map (fun v => isqrt16 v.mag2)
      = (mv.take n).map (fun v => Nat.sqrt v.mag2) := by
    apply List.map_congr_left
    intro v hv
    exact isqrt16_eq_sqrt _ (h16 v (List.mem_of_mem_take hv))
  have hsum := sumLoop_spec n mv 0 hlen (le_refl 0)
    (by simp only [INT_MAX]; omega)
  rw [hroots, zero_add] at hsum
  have hn0 : ¬ ((n : Int) = 0) := by omega
  have hval : changeMetric ctx numSamples
      = .ok ((((mv.take n).map (fun v => Nat.sqrt v.mag2)).sum / n : Nat) : Int) := by
    unfold changeMetric
    simp only [hn, hmv, Int.toNat_ofNat, hsum, bind, Except.bind, pure, Except.pure, hn0, if_false]
    rw [Int.tdiv_eq_ediv (Int.natCast_nonneg _) (Int.natCast_nonneg _)]
    norm_cast
  refine ⟨hval, ?_, ?_⟩
  · apply Int.le_floor.mpr
    have hnpos : (0 : ℝ) < (n : ℝ) := by exact_mod_cast h1
    calc (((((mv.take n).map (fun v => Nat.sqrt v.mag2)).sum / n : Nat) : Int) : ℝ)
        = ((((mv.take n).map (fun v => Nat.sqrt v.mag2)).sum / n : Nat) : ℝ) := by norm_cast
      _ ≤ ((((mv.take n).map (fun v => Nat.sqrt v.mag2)).sum : Nat) : ℝ) / (n : ℝ) :=
          Nat.cast_div_le
      _ ≤ ((mv.take n).map (fun v => Real.sqrt (v.mag2 : ℝ))).sum / (n : ℝ) :=
          div_le_div_of_nonneg_right (sum_sqrt_le_sum_real_sqrt _) (le_of_lt hnpos)
  · intro hz
    rw [hval]
    have hzero : ((mv.take n).map (fun v => Nat.sqrt v.mag2)).sum = 0 := by
      apply List.sum_eq_zero
      intro x hx
      obtain ⟨v, hv, rfl⟩ := List.mem_map.mp hx
      rw [hz v hv]
      rfl
    rw [hzero]
    simp

/-- Witness for C7: the four block vectors of
`metricContext`. -/
theorem changeMetric_truncated_roots_witness :
    changeMetric metricContext 264
        = .ok (((([{ vx := 1, vy := 1, mag2 := 2 }, { vx := 2, vy := 2, mag2 := 8 },
              MotionVector16_t.zero, MotionVector16_t.zero].take 4).map
                (fun v : MotionVector16_t => Nat.sqrt v.mag2)).sum / 4 : Nat) : Int) :=
  (changeMetric_truncated_roots metricContext 264 4 _ rfl rfl (by decide) (by decide) (by decide)
    (by decide)).1

set_option maxRecDepth 100000 in
/-- C7 (counterexample): for the block vectors (1,1), (2,2), (0,0), (0,0) the
metric of `checkMotion` is 0, while the integer part of
`(sqrt 2 + sqrt 8 + 0 + 0) / 4` is 1. -/
theorem changeMetric_below_real_mean :
    changeMetric metricContext 264 = .ok 0
    ∧ ⌊(([{ vx := 1, vy := 1, mag2 := 2 }, { vx := 2, vy := 2, mag2 := 8 },
          MotionVector16_t.zero, MotionVector16_t.zero].map
            (fun v : MotionVector16_t => Real.sqrt (v.mag2 : ℝ))).sum) / (4 : ℝ)⌋ = 1 := by
  refine ⟨by decide, ?_⟩
  have h2 : (1.4 : ℝ) ≤ Real.sqrt 2 := Real.le_sqrt_of_sq_le (by norm_num)
  have h8 : (2.8 : ℝ) ≤ Real.sqrt 8 := Real.le_sqrt_of_sq_le (by norm_num)
  have h2u : Real.sqrt 2 < 2 := (Real.sqrt_lt' (by norm_num)).mpr (by norm_num)
  have h8u : Real.sqrt 8 < 3 := (Real.sqrt_lt' (by norm_num)).mpr (by norm_num)
  rw [Int.floor_eq_iff]
  simp only [List.map_cons, List.map_nil, List.sum_cons, List.sum_nil, MotionVector16_t.zero,
    Nat.cast_ofNat, Nat.cast_zero, Real.sqrt_zero, add_zero, Int.cast_one]
  constructor
  · rw [le_div_iff₀ (by norm_num)]
    linarith
  · rw [div_lt_iff₀ (by norm_num)]
    linarith

/-! ## The copy of the new grid to `prevGrayIm` -/

/-- The copy loop entered with `i = n` writes no index at or above `n`. -/
theorem copyLoop_getElem_ge (g : List Nat) (n : Nat) :
    ∀ (prev : List Nat) (j : Nat), n ≤ j → (copyLoop g n prev)[j]? = prev[j]? := by
  induction n with
  | zero => intro prev j _; rfl
  | succ i ih =>
    intro prev j hj
    unfold copyLoop
    split
    · rfl
    · rw [ih _ j (by omega), List.getElem?_set_ne (by omega)]

/-- The copy loop never writes index 0: it stops when `--i` yields 0. -/
theorem copyLoop_getElem_zero (g : List Nat) (n : Nat) :
    ∀ prev : List Nat, (copyLoop g n prev)[0]? = prev[0]? := by
  induction n with
  | zero => intro prev; rfl
  | succ i ih =>
    intro prev
    unfold copyLoop
    split
    · rfl
    · rename_i hi
      rw [ih, List.getElem?_set_ne (by omega)]

/-- The copy loop keeps the length of the buffer. -/
theorem copyLoop_length (g : List Nat) (n : Nat) :
    ∀ prev : List Nat, (copyLoop g n prev).length = prev.length := by
  induction n with
  | zero => intro prev; rfl
  | succ i ih =>
    intro prev
    unfold copyLoop
    split
    · rfl
    · rw [ih, List.length_set]

/-- The copy loop entered with `i = n` copies every index from 1 to `n - 1`. -/
theorem copyLoop_getElem_pos (g : List Nat) (n : Nat) :
    ∀ (prev : List Nat) (j : Nat), 1 ≤ j → j < n → j < prev.length →
      (copyLoop g n prev)[j]? = some (g.getD j 0) := by
  induction n with
  | zero => intro prev j _ h; omega
  | succ i ih =>
    intro prev j h1 hj hlen
    unfold copyLoop
    split
    · omega
    · by_cases hji : j = i
      · subst hji
        rw [copyLoop_getElem_ge g j _ j (le_refl j), List.getElem?_set_eq_of_lt _ hlen]
      · exact ih _ j h1 (by omega) (by rw [List.length_set]; exact hlen)

/-- After a frame update that returns, `prevGrayIm[0]` is what it was before
the frame, and every other sample below `numSamples` is that of the new
grid. -/
theorem updateFrame_prevGrayIm (alg : MotionAlgorithms) (s : MotionState) (fb : FrameInput)
    (bmpBuf : Nat → Nat) (g : List Nat) (n : Nat) (s1 : MotionState)
    (h : updateFrame alg s fb bmpBuf = .ok (g, n, s1)) :
    s1.prevGrayIm[0]? = s.prevGrayIm[0]? ∧
      ∀ j, 1 ≤ j → j < n → j < s.prevGrayIm.length → s1.prevGrayIm[j]? = some (g.getD j 0) := by
  obtain ⟨_, hprev, _, _⟩ := updateFrame_spec alg s fb bmpBuf g n s1 h
  rw [hprev]
  exact ⟨copyLoop_getElem_zero g n _, fun j h1 h2 h3 => copyLoop_getElem_pos g n _ j h1 h2 h3⟩

set_option maxRecDepth 1000000 in
/-- C8 (as the code behaves): on the first frame, a 25 x 8 grid whose first
sample is 255 and second is 100, `checkMotion` returns with `prevGrayIm[1] =
100` but `prevGrayIm[0]` still 0: index 0 of the new grid is not copied. -/
theorem checkMotion_first_sample_not_copied :
    (updateFrame (constantSearch MotionVector16_t.zero) MotionState.init (sampleFrame 5)
        (fun p => if p < 3 then 255 else if p < 6 then 100 else 0)).map
        (fun r => (r.2.1, r.1.take 2)) = .ok (200, [255, 100])
    ∧ (checkMotion (constantSearch MotionVector16_t.zero) MotionState.init (sampleFrame 5)
        false).map (fun r => r.2.prevGrayIm.take 2) = .ok [0, 100] := by
  decide

/-! ## Context initialisation -/

set_option maxRecDepth 100000 in
/-- C9: `init_context` on a context with method EPZS, width 100, height 75,
`mbSize` 6 and `search_param` 9 succeeds when its three allocations do; it
leaves `mbSize = 8`, `log2_mbSize = 3`, `b_width = 12`, `b_height = 9`,
`b_count = 108` and three vector tables of 108 zero vectors each. -/
theorem init_context_epzs_100x75 (allocOk : Nat → Bool) (mv_allocated : Bool)
    (ctx : MotionEstContext) (halloc : ∀ i, i < 3 → allocOk i = true) :
    ∃ ctx1, init_context allocOk mv_allocated
        { ctx with method := BLOCK_MATCHING_EPZS, width := 100, height := 75, mbSize := 6,
                   search_param := 9 } = .ok (true, true, ctx1)
      ∧ ctx1.mbSize = 8 ∧ ctx1.log2_mbSize = 3 ∧ ctx1.b_width = 12 ∧ ctx1.b_height = 9
      ∧ ctx1.b_count = 108
      ∧ ∀ i, i < 3 → ctx1.mv_table.get i = some (List.replicate 108 MotionVector16_t.zero) := by
  have h0 := halloc 0 (by omega)
  have h1 := halloc 1 (by omega)
  have h2 := halloc 2 (by omega)
  have hl : ceilLog2 6 = 3 := by decide
  cases mv_allocated <;>
    simp [init_context, uninit, freep, blockGeometry, checkedInt, allocTables, callocVectors,
      BLOCK_MATCHING_EPZS, BLOCK_MATCHING_ARPS, LK_OPTICAL_FLOW, LK_OPTICAL_FLOW_8BIT, INT_MAX,
      INT_MIN, bind, Except.bind, pure, Except.pure, h0, h1, h2, hl, MvTables.set, MvTables.get,
      throw, throwThe, MonadExceptOf.throw]
  all_goals
    intro i hi
    interval_cases i <;> rfl

/-- Witness for C9: a fresh context, nothing allocated
before, every allocation succeeding. -/
theorem init_context_epzs_100x75_witness :
    (∀ i, i < 3 → (fun _ : Nat => true) i = true) ∧
    ∃ ctx1, init_context (fun _ => true) false
        { MotionEstContext.init with method := BLOCK_MATCHING_EPZS, width := 100, height := 75,
                                     mbSize := 6, search_param := 9 } = .ok (true, true, ctx1)
      ∧ ctx1.mbSize = 8 ∧ ctx1.log2_mbSize = 3 ∧ ctx1.b_width = 12 ∧ ctx1.b_height = 9
      ∧ ctx1.b_count = 108
      ∧ ∀ i, i < 3 → ctx1.mv_table.get i = some (List.replicate 108 MotionVector16_t.zero) :=
  ⟨fun _ _ => rfl,
    init_context_epzs_100x75 (fun _ => true) false MotionEstContext.init (fun _ _ => rfl)⟩

/-- The upward search returns the least exponent `r ≥ n` with `m ≤ 2 ^ r`,
when no exponent below `n` qualifies and the fuel reaches one that does. -/
theorem ceilLog2Aux_spec (m : Nat) :
    ∀ fuel n, (∀ j, j < n → ¬ m ≤ 2 ^ j) → m ≤ 2 ^ (n + fuel) →
      m ≤ 2 ^ ceilLog2Aux m fuel n ∧ ∀ j, m ≤ 2 ^ j → ceilLog2Aux m fuel n ≤ j := by
  intro fuel
  induction fuel with
  | zero =>
    intro n hlow hup
    refine ⟨by simpa [ceilLog2Aux] using hup, fun j hj => ?_⟩
    by_contra hlt
    exact hlow j (by simpa [ceilLog2Aux] using hlt) hj
  | succ fuel ih =>
    intro n hlow hup
    unfold ceilLog2Aux
    split
    · rename_i hn
      refine ⟨hn, fun j hj => ?_⟩
      by_contra hlt
      exact hlow j (by omega) hj
    · rename_i hn
      apply ih (n + 1)
      · intro j hj
        by_cases hjn : j = n
        · subst hjn; exact hn
        · exact hlow j (by omega)
      · have : n + 1 + fuel = n + (fuel + 1) := by omega
        rw [this]; exact hup

/-- `ceilLog2 m` is the least exponent `k` with `m ≤ 2 ^ k`. -/
theorem ceilLog2_spec (m : Nat) :
    m ≤ 2 ^ ceilLog2 m ∧ ∀ j, m ≤ 2 ^ j → ceilLog2 m ≤ j := by
  apply ceilLog2Aux_spec m m 0 (fun j hj => absurd hj (Nat.not_lt_zero j))
  rw [Nat.zero_add]
  exact Nat.le_of_lt (Nat.lt_two_pow m)

/-- `uninit` changes only the plane pointers and the vector tables. -/
theorem uninit_fields (a : Bool) (ctx : MotionEstContext) :
    (uninit a ctx).2.method = ctx.method ∧ (uninit a ctx).2.width = ctx.width
      ∧ (uninit a ctx).2.height = ctx.height ∧ (uninit a ctx).2.mbSize = ctx.mbSize := by
  unfold uninit
  simp only []
  split
  · exact ⟨rfl, rfl, rfl, rfl⟩
  · split
    · exact ⟨rfl, rfl, rfl, rfl⟩
    · split <;> exact ⟨rfl, rfl, rfl, rfl⟩

/-- The allocation loop changes only the vector tables. -/
theorem allocTables_fields (allocOk : Nat → Bool) (k : Nat) :
    ∀ (ctx : MotionEstContext) (i : Nat),
      (allocTables allocOk ctx k i).2.mbSize = ctx.mbSize
        ∧ (allocTables allocOk ctx k i).2.log2_mbSize = ctx.log2_mbSize := by
  induction k with
  | zero => intro ctx i; exact ⟨rfl, rfl⟩
  | succ k ih =>
    intro ctx i
    unfold allocTables
    simp only []
    split
    · exact ⟨rfl, rfl⟩
    · exact ih _ _

/-- With `mbSize = m ≥ 1`, `width > 4 * m` and the image area within `int`
range, the geometry step returns, and sets `log2_mbSize` to `ceilLog2 m` and
`mbSize` to that power of two. -/
theorem blockGeometry_spec (ctx : MotionEstContext) (m : Nat) (hm : ctx.mbSize = (m : Int))
    (h1 : 1 ≤ m) (hw : 4 * (m : Int) < ctx.width) (hwmax : ctx.width ≤ INT_MAX)
    (hh : 0 ≤ ctx.height) (harea : ctx.width * ctx.height ≤ INT_MAX) :
    blockGeometry ctx = .ok
      { ctx with log2_mbSize := (ceilLog2 m : Int), mbSize := 2 ^ ceilLog2 m,
                 b_width := ctx.width / 2 ^ ceilLog2 m, b_height := ctx.height / 2 ^ ceilLog2 m,
                 b_count := ctx.width / 2 ^ ceilLog2 m * (ctx.height / 2 ^ ceilLog2 m) } := by
  have hmax : INT_MAX = 2147483647 := rfl
  have hmin : INT_MIN = -2147483648 := rfl
  have hl29 : ceilLog2 m ≤ 29 := by
    apply (ceilLog2_spec m).2 29
    have : (m : Int) ≤ 2 ^ 29 := by omega
    exact_mod_cast this
  have hpow : (0 : Int) < 2 ^ ceilLog2 m := by positivity
  have hbw0 : 0 ≤ ctx.width / 2 ^ ceilLog2 m := Int.ediv_nonneg (by omega) (le_of_lt hpow)
  have hbh0 : 0 ≤ ctx.height / 2 ^ ceilLog2 m := Int.ediv_nonneg hh (le_of_lt hpow)
  have hbw : ctx.width / 2 ^ ceilLog2 m ≤ ctx.width := Int.ediv_le_self _ (by omega)
  have hbh : ctx.height / 2 ^ ceilLog2 m ≤ ctx.height := Int.ediv_le_self _ hh
  have hprod : ctx.width / 2 ^ ceilLog2 m * (ctx.height / 2 ^ ceilLog2 m)
      ≤ ctx.width * ctx.height := mul_le_mul hbw hbh hbh0 (by omega)
  have hprod0 : 0 ≤ ctx.width / 2 ^ ceilLog2 m * (ctx.height / 2 ^ ceilLog2 m) :=
    mul_nonneg hbw0 hbh0
  have hc4 : checkedInt (4 * (m : Int)) = .ok (4 * (m : Int)) := by
    simp only [checkedInt, hmax, hmin]
    rw [if_pos (by omega)]
  have hc3 : checkedInt (3 * (m : Int)) = .ok (3 * (m : Int)) := by
    simp only [checkedInt, hmax, hmin]
    rw [if_pos (by omega)]
  have hcb : checkedInt (ctx.width / 2 ^ ceilLog2 m * (ctx.height / 2 ^ ceilLog2 m))
      = .ok (ctx.width / 2 ^ ceilLog2 m * (ctx.height / 2 ^ ceilLog2 m)) := by
    simp only [checkedInt, hmax, hmin]
    rw [if_pos (by omega)]
  have hw3 : 3 * (m : Int) < ctx.width := by omega
  have hmpos : ¬ (m : Int) ≤ 0 := by omega
  have hl31 : ¬ ceilLog2 m ≥ 31 := by omega
  unfold blockGeometry
  simp only [hm, hc4, hc3, bind, Except.bind, pure, Except.pure, Int.toNat_ofNat, hcb, gt_iff_lt,
    hw, hw3, hmpos, hl31, not_true_eq_false, if_false, not_false_eq_true, ite_false]

/-- C10 (as the code behaves): for a block-matching method, a macroblock size
`m ≥ 1` with `width > 4 * m` and an image area within `int` range,
`init_context` returns and leaves `mbSize = 2 ^ k`, `log2_mbSize = k` with `k`
the least exponent such that `m ≤ 2 ^ k`: the size is rounded up to the
smallest power of two that is `≥ m`. -/
theorem init_context_rounds_up (allocOk : Nat → Bool) (mv_allocated : Bool)
    (ctx : MotionEstContext) (m : Nat)
    (hmeth : ctx.method = BLOCK_MATCHING_ARPS ∨ ctx.method = BLOCK_MATCHING_EPZS)
    (hm : ctx.mbSize = (m : Int)) (h1 : 1 ≤ m) (hw : 4 * (m : Int) < ctx.width)
    (hwmax : ctx.width ≤ INT_MAX) (hh : 0 ≤ ctx.height)
    (harea : ctx.width * ctx.height ≤ INT_MAX) :
    ∃ (r a : Bool) (ctx1 : MotionEstContext) (k : Nat),
      init_context allocOk mv_allocated ctx = .ok (r, a, ctx1)
        ∧ ctx1.log2_mbSize = (k : Int) ∧ ctx1.mbSize = 2 ^ k
        ∧ m ≤ 2 ^ k ∧ ∀ j, m ≤ 2 ^ j → k ≤ j := by
  have hp : ∃ a c, (if mv_allocated = true then uninit mv_allocated ctx else (mv_allocated, ctx))
      = (a, c) ∧ c.method = ctx.method ∧ c.width = ctx.width ∧ c.height = ctx.height
        ∧ c.mbSize = ctx.mbSize := by
    cases mv_allocated
    · exact ⟨false, ctx, by simp, rfl, rfl, rfl, rfl⟩
    · exact ⟨(uninit true ctx).1, (uninit true ctx).2, by simp, uninit_fields true ctx⟩
  obtain ⟨a, c, hpair, hcm, hcw, hch, hcs⟩ := hp
  have hgeo := blockGeometry_spec c m (by rw [hcs, hm]) h1 (by rw [hcw]; exact hw)
    (by rw [hcw]; exact hwmax) (by rw [hch]; exact hh) (by rw [hcw, hch]; exact harea)
  have hspec := ceilLog2_spec m
  unfold init_context
  simp only [hpair, bind, Except.bind, pure, Except.pure, hgeo]
  rcases hmeth with h | h
  · have hc : c.method = BLOCK_MATCHING_ARPS := by rw [hcm, h]
    simp only [hc, BLOCK_MATCHING_ARPS, LK_OPTICAL_FLOW_8BIT, LK_OPTICAL_FLOW, BLOCK_MATCHING_EPZS]
    simp only [show ¬ ((2 : Int) = 0 ∨ (2 : Int) = 1) by decide, if_false, if_true]
    split
    · exact ⟨_, _, _, ceilLog2 m, rfl, rfl, rfl, hspec.1, hspec.2⟩
    · exact ⟨_, _, _, ceilLog2 m, rfl, rfl, rfl, hspec.1, hspec.2⟩
  · have hc : c.method = BLOCK_MATCHING_EPZS := by rw [hcm, h]
    simp only [hc, BLOCK_MATCHING_ARPS, LK_OPTICAL_FLOW_8BIT, LK_OPTICAL_FLOW, BLOCK_MATCHING_EPZS]
    simp only [show ¬ ((3 : Int) = 0 ∨ (3 : Int) = 1) by decide, show ¬ ((3 : Int) = 2) by decide,
      if_false, if_true]
    split
    · exact ⟨_, _, _, ceilLog2 m, rfl, (allocTables_fields _ _ _ _).2,
        (allocTables_fields _ _ _ _).1, hspec.1, hspec.2⟩
    · exact ⟨_, _, _, ceilLog2 m, rfl, (allocTables_fields _ _ _ _).2,
        (allocTables_fields _ _ _ _).1, hspec.1, hspec.2⟩

/-- Witness for C10: ARPS on a 100 x 75 image with
`mbSize` 5, the second allocation unavailable. -/
theorem init_context_rounds_up_witness :
    ∃ (r a : Bool) (ctx1 : MotionEstContext) (k : Nat),
      init_context (fun i => decide (i = 0)) true
          { MotionEstContext.init with method := BLOCK_MATCHING_ARPS, width := 100, height := 75,
                                       mbSize := 5 } = .ok (r, a, ctx1)
        ∧ ctx1.log2_mbSize = (k : Int) ∧ ctx1.mbSize = 2 ^ k
        ∧ 5 ≤ 2 ^ k ∧ ∀ j, 5 ≤ 2 ^ j → k ≤ j :=
  init_context_rounds_up (fun i => decide (i = 0)) true
    { MotionEstContext.init with method := BLOCK_MATCHING_ARPS, width := 100, height := 75,
                                 mbSize := 5 } 5
    (Or.inl rfl) rfl (by decide) (by decide) (by decide) (by decide) (by decide)

/-- C10 (counterexample to rounding down): with `mbSize = 6` on a 100 x 75
image, `init_context` leaves `mbSize = 8` and `log2_mbSize = 3`, for ARPS and
for EPZS alike; 8 is not `≤ 6`, and the largest power of two that is `≤ 6` is
4. -/
theorem init_context_six_becomes_eight :
    (init_context (fun _ => true) false
        { MotionEstContext.init with method := BLOCK_MATCHING_ARPS, width := 100, height := 75,
                                     mbSize := 6 }).map (fun r => (r.1, r.2.2.mbSize, r.2.2.log2_mbSize))
        = .ok (true, 8, 3)
    ∧ (init_context (fun _ => true) false
        { MotionEstContext.init with method := BLOCK_MATCHING_EPZS, width := 100, height := 75,
                                     mbSize := 6 }).map (fun r => (r.1, r.2.2.mbSize, r.2.2.log2_mbSize))
        = .ok (true, 8, 3)
    ∧ ¬ ((8 : Int) ≤ 6)
    ∧ ((4 : Int) = 2 ^ 2 ∧ (4 : Int) ≤ 6 ∧ ∀ k : Nat, (2 : Int) ^ k ≤ 6 → (2 : Int) ^ k ≤ 4) := by
  refine ⟨by decide, by decide, by decide, by decide, by decide, ?_⟩
  intro k hk
  have hk2 : k ≤ 2 := by
    by_contra hgt
    have h3 : (2 : Int) ^ 3 ≤ 2 ^ k := pow_le_pow_right₀ (by norm_num) (by omega)
    norm_num at h3
    omega
  interval_cases k <;> norm_num

/-! ## Context initialisation: geometry checks and re-initialisation -/

/-- `ceilLog2` of a power of two is its exponent. -/
theorem ceilLog2_two_pow (l : Nat) : ceilLog2 (2 ^ l) = l := by
  have h := ceilLog2_spec (2 ^ l)
  apply le_antisymm
  · exact h.2 l (le_refl _)
  · exact (Nat.pow_le_pow_iff_right (by norm_num)).mp h.1

/-- `uninit` leaves every field but the plane pointers and the vector tables. -/
theorem uninit_eq (a : Bool) (ctx : MotionEstContext) :
    (uninit a ctx).2 = { ctx with data_ref := none, data_cur := none,
                                  mv_table := (uninit a ctx).2.mv_table } := by
  unfold uninit
  simp only []
  split
  · rfl
  · split
    · rfl
    · split <;> rfl

/-- The geometry step returns exactly when its checks pass, and then with the
fields computed from `ceil(log2(mbSize))`. -/
theorem blockGeometry_eq (ctx : MotionEstContext) (m : Nat) (hm : ctx.mbSize = (m : Int))
    (h1 : 1 ≤ m) (h4 : 4 * (m : Int) ≤ INT_MAX) (hw : 4 * (m : Int) < ctx.width)
    (hl : ceilLog2 m < 31)
    (hlo : INT_MIN ≤ ctx.width / 2 ^ ceilLog2 m * (ctx.height / 2 ^ ceilLog2 m))
    (hhi : ctx.width / 2 ^ ceilLog2 m * (ctx.height / 2 ^ ceilLog2 m) ≤ INT_MAX) :
    blockGeometry ctx = .ok
      { ctx with log2_mbSize := (ceilLog2 m : Int), mbSize := 2 ^ ceilLog2 m,
                 b_width := ctx.width / 2 ^ ceilLog2 m, b_height := ctx.height / 2 ^ ceilLog2 m,
                 b_count := ctx.width / 2 ^ ceilLog2 m * (ctx.height / 2 ^ ceilLog2 m) } := by
  have hmax : INT_MAX = 2147483647 := rfl
  have hmin : INT_MIN = -2147483648 := rfl
  have hc4 : checkedInt (4 * (m : Int)) = .ok (4 * (m : Int)) := by
    simp only [checkedInt, hmax, hmin]
    rw [if_pos (by omega)]
  have hc3 : checkedInt (3 * (m : Int)) = .ok (3 * (m : Int)) := by
    simp only [checkedInt, hmax, hmin]
    rw [if_pos (by omega)]
  have hcb : checkedInt (ctx.width / 2 ^ ceilLog2 m * (ctx.height / 2 ^ ceilLog2 m))
      = .ok (ctx.width / 2 ^ ceilLog2 m * (ctx.height / 2 ^ ceilLog2 m)) := by
    simp only [checkedInt]
    rw [if_pos ⟨hlo, hhi⟩]
  have hw3 : 3 * (m : Int) < ctx.width := by omega
  have hmpos : ¬ (m : Int) ≤ 0 := by omega
  have hl31 : ¬ ceilLog2 m ≥ 31 := by omega
  unfold blockGeometry
  simp only [hm, hc4, hc3, bind, Except.bind, pure, Except.pure, Int.toNat_ofNat, hcb, gt_iff_lt,
    hw, hw3, hmpos, hl31, not_true_eq_false, if_false, not_false_eq_true, ite_false]

/-- When the geometry step returns, its checks passed and the result is the
context with the fields computed from `ceil(log2(mbSize))`. -/
theorem blockGeometry_inv (ctx g : MotionEstContext) (h : blockGeometry ctx = .ok g) :
    ∃ m : Nat, ctx.mbSize = (m : Int) ∧ 1 ≤ m ∧ 4 * (m : Int) ≤ INT_MAX ∧ 4 * (m : Int) < ctx.width
      ∧ ceilLog2 m < 31
      ∧ INT_MIN ≤ ctx.width / 2 ^ ceilLog2 m * (ctx.height / 2 ^ ceilLog2 m)
      ∧ ctx.width / 2 ^ ceilLog2 m * (ctx.height / 2 ^ ceilLog2 m) ≤ INT_MAX
      ∧ g = { ctx with log2_mbSize := (ceilLog2 m : Int), mbSize := 2 ^ ceilLog2 m,
                       b_width := ctx.width / 2 ^ ceilLog2 m,
                       b_height := ctx.height / 2 ^ ceilLog2 m,
                       b_count := ctx.width / 2 ^ ceilLog2 m * (ctx.height / 2 ^ ceilLog2 m) } := by
  unfold blockGeometry at h
  simp only [bind, Except.bind, pure, Except.pure, checkedInt, throw, throwThe,
    MonadExceptOf.throw] at h
  repeat' split at h
  all_goals first
    | (exfalso; exact Except.noConfusion h)
    | skip
  rename_i x2 v2 heq2 hw4 x1 v1 heq1 hw3 hpos hl x0 v0 heq0
  split at heq2
  · rename_i hr4
    split at heq0
    · rename_i hrb
      simp only [Except.ok.injEq] at heq2 heq0 h
      subst heq2 heq0
      have hm : ctx.mbSize = ((ctx.mbSize.toNat : Nat) : Int) := (Int.toNat_of_nonneg (by omega)).symm
      refine ⟨ctx.mbSize.toNat, hm, by omega, by omega, by omega, by omega, hrb.1, hrb.2, h.symm⟩
    · exact absurd heq0 (by simp)
  · exact absurd heq2 (by simp)


/-- An allocation that succeeds was allowed by the allocator, for a
non-negative count, and returns that many zero vectors. -/
theorem callocVectors_isSome (ok : Bool) (n : Int) (h : (callocVectors ok n).isNone = false) :
    ok = true ∧ 0 ≤ n
      ∧ callocVectors ok n = some (List.replicate n.toNat MotionVector16_t.zero) := by
  unfold callocVectors at h ⊢
  split
  · rename_i hc
    exact ⟨hc.1, hc.2, rfl⟩
  · rename_i hc
    simp [hc] at h

/-- An allocation the allocator allows, for a non-negative count, succeeds. -/
theorem callocVectors_ok (n : Int) (h : 0 ≤ n) :
    callocVectors true n = some (List.replicate n.toNat MotionVector16_t.zero) := by
  simp [callocVectors, h]

/-- The allocation loop of the EPZS case succeeds exactly when its three
allocations do, and then fills the three pointers with `b_count` zero
vectors each. -/
theorem allocTables_three (allocOk : Nat → Bool) (g : MotionEstContext) :
    (allocTables allocOk g 3 0).1 = true ↔
      (allocOk 0 = true ∧ allocOk 1 = true ∧ allocOk 2 = true ∧ 0 ≤ g.b_count) := by
  by_cases hb : 0 ≤ g.b_count <;> cases h0 : allocOk 0 <;> cases h1 : allocOk 1 <;>
    cases h2 : allocOk 2 <;>
    simp [allocTables, callocVectors, hb, h0, h1, h2, MvTables.set]

/-- The tables the allocation loop of the EPZS case leaves when it succeeds. -/
theorem allocTables_three_tables (allocOk : Nat → Bool) (g : MotionEstContext)
    (h : (allocTables allocOk g 3 0).1 = true) :
    (allocTables allocOk g 3 0).2
      = { g with mv_table :=
            { t0 := some (List.replicate g.b_count.toNat MotionVector16_t.zero),
              t1 := some (List.replicate g.b_count.toNat MotionVector16_t.zero),
              t2 := some (List.replicate g.b_count.toNat MotionVector16_t.zero) } } := by
  obtain ⟨h0, h1, h2, hb⟩ := (allocTables_three allocOk g).mp h
  simp [allocTables, callocVectors, hb, h0, h1, h2, MvTables.set]

/-- What a successful `init_context` did for a block-matching method: the
geometry step returned on the context as `uninit` left it and the tables were
allocated with `b_count` zero vectors (one table for ARPS, three for EPZS). -/
theorem init_context_block_inv (allocOk : Nat → Bool) (a a1 : Bool) (ctx ctx1 : MotionEstContext)
    (hmeth : ctx.method = BLOCK_MATCHING_ARPS ∨ ctx.method = BLOCK_MATCHING_EPZS)
    (h : init_context allocOk a ctx = .ok (true, a1, ctx1)) :
    ∃ g, blockGeometry (if a = true then (uninit a ctx).2 else ctx) = .ok g ∧ a1 = true
      ∧ 0 ≤ g.b_count
      ∧ ((ctx.method = BLOCK_MATCHING_ARPS ∧ allocOk 0 = true ∧
            ctx1 = { g with
              mv_table := g.mv_table.set 0
                (some (List.replicate g.b_count.toNat MotionVector16_t.zero)),
              max := 0 })
          ∨ (ctx.method = BLOCK_MATCHING_EPZS ∧ allocOk 0 = true ∧ allocOk 1 = true
              ∧ allocOk 2 = true ∧
            ctx1 = { g with
              mv_table :=
                { t0 := some (List.replicate g.b_count.toNat MotionVector16_t.zero),
                  t1 := some (List.replicate g.b_count.toNat MotionVector16_t.zero),
                  t2 := some (List.replicate g.b_count.toNat MotionVector16_t.zero) },
              max := 0 })) := by
  have hc : ∃ a2 c, (if a = true then uninit a ctx else (a, ctx)) = (a2, c)
      ∧ c = (if a = true then (uninit a ctx).2 else ctx) ∧ c.method = ctx.method := by
    cases a
    · exact ⟨false, ctx, by simp, by simp, rfl⟩
    · exact ⟨(uninit true ctx).1, (uninit true ctx).2, by simp, by simp,
        (uninit_fields true ctx).1⟩
  obtain ⟨a2, c, hpair, hceq, hcm⟩ := hc
  rw [← hceq]
  unfold init_context at h
  simp only [hpair, bind, Except.bind, pure, Except.pure] at h
  rcases hmeth with hm | hm
  · have hc2 : c.method = BLOCK_MATCHING_ARPS := by rw [hcm, hm]
    simp only [hc2, BLOCK_MATCHING_ARPS, LK_OPTICAL_FLOW_8BIT, LK_OPTICAL_FLOW,
      BLOCK_MATCHING_EPZS] at h
    simp only [show ¬ ((2 : Int) = 0 ∨ (2 : Int) = 1) by decide, if_false, if_true] at h
    cases hg : blockGeometry c with
    | error e => simp [hg] at h
    | ok g =>
      simp only [hg] at h
      split at h
      · simp at h
      · rename_i hnone
        simp only [Except.ok.injEq, Prod.mk.injEq, true_and] at h
        obtain ⟨ha1, hctx1⟩ := h
        obtain ⟨hok, hb, hsome⟩ := callocVectors_isSome _ _ (Bool.eq_false_iff.mpr hnone)
        refine ⟨g, rfl, ha1.symm, hb, Or.inl ⟨hm, hok, ?_⟩⟩
        rw [← hctx1, hsome]
  · have hc2 : c.method = BLOCK_MATCHING_EPZS := by rw [hcm, hm]
    simp only [hc2, BLOCK_MATCHING_ARPS, LK_OPTICAL_FLOW_8BIT, LK_OPTICAL_FLOW,
      BLOCK_MATCHING_EPZS] at h
    simp only [show ¬ ((3 : Int) = 0 ∨ (3 : Int) = 1) by decide, show ¬ ((3 : Int) = 2) by decide,
      if_false, if_true] at h
    cases hg : blockGeometry c with
    | error e => simp [hg] at h
    | ok g =>
      simp only [hg] at h
      split at h
      · simp at h
      · rename_i hok
        simp only [Except.ok.injEq, Prod.mk.injEq, true_and] at h
        obtain ⟨ha1, hctx1⟩ := h
        have hall : (allocTables allocOk g 3 0).1 = true := by simpa using hok
        obtain ⟨h0, h1, h2, hb⟩ := (allocTables_three allocOk g).mp hall
        refine ⟨g, rfl, ha1.symm, hb, Or.inr ⟨hm, h0, h1, h2, ?_⟩⟩
        rw [← hctx1, allocTables_three_tables allocOk g hall]

/-- A block-matching `init_context` whose geometry step returns `g` and whose
allocations succeed returns true with `g` and its fresh tables. -/
theorem init_context_block_ok (allocOk : Nat → Bool) (a : Bool) (ctx g : MotionEstContext)
    (hmeth : ctx.method = BLOCK_MATCHING_ARPS ∨ ctx.method = BLOCK_MATCHING_EPZS)
    (hg : blockGeometry (if a = true then (uninit a ctx).2 else ctx) = .ok g)
    (hb : 0 ≤ g.b_count) (halloc : ∀ i, i < 3 → allocOk i = true) :
    ∃ ctx1, init_context allocOk a ctx = .ok (true, true, ctx1)
      ∧ ((ctx.method = BLOCK_MATCHING_ARPS ∧
            ctx1 = { g with
              mv_table := g.mv_table.set 0
                (some (List.replicate g.b_count.toNat MotionVector16_t.zero)),
              max := 0 })
          ∨ (ctx.method = BLOCK_MATCHING_EPZS ∧
            ctx1 = { g with
              mv_table :=
                { t0 := some (List.replicate g.b_count.toNat MotionVector16_t.zero),
                  t1 := some (List.replicate g.b_count.toNat MotionVector16_t.zero),
                  t2 := some (List.replicate g.b_count.toNat MotionVector16_t.zero) },
              max := 0 })) := by
  have h0 := halloc 0 (by omega)
  have h1 := halloc 1 (by omega)
  have h2 := halloc 2 (by omega)
  have hc : ∃ a2 c, (if a = true then uninit a ctx else (a, ctx)) = (a2, c)
      ∧ c = (if a = true then (uninit a ctx).2 else ctx) ∧ c.method = ctx.method := by
    cases a
    · exact ⟨false, ctx, by simp, by simp, rfl⟩
    · exact ⟨(uninit true ctx).1, (uninit true ctx).2, by simp, by simp,
        (uninit_fields true ctx).1⟩
  obtain ⟨a2, c, hpair, hceq, hcm⟩ := hc
  rw [← hceq] at hg
  unfold init_context
  simp only [hpair, bind, Except.bind, pure, Except.pure, hg]
  rcases hmeth with hm | hm
  · have hc2 : c.method = BLOCK_MATCHING_ARPS := by rw [hcm, hm]
    simp only [hc2, BLOCK_MATCHING_ARPS, LK_OPTICAL_FLOW_8BIT, LK_OPTICAL_FLOW,
      BLOCK_MATCHING_EPZS]
    simp only [show ¬ ((2 : Int) = 0 ∨ (2 : Int) = 1) by decide, if_false, if_true]
    rw [h0, callocVectors_ok _ hb]
    exact ⟨_, rfl, Or.inl ⟨hm, rfl⟩⟩
  · have hc2 : c.method = BLOCK_MATCHING_EPZS := by rw [hcm, hm]
    simp only [hc2, BLOCK_MATCHING_ARPS, LK_OPTICAL_FLOW_8BIT, LK_OPTICAL_FLOW,
      BLOCK_MATCHING_EPZS]
    simp only [show ¬ ((3 : Int) = 0 ∨ (3 : Int) = 1) by decide, show ¬ ((3 : Int) = 2) by decide,
      if_false, if_true]
    have hall : (allocTables allocOk g 3 0).1 = true :=
      (allocTables_three allocOk g).mpr ⟨h0, h1, h2, hb⟩
    simp only [hall, Bool.not_true, Bool.false_eq_true, if_false]
    rw [allocTables_three_tables allocOk g hall]
    exact ⟨_, rfl, Or.inr ⟨hm, rfl⟩⟩


/-- C11 (as the code behaves): for a block-matching method with `mbSize = m ≥
1` and `width > 4 * m`, `init_context` succeeds whatever the height (any
height from 0 up, allocations permitting): both asserts test `width`, none
tests `height`. -/
theorem init_context_height_unchecked (allocOk : Nat → Bool) (a : Bool) (ctx : MotionEstContext)
    (m : Nat) (hmeth : ctx.method = BLOCK_MATCHING_ARPS ∨ ctx.method = BLOCK_MATCHING_EPZS)
    (hm : ctx.mbSize = (m : Int)) (h1 : 1 ≤ m) (hw : 4 * (m : Int) < ctx.width)
    (hwmax : ctx.width ≤ INT_MAX) (hh : 0 ≤ ctx.height)
    (harea : ctx.width * ctx.height ≤ INT_MAX) (halloc : ∀ i, i < 3 → allocOk i = true) :
    ∃ ctx1, init_context allocOk a ctx = .ok (true, true, ctx1) ∧ ctx1.height = ctx.height
      ∧ ctx1.b_height = ctx.height / ctx1.mbSize := by
  have hf : (if a = true then (uninit a ctx).2 else ctx).method = ctx.method
      ∧ (if a = true then (uninit a ctx).2 else ctx).width = ctx.width
      ∧ (if a = true then (uninit a ctx).2 else ctx).height = ctx.height
      ∧ (if a = true then (uninit a ctx).2 else ctx).mbSize = ctx.mbSize := by
    cases a
    · exact ⟨rfl, rfl, rfl, rfl⟩
    · exact uninit_fields true ctx
  obtain ⟨hcm, hcw, hch, hcs⟩ := hf
  have hg := blockGeometry_spec (if a = true then (uninit a ctx).2 else ctx) m (by rw [hcs, hm]) h1
    (by rw [hcw]; exact hw) (by rw [hcw]; exact hwmax) (by rw [hch]; exact hh)
    (by rw [hcw, hch]; exact harea)
  have hpow : (0 : Int) < 2 ^ ceilLog2 m := by positivity
  have hb : 0 ≤ ctx.width / 2 ^ ceilLog2 m * (ctx.height / 2 ^ ceilLog2 m) :=
    mul_nonneg (Int.ediv_nonneg (by omega) (le_of_lt hpow)) (Int.ediv_nonneg hh (le_of_lt hpow))
  obtain ⟨ctx1, hinit, hres⟩ := init_context_block_ok allocOk a ctx _ hmeth hg
    (by simpa [hcw, hch] using hb) halloc
  refine ⟨ctx1, hinit, ?_⟩
  rcases hres with ⟨_, rfl⟩ | ⟨_, rfl⟩ <;> simp [hch]

/-- Witness for C11: EPZS on a 100 x 10 image with `mbSize` 6, so that the
height is below `3 * mbSize = 18`. -/
theorem init_context_height_unchecked_witness :
    (10 : Int) ≤ 3 * 6 ∧
    ∃ ctx1, init_context (fun _ => true) false
        { MotionEstContext.init with method := BLOCK_MATCHING_EPZS, width := 100, height := 10,
                                     mbSize := 6 } = .ok (true, true, ctx1)
      ∧ ctx1.height = 10 ∧ ctx1.b_height = 10 / ctx1.mbSize :=
  ⟨by decide,
    init_context_height_unchecked (fun _ => true) false
      { MotionEstContext.init with method := BLOCK_MATCHING_EPZS, width := 100, height := 10,
                                   mbSize := 6 } 6
      (Or.inr rfl) rfl (by decide) (by decide) (by decide) (by decide) (by decide)
      (fun _ _ => rfl)⟩

set_option maxRecDepth 1000000 in
/-- C12 (as the code behaves): EPZS on a 25 x 7 image with `mbSize` 6 passes
the asserts (25 > 24) and, where `calloc(0, ..)` returns a pointer, succeeds
with `b_width = 3`, `b_height = 0`, `b_count = 0`; `checkMotion` on a first
frame of that grid then divides by `nb_mv = 0`, whether the allocations
succeed or not. -/
theorem init_context_zero_blocks :
    (init_context (fun _ => true) false
        { MotionEstContext.init with method := BLOCK_MATCHING_EPZS, width := 25, height := 7,
                                     mbSize := 6, search_param := 9 }).map
        (fun r => (r.1, r.2.2.b_width, r.2.2.b_height, r.2.2.b_count)) = .ok (true, 3, 0, 0)
    ∧ checkMotion (constantSearch MotionVector16_t.zero) MotionState.init (shortFrame true) false
        = .error Fault.undefinedBehaviour
    ∧ checkMotion (constantSearch MotionVector16_t.zero) MotionState.init (shortFrame false) false
        = .error Fault.undefinedBehaviour := by
  decide

/-- C13 (counterexample): EPZS on a 25 x 75 image with `mbSize` 6 initialises
(25 > 24) and rewrites `mbSize` to 8; after `uninit`, `init_context` on the
same context stops at `assert(width > 4 * mbSize)`, as 25 is not above 32. -/
theorem init_context_reinit_aborts :
    (init_context (fun _ => true) false
        { MotionEstContext.init with method := BLOCK_MATCHING_EPZS, width := 25, height := 75,
                                     mbSize := 6 }).map (fun r => (r.1, r.2.2.mbSize))
      = .ok (true, 8)
    ∧ (init_context (fun _ => true) false
        { MotionEstContext.init with method := BLOCK_MATCHING_EPZS, width := 25, height := 75,
                                     mbSize := 6 } >>= fun r =>
          init_context (fun _ => true) (uninit r.2.1 r.2.2).1 (uninit r.2.1 r.2.2).2)
      = .error Fault.assertFailed := by
  decide


/-- Reading a table pointer after an assignment to the table array. -/
theorem MvTables.get_set (t : MvTables) (i j : Nat) (p : Option (List MotionVector16_t))
    (hi : i < 3) : (t.set i p).get j = if j = i then p else t.get j := by
  match i, hi with
  | 0, _ =>
    match j with
    | 0 => rfl
    | 1 => rfl
    | 2 => rfl
    | _ + 3 => rfl
  | 1, _ =>
    match j with
    | 0 => rfl
    | 1 => rfl
    | 2 => rfl
    | _ + 3 => rfl
  | 2, _ =>
    match j with
    | 0 => rfl
    | 1 => rfl
    | 2 => rfl
    | _ + 3 => rfl

/-- The tables `uninit` leaves: with `mv_allocated` set, table 0 is released
for the optical-flow and ARPS methods and all three for EPZS. -/
theorem uninit_tables (ctx : MotionEstContext) :
    (ctx.method = LK_OPTICAL_FLOW_8BIT ∨ ctx.method = LK_OPTICAL_FLOW
        ∨ ctx.method = BLOCK_MATCHING_ARPS →
      uninit true ctx = (false, { ctx with data_ref := none, data_cur := none,
                                           mv_table := ctx.mv_table.set 0 none }))
    ∧ (ctx.method = BLOCK_MATCHING_EPZS →
      uninit true ctx = (true, { ctx with data_ref := none, data_cur := none,
                                          mv_table := { t0 := none, t1 := none, t2 := none } })) := by
  constructor
  · intro h
    simp [uninit, h, freep]
  · intro h
    simp [uninit, h, freep, MvTables.set, BLOCK_MATCHING_EPZS, LK_OPTICAL_FLOW_8BIT,
      LK_OPTICAL_FLOW, BLOCK_MATCHING_ARPS]

/-- What a successful `init_context` did for an optical-flow method. -/
theorem init_context_lk_inv (allocOk : Nat → Bool) (a a1 : Bool) (ctx ctx1 : MotionEstContext)
    (hmeth : ctx.method = LK_OPTICAL_FLOW_8BIT ∨ ctx.method = LK_OPTICAL_FLOW)
    (h : init_context allocOk a ctx = .ok (true, a1, ctx1)) :
    a1 = true ∧ INT_MIN ≤ ctx.width * ctx.height ∧ ctx.width * ctx.height ≤ INT_MAX
      ∧ 0 ≤ ctx.width * ctx.height
      ∧ ctx1 = { (if a = true then (uninit a ctx).2 else ctx) with
          mv_table := (if a = true then (uninit a ctx).2 else ctx).mv_table.set 0
            (some (List.replicate (ctx.width * ctx.height).toNat MotionVector16_t.zero)),
          max := 0 } := by
  have hc : ∃ a2 c, (if a = true then uninit a ctx else (a, ctx)) = (a2, c)
      ∧ c = (if a = true then (uninit a ctx).2 else ctx) ∧ c.method = ctx.method
      ∧ c.width = ctx.width ∧ c.height = ctx.height := by
    cases a
    · exact ⟨false, ctx, by simp, by simp, rfl, rfl, rfl⟩
    · exact ⟨(uninit true ctx).1, (uninit true ctx).2, by simp, by simp,
        (uninit_fields true ctx).1, (uninit_fields true ctx).2.1, (uninit_fields true ctx).2.2.1⟩
  obtain ⟨a2, c, hpair, hceq, hcm, hcw, hch⟩ := hc
  rw [← hceq]
  unfold init_context at h
  have hc2 : c.method = LK_OPTICAL_FLOW_8BIT ∨ c.method = LK_OPTICAL_FLOW := by rw [hcm]; exact hmeth
  simp only [hpair, bind, Except.bind, pure, Except.pure, hc2, if_true, checkedInt] at h
  split at h
  · simp at h
  · rename_i x v heq
    split at heq
    · rename_i hr
      simp only [Except.ok.injEq] at heq
      subst heq
      split at h
      · simp at h
      · rename_i hnone
        simp only [Except.ok.injEq, Prod.mk.injEq, true_and] at h
        obtain ⟨hok, hb, hsome⟩ := callocVectors_isSome _ _ (Bool.eq_false_iff.mpr hnone)
        rw [hsome] at h
        have hprod : c.width * c.height = ctx.width * ctx.height := by rw [hcw, hch]
        rw [hprod] at hr hb h
        exact ⟨h.1.symm, hr.1, hr.2, hb, h.2.symm⟩
    · simp at heq

/-- An optical-flow `init_context` on a context not marked allocated, whose
pixel count is a non-negative `int` and whose allocation succeeds. -/
theorem init_context_lk_ok (allocOk : Nat → Bool) (ctx : MotionEstContext)
    (hmeth : ctx.method = LK_OPTICAL_FLOW_8BIT ∨ ctx.method = LK_OPTICAL_FLOW)
    (hlo : 0 ≤ ctx.width * ctx.height) (hhi : ctx.width * ctx.height ≤ INT_MAX)
    (halloc : allocOk 0 = true) :
    init_context allocOk false ctx = .ok (true, true,
      { ctx with
        mv_table := ctx.mv_table.set 0
          (some (List.replicate (ctx.width * ctx.height).toNat MotionVector16_t.zero)),
        max := 0 }) := by
  have hmin : INT_MIN ≤ ctx.width * ctx.height := by
    have : INT_MIN = -2147483648 := rfl
    omega
  unfold init_context
  simp only [Bool.false_eq_true, if_false, bind, Except.bind, pure, Except.pure, hmeth, if_true,
    checkedInt, hmin, hhi, and_self, halloc, callocVectors_ok _ hlo]
  rfl


/-- C13 (as the code behaves): when `init_context` succeeded on a context, then
`uninit` followed by `init_context` on the same context succeeds again
(allocations permitting) and yields the same `mbSize`, `log2_mbSize`,
`b_width`, `b_height`, `b_count` and tables of the same lengths, provided
that, for a block-matching method, the width also exceeds 4 times the
macroblock size the first call wrote in place. -/
theorem init_context_reinit_same (allocOk allocOk2 : Nat → Bool) (a a1 : Bool)
    (ctx ctx1 : MotionEstContext) (h : init_context allocOk a ctx = .ok (true, a1, ctx1))
    (hwmax : ctx.width ≤ INT_MAX)
    (hfit : ctx.method = BLOCK_MATCHING_ARPS ∨ ctx.method = BLOCK_MATCHING_EPZS →
      4 * ctx1.mbSize < ctx1.width)
    (halloc2 : ∀ i, i < 3 → allocOk2 i = true) :
    ∃ ctx2, init_context allocOk2 (uninit a1 ctx1).1 (uninit a1 ctx1).2 = .ok (true, true, ctx2)
      ∧ ctx2.mbSize = ctx1.mbSize ∧ ctx2.log2_mbSize = ctx1.log2_mbSize
      ∧ ctx2.b_width = ctx1.b_width ∧ ctx2.b_height = ctx1.b_height
      ∧ ctx2.b_count = ctx1.b_count
      ∧ ∀ i, (ctx2.mv_table.get i).map List.length = (ctx1.mv_table.get i).map List.length := by
  have hf : (if a = true then (uninit a ctx).2 else ctx).method = ctx.method
      ∧ (if a = true then (uninit a ctx).2 else ctx).width = ctx.width
      ∧ (if a = true then (uninit a ctx).2 else ctx).height = ctx.height
      ∧ (if a = true then (uninit a ctx).2 else ctx).mbSize = ctx.mbSize := by
    cases a
    · exact ⟨rfl, rfl, rfl, rfl⟩
    · exact uninit_fields true ctx
  obtain ⟨hcm, hcw, hch, hcs⟩ := hf
  by_cases hlk : ctx.method = LK_OPTICAL_FLOW_8BIT ∨ ctx.method = LK_OPTICAL_FLOW
  · -- optical flow
    obtain ⟨ha1, hlo, hhi, h0, hctx1⟩ := init_context_lk_inv allocOk a a1 ctx ctx1 hlk h
    subst ha1
    have hm1 : ctx1.method = LK_OPTICAL_FLOW_8BIT ∨ ctx1.method = LK_OPTICAL_FLOW := by
      rw [hctx1]; simpa [hcm] using hlk
    have hun := (uninit_tables ctx1).1 (by tauto)
    rw [hun]
    have hw1 : ctx1.width = ctx.width := by rw [hctx1]; simpa using hcw
    have hh1 : ctx1.height = ctx.height := by rw [hctx1]; simpa using hch
    have hok := init_context_lk_ok allocOk2
      { ctx1 with data_ref := none, data_cur := none, mv_table := ctx1.mv_table.set 0 none }
      hm1 (by simpa [hw1, hh1] using h0) (by simpa [hw1, hh1] using hhi) (halloc2 0 (by omega))
    refine ⟨_, hok, rfl, rfl, rfl, rfl, rfl, ?_⟩
    intro i
    simp only [MvTables.get_set _ _ _ _ (show 0 < 3 by omega), hw1, hh1]
    rw [hctx1]
    simp only [MvTables.get_set _ _ _ _ (show 0 < 3 by omega)]
    split <;> simp
  · by_cases hbm : ctx.method = BLOCK_MATCHING_ARPS ∨ ctx.method = BLOCK_MATCHING_EPZS
    · -- block matching
      obtain ⟨g, hg, ha1, hb, hres⟩ := init_context_block_inv allocOk a a1 ctx ctx1 hbm h
      subst ha1
      generalize hcdef : (if a = true then (uninit a ctx).2 else ctx) = c at hcm hcw hch hcs hg
      obtain ⟨m, hm, hm1, hm4, hmw, hl, hplo, hphi, hgeq⟩ := blockGeometry_inv c g hg
      have hfit1 := hfit hbm
      -- the fields of the first result
      have h1f : ctx1.mbSize = 2 ^ ceilLog2 m ∧ ctx1.log2_mbSize = (ceilLog2 m : Int)
          ∧ ctx1.width = c.width ∧ ctx1.height = c.height ∧ ctx1.method = c.method
          ∧ ctx1.b_width = c.width / 2 ^ ceilLog2 m
          ∧ ctx1.b_height = c.height / 2 ^ ceilLog2 m
          ∧ ctx1.b_count = c.width / 2 ^ ceilLog2 m * (c.height / 2 ^ ceilLog2 m) := by
        rcases hres with ⟨_, _, rfl⟩ | ⟨_, _, _, _, rfl⟩ <;> rw [hgeq] <;>
          exact ⟨rfl, rfl, rfl, rfl, rfl, rfl, rfl, rfl⟩
      obtain ⟨h1s, h1l, h1w, h1h, h1m, h1bw, h1bh, h1bc⟩ := h1f
      have hbc : g.b_count = c.width / 2 ^ ceilLog2 m * (c.height / 2 ^ ceilLog2 m) := by
        rw [hgeq]
      -- the context the second call works on
      have hf2 : (if (uninit true ctx1).1 = true then (uninit (uninit true ctx1).1 (uninit true ctx1).2).2
            else (uninit true ctx1).2).method = ctx1.method
          ∧ (if (uninit true ctx1).1 = true then (uninit (uninit true ctx1).1 (uninit true ctx1).2).2
            else (uninit true ctx1).2).width = ctx1.width
          ∧ (if (uninit true ctx1).1 = true then (uninit (uninit true ctx1).1 (uninit true ctx1).2).2
            else (uninit true ctx1).2).height = ctx1.height
          ∧ (if (uninit true ctx1).1 = true then (uninit (uninit true ctx1).1 (uninit true ctx1).2).2
            else (uninit true ctx1).2).mbSize = ctx1.mbSize
          ∧ (ctx1.method = BLOCK_MATCHING_ARPS →
            (if (uninit true ctx1).1 = true
              then (uninit (uninit true ctx1).1 (uninit true ctx1).2).2
              else (uninit true ctx1).2).mv_table = ctx1.mv_table.set 0 none) := by
        have hu := uninit_fields true ctx1
        refine ⟨?_, ?_, ?_, ?_, ?_⟩
        · split
          · exact (uninit_fields _ _).1.trans hu.1
          · exact hu.1
        · split
          · exact (uninit_fields _ _).2.1.trans hu.2.1
          · exact hu.2.1
        · split
          · exact (uninit_fields _ _).2.2.1.trans hu.2.2.1
          · exact hu.2.2.1
        · split
          · exact (uninit_fields _ _).2.2.2.trans hu.2.2.2
          · exact hu.2.2.2
        · intro hx
          rw [(uninit_tables ctx1).1 (Or.inr (Or.inr hx))]
          simp
      generalize hccdef : (if (uninit true ctx1).1 = true
          then (uninit (uninit true ctx1).1 (uninit true ctx1).2).2
          else (uninit true ctx1).2) = cc at hf2
      obtain ⟨h2m, h2w, h2h, h2s, h2t⟩ := hf2
      have hpow : ((2 ^ ceilLog2 m : Nat) : Int) = 2 ^ ceilLog2 m := by push_cast; rfl
      have hcl := ceilLog2_two_pow (ceilLog2 m)
      have hmx : INT_MAX = 2147483647 := rfl
      rw [h1s, h1w] at hfit1
      have hg2 := blockGeometry_eq cc (2 ^ ceilLog2 m)
        (by rw [h2s, h1s, hpow]) (Nat.one_le_two_pow)
        (by rw [hpow]; omega)
        (by rw [hpow, h2w, h1w]; exact hfit1)
        (by rw [hcl]; exact hl)
        (by rw [hcl, h2w, h2h, h1w, h1h]; exact hplo)
        (by rw [hcl, h2w, h2h, h1w, h1h]; exact hphi)
      rw [hcl] at hg2
      obtain ⟨ctx2, hinit2, hres2⟩ := init_context_block_ok allocOk2 (uninit true ctx1).1
        (uninit true ctx1).2 _ (by rw [(uninit_fields true ctx1).1, h1m, hcm]; exact hbm)
        (by rw [hccdef]; exact hg2)
        (by simpa [h2w, h2h, h1w, h1h] using (hbc ▸ hb)) halloc2
      refine ⟨ctx2, hinit2, ?_⟩
      rw [h1s, h1l, h1bw, h1bh, h1bc]
      have hmu : (uninit true ctx1).2.method = ctx.method := by
        rw [(uninit_fields true ctx1).1, h1m, hcm]
      rcases hres2 with ⟨hm2, rfl⟩ | ⟨hm2, rfl⟩
      · refine ⟨rfl, rfl, by simp [h2w, h1w], by simp [h2h, h1h],
          by simp [h2w, h2h, h1w, h1h], ?_⟩
        rw [hmu] at hm2
        have hn3 : ¬ ctx.method = BLOCK_MATCHING_EPZS := by
          rw [hm2]; simp [BLOCK_MATCHING_ARPS, BLOCK_MATCHING_EPZS]
        rcases hres with ⟨_, _, hc1⟩ | ⟨hx, _⟩
        · intro i
          simp only [h2t (by rw [h1m, hcm]; exact hm2), h2w, h2h, h1w, h1h]
          rw [hc1]
          simp only [MvTables.get_set _ _ _ _ (show 0 < 3 by omega), hbc]
          split <;> simp
        · exact absurd hx hn3
      · refine ⟨rfl, rfl, by simp [h2w, h1w], by simp [h2h, h1h],
          by simp [h2w, h2h, h1w, h1h], ?_⟩
        rw [hmu] at hm2
        have hn2 : ¬ ctx.method = BLOCK_MATCHING_ARPS := by
          rw [hm2]; simp [BLOCK_MATCHING_ARPS, BLOCK_MATCHING_EPZS]
        rcases hres with ⟨hx, _⟩ | ⟨_, _, _, _, hc1⟩
        · exact absurd hx hn2
        · intro i
          rw [hc1]
          simp only [h2w, h2h, h1w, h1h, hbc]
    · -- any other method: `init_context` returns false
      exfalso
      have hc : ∃ a2 c, (if a = true then uninit a ctx else (a, ctx)) = (a2, c)
          ∧ c.method = ctx.method := by
        cases a
        · exact ⟨false, ctx, by simp, rfl⟩
        · exact ⟨(uninit true ctx).1, (uninit true ctx).2, by simp, (uninit_fields true ctx).1⟩
      obtain ⟨a2, c, hpair, hcm2⟩ := hc
      unfold init_context at h
      simp only [hpair, hcm2, hlk, if_false, bind, Except.bind, pure, Except.pure] at h
      have hn2 : ¬ ctx.method = BLOCK_MATCHING_ARPS := fun hx => hbm (Or.inl hx)
      have hn3 : ¬ ctx.method = BLOCK_MATCHING_EPZS := fun hx => hbm (Or.inr hx)
      simp [hn2, hn3] at h


/-! ## States reached by `init_context` -/

/-- A successful block-matching `init_context` on an image whose sides are
non-negative `int`s leaves the block geometry. -/
theorem init_context_blockGeometry (allocOk : Nat → Bool) (a a1 : Bool)
    (ctx ctx1 : MotionEstContext)
    (hmeth : ctx.method = BLOCK_MATCHING_ARPS ∨ ctx.method = BLOCK_MATCHING_EPZS)
    (h : init_context allocOk a ctx = .ok (true, a1, ctx1))
    (hwmax : ctx.width ≤ INT_MAX) (hh : 0 ≤ ctx.height) (hhmax : ctx.height ≤ INT_MAX) :
    BlockGeometry ctx1 ∧ ctx1.method = ctx.method ∧ ctx1.search_param = ctx.search_param
      ∧ ctx1.width = ctx.width ∧ ctx1.height = ctx.height
      ∧ (ctx1.mv_table.get 0).map List.length = some ctx1.b_count.toNat
      ∧ (ctx.method = BLOCK_MATCHING_EPZS →
          (ctx1.mv_table.get 1).map List.length = some ctx1.b_count.toNat
          ∧ (ctx1.mv_table.get 2).map List.length = some ctx1.b_count.toNat) := by
  obtain ⟨g, hg, ha1, hb, hres⟩ := init_context_block_inv allocOk a a1 ctx ctx1 hmeth h
  have hf : (if a = true then (uninit a ctx).2 else ctx).method = ctx.method
      ∧ (if a = true then (uninit a ctx).2 else ctx).width = ctx.width
      ∧ (if a = true then (uninit a ctx).2 else ctx).height = ctx.height
      ∧ (if a = true then (uninit a ctx).2 else ctx).search_param = ctx.search_param := by
    cases a
    · exact ⟨rfl, rfl, rfl, rfl⟩
    · refine ⟨(uninit_fields true ctx).1, (uninit_fields true ctx).2.1,
        (uninit_fields true ctx).2.2.1, ?_⟩
      simp only [if_true]
      rw [uninit_eq]
  generalize (if a = true then (uninit a ctx).2 else ctx) = c at hf hg
  obtain ⟨hcm, hcw, hch, hcp⟩ := hf
  obtain ⟨m, hm, hm1, hm4, hmw, hl, hplo, hphi, hgeq⟩ := blockGeometry_inv c g hg
  have hgeo : BlockGeometry g ∧ g.method = ctx.method ∧ g.search_param = ctx.search_param
      ∧ g.width = ctx.width ∧ g.height = ctx.height := by
    rw [hgeq]
    refine ⟨⟨by simp, by simp; omega, by simp, ?_, ?_, ?_, ?_, by simp, by simp, by simp⟩,
      hcm, hcp, hcw, hch⟩
    · simp only [hcw]; omega
    · simp only [hcw]; exact hwmax
    · simp only [hch]; exact hh
    · simp only [hch]; exact hhmax
  rcases hres with ⟨_, _, rfl⟩ | ⟨hx, _, _, _, rfl⟩
  · refine ⟨hgeo.1, hgeo.2.1, hgeo.2.2.1, hgeo.2.2.2.1, hgeo.2.2.2.2, ?_, ?_⟩
    · simp [MvTables.get_set _ _ _ _ (show 0 < 3 by omega)]
    · intro hx
      rename_i h2 _
      rw [h2] at hx
      simp [BLOCK_MATCHING_ARPS, BLOCK_MATCHING_EPZS] at hx
  · refine ⟨hgeo.1, hgeo.2.1, hgeo.2.2.1, hgeo.2.2.2.1, hgeo.2.2.2.2, ?_, ?_⟩
    · simp [MvTables.get]
    · intro _
      simp [MvTables.get]


/-! ## EPZS: identical planes -/

/-- A multiple of 65536 added by the first cast is removed by the second. -/
theorem wrap16_sub_self (x y : Int) (h : -32768 ≤ x - y ∧ x - y < 32768) :
    wrap16 (wrap16 x - y) = x - y := by
  unfold wrap16
  omega

/-- Reading inside a plane returns the sample. -/
theorem readPlane_ok (img : List Nat) (i : Int) (h0 : 0 ≤ i) (h1 : i < img.length) :
    readPlane (some img) i = .ok (img.getD i.toNat 0) := by
  have hlt : i.toNat < img.length := by omega
  simp [readPlane, h0, List.getD, List.getElem?_eq_getElem hlt]

/-- The row loop of the SAD between a plane and itself at the same position is
0, as long as the row lies inside the plane. -/
theorem sadRow_self (img : List Nat) (p : Int) (n : Nat) (h0 : 0 ≤ p)
    (h1 : p + (n : Int) ≤ img.length) : sadRow (some img) (some img) p p n = .ok 0 := by
  induction n with
  | zero => rfl
  | succ n ih =>
    have hr := readPlane_ok img (p + (n : Int)) (by omega) (by push_cast at h1; omega)
    simp only [sadRow, ih (by push_cast at h1; omega), hr, bind, Except.bind, pure, Except.pure]
    simp

/-- The SAD between a window of a plane and the same window of the same plane
is 0, as long as the window lies inside the plane. -/
theorem sadRows_self (img : List Nat) (w x y : Int) (mb n : Nat) (hw : 0 ≤ w) (hx : 0 ≤ x)
    (hy : 0 ≤ y) (hxw : x + (mb : Int) ≤ w) (hlen : (y + (n : Int)) * w ≤ img.length) :
    sadRows (some img) (some img) w x y x y mb n = .ok 0 := by
  induction n with
  | zero => rfl
  | succ n ih =>
    have hmono : (y + (n : Int)) * w ≤ (y + ((n + 1 : Nat) : Int)) * w := by
      apply mul_le_mul_of_nonneg_right _ hw
      push_cast; omega
    have hrow := sadRow_self img (y * w + x + (n : Int) * w) mb
      (by have := mul_nonneg hy hw; have := mul_nonneg (Int.natCast_nonneg n) hw; omega)
      (by
        have h2 : (y + ((n + 1 : Nat) : Int)) * w = y * w + (n : Int) * w + w := by
          push_cast; ring
        omega)
    simp only [sadRows, ih (le_trans hmono hlen), hrow, bind, Except.bind, pure, Except.pure]
    simp


/-- An `int` result inside the range is returned as it is. -/
theorem checkedInt_ok (x : Int) (h0 : INT_MIN ≤ x) (h1 : x ≤ INT_MAX) : checkedInt x = .ok x := by
  simp [checkedInt, h0, h1]

/-- A left shift by a count in 0..31 whose result is in range. -/
theorem shiftLeft_ok (x n : Int) (hn0 : 0 ≤ n) (hn1 : n < 32) (h0 : INT_MIN ≤ x * 2 ^ n.toNat)
    (h1 : x * 2 ^ n.toNat ≤ INT_MAX) : shiftLeft x n = .ok (x * 2 ^ n.toNat) := by
  simp [shiftLeft, hn0, hn1, checkedInt, h0, h1]

/-- Reading inside a vector table returns the entry. -/
theorem readVector_ok (t : List MotionVector16_t) (i : Int) (h0 : 0 ≤ i) (h1 : i < t.length) :
    readVector (some t) i = .ok (t.getD i.toNat MotionVector16_t.zero) := by
  have hlt : i.toNat < t.length := by omega
  simp [readVector, h0, List.getD, List.getElem?_eq_getElem hlt]

/-- Writing inside a vector table sets the entry. -/
theorem writeVector_ok (t : List MotionVector16_t) (i : Int) (v : MotionVector16_t) (h0 : 0 ≤ i)
    (h1 : i < t.length) : writeVector (some t) i v = .ok (t.set i.toNat v) := by
  have hlt : i.toNat < t.length := by omega
  simp [writeVector, h0, hlt]

/-- A conditional `ADD_PRED` whose table read, if made, is inside the table. -/
theorem addPredIf_ok (cond : Bool) (p : MotionEstPredictor) (t : List MotionVector16_t) (i : Int)
    (h : cond = true → 0 ≤ i ∧ i < t.length) :
    addPredIf cond p (some t) i
      = .ok (if cond then ADD_PRED p (t.getD i.toNat MotionVector16_t.zero).vx
          (t.getD i.toNat MotionVector16_t.zero).vy else p) := by
  cases cond
  · simp [addPredIf, pure, Except.pure]
  · obtain ⟨h0, h1⟩ := h rfl
    simp [addPredIf, readVector_ok t i h0 h1, bind, Except.bind, pure, Except.pure]

/-- Positions of a block and of its neighbours in a table of `bw * bh`
entries. -/
theorem block_index_facts (bw bh mb_x mb_y : Int) (hx0 : 0 ≤ mb_x) (hx1 : mb_x < bw)
    (hy0 : 0 ≤ mb_y) (hy1 : mb_y < bh) :
    0 ≤ mb_y * bw ∧ mb_y * bw + bw ≤ bw * bh ∧ (0 < mb_y → bw ≤ mb_y * bw)
      ∧ (mb_y + 1 < bh → mb_y * bw + 2 * bw ≤ bw * bh) := by
  have hbw : 0 ≤ bw := by omega
  refine ⟨mul_nonneg hy0 hbw, ?_, ?_, ?_⟩
  · nlinarith [mul_nonneg (show 0 ≤ bh - 1 - mb_y by omega) hbw]
  · intro h
    nlinarith [mul_nonneg (show 0 ≤ mb_y - 1 by omega) hbw]
  · intro h
    nlinarith [mul_nonneg (show 0 ≤ bh - 2 - mb_y by omega) hbw]

/-- A block of the grid lies inside the image: origin and far corner of block
`i` of a side of `w` samples cut into blocks of `mb`. -/
theorem block_origin_facts (w mb i : Int) (hmb : 0 < mb) (hi0 : 0 ≤ i) (hi1 : i < w / mb) :
    0 ≤ i * mb ∧ i * mb + mb ≤ w ∧ i * mb ≤ (w / mb - 1) * mb := by
  have h1 : w / mb * mb ≤ w := Int.ediv_mul_le w (ne_of_gt hmb)
  refine ⟨mul_nonneg hi0 (le_of_lt hmb), ?_, ?_⟩
  · nlinarith [mul_nonneg (show 0 ≤ w / mb - 1 - i by omega) (le_of_lt hmb)]
  · nlinarith [mul_nonneg (show 0 ≤ w / mb - 1 - i by omega) (le_of_lt hmb)]

/-- The first test of `me_search_epzs`: when the predicted point lies in the
search range and its SAD is below 256, the search returns it at once. -/
theorem me_search_epzs_pred_exit (c : MotionEstContext) (x_mb y_mb : Int) (mv : Int × Int)
    (cost : Nat) (xg yg : Int)
    (hxl : INT_MIN ≤ x_mb - c.search_param) (hxh : x_mb + c.search_param ≤ INT_MAX)
    (hyl : INT_MIN ≤ y_mb - c.search_param) (hyh : y_mb + c.search_param ≤ INT_MAX)
    (hxl2 : x_mb - c.search_param ≤ INT_MAX) (hxh2 : INT_MIN ≤ x_mb + c.search_param)
    (hyl2 : y_mb - c.search_param ≤ INT_MAX) (hyh2 : INT_MIN ≤ y_mb + c.search_param)
    (hxg : shiftLeft (c.b_width - 1) c.log2_mbSize = .ok xg)
    (hyg : shiftLeft (c.b_height - 1) c.log2_mbSize = .ok yg)
    (hinx : max 0 (x_mb - c.search_param) ≤ x_mb + c.pred_x
      ∧ x_mb + c.pred_x ≤ min (x_mb + c.search_param) xg)
    (hiny : max 0 (y_mb - c.search_param) ≤ y_mb + c.pred_y
      ∧ y_mb + c.pred_y ≤ min (y_mb + c.search_param) yg)
    (hcost : me_comp_sad c x_mb y_mb (x_mb + c.pred_x) (y_mb + c.pred_y) = .ok cost)
    (h256 : cost < 256) :
    me_search_epzs c x_mb y_mb mv = .ok (cost, (x_mb + c.pred_x, y_mb + c.pred_y)) := by
  have hlt : cost < UINT64_MAX := by
    have : UINT64_MAX = 18446744073709551615 := rfl
    omega
  unfold me_search_epzs
  simp only [checkedInt_ok _ hxl hxl2, checkedInt_ok _ hyl hyl2, checkedInt_ok _ hxh2 hxh,
    checkedInt_ok _ hyh2 hyh, hxg, hyg, bind, Except.bind, pure, Except.pure, COST_P_MV, COST_MV,
    ge_iff_le, hinx.1, hinx.2, hiny.1, hiny.2, and_self, if_true, hcost, hlt, h256]


/-- The list `preds[1]` can be built for every block of the grid when the two
previous generations hold `b_count` vectors. -/
theorem previousPredictors_ok (c : MotionEstContext) (t1 t2 : List MotionVector16_t)
    (mb_x mb_y : Nat) (ht1 : c.mv_table.get 1 = some t1) (ht2 : c.mv_table.get 2 = some t2)
    (hcount : c.b_count = c.b_width * c.b_height)
    (hl1 : t1.length = c.b_count.toNat) (hl2 : t2.length = c.b_count.toNat)
    (hx : (mb_x : Int) < c.b_width) (hy : (mb_y : Int) < c.b_height) :
    ∃ p1, previousPredictors c mb_x mb_y = .ok p1 := by
  obtain ⟨hB0, hB1, hB2, hB3⟩ := block_index_facts c.b_width c.b_height mb_x mb_y
    (Int.natCast_nonneg _) hx (Int.natCast_nonneg _) hy
  have hn : (0 : Int) ≤ c.b_count := by rw [hcount]; nlinarith
  have hL1 : (t1.length : Int) = c.b_width * c.b_height := by rw [hl1, ← hcount]; omega
  have hL2 : (t2.length : Int) = c.b_width * c.b_height := by rw [hl2, ← hcount]; omega
  unfold previousPredictors
  simp only [ht1, ht2, bind, Except.bind, pure, Except.pure]
  rw [readVector_ok t1 _ (by omega) (by omega), readVector_ok t2 _ (by omega) (by omega)]
  simp only []
  rw [addPredIf_ok _ _ t1 _ (by intro h; simp at h; omega)]
  simp only []
  rw [addPredIf_ok _ _ t1 _ (by intro h; simp at h; have := hB2 (by omega); omega)]
  simp only []
  rw [addPredIf_ok _ _ t1 _ (by intro h; simp at h; omega)]
  simp only []
  rw [addPredIf_ok _ _ t1 _ (by intro h; simp at h; have := hB3 (by omega); omega)]
  exact ⟨_, rfl⟩

/-- The list `preds[0]` of current-frame neighbours can be built for every
block of the grid when generation 0 holds `b_count` vectors; its entries are
the zero vector followed by the left, top and top-right vectors that exist. -/
theorem currentPredictors_eq (c : MotionEstContext) (t0 : List MotionVector16_t)
    (mb_x mb_y : Nat) (ht0 : c.mv_table.get 0 = some t0)
    (hcount : c.b_count = c.b_width * c.b_height) (hl0 : t0.length = c.b_count.toNat)
    (hx : (mb_x : Int) < c.b_width) (hy : (mb_y : Int) < c.b_height) :
    currentPredictors c mb_x mb_y = .ok
      { mvs := [(0, 0)]
          ++ (if 0 < mb_x then
                [((t0.getD ((mb_x : Int) + mb_y * c.b_width - 1).toNat MotionVector16_t.zero).vx,
                  (t0.getD ((mb_x : Int) + mb_y * c.b_width - 1).toNat MotionVector16_t.zero).vy)]
              else [])
          ++ (if 0 < mb_y then
                [((t0.getD ((mb_x : Int) + mb_y * c.b_width - c.b_width).toNat
                    MotionVector16_t.zero).vx,
                  (t0.getD ((mb_x : Int) + mb_y * c.b_width - c.b_width).toNat
                    MotionVector16_t.zero).vy)]
              else [])
          ++ (if 0 < mb_y ∧ (mb_x : Int) + 1 < c.b_width then
                [((t0.getD ((mb_x : Int) + mb_y * c.b_width - c.b_width + 1).toNat
                    MotionVector16_t.zero).vx,
                  (t0.getD ((mb_x : Int) + mb_y * c.b_width - c.b_width + 1).toNat
                    MotionVector16_t.zero).vy)]
              else []) } := by
  obtain ⟨hB0, hB1, hB2, hB3⟩ := block_index_facts c.b_width c.b_height mb_x mb_y
    (Int.natCast_nonneg _) hx (Int.natCast_nonneg _) hy
  have hL0 : (t0.length : Int) = c.b_width * c.b_height := by
    rw [hl0, ← hcount]
    have : (0 : Int) ≤ c.b_count := by rw [hcount]; nlinarith
    omega
  unfold currentPredictors
  simp only [ht0, bind, Except.bind, pure, Except.pure]
  rw [addPredIf_ok _ _ t0 _ (by intro h; simp at h; omega)]
  simp only []
  rw [addPredIf_ok _ _ t0 _ (by intro h; simp at h; have := hB2 (by omega); omega)]
  simp only []
  rw [addPredIf_ok _ _ t0 _ (by intro h; simp at h; have := hB2 (by omega); omega)]
  by_cases h1 : 0 < mb_x <;> by_cases h2 : 0 < mb_y <;>
    by_cases h3 : (mb_x : Int) + 1 < c.b_width <;>
    simp [ADD_PRED, h1, h2, h3]


/-- `me_comp_sad` reads the planes, the width and the macroblock size only. -/
theorem me_comp_sad_congr (c d : MotionEstContext) (x_mb y_mb x_mv y_mv : Int)
    (h1 : d.data_ref = c.data_ref) (h2 : d.data_cur = c.data_cur) (h3 : d.width = c.width)
    (h4 : d.mbSize = c.mbSize) :
    me_comp_sad d x_mb y_mb x_mv y_mv = me_comp_sad c x_mb y_mb x_mv y_mv := by
  unfold me_comp_sad
  rw [h1, h2, h3, h4]

/-- The origin of the last macroblock of a row lies inside the plane. -/
theorem last_origin_facts (w mb : Int) (hmb : 0 < mb) (h : 0 < w / mb) :
    0 ≤ (w / mb - 1) * mb ∧ (w / mb - 1) * mb ≤ w := by
  have h1 : w / mb * mb ≤ w := Int.ediv_mul_le w (ne_of_gt hmb)
  refine ⟨mul_nonneg (by omega) (le_of_lt hmb), ?_⟩
  rw [sub_mul]
  omega

/-- A vector whose squared magnitude fits 16 bits has components below 256. -/
theorem small_components (dx dy : Int) (h : dx * dx + dy * dy ≤ 65535) :
    (-256 < dx ∧ dx < 256) ∧ (-256 < dy ∧ dy < 256) := by
  refine ⟨⟨?_, ?_⟩, ⟨?_, ?_⟩⟩ <;> nlinarith [mul_self_nonneg dx, mul_self_nonneg dy]

/-- The squared magnitude of a vector that fits 16 bits is stored as it is. -/
theorem epzsMag2_ok (dx dy : Int) (h : dx * dx + dy * dy ≤ 65535) :
    epzsMag2 dx dy = .ok (dx * dx + dy * dy).toNat := by
  have h1 : ¬ dx * dx > 65535 := by nlinarith [mul_self_nonneg dy]
  have h2 : ¬ dx * dx + dy * dy > 65535 := by omega
  simp [epzsMag2, h1, h2]

/-- One macroblock of `motionEstEPZS` whose predicted point (the median of its
current-frame neighbours) lies in the search range with a SAD below 256: the
block gets the predicted vector. -/
theorem epzsBlock_pred_exit (c : MotionEstContext) (t0 t1 t2 : List MotionVector16_t)
    (mb_x mb_y : Nat) (dx dy : Int) (cost : Nat) (p0 : MotionEstPredictor)
    (hgeo : BlockGeometry c)
    (ht0 : c.mv_table.get 0 = some t0) (ht1 : c.mv_table.get 1 = some t1)
    (ht2 : c.mv_table.get 2 = some t2)
    (hl0 : t0.length = c.b_count.toNat) (hl1 : t1.length = c.b_count.toNat)
    (hl2 : t2.length = c.b_count.toNat)
    (hx : (mb_x : Int) < c.b_width) (hy : (mb_y : Int) < c.b_height)
    (hp0 : 0 ≤ c.search_param) (hpw : c.width + c.search_param ≤ INT_MAX)
    (hph : c.height + c.search_param ≤ INT_MAX)
    (hcur : currentPredictors c mb_x mb_y = .ok p0) (hmed : medianPredictor p0 = (dx, dy))
    (hinx : max 0 ((mb_x : Int) * c.mbSize - c.search_param) ≤ (mb_x : Int) * c.mbSize + dx
      ∧ (mb_x : Int) * c.mbSize + dx
          ≤ min ((mb_x : Int) * c.mbSize + c.search_param) ((c.b_width - 1) * c.mbSize))
    (hiny : max 0 ((mb_y : Int) * c.mbSize - c.search_param) ≤ (mb_y : Int) * c.mbSize + dy
      ∧ (mb_y : Int) * c.mbSize + dy
          ≤ min ((mb_y : Int) * c.mbSize + c.search_param) ((c.b_height - 1) * c.mbSize))
    (hcost : me_comp_sad c ((mb_x : Int) * c.mbSize) ((mb_y : Int) * c.mbSize)
      ((mb_x : Int) * c.mbSize + dx) ((mb_y : Int) * c.mbSize + dy) = .ok cost)
    (h256 : cost < 256) (hmag : dx * dx + dy * dy ≤ 65535) :
    ∃ q0 q1, epzsBlock c mb_x mb_y = .ok
      { c with pred_x := dx, pred_y := dy, preds0 := q0, preds1 := q1,
               mv_table := c.mv_table.set 0
                 (some (t0.set ((mb_x : Int) + mb_y * c.b_width).toNat
                   { vx := dx, vy := dy, mag2 := (dx * dx + dy * dy).toNat })),
               max := max c.max ((dx * dx + dy * dy).toNat : Int) } := by
  obtain ⟨hl0', hl31, hmb, hw0, hwmax, hh0, hhmax, hbw, hbh, hcount⟩ := hgeo
  have hmx : INT_MAX = 2147483647 := rfl
  have hmn : INT_MIN = -2147483648 := rfl
  have hmbpos : (0 : Int) < c.mbSize := by rw [hmb]; positivity
  obtain ⟨hB0, hB1, hB2, hB3⟩ := block_index_facts c.b_width c.b_height mb_x mb_y
    (Int.natCast_nonneg _) hx (Int.natCast_nonneg _) hy
  obtain ⟨hX0, hX1, hX2⟩ := block_origin_facts c.width c.mbSize mb_x hmbpos
    (Int.natCast_nonneg _) (by rw [← hbw]; exact hx)
  obtain ⟨hY0, hY1, hY2⟩ := block_origin_facts c.height c.mbSize mb_y hmbpos
    (Int.natCast_nonneg _) (by rw [← hbh]; exact hy)
  have hn : (0 : Int) ≤ c.b_count := by rw [hcount]; nlinarith
  have hL0 : (t0.length : Int) = c.b_width * c.b_height := by rw [hl0, ← hcount]; omega
  have hL1 : (t1.length : Int) = c.b_width * c.b_height := by rw [hl1, ← hcount]; omega
  obtain ⟨p1, hprev⟩ := previousPredictors_ok c t1 t2 mb_x mb_y ht1 ht2 hcount hl1 hl2 hx hy
  -- the two shifts of the block origin
  have hsx : shiftLeft (mb_x : Int) c.log2_mbSize = .ok ((mb_x : Int) * c.mbSize) := by
    rw [hmb]
    exact shiftLeft_ok _ _ hl0' (by omega) (by rw [← hmb]; omega) (by rw [← hmb]; omega)
  have hsy : shiftLeft (mb_y : Int) c.log2_mbSize = .ok ((mb_y : Int) * c.mbSize) := by
    rw [hmb]
    exact shiftLeft_ok _ _ hl0' (by omega) (by rw [← hmb]; omega) (by rw [← hmb]; omega)
  have hGX : 0 ≤ (c.b_width - 1) * c.mbSize ∧ (c.b_width - 1) * c.mbSize ≤ c.width := by
    rw [hbw]; exact last_origin_facts c.width c.mbSize hmbpos (by rw [← hbw]; omega)
  have hGY : 0 ≤ (c.b_height - 1) * c.mbSize ∧ (c.b_height - 1) * c.mbSize ≤ c.height := by
    rw [hbh]; exact last_origin_facts c.height c.mbSize hmbpos (by rw [← hbh]; omega)
  -- the two shifts of the last block origin
  have hgx : shiftLeft (c.b_width - 1) c.log2_mbSize = .ok ((c.b_width - 1) * c.mbSize) := by
    rw [hmb]
    exact shiftLeft_ok _ _ hl0' (by omega) (by rw [← hmb]; omega) (by rw [← hmb]; omega)
  have hgy : shiftLeft (c.b_height - 1) c.log2_mbSize = .ok ((c.b_height - 1) * c.mbSize) := by
    rw [hmb]
    exact shiftLeft_ok _ _ hl0' (by omega) (by rw [← hmb]; omega) (by rw [← hmb]; omega)
  have hpd : (medianPredictor p0).1 = dx ∧ (medianPredictor p0).2 = dy := by rw [hmed]; exact ⟨rfl, rfl⟩
  -- the search on the context with its predictors set
  have hsearch := me_search_epzs_pred_exit
    { c with pred_x := dx, pred_y := dy,
             preds0 := ADD_PRED p0
               (t1.getD ((mb_x : Int) + mb_y * c.b_width).toNat MotionVector16_t.zero).vx
               (t1.getD ((mb_x : Int) + mb_y * c.b_width).toNat MotionVector16_t.zero).vy,
             preds1 := p1 }
    ((mb_x : Int) * c.mbSize) ((mb_y : Int) * c.mbSize)
    ((mb_x : Int) * c.mbSize, (mb_y : Int) * c.mbSize) cost
    ((c.b_width - 1) * c.mbSize) ((c.b_height - 1) * c.mbSize)
    (by simp only []; omega) (by simp only []; omega) (by simp only []; omega)
    (by simp only []; omega) (by simp only []; omega) (by simp only []; omega)
    (by simp only []; omega) (by simp only []; omega)
    hgx hgy hinx hiny
    (Eq.trans (me_comp_sad_congr c _ _ _ _ _ rfl rfl rfl rfl) hcost) h256
  obtain ⟨hdx, hdy⟩ := small_components dx dy hmag
  have hmag2 := epzsMag2_ok dx dy hmag
  refine ⟨ADD_PRED p0
      (t1.getD ((mb_x : Int) + mb_y * c.b_width).toNat MotionVector16_t.zero).vx
      (t1.getD ((mb_x : Int) + mb_y * c.b_width).toNat MotionVector16_t.zero).vy, p1, ?_⟩
  unfold epzsBlock
  simp only [hsx, hsy, hcur, hprev, ht1, ht0, bind, Except.bind, pure, Except.pure, hpd.1, hpd.2]
  rw [readVector_ok t1 _ (by omega) (by omega)]
  simp only [hsearch, add_sub_cancel_left, hmag2]
  rw [writeVector_ok t0 _ _ (by omega) (by omega)]
  simp only [wrap16_sub_self _ _ (show -32768 ≤ (mb_x : Int) * c.mbSize + dx - (mb_x : Int) * c.mbSize
      ∧ (mb_x : Int) * c.mbSize + dx - (mb_x : Int) * c.mbSize < 32768 by omega),
    wrap16_sub_self _ _ (show -32768 ≤ (mb_y : Int) * c.mbSize + dy - (mb_y : Int) * c.mbSize
      ∧ (mb_y : Int) * c.mbSize + dy - (mb_y : Int) * c.mbSize < 32768 by omega),
    add_sub_cancel_left]



/-! ## EPZS: the block loop on identical planes -/

/-- The block geometry speaks of fields the loop leaves alone. -/
theorem loopFrame_geometry {c0 c : MotionEstContext} (h : LoopFrame c0 c)
    (hgeo : BlockGeometry c0) : BlockGeometry c := by
  obtain ⟨_, _, h3, h4, h5, h6, h7, h8, h9, _, _, _⟩ := h
  unfold BlockGeometry at *
  rw [h3, h4, h5, h6, h7, h8, h9]
  exact hgeo

/-- A state is in its own frame. -/
theorem loopFrame_refl (c : MotionEstContext) : LoopFrame c c :=
  ⟨rfl, rfl, rfl, rfl, rfl, rfl, rfl, rfl, rfl, rfl, rfl, rfl⟩

/-- The median of zero predictors is the zero vector. -/
theorem medianPredictor_zero (a b c : Bool) :
    medianPredictor { mvs := [(0, 0)] ++ (if a then [((0 : Int), (0 : Int))] else [])
      ++ (if b then [((0 : Int), (0 : Int))] else [])
      ++ (if c then [((0 : Int), (0 : Int))] else []) } = (0, 0) := by
  cases a <;> cases b <;> cases c <;> rfl

/-- One macroblock of `motionEstEPZS` on identical planes, when the vectors
emitted before it are zero: it gets the zero vector. -/
theorem epzsBlock_zero_step (c0 c : MotionEstContext) (img : List Nat) (mb_x mb_y : Nat)
    (hready : EpzsReady c0) (hcur : c0.data_cur = some img) (href : c0.data_ref = some img)
    (hlen : c0.width * c0.height ≤ img.length) (hp0 : 0 ≤ c0.search_param)
    (hpw : c0.width + c0.search_param ≤ INT_MAX) (hph : c0.height + c0.search_param ≤ INT_MAX)
    (hx : (mb_x : Int) < c0.b_width) (hy : (mb_y : Int) < c0.b_height)
    (hinv : ZeroRun c0 ((mb_x : Int) + mb_y * c0.b_width).toNat c) :
    ∃ c', epzsBlock c mb_x mb_y = .ok c'
      ∧ ZeroRun c0 (((mb_x : Int) + mb_y * c0.b_width).toNat + 1) c' := by
  obtain ⟨hgeo0, hr0, hr1, hr2⟩ := hready
  obtain ⟨hfr, hmax, t0, ht0, hl0, hz⟩ := hinv
  have hgeo := loopFrame_geometry hfr hgeo0
  obtain ⟨f1, f2, f3, f4, f5, f6, f7, f8, f9, f10, f11, f12⟩ := hfr
  obtain ⟨t1, ht1, hl1⟩ : ∃ t1, c.mv_table.get 1 = some t1 ∧ t1.length = c.b_count.toNat := by
    rw [f11, f7]
    cases h : c0.mv_table.get 1 with
    | none => rw [h] at hr1; simp at hr1
    | some t => rw [h] at hr1; exact ⟨t, rfl, by simpa using hr1⟩
  obtain ⟨t2, ht2, hl2⟩ : ∃ t2, c.mv_table.get 2 = some t2 ∧ t2.length = c.b_count.toNat := by
    rw [f12, f7]
    cases h : c0.mv_table.get 2 with
    | none => rw [h] at hr2; simp at hr2
    | some t => rw [h] at hr2; exact ⟨t, rfl, by simpa using hr2⟩
  obtain ⟨hl0', hl31, hmb, hw0, hwmax, hh0, hhmax, hbw, hbh, hcount⟩ := hgeo
  have hmbpos : (0 : Int) < c.mbSize := by rw [hmb]; positivity
  rw [← f5] at hx hz ⊢
  rw [← f6] at hy
  obtain ⟨hB0, hB1, hB2, hB3⟩ := block_index_facts c.b_width c.b_height mb_x mb_y
    (Int.natCast_nonneg _) hx (Int.natCast_nonneg _) hy
  obtain ⟨hX0, hX1, hX2⟩ := block_origin_facts c.width c.mbSize mb_x hmbpos
    (Int.natCast_nonneg _) (by rw [← hbw]; exact hx)
  obtain ⟨hY0, hY1, hY2⟩ := block_origin_facts c.height c.mbSize mb_y hmbpos
    (Int.natCast_nonneg _) (by rw [← hbh]; exact hy)
  have hcurp := currentPredictors_eq c t0 mb_x mb_y ht0 hcount (by rw [hl0, f7]) hx hy
  have e1 : 0 < mb_x → t0.getD ((mb_x : Int) + mb_y * c.b_width - 1).toNat
      MotionVector16_t.zero = MotionVector16_t.zero := fun h => hz _ (by omega)
  have e2 : 0 < mb_y → t0.getD ((mb_x : Int) + mb_y * c.b_width - c.b_width).toNat
      MotionVector16_t.zero = MotionVector16_t.zero :=
    fun h => hz _ (by have := hB2 (by omega); omega)
  have e3 : 0 < mb_y → (mb_x : Int) + 1 < c.b_width →
      t0.getD ((mb_x : Int) + mb_y * c.b_width - c.b_width + 1).toNat
        MotionVector16_t.zero = MotionVector16_t.zero :=
    fun h _ => hz _ (by have := hB2 (by omega); omega)
  have hmed : ∃ p0, currentPredictors c mb_x mb_y = .ok p0 ∧ medianPredictor p0 = (0, 0) := by
    refine ⟨_, hcurp, ?_⟩
    by_cases h1 : 0 < mb_x <;> by_cases h2 : 0 < mb_y <;>
      by_cases h3 : (mb_x : Int) + 1 < c.b_width
    all_goals simp only [h1, h2, h3, if_true, if_false, and_self, and_true, and_false, true_and,
      false_and]
    all_goals try rw [e1 h1]
    all_goals try rw [e2 h2]
    all_goals try rw [e3 h2 h3]
    all_goals rfl
  obtain ⟨p0, hp0eq, hp0med⟩ := hmed
  have hmbn : ((c.mbSize.toNat : Nat) : Int) = c.mbSize := Int.toNat_of_nonneg (le_of_lt hmbpos)
  have hcost : me_comp_sad c ((mb_x : Int) * c.mbSize) ((mb_y : Int) * c.mbSize)
      ((mb_x : Int) * c.mbSize + 0) ((mb_y : Int) * c.mbSize + 0) = .ok 0 := by
    unfold me_comp_sad
    rw [f1, f2, hcur, href, add_zero, add_zero]
    refine sadRows_self img c.width _ _ _ _ hw0 hX0 hY0 (by rw [hmbn]; exact hX1) ?_
    rw [hmbn]
    refine le_trans ?_ hlen
    rw [← f3, ← f4, mul_comm c.width c.height]
    exact mul_le_mul_of_nonneg_right hY1 hw0
  have hGX := last_origin_facts c.width c.mbSize hmbpos (by rw [← hbw]; omega)
  have hGY := last_origin_facts c.height c.mbSize hmbpos (by rw [← hbh]; omega)
  obtain ⟨q0, q1, hblk⟩ := epzsBlock_pred_exit c t0 t1 t2 mb_x mb_y 0 0 0 p0
    ⟨hl0', hl31, hmb, hw0, hwmax, hh0, hhmax, hbw, hbh, hcount⟩ ht0 ht1 ht2
    (by rw [hl0, f7]) hl1 hl2 hx hy (by rw [f10]; exact hp0) (by rw [f3, f10]; exact hpw)
    (by rw [f4, f10]; exact hph) hp0eq hp0med
    (by rw [hbw, f10]; exact ⟨max_le (by omega) (by omega), le_min (by omega) (by omega)⟩)
    (by rw [hbh, f10]; exact ⟨max_le (by omega) (by omega), le_min (by omega) (by omega)⟩)
    hcost (by decide) (by decide)
  refine ⟨_, hblk, ?_⟩
  refine ⟨⟨f1, f2, f3, f4, f5, f6, f7, f8, f9, f10, ?_, ?_⟩, ?_,
    t0.set ((mb_x : Int) + mb_y * c.b_width).toNat { vx := 0, vy := 0, mag2 := (0 * 0 + 0 * 0 : Int).toNat },
    ?_, ?_, ?_⟩
  · simp only [MvTables.get_set _ 0 1 _ (by decide)]; exact f11
  · simp only [MvTables.get_set _ 0 2 _ (by decide)]; exact f12
  · simp [hmax]
  · simp only [MvTables.get_set _ 0 0 _ (by decide), if_true]
  · simp [hl0]
  · intro i hi
    by_cases hik : i = ((mb_x : Int) + mb_y * c.b_width).toNat
    · subst hik
      have hlt : ((mb_x : Int) + mb_y * c.b_width).toNat < t0.length := by
        rw [hl0, ← f7]
        have := hcount
        omega
      simp [List.getD, hlt, MotionVector16_t.zero]
    · have hlt : i < ((mb_x : Int) + mb_y * c.b_width).toNat := by omega
      have := hz i hlt
      simpa [List.getD, List.getElem?_set, Ne.symm hik] using this

/-- The column loop of `motionEstEPZS` on identical planes: after `n` blocks of
row `mb_y` the vectors emitted so far are zero. -/
theorem epzsCols_zero (c0 : MotionEstContext) (img : List Nat) (mb_y : Nat)
    (hready : EpzsReady c0) (hcur : c0.data_cur = some img) (href : c0.data_ref = some img)
    (hlen : c0.width * c0.height ≤ img.length) (hp0 : 0 ≤ c0.search_param)
    (hpw : c0.width + c0.search_param ≤ INT_MAX) (hph : c0.height + c0.search_param ≤ INT_MAX)
    (hy : (mb_y : Int) < c0.b_height) :
    ∀ n : Nat, (n : Int) ≤ c0.b_width → ∀ c, ZeroRun c0 ((mb_y : Int) * c0.b_width).toNat c →
      ∃ c', epzsCols mb_y n c = .ok c' ∧ ZeroRun c0 ((n : Int) + mb_y * c0.b_width).toNat c' := by
  intro n
  induction n with
  | zero =>
    intro _ c hinv
    exact ⟨c, rfl, by simpa using hinv⟩
  | succ n ih =>
    intro hn c hinv
    obtain ⟨c1, hc1, hinv1⟩ := ih (by push_cast at hn; omega) c hinv
    obtain ⟨c2, hc2, hinv2⟩ := epzsBlock_zero_step c0 c1 img n mb_y hready hcur href hlen hp0
      hpw hph (by push_cast at hn; omega) hy hinv1
    refine ⟨c2, ?_, ?_⟩
    · simp only [epzsCols, hc1, bind, Except.bind]
      exact hc2
    · have hb : (0 : Int) ≤ (mb_y : Int) * c0.b_width :=
        mul_nonneg (Int.natCast_nonneg _) (by push_cast at hn; omega)
      have he : (((n + 1 : Nat) : Int) + (mb_y : Int) * c0.b_width).toNat
          = ((n : Int) + (mb_y : Int) * c0.b_width).toNat + 1 := by
        push_cast; omega
      rw [he]
      exact hinv2

/-- The row loop of `motionEstEPZS` on identical planes: after `n` rows the
vectors emitted so far are zero. -/
theorem epzsRows_zero (c0 : MotionEstContext) (img : List Nat)
    (hready : EpzsReady c0) (hcur : c0.data_cur = some img) (href : c0.data_ref = some img)
    (hlen : c0.width * c0.height ≤ img.length) (hp0 : 0 ≤ c0.search_param)
    (hpw : c0.width + c0.search_param ≤ INT_MAX) (hph : c0.height + c0.search_param ≤ INT_MAX)
    (hbw : 0 ≤ c0.b_width) :
    ∀ n : Nat, (n : Int) ≤ c0.b_height → ∀ c, ZeroRun c0 0 c →
      ∃ c', epzsRows n c = .ok c' ∧ ZeroRun c0 ((n : Int) * c0.b_width).toNat c' := by
  intro n
  induction n with
  | zero =>
    intro _ c hinv
    exact ⟨c, rfl, by simpa using hinv⟩
  | succ n ih =>
    intro hn c hinv
    obtain ⟨c1, hc1, hinv1⟩ := ih (by push_cast at hn; omega) c hinv
    have hbw1 : c1.b_width = c0.b_width := hinv1.1.2.2.2.2.1
    obtain ⟨c2, hc2, hinv2⟩ := epzsCols_zero c0 img n hready hcur href hlen hp0 hpw hph
      (by push_cast at hn; omega) c0.b_width.toNat (by omega) c1 hinv1
    refine ⟨c2, ?_, ?_⟩
    · simp only [epzsRows, hc1, bind, Except.bind, hbw1]
      exact hc2
    · have he : (((n + 1 : Nat) : Int) * c0.b_width)
          = ((c0.b_width.toNat : Nat) : Int) + (n : Int) * c0.b_width := by
        rw [Int.toNat_of_nonneg hbw]; push_cast; ring
      rw [he]
      exact hinv2

/-- Copying a whole table over a table of the same length gives the source. -/
theorem memcpyVectors_full (d s : List MotionVector16_t) (n : Int) (hn : 0 ≤ n)
    (hd : d.length = n.toNat) (hs : s.length = n.toNat) :
    memcpyVectors (some d) (some s) n = .ok s := by
  have h1 : s.take n.toNat = s := List.take_of_length_le (by omega)
  have h2 : d.drop n.toNat = [] := List.drop_of_length_le (by omega)
  simp [memcpyVectors, hn, hd, hs, h1, h2]

/-- C14: on a successfully initialised EPZS context (block geometry of
`init_context`, three tables of `b_count` vectors with any contents) whose
previous and current planes are the same samples, with a search radius
`search_param >= 0` that keeps the window bounds within `int`,
`motionEstEPZS` returns, every vector of generation 0 is (0, 0) with
`mag2 = 0`, and `max` is 0. -/
theorem motionEstEPZS_identical_planes (ctx : MotionEstContext) (img : List Nat)
    (hready : EpzsReady ctx) (hcur : ctx.data_cur = some img) (href : ctx.data_ref = some img)
    (hlen : ctx.width * ctx.height ≤ img.length) (hp0 : 0 ≤ ctx.search_param)
    (hpw : ctx.width + ctx.search_param ≤ INT_MAX)
    (hph : ctx.height + ctx.search_param ≤ INT_MAX) :
    ∃ ctx', motionEstEPZS ctx = .ok (true, ctx')
      ∧ ctx'.mv_table.get 0 = some (List.replicate ctx.b_count.toNat MotionVector16_t.zero)
      ∧ ctx'.max = 0 := by
  obtain ⟨hgeo, hr0, hr1, hr2⟩ := hready
  obtain ⟨t0, ht0, hl0⟩ : ∃ t, ctx.mv_table.get 0 = some t ∧ t.length = ctx.b_count.toNat := by
    cases h : ctx.mv_table.get 0 with
    | none => rw [h] at hr0; simp at hr0
    | some t => rw [h] at hr0; exact ⟨t, rfl, by simpa using hr0⟩
  obtain ⟨t1, ht1, hl1⟩ : ∃ t, ctx.mv_table.get 1 = some t ∧ t.length = ctx.b_count.toNat := by
    cases h : ctx.mv_table.get 1 with
    | none => rw [h] at hr1; simp at hr1
    | some t => rw [h] at hr1; exact ⟨t, rfl, by simpa using hr1⟩
  obtain ⟨t2, ht2, hl2⟩ : ∃ t, ctx.mv_table.get 2 = some t ∧ t.length = ctx.b_count.toNat := by
    cases h : ctx.mv_table.get 2 with
    | none => rw [h] at hr2; simp at hr2
    | some t => rw [h] at hr2; exact ⟨t, rfl, by simpa using hr2⟩
  have hgeo' := hgeo
  obtain ⟨hl0', hl31, hmb, hw0, hwmax, hh0, hhmax, hbw, hbh, hcount⟩ := hgeo'
  have hmbpos : (0 : Int) < ctx.mbSize := by rw [hmb]; positivity
  have hbw0 : 0 ≤ ctx.b_width := by rw [hbw]; exact Int.ediv_nonneg hw0 (le_of_lt hmbpos)
  have hbh0 : 0 ≤ ctx.b_height := by rw [hbh]; exact Int.ediv_nonneg hh0 (le_of_lt hmbpos)
  have hcnt0 : 0 ≤ ctx.b_count := by rw [hcount]; exact mul_nonneg hbw0 hbh0
  -- the state at the head of the block loop
  have hstart : ZeroRun
      { ctx with max := 0, mv_table := ((ctx.mv_table.set 2 (some t1)).set 1 (some t0)) } 0
      { ctx with max := 0, mv_table := ((ctx.mv_table.set 2 (some t1)).set 1 (some t0)) } := by
    refine ⟨loopFrame_refl _, rfl, t0, ?_, hl0, fun i hi => absurd hi (Nat.not_lt_zero i)⟩
    simp only [MvTables.get_set _ 1 0 _ (by decide), MvTables.get_set _ 2 0 _ (by decide)]
    simpa using ht0
  obtain ⟨c', hrun, hfr, hmax, t, ht, hlt, hz⟩ := epzsRows_zero
    { ctx with max := 0, mv_table := ((ctx.mv_table.set 2 (some t1)).set 1 (some t0)) } img
    ⟨hgeo, by
        simp only [MvTables.get_set _ 1 0 _ (by decide), MvTables.get_set _ 2 0 _ (by decide)]
        simpa using hr0,
      by simp [MvTables.get_set _ 1 1 _ (by decide), hl0],
      by simp [MvTables.get_set _ 1 2 _ (by decide), MvTables.get_set _ 2 2 _ (by decide), hl1]⟩
    hcur href hlen hp0 hpw hph hbw0 ctx.b_height.toNat (by simp only []; omega) _ hstart
  refine ⟨c', ?_, ?_, hmax⟩
  · unfold motionEstEPZS
    simp only [ht0, ht1, ht2, bind, Except.bind, pure, Except.pure,
      memcpyVectors_full t2 t1 ctx.b_count hcnt0 hl2 hl1,
      MvTables.get_set _ 2 1 _ (by decide), MvTables.get_set _ 2 0 _ (by decide)]
    simp only [show ((1 : Nat) = 2) = False from by decide, show ((0 : Nat) = 2) = False from by decide,
      if_false, ht0, ht1, memcpyVectors_full t1 t0 ctx.b_count hcnt0 hl1 hl0]
    rw [hrun]
  · rw [ht]
    congr 1
    apply List.ext_getElem
    · simp only [List.length_replicate]; exact hlt
    · intro i h1 h2
      have hk : ((ctx.b_height.toNat : Nat) : Int) * ctx.b_width = ctx.b_count := by
        rw [Int.toNat_of_nonneg hbh0, hcount, mul_comm]
      have := hz i (by
        simp only [] at hk ⊢
        rw [hk]
        simp only [List.length_replicate] at h2
        exact h2)
      simpa [List.getD, List.getElem?_eq_getElem h1] using this


/-! ## EPZS: what one block writes -/

/-- The two casts of `(int16_t) mv - x_mb` give back a small difference. -/
theorem wrap16_small (a b : Int) (h : -256 < a - b ∧ a - b < 256) :
    wrap16 (wrap16 a - b) = a - b := by
  unfold wrap16
  omega

/-- A stored magnitude is the squared length of the difference it was
computed from, and that difference is small. -/
theorem epzsMag2_inv (dx dy : Int) (m : Nat) (h : epzsMag2 dx dy = .ok m) :
    (m : Int) = dx * dx + dy * dy ∧ (-256 < dx ∧ dx < 256) ∧ (-256 < dy ∧ dy < 256) := by
  unfold epzsMag2 at h
  split at h
  · exact Except.noConfusion h
  · split at h
    · exact Except.noConfusion h
    · rename_i h1 h2
      have hm : (dx * dx + dy * dy).toNat = m := by injection h
      have h3 : dx * dx + dy * dy ≤ 65535 := by omega
      have h4 : 0 ≤ dx * dx + dy * dy := add_nonneg (mul_self_nonneg dx) (mul_self_nonneg dy)
      refine ⟨by omega, small_components dx dy h3⟩

/-- A successful write into a table was inside it. -/
theorem writeVector_inv (table : Option (List MotionVector16_t)) (i : Int) (v : MotionVector16_t)
    (t : List MotionVector16_t) (h : writeVector table i v = .ok t) :
    ∃ t0, table = some t0 ∧ 0 ≤ i ∧ i.toNat < t0.length ∧ t = t0.set i.toNat v := by
  unfold writeVector at h
  split at h
  · exact Except.noConfusion h
  · rename_i l
    split at h
    · rename_i hc
      injection h with h
      exact ⟨l, rfl, hc.1, hc.2, h.symm⟩
    · exact Except.noConfusion h

/-- One macroblock of `motionEstEPZS`, whatever the search finds: the block
writes its own entry of generation 0 with a vector that carries its squared
length, raises `max` to it, and leaves the rest of the frame alone. -/
theorem epzsBlock_effect (c c' : MotionEstContext) (x y : Int)
    (h : epzsBlock c x y = .ok c') :
    ∃ t0 v, c.mv_table.get 0 = some t0 ∧ 0 ≤ x + y * c.b_width
      ∧ (x + y * c.b_width).toNat < t0.length ∧ LoopFrame c c'
      ∧ c'.mv_table.get 0 = some (t0.set (x + y * c.b_width).toNat v)
      ∧ c'.max = max c.max (v.mag2 : Int)
      ∧ (v.mag2 : Int) = v.vx * v.vx + v.vy * v.vy := by
  unfold epzsBlock at h
  simp only [bind, Except.bind, pure, Except.pure] at h
  repeat' split at h
  all_goals first | (exfalso; exact Except.noConfusion h) | skip
  rename_i _ xm _ _ ym _ _ p0 _ _ v1 _ _ p1 _ _ r hs _ m hm _ t hw
  obtain ⟨t0, ht0, hi0, hi1, ht⟩ := writeVector_inv _ _ _ _ hw
  obtain ⟨hm1, hdx, hdy⟩ := epzsMag2_inv _ _ _ hm
  injection h with h
  subst h
  refine ⟨t0, { vx := wrap16 (wrap16 r.2.1 - xm), vy := wrap16 (wrap16 r.2.2 - ym), mag2 := m },
    ht0, hi0, hi1, ⟨rfl, rfl, rfl, rfl, rfl, rfl, rfl, rfl, rfl, rfl, ?_, ?_⟩, ?_, rfl,
    ?_⟩
  · simp only [MvTables.get_set _ 0 1 _ (by decide)]; rfl
  · simp only [MvTables.get_set _ 0 2 _ (by decide)]; rfl
  · simp only [MvTables.get_set _ 0 0 _ (by decide), if_true, ht]
  · simp only [wrap16_small _ _ hdx, wrap16_small _ _ hdy]
    exact hm1

/-- Frames compose. -/
theorem loopFrame_trans {a b c : MotionEstContext} (h1 : LoopFrame a b) (h2 : LoopFrame b c) :
    LoopFrame a c := by
  obtain ⟨a1, a2, a3, a4, a5, a6, a7, a8, a9, a10, a11, a12⟩ := h1
  obtain ⟨b1, b2, b3, b4, b5, b6, b7, b8, b9, b10, b11, b12⟩ := h2
  exact ⟨b1.trans a1, b2.trans a2, b3.trans a3, b4.trans a4, b5.trans a5, b6.trans a6,
    b7.trans a7, b8.trans a8, b9.trans a9, b10.trans a10, b11.trans a11, b12.trans a12⟩

/-- The first `k + 1` entries after a write at `k`. -/
theorem take_succ_set {α : Type} (t : List α) (k : Nat) (v : α) (h : k < t.length) :
    (t.set k v).take (k + 1) = t.take k ++ [v] := by
  induction t generalizing k with
  | nil => simp at h
  | cons a t ih =>
    cases k with
    | zero => simp
    | succ k =>
      simp only [List.set_cons_succ, List.take_succ_cons, List.cons_append]
      rw [ih k (by simpa using h)]

/-- The largest magnitude after one more vector. -/
theorem maxMag2_append (l : List MotionVector16_t) (v : MotionVector16_t) :
    maxMag2 (l ++ [v]) = max (maxMag2 l) (v.mag2 : Int) := by
  simp [maxMag2, List.foldl_append]

/-- One macroblock of `motionEstEPZS` keeps the relation between the vectors
written so far, their magnitudes and `max`. -/
theorem epzsBlock_mag_step (c0 c c' : MotionEstContext) (x y : Int)
    (hinv : MagRun c0 (x + y * c0.b_width).toNat c) (h : epzsBlock c x y = .ok c') :
    MagRun c0 ((x + y * c0.b_width).toNat + 1) c' := by
  obtain ⟨hfr, t, ht, hl, hm, hmax⟩ := hinv
  obtain ⟨t0, v, ht0, hi0, hi1, hfr2, ht', hmax', hv⟩ := epzsBlock_effect c c' x y h
  have hbw : c.b_width = c0.b_width := hfr.2.2.2.2.1
  rw [hbw] at hi0 hi1 ht'
  rw [ht] at ht0
  injection ht0 with ht0
  subst ht0
  refine ⟨loopFrame_trans hfr hfr2, _, ht', by simp [hl], ?_, ?_⟩
  · intro i hi
    by_cases hik : i = (x + y * c0.b_width).toNat
    · subst hik
      simpa [List.getD, hi1] using hv
    · have := hm i (by omega)
      simpa [List.getD, List.getElem?_set, Ne.symm hik] using this
  · rw [take_succ_set _ _ _ hi1, maxMag2_append, hmax', hmax]

/-- The column loop of `motionEstEPZS` keeps the relation. -/
theorem epzsCols_mag (c0 : MotionEstContext) (y : Nat) (hbw : 0 ≤ c0.b_width) :
    ∀ n : Nat, ∀ c c', MagRun c0 ((y : Int) * c0.b_width).toNat c →
      epzsCols y n c = .ok c' → MagRun c0 ((n : Int) + y * c0.b_width).toNat c' := by
  intro n
  induction n with
  | zero =>
    intro c c' hinv h
    injection h with h
    subst h
    simpa using hinv
  | succ n ih =>
    intro c c' hinv h
    simp only [epzsCols, bind, Except.bind] at h
    split at h
    · exact Except.noConfusion h
    · rename_i c1 hc1
      have h1 := ih c c1 hinv hc1
      have h2 := epzsBlock_mag_step c0 c1 c' n y h1 h
      have hb : (0 : Int) ≤ (y : Int) * c0.b_width := mul_nonneg (Int.natCast_nonneg _) hbw
      have he : (((n + 1 : Nat) : Int) + (y : Int) * c0.b_width).toNat
          = ((n : Int) + (y : Int) * c0.b_width).toNat + 1 := by
        push_cast; omega
      rw [he]
      exact h2

/-- The row loop of `motionEstEPZS` keeps the relation. -/
theorem epzsRows_mag (c0 : MotionEstContext) (hbw : 0 ≤ c0.b_width) :
    ∀ n : Nat, ∀ c c', MagRun c0 0 c →
      epzsRows n c = .ok c' → MagRun c0 ((n : Int) * c0.b_width).toNat c' := by
  intro n
  induction n with
  | zero =>
    intro c c' hinv h
    injection h with h
    subst h
    simpa using hinv
  | succ n ih =>
    intro c c' hinv h
    simp only [epzsRows, bind, Except.bind] at h
    split at h
    · exact Except.noConfusion h
    · rename_i c1 hc1
      have h1 := ih c c1 hinv hc1
      have hbw1 : c1.b_width = c0.b_width := h1.1.2.2.2.2.1
      rw [hbw1] at h
      have h2 := epzsCols_mag c0 n hbw c0.b_width.toNat c1 c' h1 h
      have he : (((n + 1 : Nat) : Int) * c0.b_width)
          = ((c0.b_width.toNat : Nat) : Int) + (n : Int) * c0.b_width := by
        rw [Int.toNat_of_nonneg hbw]; push_cast; ring
      rw [he]
      exact h2

/-- Whenever `motionEstEPZS` returns on a successfully initialised EPZS
context, generation 0 holds `b_count` vectors, each with
`mag2 = vx * vx + vy * vy`, and `max` is the largest `mag2` among them. -/
theorem motionEstEPZS_post (ctx ctx' : MotionEstContext) (r : Bool)
    (hready : EpzsReady ctx) (h : motionEstEPZS ctx = .ok (r, ctx')) :
    ∃ t, ctx'.mv_table.get 0 = some t ∧ t.length = ctx.b_count.toNat
      ∧ (∀ v, v ∈ t → (v.mag2 : Int) = v.vx * v.vx + v.vy * v.vy)
      ∧ ctx'.max = maxMag2 t := by
  obtain ⟨hgeo, hr0, hr1, hr2⟩ := hready
  obtain ⟨t0, ht0, hl0⟩ : ∃ t, ctx.mv_table.get 0 = some t ∧ t.length = ctx.b_count.toNat := by
    cases h : ctx.mv_table.get 0 with
    | none => rw [h] at hr0; simp at hr0
    | some t => rw [h] at hr0; exact ⟨t, rfl, by simpa using hr0⟩
  obtain ⟨t1, ht1, hl1⟩ : ∃ t, ctx.mv_table.get 1 = some t ∧ t.length = ctx.b_count.toNat := by
    cases h : ctx.mv_table.get 1 with
    | none => rw [h] at hr1; simp at hr1
    | some t => rw [h] at hr1; exact ⟨t, rfl, by simpa using hr1⟩
  obtain ⟨t2, ht2, hl2⟩ : ∃ t, ctx.mv_table.get 2 = some t ∧ t.length = ctx.b_count.toNat := by
    cases h : ctx.mv_table.get 2 with
    | none => rw [h] at hr2; simp at hr2
    | some t => rw [h] at hr2; exact ⟨t, rfl, by simpa using hr2⟩
  obtain ⟨hl0', hl31, hmb, hw0, hwmax, hh0, hhmax, hbw, hbh, hcount⟩ := hgeo
  have hmbpos : (0 : Int) < ctx.mbSize := by rw [hmb]; positivity
  have hbw0 : 0 ≤ ctx.b_width := by rw [hbw]; exact Int.ediv_nonneg hw0 (le_of_lt hmbpos)
  have hbh0 : 0 ≤ ctx.b_height := by rw [hbh]; exact Int.ediv_nonneg hh0 (le_of_lt hmbpos)
  have hcnt0 : 0 ≤ ctx.b_count := by rw [hcount]; exact mul_nonneg hbw0 hbh0
  have hstart : MagRun
      { ctx with max := 0, mv_table := ((ctx.mv_table.set 2 (some t1)).set 1 (some t0)) } 0
      { ctx with max := 0, mv_table := ((ctx.mv_table.set 2 (some t1)).set 1 (some t0)) } := by
    refine ⟨loopFrame_refl _, t0, ?_, hl0, fun i hi => absurd hi (Nat.not_lt_zero i), ?_⟩
    · simp only [MvTables.get_set _ 1 0 _ (by decide), MvTables.get_set _ 2 0 _ (by decide)]
      simpa using ht0
    · simp [maxMag2]
  unfold motionEstEPZS at h
  simp only [ht0, ht1, ht2, bind, Except.bind, pure, Except.pure,
    memcpyVectors_full t2 t1 ctx.b_count hcnt0 hl2 hl1,
    MvTables.get_set _ 2 1 _ (by decide), MvTables.get_set _ 2 0 _ (by decide)] at h
  simp only [show ((1 : Nat) = 2) = False from by decide, show ((0 : Nat) = 2) = False from by decide,
    if_false, ht0, ht1, memcpyVectors_full t1 t0 ctx.b_count hcnt0 hl1 hl0] at h
  split at h
  · exact Except.noConfusion h
  · rename_i c1 hc1
    injection h with h
    injection h with _ h
    subst h
    obtain ⟨_, t, ht, hlt, hm, hmax⟩ := epzsRows_mag
      { ctx with max := 0, mv_table := ((ctx.mv_table.set 2 (some t1)).set 1 (some t0)) }
      hbw0 ctx.b_height.toNat _ _ hstart hc1
    have hk : (((ctx.b_height.toNat : Nat) : Int) * ctx.b_width).toNat = t.length := by
      rw [Int.toNat_of_nonneg hbh0, mul_comm, ← hcount, hlt]
    simp only [] at hm hmax hlt
    rw [hk] at hm hmax
    refine ⟨t, ht, hlt, ?_, ?_⟩
    · intro v hv
      obtain ⟨i, hi, rfl⟩ := List.getElem_of_mem hv
      have := hm i hi
      simpa [List.getD, List.getElem?_eq_getElem hi] using this
    · rw [hmax, List.take_length]


/-! ## EPZS: translated planes -/

/-- The row loop of the SAD over two rows with the same samples is 0. -/
theorem sadRow_match (ref cur : List Nat) (pr pc : Int) (n : Nat) (hr0 : 0 ≤ pr)
    (hr1 : pr + (n : Int) ≤ ref.length) (hc0 : 0 ≤ pc) (hc1 : pc + (n : Int) ≤ cur.length)
    (heq : ∀ i : Nat, i < n → ref.getD (pr + (i : Int)).toNat 0 = cur.getD (pc + (i : Int)).toNat 0) :
    sadRow (some ref) (some cur) pr pc n = .ok 0 := by
  induction n with
  | zero => rfl
  | succ n ih =>
    have ha := readPlane_ok ref (pr + (n : Int)) (by omega) (by push_cast at hr1; omega)
    have hb := readPlane_ok cur (pc + (n : Int)) (by omega) (by push_cast at hc1; omega)
    simp only [sadRow, ih (by push_cast at hr1; omega) (by push_cast at hc1; omega)
      (fun i hi => heq i (by omega)), ha, hb, heq n (by omega), bind, Except.bind, pure,
      Except.pure]
    simp

/-- The SAD between two windows with the same samples is 0, as long as both
windows lie inside their planes. -/
theorem sadRows_match (ref cur : List Nat) (w x_mb y_mb x_mv y_mv : Int) (mb n : Nat)
    (hw : 0 ≤ w) (hxb : 0 ≤ x_mb) (hyb : 0 ≤ y_mb) (hxbw : x_mb + (mb : Int) ≤ w)
    (hlenc : (y_mb + (n : Int)) * w ≤ cur.length)
    (hxv : 0 ≤ x_mv) (hyv : 0 ≤ y_mv) (hxvw : x_mv + (mb : Int) ≤ w)
    (hlenr : (y_mv + (n : Int)) * w ≤ ref.length)
    (heq : ∀ j i : Nat, j < n → i < mb →
      ref.getD (y_mv * w + x_mv + (j : Int) * w + (i : Int)).toNat 0
        = cur.getD (y_mb * w + x_mb + (j : Int) * w + (i : Int)).toNat 0) :
    sadRows (some ref) (some cur) w x_mb y_mb x_mv y_mv mb n = .ok 0 := by
  induction n with
  | zero => rfl
  | succ n ih =>
    have hmonoc : (y_mb + (n : Int)) * w ≤ (y_mb + ((n + 1 : Nat) : Int)) * w := by
      apply mul_le_mul_of_nonneg_right _ hw
      push_cast; omega
    have hmonor : (y_mv + (n : Int)) * w ≤ (y_mv + ((n + 1 : Nat) : Int)) * w := by
      apply mul_le_mul_of_nonneg_right _ hw
      push_cast; omega
    have h2c : (y_mb + ((n + 1 : Nat) : Int)) * w = y_mb * w + (n : Int) * w + w := by
      push_cast; ring
    have h2r : (y_mv + ((n + 1 : Nat) : Int)) * w = y_mv * w + (n : Int) * w + w := by
      push_cast; ring
    have hnw := mul_nonneg (Int.natCast_nonneg n) hw
    have hrow := sadRow_match ref cur (y_mv * w + x_mv + (n : Int) * w)
      (y_mb * w + x_mb + (n : Int) * w) mb
      (by have := mul_nonneg hyv hw; omega) (by omega)
      (by have := mul_nonneg hyb hw; omega) (by omega)
      (fun i hi => heq n i (by omega) hi)
    simp only [sadRows, ih (le_trans hmonoc hlenc) (le_trans hmonor hlenr)
      (fun j i hj hi => heq j i (by omega) hi), hrow, bind, Except.bind, pure, Except.pure]
    simp

/-- The window of the last macroblock of a row lies inside the plane. -/
theorem last_window_facts (w mb : Int) (hmb : 0 < mb) : (w / mb - 1) * mb + mb ≤ w := by
  have h1 : w / mb * mb ≤ w := Int.ediv_mul_le w (ne_of_gt hmb)
  rw [sub_mul]
  omega

/-- The early exit on the predicted vector: in any state of the block loop of
`motionEstEPZS` on a successfully initialised context, a macroblock whose
window of the current plane equals the window of the previous plane displaced
by (dx, dy), with
|dx|, |dy| within the search radius, the displaced origin between 0 and the
origin of the last macroblock, and the median predictor of the block (taken
from the vectors already emitted for its left, top and top-right neighbours)
equal to (dx, dy), gets exactly the vector (dx, dy). -/
theorem epzsBlock_translation (c : MotionEstContext) (cur ref : List Nat) (mb_x mb_y : Nat)
    (dx dy : Int) (hready : EpzsReady c) (hcur : c.data_cur = some cur)
    (href : c.data_ref = some ref) (hlenc : c.width * c.height ≤ cur.length)
    (hlenr : c.width * c.height ≤ ref.length)
    (hpw : c.width + c.search_param ≤ INT_MAX) (hph : c.height + c.search_param ≤ INT_MAX)
    (hx : (mb_x : Int) < c.b_width) (hy : (mb_y : Int) < c.b_height)
    (hdx : |dx| ≤ c.search_param) (hdy : |dy| ≤ c.search_param)
    (hwx : 0 ≤ (mb_x : Int) * c.mbSize + dx
      ∧ (mb_x : Int) * c.mbSize + dx ≤ (c.b_width - 1) * c.mbSize)
    (hwy : 0 ≤ (mb_y : Int) * c.mbSize + dy
      ∧ (mb_y : Int) * c.mbSize + dy ≤ (c.b_height - 1) * c.mbSize)
    (htrans : ∀ j i : Nat, (j : Int) < c.mbSize → (i : Int) < c.mbSize →
      cur.getD (((mb_y : Int) * c.mbSize + j) * c.width + ((mb_x : Int) * c.mbSize + i)).toNat 0
        = ref.getD (((mb_y : Int) * c.mbSize + dy + j) * c.width
            + ((mb_x : Int) * c.mbSize + dx + i)).toNat 0)
    (hpred : (currentPredictors c mb_x mb_y).map medianPredictor = .ok (dx, dy))
    (hmag : dx * dx + dy * dy ≤ 65535) :
    ∃ c', epzsBlock c mb_x mb_y = .ok c'
      ∧ (c'.mv_table.get 0).map
          (fun t => t.getD ((mb_x : Int) + mb_y * c.b_width).toNat MotionVector16_t.zero)
        = some { vx := dx, vy := dy, mag2 := (dx * dx + dy * dy).toNat } := by
  obtain ⟨hgeo, hr0, hr1, hr2⟩ := hready
  obtain ⟨t0, ht0, hl0⟩ : ∃ t, c.mv_table.get 0 = some t ∧ t.length = c.b_count.toNat := by
    cases h : c.mv_table.get 0 with
    | none => rw [h] at hr0; simp at hr0
    | some t => rw [h] at hr0; exact ⟨t, rfl, by simpa using hr0⟩
  obtain ⟨t1, ht1, hl1⟩ : ∃ t, c.mv_table.get 1 = some t ∧ t.length = c.b_count.toNat := by
    cases h : c.mv_table.get 1 with
    | none => rw [h] at hr1; simp at hr1
    | some t => rw [h] at hr1; exact ⟨t, rfl, by simpa using hr1⟩
  obtain ⟨t2, ht2, hl2⟩ : ∃ t, c.mv_table.get 2 = some t ∧ t.length = c.b_count.toNat := by
    cases h : c.mv_table.get 2 with
    | none => rw [h] at hr2; simp at hr2
    | some t => rw [h] at hr2; exact ⟨t, rfl, by simpa using hr2⟩
  have hgeo' := hgeo
  obtain ⟨hl0', hl31, hmb, hw0, hwmax, hh0, hhmax, hbw, hbh, hcount⟩ := hgeo'
  have hmbpos : (0 : Int) < c.mbSize := by rw [hmb]; positivity
  obtain ⟨hB0, hB1, hB2, hB3⟩ := block_index_facts c.b_width c.b_height mb_x mb_y
    (Int.natCast_nonneg _) hx (Int.natCast_nonneg _) hy
  obtain ⟨hX0, hX1, hX2⟩ := block_origin_facts c.width c.mbSize mb_x hmbpos
    (Int.natCast_nonneg _) (by rw [← hbw]; exact hx)
  obtain ⟨hY0, hY1, hY2⟩ := block_origin_facts c.height c.mbSize mb_y hmbpos
    (Int.natCast_nonneg _) (by rw [← hbh]; exact hy)
  have hGX := last_origin_facts c.width c.mbSize hmbpos (by rw [← hbw]; omega)
  have hGY := last_origin_facts c.height c.mbSize hmbpos (by rw [← hbh]; omega)
  have hWX := last_window_facts c.width c.mbSize hmbpos
  have hWY := last_window_facts c.height c.mbSize hmbpos
  have hdx' := abs_le.mp hdx
  have hdy' := abs_le.mp hdy
  have hp0 : 0 ≤ c.search_param := le_trans (abs_nonneg dx) hdx
  obtain ⟨p0, hcurp⟩ : ∃ p0, currentPredictors c mb_x mb_y = .ok p0 :=
    ⟨_, currentPredictors_eq c t0 mb_x mb_y ht0 hcount hl0 hx hy⟩
  have hmed : medianPredictor p0 = (dx, dy) := by
    rw [hcurp] at hpred
    simpa [Except.map] using hpred
  have hmbn : ((c.mbSize.toNat : Nat) : Int) = c.mbSize := Int.toNat_of_nonneg (le_of_lt hmbpos)
  have hcost : me_comp_sad c ((mb_x : Int) * c.mbSize) ((mb_y : Int) * c.mbSize)
      ((mb_x : Int) * c.mbSize + dx) ((mb_y : Int) * c.mbSize + dy) = .ok 0 := by
    unfold me_comp_sad
    rw [hcur, href]
    rw [hbw] at hwx
    rw [hbh] at hwy
    refine sadRows_match ref cur c.width _ _ _ _ _ _ hw0 hX0 hY0 (by rw [hmbn]; exact hX1) ?_
      hwx.1 hwy.1 (by rw [hmbn]; omega) ?_ ?_
    · rw [hmbn]
      refine le_trans ?_ hlenc
      rw [mul_comm c.width c.height]
      exact mul_le_mul_of_nonneg_right hY1 hw0
    · rw [hmbn]
      refine le_trans ?_ hlenr
      rw [mul_comm c.width c.height]
      exact mul_le_mul_of_nonneg_right (by omega) hw0
    · intro j i hj hi
      have := htrans j i (by omega) (by omega)
      have e1 : ((mb_y : Int) * c.mbSize + dy) * c.width + ((mb_x : Int) * c.mbSize + dx)
          + (j : Int) * c.width + (i : Int)
          = ((mb_y : Int) * c.mbSize + dy + j) * c.width + ((mb_x : Int) * c.mbSize + dx + i) := by
        ring
      have e2 : (mb_y : Int) * c.mbSize * c.width + (mb_x : Int) * c.mbSize
          + (j : Int) * c.width + (i : Int)
          = ((mb_y : Int) * c.mbSize + j) * c.width + ((mb_x : Int) * c.mbSize + i) := by
        ring
      rw [e1, e2]
      exact this.symm
  obtain ⟨q0, q1, hblk⟩ := epzsBlock_pred_exit c t0 t1 t2 mb_x mb_y dx dy 0 p0
    hgeo ht0 ht1 ht2 hl0 hl1 hl2 hx hy hp0 hpw hph hcurp hmed
    ⟨max_le (by omega) (by omega), le_min (by omega) hwx.2⟩
    ⟨max_le (by omega) (by omega), le_min (by omega) hwy.2⟩
    hcost (by decide) hmag
  refine ⟨_, hblk, ?_⟩
  have hlt : ((mb_x : Int) + mb_y * c.b_width).toNat < t0.length := by
    rw [hl0]
    have := hcount
    omega
  simp [MvTables.get_set _ 0 0 _ (by decide), List.getD, hlt]


/-! ## ARPS: identical planes -/

/-- A value inside the `int` range is kept by the conversion. -/
theorem wrap32_small (x : Int) (h0 : -2147483648 ≤ x) (h1 : x ≤ 2147483647) : wrap32 x = x := by
  unfold wrap32
  omega

/-- A value inside the `unsigned` range is kept by the conversion. -/
theorem u32_small (x : Int) (h0 : 0 ≤ x) (h1 : x < 4294967296) : ((u32 x : Nat) : Int) = x := by
  unfold u32
  rw [Int.emod_eq_of_lt h0 h1]
  exact Int.toNat_of_nonneg h0

/-- The column loop of `costFuncSAD` between a row of a plane and itself adds
nothing to the accumulator, as long as the row lies inside the plane. -/
theorem sadCols_self (img : List Nat) (iw off : Int) (n : Nat) (err : Int)
    (he0 : INT_MIN ≤ err) (he1 : err ≤ INT_MAX)
    (h0 : 0 ≤ iw) (h1 : 0 ≤ off) (h2 : iw + off + (n : Int) ≤ img.length)
    (h3 : iw + off + (n : Int) ≤ INT_MAX) :
    sadCols (some img) (some img) iw off off n err = .ok err := by
  have hmx : INT_MAX = 2147483647 := rfl
  have hmn : INT_MIN = -2147483648 := rfl
  induction n with
  | zero => rfl
  | succ n ih =>
    push_cast at h2 h3
    have hr := readPlane_ok img (iw + (n : Int) + off) (by omega) (by omega)
    simp only [sadCols, ih (by omega) (by omega), bind, Except.bind, pure, Except.pure,
      checkedInt_ok (iw + (n : Int)) (by omega) (by omega),
      checkedInt_ok (iw + (n : Int) + off) (by omega) (by omega), hr, sub_self, abs_zero,
      add_zero, checkedInt_ok err he0 he1]

/-- The row loop of `costFuncSAD` between a window of a plane and itself gives
0, as long as the window lies inside the plane. -/
theorem sadLines_self (img : List Nat) (off : Int) (mb w n : Nat) (h1 : 0 ≤ off)
    (hb : ∀ i : Nat, i < n → off + (i : Int) * (w : Int) + (mb : Int) ≤ img.length
      ∧ off + (i : Int) * (w : Int) + (mb : Int) ≤ INT_MAX) :
    sadLines (some img) (some img) off off mb w n 0 = .ok 0 := by
  have hmx : INT_MAX = 2147483647 := rfl
  induction n with
  | zero => rfl
  | succ n ih =>
    obtain ⟨hb1, hb2⟩ := hb n (by omega)
    have hnw : (0 : Int) ≤ (n : Int) * (w : Int) :=
      mul_nonneg (Int.natCast_nonneg _) (Int.natCast_nonneg _)
    have hwr : wrap32 ((n : Int) * (w : Int)) = (n : Int) * (w : Int) :=
      wrap32_small _ (by omega) (by omega)
    simp only [sadLines, ih (fun i hi => hb i (by omega)), bind, Except.bind, hwr]
    exact sadCols_self img _ off mb 0 (by decide) (by decide) hnw h1 (by omega) (by omega)

/-- The SAD of `costFuncSAD` between a window of a plane and itself is 0. -/
theorem costFuncSAD_self (img : List Nat) (off : Int) (mb w : Nat) (h1 : 0 ≤ off)
    (hmb : (mb : Int) ≤ INT_MAX)
    (hb : ∀ i : Nat, i < mb → off + (i : Int) * (w : Int) + (mb : Int) ≤ img.length
      ∧ off + (i : Int) * (w : Int) + (mb : Int) ≤ INT_MAX) :
    costFuncSAD (some img) (some img) off off mb w = .ok 0 := by
  unfold costFuncSAD
  rw [if_neg (by omega)]
  exact sadLines_self img off mb w mb h1 hb

/-- The window of macroblock (`r`, `c`) ends inside a plane of `bw` x `bh`
macroblocks of side `mb`. -/
theorem window_bound (bw bh mb r c i : Nat) (hr : r < bh) (hc : c < bw) (hi : i < mb) :
    r * mb * (bw * mb) + c * mb + i * (bw * mb) + mb ≤ bw * mb * (bh * mb) := by
  have h1 : c * mb + mb ≤ bw * mb := by
    have : (c + 1) * mb ≤ bw * mb := Nat.mul_le_mul_right mb hc
    rw [Nat.add_mul, Nat.one_mul] at this
    exact this
  have h2 : r * mb + i + 1 ≤ bh * mb := by
    have : (r + 1) * mb ≤ bh * mb := Nat.mul_le_mul_right mb hr
    rw [Nat.add_mul, Nat.one_mul] at this
    omega
  have h3 : (r * mb + i + 1) * (bw * mb) ≤ bh * mb * (bw * mb) := Nat.mul_le_mul_right _ h2
  have h4 : (r * mb + i + 1) * (bw * mb) = r * mb * (bw * mb) + i * (bw * mb) + bw * mb := by ring
  have h5 : bh * mb * (bw * mb) = bw * mb * (bh * mb) := by ring
  omega

/-- The counters and offsets of `motionEstARPS` at macroblock (`r`, `c`) are
the exact products when the plane has at most `INT_MAX` samples. -/
theorem arps_offsets (bw bh mb r c : Nat) (hr : r < bh) (hc : c < bw) (hmb0 : 0 < mb)
    (hmax : ((bw * mb * (bh * mb) : Nat) : Int) ≤ INT_MAX) :
    wrap32 ((r : Int) * (mb : Int)) = ((r * mb : Nat) : Int)
      ∧ wrap32 (((r * mb : Nat) : Int) * ((bw * mb : Nat) : Int)) = ((r * mb * (bw * mb) : Nat) : Int)
      ∧ wrap32 ((c : Int) * (mb : Int)) = ((c * mb : Nat) : Int)
      ∧ ((r * mb * (bw * mb) + c * mb : Nat) : Int) ≤ INT_MAX := by
  have hmx : INT_MAX = 2147483647 := rfl
  have hw0 := window_bound bw bh mb r c 0 hr hc hmb0
  have hbw : 1 ≤ bw * mb := Nat.mul_pos (by omega) hmb0
  have h1 : r * mb ≤ r * mb * (bw * mb) := Nat.le_mul_of_pos_right _ hbw
  have hmaxn : bw * mb * (bh * mb) ≤ 2147483647 := by
    have : ((bw * mb * (bh * mb) : Nat) : Int) ≤ ((2147483647 : Nat) : Int) := by
      rw [hmx] at hmax; exact_mod_cast hmax
    exact_mod_cast this
  have e1 : ((r * mb : Nat) : Int) ≤ 2147483647 := by
    have : r * mb ≤ 2147483647 := by omega
    exact_mod_cast this
  have e2 : ((r * mb * (bw * mb) : Nat) : Int) ≤ 2147483647 := by
    have : r * mb * (bw * mb) ≤ 2147483647 := by omega
    exact_mod_cast this
  have e3 : ((c * mb : Nat) : Int) ≤ 2147483647 := by
    have : c * mb ≤ 2147483647 := by omega
    exact_mod_cast this
  have e4 : ((r * mb * (bw * mb) + c * mb : Nat) : Int) ≤ 2147483647 := by
    have : r * mb * (bw * mb) + c * mb ≤ 2147483647 := by omega
    exact_mod_cast this
  refine ⟨?_, ?_, ?_, by rw [hmx]; exact e4⟩
  · rw [← Nat.cast_mul]
    exact wrap32_small _ (by have := Int.natCast_nonneg (r * mb); omega) e1
  · rw [← Nat.cast_mul]
    exact wrap32_small _ (by have := Int.natCast_nonneg (r * mb * (bw * mb)); omega) e2
  · rw [← Nat.cast_mul]
    exact wrap32_small _ (by have := Int.natCast_nonneg (c * mb); omega) e3

/-- One macroblock of `motionEstARPS` on identical planes is prejudged as
having no motion: it gets the zero vector and `vectors` moves on. -/
theorem arpsBlock_identical (img : List Nat) (w h mb : Nat) (p zmp_T : Int) (i iw j : Int)
    (s : ArpsState) (t : List MotionVector16_t) (hoff0 : 0 ≤ iw + j)
    (hoff1 : iw + j ≤ INT_MAX) (hmb : (mb : Int) ≤ INT_MAX)
    (hb : ∀ r : Nat, r < mb → iw + j + (r : Int) * (w : Int) + (mb : Int) ≤ img.length
      ∧ iw + j + (r : Int) * (w : Int) + (mb : Int) ≤ INT_MAX)
    (hz : 0 < u32 zmp_T) (hv : s.vectors = some t) (hvi0 : 0 ≤ s.vi)
    (hvi : s.vi.toNat < t.length) :
    arpsBlock (some img) (some img) w h mb p zmp_T i iw j s
      = .ok { s with costs := s.costs.set 2 0, vectors := some (t.set s.vi.toNat MotionVector16_t.zero),
                     vi := s.vi + 1 } := by
  have hmn : INT_MIN = -2147483648 := rfl
  have hu : u32 0 = 0 := rfl
  unfold arpsBlock
  simp only [checkedInt_ok (iw + j) (by omega) hoff1, costFuncSAD_self img (iw + j) mb w hoff0 hmb hb,
    bind, Except.bind, pure, Except.pure, hu, hz, if_true, hv,
    writeVector_ok t s.vi MotionVector16_t.zero hvi0 (by omega)]

/-- The column loop of `motionEstARPS` on identical planes: the first `n`
macroblocks of row `r` get the zero vector. -/
theorem arpsCols_identical (img : List Nat) (bw bh mb : Nat) (p zmp_T : Int) (r : Nat)
    (hr : r < bh) (hmb0 : 0 < mb) (hlen : bw * mb * (bh * mb) ≤ img.length)
    (hmax : ((bw * mb * (bh * mb) : Nat) : Int) ≤ INT_MAX) (hz : 0 < u32 zmp_T) :
    ∀ n : Nat, n ≤ bw → ∀ s, ZeroVectors (bw * bh) (r * bw) s →
      ∃ s', arpsCols (some img) (some img) (bw * mb) (bh * mb) mb p zmp_T
          (wrap32 ((r : Int) * (mb : Int))) n s = .ok s'
        ∧ ZeroVectors (bw * bh) (r * bw + n) s' := by
  have hmx : INT_MAX = 2147483647 := rfl
  intro n
  induction n with
  | zero =>
    intro _ s hinv
    exact ⟨s, rfl, hinv⟩
  | succ n ih =>
    intro hn s hinv
    obtain ⟨s1, hs1, hvi, hm, t, ht, hl, hzero⟩ := ih (by omega) s hinv
    obtain ⟨o1, o2, o3, o4⟩ := arps_offsets bw bh mb r n hr (by omega) hmb0 hmax
    have hidx : r * bw + n < bw * bh := by
      have : (r + 1) * bw ≤ bh * bw := Nat.mul_le_mul_right bw hr
      rw [Nat.add_mul, Nat.one_mul, Nat.mul_comm bh bw] at this
      omega
    have hmbT : mb ≤ bw * mb * (bh * mb) := by
      have := window_bound bw bh mb r n 0 hr (by omega) hmb0
      omega
    have hblk := arpsBlock_identical img (bw * mb) (bh * mb) mb p zmp_T ((r * mb : Nat) : Int)
      ((r * mb * (bw * mb) : Nat) : Int) ((n * mb : Nat) : Int) s1 t
      (by have := Int.natCast_nonneg (r * mb * (bw * mb)); have := Int.natCast_nonneg (n * mb); omega)
      (by push_cast at o4 ⊢; exact o4)
      (le_trans (by exact_mod_cast hmbT) hmax)
      (fun i hi => by
        have hw := window_bound bw bh mb r n i hr (by omega) hi
        constructor
        · exact_mod_cast le_trans hw hlen
        · refine le_trans ?_ hmax
          exact_mod_cast hw)
      hz ht (by rw [hvi]; exact Int.natCast_nonneg _) (by rw [hvi, hl]; simpa using hidx)
    refine ⟨{ s1 with costs := s1.costs.set 2 0,
                      vectors := some (t.set s1.vi.toNat MotionVector16_t.zero),
                      vi := s1.vi + 1 }, ?_, ?_⟩
    · rw [o1] at hs1
      simp only [arpsCols, hs1, bind, Except.bind, o1, o2, o3]
      exact hblk
    · refine ⟨by simp only [hvi]; push_cast; ring, hm, _, rfl, by simp [hl], ?_⟩
      intro i hi
      have hk : s1.vi.toNat = r * bw + n := by rw [hvi]; omega
      rw [hk]
      by_cases hik : i = r * bw + n
      · subst hik
        simp [List.getD, hl, hidx]
      · have := hzero i (by omega)
        simpa [List.getD, List.getElem?_set, Ne.symm hik] using this

/-- The number of passes of the loops of `motionEstARPS` over `b` macroblocks
of side `mb`. -/
theorem loopCount_blocks (b mb : Nat) (hb : 0 < b) (hmb0 : 0 < mb)
    (hmax : b * mb < 4294967296) :
    loopCount (u32 (((b * mb : Nat) : Int) - (mb : Int) + 1)) mb = b := by
  have h1 : mb ≤ b * mb := Nat.le_mul_of_pos_left mb hb
  have h2 : u32 (((b * mb : Nat) : Int) - (mb : Int) + 1) = b * mb - mb + 1 := by
    unfold u32
    omega
  rw [h2, loopCount]
  have h3 : b * mb - mb + 1 + mb - 1 = b * mb := by omega
  rw [h3]
  exact Nat.mul_div_cancel b hmb0

/-- The row loop of `motionEstARPS` on identical planes: the macroblocks of
the first `n` rows get the zero vector. -/
theorem arpsRows_identical (img : List Nat) (bw bh mb : Nat) (p zmp_T : Int)
    (hbw : 0 < bw) (hmb0 : 0 < mb) (hlen : bw * mb * (bh * mb) ≤ img.length)
    (hmax : ((bw * mb * (bh * mb) : Nat) : Int) ≤ INT_MAX) (hz : 0 < u32 zmp_T) :
    ∀ n : Nat, n ≤ bh → ∀ s, ZeroVectors (bw * bh) 0 s →
      ∃ s', arpsRows (some img) (some img) (bw * mb) (bh * mb) mb p zmp_T n s = .ok s'
        ∧ ZeroVectors (bw * bh) (n * bw) s' := by
  have hmx : INT_MAX = 2147483647 := rfl
  intro n
  induction n with
  | zero =>
    intro _ s hinv
    exact ⟨s, rfl, by simpa using hinv⟩
  | succ n ih =>
    intro hn s hinv
    obtain ⟨s1, hs1, hinv1⟩ := ih (by omega) s hinv
    have hbwT : bw * mb < 4294967296 := by
      have := window_bound bw bh mb n 0 0 (by omega) hbw hmb0
      have h2 : bw * mb ≤ bw * mb * (bh * mb) :=
        Nat.le_mul_of_pos_right _ (Nat.mul_pos (by omega) hmb0)
      have : ((bw * mb : Nat) : Int) ≤ ((bw * mb * (bh * mb) : Nat) : Int) := by exact_mod_cast h2
      omega
    have hcnt := loopCount_blocks bw mb hbw hmb0 hbwT
    obtain ⟨s2, hs2, hinv2⟩ := arpsCols_identical img bw bh mb p zmp_T n (by omega) hmb0 hlen hmax
      hz bw (le_refl _) s1 hinv1
    refine ⟨s2, ?_, ?_⟩
    · simp only [arpsRows, hs1, bind, Except.bind, hcnt, hs2, loopEnd, pure, Except.pure]
      rw [if_neg (by omega)]
    · have he : (n + 1) * bw = n * bw + bw := by ring
      rw [he]
      exact hinv2

/-- Function `motionEstARPS` on identical planes of `bw` x `bh` macroblocks
with a positive threshold: every vector is zero and the maximum is 0. -/
theorem motionEstARPS_identical (img : List Nat) (t : List MotionVector16_t) (bw bh mb : Nat)
    (p zmp_T : Int) (hbw : 0 < bw) (hbh : 0 < bh) (hmb0 : 0 < mb)
    (hlen : bw * mb * (bh * mb) ≤ img.length)
    (hmax : ((bw * mb * (bh * mb) : Nat) : Int) ≤ INT_MAX) (hz : 0 < u32 zmp_T)
    (hp0 : 0 ≤ p) (hp1 : 2 * p + 1 ≤ INT_MAX) (hl : t.length = bw * bh) :
    motionEstARPS (some img) (some img) (bw * mb) (bh * mb) mb p (some t) zmp_T
      = .ok (true, some (List.replicate (bw * bh) MotionVector16_t.zero), 0) := by
  have hmx : INT_MAX = 2147483647 := rfl
  have hmn : INT_MIN = -2147483648 := rfl
  have hbhT : bh * mb < 4294967296 := by
    have h2 : bh * mb ≤ bw * mb * (bh * mb) :=
      Nat.le_mul_of_pos_left _ (Nat.mul_pos hbw hmb0)
    have : ((bh * mb : Nat) : Int) ≤ ((bw * mb * (bh * mb) : Nat) : Int) := by exact_mod_cast h2
    omega
  have hcnt := loopCount_blocks bh mb hbh hmb0 hbhT
  obtain ⟨s', hs', hvi, hm, t', ht', hl', hzero⟩ := arpsRows_identical img bw bh mb p zmp_T hbw
    hmb0 hlen hmax hz bh (le_refl _)
    { vectors := some t, vi := 0, costs := [UINT32_MAX, 0, 0, 0, 0, 0], stepSize := 0,
      maxIndex := -1, LDSP := List.replicate 6 (0, 0), checkArray := [], max_mag2 := 0 }
    ⟨rfl, rfl, t, rfl, hl, fun i hi => absurd hi (Nat.not_lt_zero i)⟩
  unfold motionEstARPS
  simp only [checkedInt_ok (2 * p) (by omega) (by omega), checkedInt_ok (2 * p + 1) (by omega) hp1,
    bind, Except.bind, pure, Except.pure, hcnt, hs', loopEnd]
  rw [if_neg (by omega), if_neg (by omega), if_neg (by omega)]
  simp only [ht', hm]
  congr 4
  apply List.ext_getElem
  · simp [hl']
  · intro i h1 h2
    have := hzero i (by rw [Nat.mul_comm]; rw [hl'] at h1; exact h1)
    simpa [List.getD, List.getElem?_eq_getElem h1] using this

/-- The zero-motion threshold `mbSize << (log2_mbSize + 1)` stays inside the
`int` range up to macroblocks of side 2^14. -/
theorem zmp_threshold_range (l : Int) (h0 : 0 ≤ l) (h1 : l ≤ 14) :
    0 < (2 : Int) ^ l.toNat * 2 ^ (l + 1).toNat
      ∧ (2 : Int) ^ l.toNat * 2 ^ (l + 1).toNat ≤ 536870912 := by
  obtain ⟨n, rfl⟩ := Int.eq_ofNat_of_zero_le h0
  have hn : n ≤ 14 := by omega
  have e : ((n : Int) + 1).toNat = n + 1 := by omega
  rw [Int.toNat_ofNat, e, ← pow_add]
  constructor
  · positivity
  · have : (2 : Int) ^ (n + (n + 1)) ≤ 2 ^ 29 := pow_le_pow_right₀ (by norm_num) (by omega)
    norm_num at this
    exact this

/-- The wrapper of `motionEstARPS` on identical planes. -/
theorem motionEstARPS_wrapper_identical (ctx : MotionEstContext) (img : List Nat)
    (hready : ArpsReady ctx) (hcur : ctx.data_cur = some img) (href : ctx.data_ref = some img)
    (hw : 4 * ctx.mbSize < ctx.width) (hh : ctx.mbSize ≤ ctx.height)
    (hlen : ctx.width * ctx.height ≤ img.length) (hmax : ctx.width * ctx.height ≤ INT_MAX)
    (hL : ctx.log2_mbSize ≤ 14) (hp0 : 0 ≤ ctx.search_param)
    (hp1 : 2 * ctx.search_param + 1 ≤ INT_MAX) :
    motionEstARPS_wrapper ctx = .ok (true,
      { ctx with mv_table := ctx.mv_table.set 0
                   (some (List.replicate ctx.b_count.toNat MotionVector16_t.zero)),
                 max := 0 }) := by
  have hmx : INT_MAX = 2147483647 := rfl
  have hmn : INT_MIN = -2147483648 := rfl
  obtain ⟨hgeo, hr0⟩ := hready
  obtain ⟨t0, ht0, hl0⟩ : ∃ t, ctx.mv_table.get 0 = some t ∧ t.length = ctx.b_count.toNat := by
    cases h : ctx.mv_table.get 0 with
    | none => rw [h] at hr0; simp at hr0
    | some t => rw [h] at hr0; exact ⟨t, rfl, by simpa using hr0⟩
  obtain ⟨hl0', hl31, hmb, hw0, hwmax, hh0, hhmax, hbw, hbh, hcount⟩ := hgeo
  have hmbpos : (0 : Int) < ctx.mbSize := by rw [hmb]; positivity
  have hbw1 : 0 < ctx.b_width := by
    rw [hbw]; exact Int.ediv_pos_of_pos_of_dvd (by omega) (le_of_lt hmbpos) (dvd_refl _) |>.trans_le
      (Int.ediv_le_ediv hmbpos (by omega))
  have hbh1 : 0 < ctx.b_height := by
    rw [hbh]
    have : 1 ≤ ctx.height / ctx.mbSize := Int.le_ediv_of_mul_le hmbpos (by omega)
    omega
  have hcnt0 : 0 ≤ ctx.b_count := by rw [hcount]; exact le_of_lt (mul_pos hbw1 hbh1)
  have hW : ctx.b_width * ctx.mbSize ≤ ctx.width := by
    rw [hbw]; exact Int.ediv_mul_le _ (ne_of_gt hmbpos)
  have hH : ctx.b_height * ctx.mbSize ≤ ctx.height := by
    rw [hbh]; exact Int.ediv_mul_le _ (ne_of_gt hmbpos)
  have hW0 : 0 < ctx.b_width * ctx.mbSize := mul_pos hbw1 hmbpos
  have hH0 : 0 < ctx.b_height * ctx.mbSize := mul_pos hbh1 hmbpos
  have hWH : ctx.b_width * ctx.mbSize * (ctx.b_height * ctx.mbSize) ≤ ctx.width * ctx.height :=
    mul_le_mul hW hH (le_of_lt hH0) hw0
  obtain ⟨hz0, hz1⟩ := zmp_threshold_range ctx.log2_mbSize hl0' hL
  -- the four values the wrapper passes on
  have hzmp : shiftLeft ctx.mbSize (ctx.log2_mbSize + 1)
      = .ok (2 ^ ctx.log2_mbSize.toNat * 2 ^ (ctx.log2_mbSize + 1).toNat) := by
    rw [hmb]
    exact shiftLeft_ok _ _ (by omega) (by omega) (by omega) (by omega)
  have hsw : shiftLeft ctx.b_width ctx.log2_mbSize = .ok (ctx.b_width * ctx.mbSize) := by
    rw [hmb]
    exact shiftLeft_ok _ _ hl0' (by omega) (by rw [← hmb]; omega) (by rw [← hmb]; omega)
  have hsh : shiftLeft ctx.b_height ctx.log2_mbSize = .ok (ctx.b_height * ctx.mbSize) := by
    rw [hmb]
    exact shiftLeft_ok _ _ hl0' (by omega) (by rw [← hmb]; omega) (by rw [← hmb]; omega)
  have hbwn : ((ctx.b_width.toNat : Nat) : Int) = ctx.b_width := Int.toNat_of_nonneg (le_of_lt hbw1)
  have hbhn : ((ctx.b_height.toNat : Nat) : Int) = ctx.b_height :=
    Int.toNat_of_nonneg (le_of_lt hbh1)
  have hmbn : ((ctx.mbSize.toNat : Nat) : Int) = ctx.mbSize := Int.toNat_of_nonneg (le_of_lt hmbpos)
  have huw : u32 (ctx.b_width * ctx.mbSize) = ctx.b_width.toNat * ctx.mbSize.toNat := by
    have := u32_small (ctx.b_width * ctx.mbSize) (le_of_lt hW0) (by omega)
    have h2 : ((u32 (ctx.b_width * ctx.mbSize) : Nat) : Int)
        = ((ctx.b_width.toNat * ctx.mbSize.toNat : Nat) : Int) := by
      rw [this]; push_cast; rw [hbwn, hmbn]
    exact_mod_cast h2
  have huh : u32 (ctx.b_height * ctx.mbSize) = ctx.b_height.toNat * ctx.mbSize.toNat := by
    have := u32_small (ctx.b_height * ctx.mbSize) (le_of_lt hH0) (by omega)
    have h2 : ((u32 (ctx.b_height * ctx.mbSize) : Nat) : Int)
        = ((ctx.b_height.toNat * ctx.mbSize.toNat : Nat) : Int) := by
      rw [this]; push_cast; rw [hbhn, hmbn]
    exact_mod_cast h2
  have hum : u32 ctx.mbSize = ctx.mbSize.toNat := by
    have := u32_small ctx.mbSize (le_of_lt hmbpos) (by omega)
    have h2 : ((u32 ctx.mbSize : Nat) : Int) = ((ctx.mbSize.toNat : Nat) : Int) := by
      rw [this, hmbn]
    exact_mod_cast h2
  have hcn : ctx.b_count.toNat = ctx.b_width.toNat * ctx.b_height.toNat := by
    have h2 : ((ctx.b_count.toNat : Nat) : Int)
        = ((ctx.b_width.toNat * ctx.b_height.toNat : Nat) : Int) := by
      rw [Int.toNat_of_nonneg hcnt0]; push_cast; rw [hbwn, hbhn, hcount]
    exact_mod_cast h2
  have hTn : ((ctx.b_width.toNat * ctx.mbSize.toNat * (ctx.b_height.toNat * ctx.mbSize.toNat) : Nat)
      : Int) = ctx.b_width * ctx.mbSize * (ctx.b_height * ctx.mbSize) := by
    push_cast; rw [hbwn, hbhn, hmbn]
  have hrun := motionEstARPS_identical img t0 ctx.b_width.toNat ctx.b_height.toNat
    ctx.mbSize.toNat ctx.search_param
    (2 ^ ctx.log2_mbSize.toNat * 2 ^ (ctx.log2_mbSize + 1).toNat)
    (by omega) (by omega) (by omega)
    (by
      have : ((ctx.b_width.toNat * ctx.mbSize.toNat * (ctx.b_height.toNat * ctx.mbSize.toNat) : Nat)
          : Int) ≤ (img.length : Int) := by rw [hTn]; omega
      exact_mod_cast this)
    (by rw [hTn]; omega)
    (by
      have := u32_small _ (le_of_lt hz0) (by omega)
      omega)
    hp0 hp1 (by rw [hl0, hcn])
  unfold motionEstARPS_wrapper
  simp only [checkedInt_ok (ctx.log2_mbSize + 1) (by omega) (by omega), hzmp, hsw, hsh, bind,
    Except.bind, pure, Except.pure, hcur, href, ht0, huw, huh, hum, hrun, hcn]

/-- Reading inside an array of floats returns the element. -/
theorem readF_ok (buf : List ℚ) (i : Int) (h0 : 0 ≤ i) (h1 : i < buf.length) :
    readF buf i = .ok (buf.getD i.toNat 0) := by
  have hlt : i.toNat < buf.length := by omega
  simp [readF, h0, List.getD, List.getElem?_eq_getElem hlt]

/-- The coefficients of the identity kernel. -/
theorem readF_identity (k : Int) (h0 : 0 ≤ k) (h4 : k ≤ 4) :
    readF identityKernel k = .ok (if k = 2 then 1 else 0) := by
  obtain ⟨n, rfl⟩ := Int.eq_ofNat_of_zero_le h0
  have hn : n ≤ 4 := by omega
  interval_cases n <;> simp [readF, identityKernel]

/-- An accumulation loop with the identity kernel picks the sample that meets
the coefficient of index 2. -/
theorem dotLoop_identity (inp : List ℚ) (p kStart : Int) (h0 : 0 ≤ p) (hk : 2 ≤ kStart)
    (hk4 : kStart ≤ 4) :
    ∀ m : Nat, (m : Int) ≤ kStart + 1 → p + (m : Int) ≤ inp.length →
      dotLoop inp identityKernel p kStart m
        = .ok (if kStart - 2 < (m : Int) then inp.getD (p + (kStart - 2)).toNat 0 else 0) := by
  intro m
  induction m with
  | zero =>
    intro _ _
    rw [if_neg (by simp only [Nat.cast_zero]; omega)]
    rfl
  | succ m ih =>
    intro h1 h2
    push_cast at h1 h2 ⊢
    simp only [dotLoop, ih (by omega) (by omega), bind, Except.bind, pure, Except.pure,
      readF_ok inp (p + (m : Int)) (by omega) (by omega),
      readF_identity (kStart - (m : Int)) (by omega) (by omega)]
    by_cases hm : kStart - (m : Int) = 2
    · have hm2 : ¬ kStart - 2 < (m : Int) := by omega
      have hm3 : kStart - 2 < (m : Int) + 1 := by omega
      have hp : p + (m : Int) = p + (kStart - 2) := by omega
      simp [hm, hm2, hm3, hp]
    · by_cases hlt : kStart - 2 < (m : Int)
      · have hm3 : kStart - 2 < (m : Int) + 1 := by omega
        simp [hm, hlt, hm3]
      · have hm3 : ¬ kStart - 2 < (m : Int) + 1 := by omega
        simp [hm, hlt, hm3]

/-- One more element of an initial segment. -/
theorem take_succ_getD (l : List ℚ) (q : Nat) (h : q < l.length) :
    l.take q ++ [l.getD q 0] = l.take (q + 1) := by
  rw [List.take_succ]
  simp [List.getD, List.getElem?_eq_getElem h]

/-- A store through `tmpPtr` when `tmp` holds an initial segment of the plane and the
stored sample is the next one. -/
theorem hStore_next (l : List ℚ) (cap q : Nat) (P : Int) (hq : q < cap) (hl : q < l.length) :
    hStore cap { inPtr := P, tmp := l.take q } (l.getD q 0) = .ok (l.take (q + 1)) := by
  have hlen : (l.take q).length = q := by simp; omega
  simp only [hStore, hlen, hq, if_true, pure, Except.pure, take_succ_getD l q hl]

/-- A pass over one of the first two columns of a row stores the sample of
that column. -/
theorem hFirst_step (l : List ℚ) (cap q j : Nat) (P : Nat) (hj : j < 2) (hP : P + j = q)
    (hread : P + 2 + j + 1 ≤ l.length) (hq : q < cap) :
    hFirst l identityKernel cap 2 j { inPtr := (P : Int), tmp := l.take q }
      = .ok { inPtr := (P : Int), tmp := l.take (q + 1) } := by
  have hd := dotLoop_identity l (P : Int) (2 + (j : Int)) (Int.natCast_nonneg _) (by omega)
    (by omega) (2 + (j : Int) + 1).toNat (by omega) (by omega)
  rw [if_pos (by omega)] at hd
  have hidx : ((P : Int) + (2 + (j : Int) - 2)).toNat = q := by omega
  rw [hidx] at hd
  simp only [hFirst, hd, bind, Except.bind, pure, Except.pure, hStore_next l cap q _ hq (by omega)]

/-- A pass over a middle column stores the sample of that column. -/
theorem hMiddle_step (l : List ℚ) (cap q j : Nat) (P : Nat) (hP : P + 2 = q)
    (hread : P + 5 ≤ l.length) (hq : q < cap) :
    hMiddle l identityKernel cap 5 j { inPtr := (P : Int), tmp := l.take q }
      = .ok { inPtr := ((P + 1 : Nat) : Int), tmp := l.take (q + 1) } := by
  have hd := dotLoop_identity l (P : Int) (5 - 1) (Int.natCast_nonneg _) (by omega)
    (by omega) (5 : Int).toNat (by decide) (by have : ((5 : Int).toNat : Int) = 5 := rfl; omega)
  rw [if_pos (by decide)] at hd
  have hidx : ((P : Int) + (5 - 1 - 2)).toNat = q := by omega
  rw [hidx] at hd
  simp only [hMiddle, hd, bind, Except.bind, pure, Except.pure, hStore_next l cap q _ hq (by omega)]
  simp

/-- A pass over one of the last two columns of a row stores the sample of that
column. -/
theorem hLast_step (l : List ℚ) (cap q j : Nat) (P : Nat) (hj : j < 2) (hP : P + 2 = q)
    (hread : P + 4 ≤ l.length + j) (hq : q < cap) :
    hLast l identityKernel cap 5 j { inPtr := (P : Int), tmp := l.take q }
      = .ok { inPtr := ((P + 1 : Nat) : Int), tmp := l.take (q + 1) } := by
  have hd := dotLoop_identity l (P : Int) (5 - 1) (Int.natCast_nonneg _) (by omega)
    (by omega) (5 - 1 - (j : Int)).toNat (by omega) (by omega)
  rw [if_pos (by omega)] at hd
  have hidx : ((P : Int) + (5 - 1 - 2)).toNat = q := by omega
  rw [hidx] at hd
  simp only [hLast, hd, bind, Except.bind, pure, Except.pure, hStore_next l cap q _ hq (by omega)]
  simp

/-- The loop over the middle columns of a row stores their samples. -/
theorem hMiddle_loop (l : List ℚ) (cap P : Nat) :
    ∀ n : Nat, P + n + 4 ≤ l.length → P + n + 2 ≤ cap →
      forK (hMiddle l identityKernel cap 5) n { inPtr := (P : Int), tmp := l.take (P + 2) }
        = .ok { inPtr := ((P + n : Nat) : Int), tmp := l.take (P + 2 + n) } := by
  intro n
  induction n with
  | zero => intro _ _; rfl
  | succ n ih =>
    intro h1 h2
    simp only [forK, ih (by omega) (by omega), bind, Except.bind]
    have := hMiddle_step l cap (P + 2 + n) n (P + n) (by omega) (by omega) (by omega)
    rw [this]
    rfl

/-- One row of the horizontal pass with the identity kernel copies the row of
the plane into `tmp`. -/
theorem hRow_identity (l : List ℚ) (W H r j : Nat) (hW : 5 ≤ W) (hr : r < H)
    (hl : l.length = W * H) :
    hRow l identityKernel (W * H) (W : Int) 5 j { inPtr := ((r * W : Nat) : Int), tmp := l.take (r * W) }
      = .ok { inPtr := (((r + 1) * W : Nat) : Int), tmp := l.take ((r + 1) * W) } := by
  have hrow : r * W + W ≤ W * H := by
    have : (r + 1) * W ≤ H * W := Nat.mul_le_mul_right W hr
    rw [Nat.add_mul, Nat.one_mul, Nat.mul_comm H W] at this
    exact this
  have hk : (5 : Int) / 2 = 2 := by decide
  have hc : ((W : Int) - 2 - 2).toNat = W - 4 := by omega
  have he : ((W : Int) - ((W : Int) - 2)).toNat = 2 := by omega
  have h2 : (2 : Int).toNat = 2 := rfl
  have s0 := hFirst_step l (W * H) (r * W) 0 (r * W) (by decide) rfl (by omega) (by omega)
  have s1 := hFirst_step l (W * H) (r * W + 1) 1 (r * W) (by decide) rfl (by omega) (by omega)
  have sm := hMiddle_loop l (W * H) (r * W) (W - 4) (by omega) (by omega)
  have t0 := hLast_step l (W * H) (r * W + 2 + (W - 4)) 0 (r * W + (W - 4)) (by decide)
    (by omega) (by omega) (by omega)
  have t1 := hLast_step l (W * H) (r * W + 2 + (W - 4) + 1) 1 (r * W + (W - 4) + 1) (by decide)
    (by omega) (by omega) (by omega)
  simp only [hRow, hk, hc, he, h2, forK, bind, Except.bind, pure, Except.pure, s0, s1, sm, t0, t1]
  have e1 : r * W + 2 + (W - 4) + 1 + 1 = (r + 1) * W := by
    rw [Nat.add_mul, Nat.one_mul]; omega
  have e2 : (((r * W + (W - 4) + 1 + 1 : Nat) : Int) + 2) = (((r + 1) * W : Nat) : Int) := by
    rw [Nat.add_mul, Nat.one_mul]; push_cast; omega
  rw [e1, e2]

/-- The horizontal pass with the identity kernel copies the plane into `tmp`. -/
theorem hPass_identity (l : List ℚ) (W H : Nat) (hW : 5 ≤ W) (hl : l.length = W * H) :
    ∀ n : Nat, n ≤ H →
      forK (hRow l identityKernel (W * H) (W : Int) 5) n { inPtr := 0, tmp := [] }
        = .ok { inPtr := ((n * W : Nat) : Int), tmp := l.take (n * W) } := by
  intro n
  induction n with
  | zero => intro _; simp [forK]; rfl
  | succ n ih =>
    intro hn
    simp only [forK, ih (by omega), bind, Except.bind]
    exact hRow_identity l W H n n hW (by omega) hl

/-- Adding a row times the coefficient 0 leaves the sums as they are. -/
theorem zipWith_coeff_zero : ∀ (sum row : List ℚ), sum.length = row.length →
    List.zipWith (fun a t => a + t * 0) sum row = sum
  | [], [], _ => rfl
  | [], _ :: _, h => by simp at h
  | _ :: _, [], h => by simp at h
  | a :: sum, t :: row, h => by
    show (a + t * 0) :: List.zipWith (fun a t => a + t * 0) sum row = a :: sum
    rw [zipWith_coeff_zero sum row (by simpa using h), mul_zero, add_zero]

/-- Adding a row times the coefficient 1 to cleared sums gives the row. -/
theorem zipWith_coeff_one : ∀ (n : Nat) (row : List ℚ), row.length = n →
    List.zipWith (fun a t => a + t * 1) (List.replicate n 0) row = row
  | 0, [], _ => rfl
  | 0, _ :: _, h => by simp at h
  | _ + 1, [], h => by simp at h
  | n + 1, t :: row, h => by
    show (0 + t * 1) :: List.zipWith (fun a t => a + t * 1) (List.replicate n 0) row = t :: row
    rw [zipWith_coeff_one n row (by simpa using h), mul_one, zero_add]

/-- The rows of a plane have `W` samples. -/
theorem row_length {γ : Type} (l : List γ) (W H y : Nat) (hl : l.length = W * H) (hy : y < H) :
    ((l.drop (y * W)).take W).length = W := by
  have hrow : y * W + W ≤ W * H := by
    have : (y + 1) * W ≤ H * W := Nat.mul_le_mul_right W hy
    rw [Nat.add_mul, Nat.one_mul, Nat.mul_comm H W] at this
    exact this
  simp only [List.length_take, List.length_drop, hl]
  omega

/-- One pass of the inner loops of the vertical convolution with the identity
kernel: the row met by the coefficient of index 2 is added to the sums. -/
theorem vAdd_identity {β : Type} (l : List ℚ) (W H : Nat) (hl : l.length = W * H) (k : Int)
    (h0 : 0 ≤ k) (h4 : k ≤ 4) (y : Nat) (hy : y < H) (s : VState β)
    (hp : s.tmpPtr = ((y * W : Nat) : Int)) (hs : s.sum.length = W) :
    vAdd l identityKernel W k s
      = .ok { s with sum := if k = 2 then List.zipWith (fun a t => a + t * 1) s.sum
                                ((l.drop (y * W)).take W)
                              else s.sum,
                     tmpPtr := (((y + 1) * W : Nat) : Int) } := by
  have hrow : y * W + W ≤ W * H := by
    have : (y + 1) * W ≤ H * W := Nat.mul_le_mul_right W hy
    rw [Nat.add_mul, Nat.one_mul, Nat.mul_comm H W] at this
    exact this
  have hr : readRow l s.tmpPtr W = .ok ((l.drop (y * W)).take W) := by
    have h1 : (0 : Int) ≤ ((y * W : Nat) : Int) := Int.natCast_nonneg _
    have h2 : ((y * W : Nat) : Int).toNat + W ≤ l.length := by
      rw [Int.toNat_ofNat, hl]; exact hrow
    simp only [readRow, hp]
    rw [if_pos ⟨h1, h2⟩, Int.toNat_ofNat]
    rfl
  have he : s.tmpPtr + (W : Int) = (((y + 1) * W : Nat) : Int) := by
    rw [hp, Nat.add_mul, Nat.one_mul]; push_cast; ring
  simp only [vAdd, hr, readF_identity k h0 h4, bind, Except.bind, pure, Except.pure, he]
  by_cases hk : k = 2
  · simp [hk]
  · simp only [hk, if_false]
    rw [zipWith_coeff_zero s.sum _ (by rw [hs, row_length l W H y hl hy])]

/-- The loop over the coefficients of the vertical convolution with the
identity kernel, from cleared sums: after `m` passes the sums hold the row met
by the coefficient of index 2, if the loop has reached it. -/
theorem vLoop_identity {β : Type} (l : List ℚ) (W H : Nat) (hl : l.length = W * H)
    (kStart : Int) (hk : 2 ≤ kStart) (hk4 : kStart ≤ 4) (y0 : Nat) (s : VState β)
    (hp : s.tmpPtr = ((y0 * W : Nat) : Int)) (hs : s.sum = List.replicate W 0) :
    ∀ m : Nat, (m : Int) ≤ kStart + 1 → y0 + m ≤ H →
      forK (fun r s => vAdd l identityKernel W (kStart - (r : Int)) s) m s
        = .ok { s with sum := if kStart - 2 < (m : Int) then
                                (l.drop ((y0 + (kStart - 2).toNat) * W)).take W
                              else List.replicate W 0,
                       tmpPtr := (((y0 + m) * W : Nat) : Int) } := by
  intro m
  induction m with
  | zero =>
    intro _ _
    rw [if_neg (by simp only [Nat.cast_zero]; omega)]
    simp only [forK, pure, Except.pure, Nat.add_zero, ← hp, ← hs]
  | succ m ih =>
    intro h1 h2
    push_cast at h1
    simp only [forK, ih (by omega) (by omega), bind, Except.bind]
    have hlen : (if kStart - 2 < (m : Int) then (l.drop ((y0 + (kStart - 2).toNat) * W)).take W
        else List.replicate W 0).length = W := by
      split
      · exact row_length l W H _ hl (by omega)
      · simp
    rw [vAdd_identity l W H hl (kStart - (m : Int)) (by omega) (by omega) (y0 + m) (by omega) _ rfl
      hlen]
    by_cases hm : kStart - (m : Int) = 2
    · have hm2 : ¬ kStart - 2 < (m : Int) := by omega
      have hm3 : kStart - 2 < ((m + 1 : Nat) : Int) := by push_cast; omega
      have hy : y0 + (kStart - 2).toNat = y0 + m := by omega
      simp only [hm, hm2, hm3, if_true, if_false, hy]
      rw [zipWith_coeff_one W _ (row_length l W H _ hl (by omega))]
      rfl
    · by_cases hlt : kStart - 2 < (m : Int)
      · have hm3 : kStart - 2 < ((m + 1 : Nat) : Int) := by push_cast; omega
        simp only [hm, hlt, hm3, if_true, if_false]
        rfl
      · have hm3 : ¬ kStart - 2 < ((m + 1 : Nat) : Int) := by push_cast; omega
        simp only [hm, hlt, hm3, if_false]
        rfl

/-- Overwriting the next `w` entries of a buffer that holds an initial segment of `G`
with the next `w` entries of `G` extends the segment. -/
theorem out_step {β : Type} (G O : List β) (a w : Nat) (hG : a + w ≤ G.length) :
    (G.take a ++ O.drop a).take a ++ (G.drop a).take w ++ (G.take a ++ O.drop a).drop (a + w)
      = G.take (a + w) ++ O.drop (a + w) := by
  have hlen : (G.take a).length = a := by simp; omega
  have h1 : (G.take a ++ O.drop a).take a = G.take a := by
    rw [List.take_append_of_le_length (by omega)]
    rw [List.take_take]; simp
  have h2 : (G.take a ++ O.drop a).drop (a + w) = O.drop (a + w) := by
    have := @List.drop_append _ (G.take a) (O.drop a) w
    rw [hlen] at this
    rw [this, List.drop_drop, Nat.add_comm]
  rw [h1, h2, List.take_add]

/-- The conversion loop of the vertical convolution: the converted sums are
written to the output and the sums are cleared. -/
theorem vEmit_row {β : Type} (conv : ℚ → Except Fault β) (s : VState β) (W Q : Nat)
    (vals : List β) (hlen : s.sum.length = W) (hconv : convRow conv s.sum = .ok vals)
    (hvals : vals.length = W) (hq : s.outPtr = (Q : Int)) (hQ : Q + W ≤ s.out.length) :
    vEmit conv s
      = .ok { s with out := s.out.take Q ++ vals ++ s.out.drop (Q + W),
                     sum := List.replicate W 0, outPtr := ((Q + W : Nat) : Int) } := by
  have hw : writeRow s.out s.outPtr vals = .ok (s.out.take Q ++ vals ++ s.out.drop (Q + W)) := by
    simp only [writeRow, hq, hvals]
    rw [if_pos ⟨Int.natCast_nonneg _, by rw [Int.toNat_ofNat]; exact hQ⟩, Int.toNat_ofNat]
    rfl
  rw [hq] at hw
  simp only [vEmit, hconv, hw, bind, Except.bind, pure, Except.pure, hlen, hq]
  simp

/-- The conversion loop over samples whose conversions are known. -/
theorem convRow_map {α β : Type} (toF : α → ℚ) (conv : ℚ → Except Fault β) (g : α → β) :
    ∀ xs : List α, (∀ a, a ∈ xs → conv (toF a) = .ok (g a)) →
      convRow conv (xs.map toF) = .ok (xs.map g)
  | [], _ => rfl
  | x :: xs, h => by
    simp only [List.map_cons, convRow, h x (List.mem_cons_self _ _),
      convRow_map toF conv g xs (fun a ha => h a (List.mem_cons_of_mem _ ha)), bind, Except.bind,
      pure, Except.pure]

/-- The coefficient loop and the conversion loop for output row `y`, when the
first `y` rows of the output hold their final values: row `y` follows. -/
theorem vRow_identity {β : Type} (conv : ℚ → Except Fault β) (l : List ℚ) (G O : List β)
    (W H : Nat) (hl : l.length = W * H) (hG : G.length = W * H) (hO : O.length = W * H)
    (kStart : Int) (hk : 2 ≤ kStart) (hk4 : kStart ≤ 4) (y0 m p2 : Nat)
    (hm0 : kStart - 2 < (m : Int)) (hm1 : (m : Int) ≤ kStart + 1) (hm2 : y0 + m ≤ H)
    (hconv : convRow conv ((l.drop ((y0 + (kStart - 2).toNat) * W)).take W)
      = .ok ((G.drop ((y0 + (kStart - 2).toNat) * W)).take W)) :
    ∃ s1, forK (fun r s => vAdd l identityKernel W (kStart - (r : Int)) s) m
        ({ tmpPtr := ((y0 * W : Nat) : Int), tmpPtr2 := ((p2 * W : Nat) : Int),
           sum := List.replicate W 0,
           out := G.take ((y0 + (kStart - 2).toNat) * W) ++ O.drop ((y0 + (kStart - 2).toNat) * W),
           outPtr := (((y0 + (kStart - 2).toNat) * W : Nat) : Int) } : VState β) = .ok s1
      ∧ vEmit conv s1
      = .ok { tmpPtr := (((y0 + m) * W : Nat) : Int), tmpPtr2 := ((p2 * W : Nat) : Int),
              sum := List.replicate W 0,
              out := G.take ((y0 + (kStart - 2).toNat + 1) * W)
                ++ O.drop ((y0 + (kStart - 2).toNat + 1) * W),
              outPtr := (((y0 + (kStart - 2).toNat + 1) * W : Nat) : Int) } := by
  have hy : y0 + (kStart - 2).toNat < H := by omega
  have hrow : (y0 + (kStart - 2).toNat) * W + W ≤ W * H := by
    have : (y0 + (kStart - 2).toNat + 1) * W ≤ H * W := Nat.mul_le_mul_right W hy
    rw [Nat.add_mul _ 1, Nat.one_mul, Nat.mul_comm H W] at this
    exact this
  refine ⟨_, vLoop_identity l W H hl kStart hk hk4 y0 _ rfl rfl m hm1 hm2, ?_⟩
  simp only [hm0, if_true]
  rw [vEmit_row conv _ W ((y0 + (kStart - 2).toNat) * W) _ (row_length l W H _ hl hy) hconv
    (row_length G W H _ hG hy) rfl (by simp [hG, hO]; omega)]
  simp only []
  rw [out_step G O _ W (by rw [hG]; exact hrow)]
  have e : (y0 + (kStart - 2).toNat) * W + W = (y0 + (kStart - 2).toNat + 1) * W := by
    rw [Nat.add_mul _ 1, Nat.one_mul]
  rw [e]

/-- A pass over one of the first two rows of the vertical convolution with the
identity kernel writes that row of the output. -/
theorem vFirst_pass {β : Type} (conv : ℚ → Except Fault β) (l : List ℚ) (G O : List β)
    (W H : Nat) (hH : 5 ≤ H) (hl : l.length = W * H) (hG : G.length = W * H)
    (hO : O.length = W * H)
    (hrows : ∀ y, y < H → convRow conv ((l.drop (y * W)).take W) = .ok ((G.drop (y * W)).take W))
    (i : Nat) (hi : i < 2) :
    vFirst conv l identityKernel W 2 i
        { tmpPtr := ((0 * W : Nat) : Int), tmpPtr2 := ((0 * W : Nat) : Int),
          sum := List.replicate W 0, out := G.take (i * W) ++ O.drop (i * W),
          outPtr := ((i * W : Nat) : Int) }
      = .ok { tmpPtr := ((0 * W : Nat) : Int), tmpPtr2 := ((0 * W : Nat) : Int),
              sum := List.replicate W 0, out := G.take ((i + 1) * W) ++ O.drop ((i + 1) * W),
              outPtr := (((i + 1) * W : Nat) : Int) } := by
  have e : 0 + ((2 : Int) + (i : Int) - 2).toNat = i := by omega
  obtain ⟨s1, h1, h2⟩ := vRow_identity conv l G O W H hl hG hO (2 + (i : Int)) (by omega) (by omega)
    0 (2 + (i : Int) + 1).toNat 0 (by omega) (by omega) (by omega)
    (by rw [e]; exact hrows i (by omega))
  rw [e] at h1 h2
  simp only [vFirst, h1, h2, bind, Except.bind, pure, Except.pure]

/-- A pass over a middle row of the vertical convolution with the identity
kernel writes that row of the output. -/
theorem vMiddle_pass {β : Type} (conv : ℚ → Except Fault β) (l : List ℚ) (G O : List β)
    (W H : Nat) (hl : l.length = W * H) (hG : G.length = W * H)
    (hO : O.length = W * H)
    (hrows : ∀ y, y < H → convRow conv ((l.drop (y * W)).take W) = .ok ((G.drop (y * W)).take W))
    (n j : Nat) (hn : n + 5 ≤ H) :
    vMiddle conv l identityKernel W 5 j
        { tmpPtr := ((n * W : Nat) : Int), tmpPtr2 := ((n * W : Nat) : Int),
          sum := List.replicate W 0, out := G.take ((n + 2) * W) ++ O.drop ((n + 2) * W),
          outPtr := (((n + 2) * W : Nat) : Int) }
      = .ok { tmpPtr := (((n + 1) * W : Nat) : Int), tmpPtr2 := (((n + 1) * W : Nat) : Int),
              sum := List.replicate W 0,
              out := G.take ((n + 2 + 1) * W) ++ O.drop ((n + 2 + 1) * W),
              outPtr := (((n + 2 + 1) * W : Nat) : Int) } := by
  have e : n + ((5 : Int) - 1 - 2).toNat = n + 2 := by omega
  obtain ⟨s1, h1, h2⟩ := vRow_identity conv l G O W H hl hG hO (5 - 1) (by omega) (by omega)
    n (5 : Int).toNat n (by decide) (by decide) (by have : (5 : Int).toNat = 5 := rfl; omega)
    (by rw [e]; exact hrows (n + 2) (by omega))
  rw [e] at h1 h2
  have e2 : ((n * W : Nat) : Int) + (W : Int) = (((n + 1) * W : Nat) : Int) := by
    rw [Nat.add_mul, Nat.one_mul]; push_cast; ring
  simp only [vMiddle, h1, h2, bind, Except.bind, pure, Except.pure, e2]

/-- A pass over one of the last two rows of the vertical convolution with the
identity kernel writes that row of the output. -/
theorem vLast_pass {β : Type} (conv : ℚ → Except Fault β) (l : List ℚ) (G O : List β)
    (W H : Nat) (hH : 5 ≤ H) (hl : l.length = W * H) (hG : G.length = W * H)
    (hO : O.length = W * H)
    (hrows : ∀ y, y < H → convRow conv ((l.drop (y * W)).take W) = .ok ((G.drop (y * W)).take W))
    (i : Nat) (hi : i < 2) :
    vLast conv l identityKernel W 5 i
        { tmpPtr := (((H - 4 + i) * W : Nat) : Int), tmpPtr2 := (((H - 4 + i) * W : Nat) : Int),
          sum := List.replicate W 0,
          out := G.take ((H - 4 + i + 2) * W) ++ O.drop ((H - 4 + i + 2) * W),
          outPtr := (((H - 4 + i + 2) * W : Nat) : Int) }
      = .ok { tmpPtr := (((H - 4 + i + 1) * W : Nat) : Int),
              tmpPtr2 := (((H - 4 + i + 1) * W : Nat) : Int), sum := List.replicate W 0,
              out := G.take ((H - 4 + i + 2 + 1) * W) ++ O.drop ((H - 4 + i + 2 + 1) * W),
              outPtr := (((H - 4 + i + 2 + 1) * W : Nat) : Int) } := by
  have e : H - 4 + i + ((5 : Int) - 1 - 2).toNat = H - 4 + i + 2 := by omega
  obtain ⟨s1, h1, h2⟩ := vRow_identity conv l G O W H hl hG hO (5 - 1) (by omega) (by omega)
    (H - 4 + i) (5 - 1 - (i : Int)).toNat (H - 4 + i) (by omega) (by omega) (by omega)
    (by rw [e]; exact hrows (H - 4 + i + 2) (by omega))
  rw [e] at h1 h2
  have e2 : (((H - 4 + i) * W : Nat) : Int) + (W : Int) = (((H - 4 + i + 1) * W : Nat) : Int) := by
    rw [Nat.add_mul _ 1, Nat.one_mul]; push_cast; ring
  simp only [vLast, h1, h2, bind, Except.bind, pure, Except.pure, e2]

/-- The loop over the middle rows of the vertical convolution with the
identity kernel writes those rows of the output. -/
theorem vMiddle_loop {β : Type} (conv : ℚ → Except Fault β) (l : List ℚ) (G O : List β)
    (W H : Nat) (hl : l.length = W * H) (hG : G.length = W * H)
    (hO : O.length = W * H)
    (hrows : ∀ y, y < H → convRow conv ((l.drop (y * W)).take W) = .ok ((G.drop (y * W)).take W)) :
    ∀ n : Nat, n + 4 ≤ H →
      forK (vMiddle conv l identityKernel W 5) n
          { tmpPtr := ((0 * W : Nat) : Int), tmpPtr2 := ((0 * W : Nat) : Int),
            sum := List.replicate W 0, out := G.take ((0 + 2) * W) ++ O.drop ((0 + 2) * W),
            outPtr := (((0 + 2) * W : Nat) : Int) }
        = .ok { tmpPtr := ((n * W : Nat) : Int), tmpPtr2 := ((n * W : Nat) : Int),
                sum := List.replicate W 0, out := G.take ((n + 2) * W) ++ O.drop ((n + 2) * W),
                outPtr := (((n + 2) * W : Nat) : Int) } := by
  intro n
  induction n with
  | zero => intro _; rfl
  | succ n ih =>
    intro hn
    simp only [forK, ih (by omega), bind, Except.bind]
    rw [vMiddle_pass conv l G O W H hl hG hO hrows n n (by omega)]

/-- The shared text of the two separable convolutions with the kernel
{0, 0, 1, 0, 0} in both directions, on a plane of at least 5 x 5 samples: the
call returns true and every output sample is the conversion of the input
sample at the same position. -/
theorem convolveSeparable_identity {α β : Type} (toF : α → ℚ) (conv : ℚ → Except Fault β)
    (g : α → β) (inp : List α) (O : List β) (W H : Nat) (hW : 5 ≤ W) (hH : 5 ≤ H)
    (hin : inp.length = W * H) (hO : O.length = W * H)
    (hmax : ((W * H : Nat) : Int) ≤ INT_MAX)
    (hconv : ∀ a, a ∈ inp → conv (toF a) = .ok (g a)) :
    convolveSeparable toF conv true true (some inp) (some O) (W : Int) (H : Int)
        (some identityKernel) 5 (some identityKernel) 5
      = .ok (true, some (inp.map g)) := by
  have hmn : INT_MIN = -2147483648 := rfl
  have hl : (inp.map toF).length = W * H := by simp [hin]
  have hG : (inp.map g).length = W * H := by simp [hin]
  have hrows : ∀ y, y < H → convRow conv (((inp.map toF).drop (y * W)).take W)
      = .ok (((inp.map g).drop (y * W)).take W) := by
    intro y _
    rw [← List.map_drop, ← List.map_take, ← List.map_drop, ← List.map_take]
    exact convRow_map toF conv g _ (fun a ha => hconv a (List.mem_of_mem_drop (List.mem_of_mem_take ha)))
  have hh := hPass_identity (inp.map toF) W H hW hl H (le_refl _)
  have htake : (inp.map toF).take (H * W) = inp.map toF :=
    List.take_of_length_le (by rw [hl, Nat.mul_comm])
  rw [htake] at hh
  have hv0 := vFirst_pass conv (inp.map toF) (inp.map g) O W H hH hl hG hO hrows 0 (by decide)
  have hv1 := vFirst_pass conv (inp.map toF) (inp.map g) O W H hH hl hG hO hrows 1 (by decide)
  have hm := vMiddle_loop conv (inp.map toF) (inp.map g) O W H hl hG hO hrows (H - 4) (by omega)
  have hl0 := vLast_pass conv (inp.map toF) (inp.map g) O W H hH hl hG hO hrows 0 (by decide)
  have hl1 := vLast_pass conv (inp.map toF) (inp.map g) O W H hH hl hG hO hrows 1 (by decide)
  have hfin : (inp.map g).take ((H - 4 + 1 + 2 + 1) * W) ++ O.drop ((H - 4 + 1 + 2 + 1) * W)
      = inp.map g := by
    have e : H - 4 + 1 + 2 + 1 = H := by omega
    rw [e, List.take_of_length_le (by rw [hG, Nat.mul_comm]),
      List.drop_of_length_le (by rw [hO, Nat.mul_comm]), List.append_nil]
  simp only [Nat.zero_mul, Nat.zero_add, Nat.add_zero, List.take_zero, List.drop_zero,
    List.nil_append, Nat.cast_zero, Nat.reduceAdd] at hv0 hv1 hm hl0 hl1
  have k2 : (5 : Int) / 2 = 2 := by decide
  have c1 : ((H : Int) - 2 - 2).toNat = H - 4 := by omega
  have c2 : ((H : Int) - ((H : Int) - 2)).toNat = 2 := by omega
  have c3 : (2 : Int).toNat = 2 := rfl
  have c4 : ((W : Int) * (H : Int)).toNat = W * H := by
    rw [← Nat.cast_mul]; exact Int.toNat_ofNat _
  have hc := checkedInt_ok ((W : Int) * (H : Int))
    (by have : (0 : Int) ≤ (W : Int) * (H : Int) := by positivity
        omega)
    (by push_cast at hmax; exact hmax)
  unfold convolveSeparable
  simp only []
  rw [if_neg (by omega)]
  simp only [hc, bind, Except.bind, pure, Except.pure, Bool.not_true, Bool.false_eq_true, if_false,
    c4, Int.toNat_ofNat, hh, k2, c1, c2, c3, forK, hv0, hv1, hm, hl0, hl1,
    Nat.zero_mul, Nat.zero_add, Nat.add_zero, List.take_zero, List.drop_zero,
    List.nil_append, Nat.cast_zero, Nat.reduceAdd, hfin]

/-- The 8-bit conversion of a sample value gives the value back. -/
theorem toByte_sample (a : Nat) (h : a < 256) : toByte (a : ℚ) = .ok a := by
  have h0 : (0 : ℚ) ≤ (a : ℚ) := Nat.cast_nonneg a
  have h1 : (a : ℚ) ≤ 255 := by exact_mod_cast Nat.le_of_lt_succ h
  have hfl : ⌊(a : ℚ) + 1 / 2⌋ = (a : Int) := by
    rw [Int.floor_eq_iff]
    constructor
    · push_cast; linarith
    · push_cast; linarith
  unfold toByte
  rw [abs_of_nonneg h0, if_pos (by linarith), hfl]
  rfl

/-- The 8-bit convolution with the identity kernel in both directions returns
the input plane. -/
theorem convolve2DSeparable8_copy (inp O : List Nat) (W H : Nat) (hW : 5 ≤ W) (hH : 5 ≤ H)
    (hin : inp.length = W * H) (hO : O.length = W * H) (hmax : ((W * H : Nat) : Int) ≤ INT_MAX)
    (hbyte : ∀ a, a ∈ inp → a < 256) :
    convolve2DSeparable8 true true (some inp) (some O) (W : Int) (H : Int)
        (some identityKernel) 5 (some identityKernel) 5
      = .ok (true, some inp) := by
  have := convolveSeparable_identity (fun (a : Nat) => (a : ℚ)) toByte id inp O W H hW hH hin hO
    hmax (fun a ha => toByte_sample a (hbyte a ha))
  rw [List.map_id] at this
  exact this

/-- C19: for every 8-bit plane of width and height at least 5 (samples
0..255, at most `INT_MAX` of them, both allocations successful),
`convolve2DSeparable8` with the kernel {0, 0, 1, 0, 0} in both directions
returns true and the output sample at every position at least 2 samples away
from each border equals the input sample there. -/
theorem convolve2DSeparable8_identity (inp O : List Nat) (W H : Nat) (hW : 5 ≤ W) (hH : 5 ≤ H)
    (hin : inp.length = W * H) (hO : O.length = W * H) (hmax : ((W * H : Nat) : Int) ≤ INT_MAX)
    (hbyte : ∀ a, a ∈ inp → a < 256) :
    ∃ out, convolve2DSeparable8 true true (some inp) (some O) (W : Int) (H : Int)
          (some identityKernel) 5 (some identityKernel) 5 = .ok (true, some out)
      ∧ out.length = W * H
      ∧ ∀ x y, 2 ≤ x → x + 2 < W → 2 ≤ y → y + 2 < H →
          out.get? (y * W + x) = inp.get? (y * W + x) :=
  ⟨inp, convolve2DSeparable8_copy inp O W H hW hH hin hO hmax hbyte, hin, fun _ _ _ _ _ _ => rfl⟩

/-- C20: on the 5 x 5 float plane of ones, `convolve2DSeparable` with the
kernel {0, 0, 1, 0, 0} in both directions writes 1.5 at every position, the
centre (2, 2) included, where the input sample is 1.0. -/
theorem convolve2DSeparable_adds_half :
    convolve2DSeparable true true (some (List.replicate 25 1)) (some (List.replicate 25 0)) 5 5
        (some identityKernel) 5 (some identityKernel) 5
      = .ok (true, some (List.replicate 25 (3 / 2))) := by
  have h := convolveSeparable_identity id toFloat (fun v => |v| + 1 / 2) (List.replicate 25 (1 : ℚ))
    (List.replicate 25 (0 : ℚ)) 5 5 (by decide) (by decide) (by simp) (by simp) (by decide)
    (fun _ _ => rfl)
  have hv : (List.replicate 25 (1 : ℚ)).map (fun v => |v| + 1 / 2) = List.replicate 25 (3 / 2) := by
    rw [List.map_replicate]
    norm_num
  rw [hv] at h
  exact h


/-! ## EPZS: the search returns -/

/-- The row loop of the SAD returns when both rows lie inside their planes. -/
theorem sadRow_ok (ref cur : List Nat) (pr pc : Int) (n : Nat) (hr0 : 0 ≤ pr)
    (hr1 : pr + (n : Int) ≤ ref.length) (hc0 : 0 ≤ pc) (hc1 : pc + (n : Int) ≤ cur.length) :
    ∃ v, sadRow (some ref) (some cur) pr pc n = .ok v := by
  induction n with
  | zero => exact ⟨0, rfl⟩
  | succ n ih =>
    obtain ⟨v, hv⟩ := ih (by push_cast at hr1; omega) (by push_cast at hc1; omega)
    have ha := readPlane_ok ref (pr + (n : Int)) (by omega) (by push_cast at hr1; omega)
    have hb := readPlane_ok cur (pc + (n : Int)) (by omega) (by push_cast at hc1; omega)
    simp only [sadRow, hv, ha, hb, bind, Except.bind, pure, Except.pure]
    exact ⟨_, rfl⟩

/-- The SAD returns when both windows lie inside their planes. -/
theorem sadRows_ok (ref cur : List Nat) (w x_mb y_mb x_mv y_mv : Int) (mb n : Nat)
    (hw : 0 ≤ w) (hxb : 0 ≤ x_mb) (hyb : 0 ≤ y_mb) (hxbw : x_mb + (mb : Int) ≤ w)
    (hlenc : (y_mb + (n : Int)) * w ≤ cur.length)
    (hxv : 0 ≤ x_mv) (hyv : 0 ≤ y_mv) (hxvw : x_mv + (mb : Int) ≤ w)
    (hlenr : (y_mv + (n : Int)) * w ≤ ref.length) :
    ∃ v, sadRows (some ref) (some cur) w x_mb y_mb x_mv y_mv mb n = .ok v := by
  induction n with
  | zero => exact ⟨0, rfl⟩
  | succ n ih =>
    have hmonoc : (y_mb + (n : Int)) * w ≤ (y_mb + ((n + 1 : Nat) : Int)) * w := by
      apply mul_le_mul_of_nonneg_right _ hw
      push_cast; omega
    have hmonor : (y_mv + (n : Int)) * w ≤ (y_mv + ((n + 1 : Nat) : Int)) * w := by
      apply mul_le_mul_of_nonneg_right _ hw
      push_cast; omega
    have h2c : (y_mb + ((n + 1 : Nat) : Int)) * w = y_mb * w + (n : Int) * w + w := by
      push_cast; ring
    have h2r : (y_mv + ((n + 1 : Nat) : Int)) * w = y_mv * w + (n : Int) * w + w := by
      push_cast; ring
    have hnw := mul_nonneg (Int.natCast_nonneg n) hw
    obtain ⟨v, hv⟩ := ih (le_trans hmonoc hlenc) (le_trans hmonor hlenr)
    obtain ⟨r, hr⟩ := sadRow_ok ref cur (y_mv * w + x_mv + (n : Int) * w)
      (y_mb * w + x_mb + (n : Int) * w) mb
      (by have := mul_nonneg hyv hw; omega) (by omega)
      (by have := mul_nonneg hyb hw; omega) (by omega)
    simp only [sadRows, hv, hr, bind, Except.bind, pure, Except.pure]
    exact ⟨_, rfl⟩

/-- Steps of the search compose. -/
theorem searchStep_trans {c : MotionEstContext} {x_mb y_mb : Int} {r : SearchRange}
    {s s1 s2 : EpzsSearch} (h1 : SearchStep c x_mb y_mb r s s1)
    (h2 : SearchStep c x_mb y_mb r s1 s2) : SearchStep c x_mb y_mb r s s2 := by
  rcases h2 with h2 | ⟨h2a, h2b, h2c⟩
  · rw [h2]; exact h1
  · rcases h1 with h1 | ⟨h1a, _, _⟩
    · rw [h1] at h2a; exact Or.inr ⟨h2a, h2b, h2c⟩
    · exact Or.inr ⟨lt_trans h2a h1a, h2b, h2c⟩

/-- Macro `COST_P_MV` returns when every position of the range has a SAD. -/
theorem COST_P_MV_step (c : MotionEstContext) (r : SearchRange) (x_mb y_mb : Int)
    (hsad : ∀ q, InRange r q → ∃ v, me_comp_sad c x_mb y_mb q.1 q.2 = .ok v)
    (s : EpzsSearch) (x y : Int) :
    ∃ s', COST_P_MV c r x_mb y_mb s x y = .ok s' ∧ SearchStep c x_mb y_mb r s s' := by
  unfold COST_P_MV
  by_cases hin : x ≥ r.x_min ∧ x ≤ r.x_max ∧ y ≥ r.y_min ∧ y ≤ r.y_max
  · rw [if_pos hin]
    obtain ⟨v, hv⟩ := hsad (x, y) ⟨hin.1, hin.2.1, hin.2.2.1, hin.2.2.2⟩
    simp only [] at hv
    unfold COST_MV
    simp only [hv, bind, Except.bind, pure, Except.pure]
    by_cases hlt : v < s.cost_min
    · rw [if_pos hlt]
      refine ⟨_, rfl, Or.inr ⟨hlt, ⟨hin.1, hin.2.1, hin.2.2.1, hin.2.2.2⟩, ?_⟩⟩
      simp only [sadAt, hv]
    · rw [if_neg hlt]
      exact ⟨s, rfl, Or.inl rfl⟩
  · rw [if_neg hin]
    exact ⟨s, rfl, Or.inl rfl⟩

/-- A loop of `COST_P_MV` over offsets returns. -/
theorem costOffsets_step (c : MotionEstContext) (r : SearchRange) (x_mb y_mb : Int)
    (hsad : ∀ q, InRange r q → ∃ v, me_comp_sad c x_mb y_mb q.1 q.2 = .ok v) (x y : Int) :
    ∀ (os : List (Int × Int)) (s : EpzsSearch),
      ∃ s', costOffsets c r x_mb y_mb x y os s = .ok s' ∧ SearchStep c x_mb y_mb r s s' := by
  intro os
  induction os with
  | nil => intro s; exact ⟨s, rfl, Or.inl rfl⟩
  | cons o os ih =>
    intro s
    obtain ⟨s1, h1, hs1⟩ := COST_P_MV_step c r x_mb y_mb hsad s (x + o.1) (y + o.2)
    obtain ⟨s2, h2, hs2⟩ := ih s1
    refine ⟨s2, ?_, searchStep_trans hs1 hs2⟩
    simp only [costOffsets, h1, bind, Except.bind]
    exact h2

/-- A smaller bound leaves fewer positions to move to, and not the position
whose SAD is the bound. -/
theorem betterPositions_lt (c : MotionEstContext) (x_mb y_mb : Int) (r : SearchRange)
    (s s1 : EpzsSearch) (hlt : s1.cost_min < s.cost_min) (hin : InRange r (s1.mv0, s1.mv1))
    (hsad : sadAt c x_mb y_mb (s1.mv0, s1.mv1) = s1.cost_min) :
    (betterPositions c x_mb y_mb r s1.cost_min).card
      < (betterPositions c x_mb y_mb r s.cost_min).card := by
  apply Finset.card_lt_card
  rw [Finset.ssubset_iff_of_subset]
  · refine ⟨(s1.mv0, s1.mv1), ?_, ?_⟩
    · simp only [betterPositions, Finset.mem_filter, Finset.mem_product, Finset.mem_Icc]
      exact ⟨⟨⟨hin.1, hin.2.1⟩, ⟨hin.2.2.1, hin.2.2.2⟩⟩, by rw [hsad]; exact hlt⟩
    · simp only [betterPositions, Finset.mem_filter, not_and, hsad, lt_irrefl, not_false_eq_true,
        implies_true]
  · intro q hq
    simp only [betterPositions, Finset.mem_filter] at hq ⊢
    exact ⟨hq.1, lt_trans hq.2 hlt⟩

/-- The final loop of `me_search_epzs` returns within one pass more than
there are positions left to move to. -/
theorem epzsDiamond_ok (c : MotionEstContext) (r : SearchRange) (x_mb y_mb : Int)
    (hsad : ∀ q, InRange r q → ∃ v, me_comp_sad c x_mb y_mb q.1 q.2 = .ok v) :
    ∀ (fuel : Nat) (s : EpzsSearch), (betterPositions c x_mb y_mb r s.cost_min).card < fuel →
      ∃ s', epzsDiamond c r x_mb y_mb fuel s = .ok s' ∧ SearchStep c x_mb y_mb r s s' := by
  intro fuel
  induction fuel with
  | zero => intro s h; exact absurd h (Nat.not_lt_zero _)
  | succ fuel ih =>
    intro s hcard
    obtain ⟨s1, h1, hs1⟩ := costOffsets_step c r x_mb y_mb hsad s.mv0 s.mv1 dia1 s
    simp only [epzsDiamond, h1, bind, Except.bind]
    by_cases hmv : s.mv0 ≠ s1.mv0 ∨ s.mv1 ≠ s1.mv1
    · rw [if_pos hmv]
      rcases hs1 with heq | ⟨hlt, hin, hs⟩
      · rw [heq] at hmv
        rcases hmv with h | h <;> exact absurd rfl h
      · have := betterPositions_lt c x_mb y_mb r s s1 hlt hin hs
        obtain ⟨s2, h2, hs2⟩ := ih s1 (by omega)
        exact ⟨s2, h2, searchStep_trans (Or.inr ⟨hlt, hin, hs⟩) hs2⟩
    · rw [if_neg hmv]
      exact ⟨s1, rfl, hs1⟩

/-- The search range has at most (x_max - x_min + 1) (y_max - y_min + 1)
positions. -/
theorem betterPositions_card_le (c : MotionEstContext) (x_mb y_mb : Int) (r : SearchRange)
    (bound : Nat) :
    (betterPositions c x_mb y_mb r bound).card
      ≤ ((r.x_max - r.x_min + 1) * (r.y_max - r.y_min + 1)).toNat := by
  have h1 : (betterPositions c x_mb y_mb r bound).card
      ≤ ((Finset.Icc r.x_min r.x_max) ×ˢ (Finset.Icc r.y_min r.y_max)).card :=
    Finset.card_filter_le _ _
  rw [Finset.card_product, Int.card_Icc, Int.card_Icc] at h1
  refine le_trans h1 ?_
  by_cases hx : 0 ≤ r.x_max + 1 - r.x_min
  · by_cases hy : 0 ≤ r.y_max + 1 - r.y_min
    · have e1 : r.x_max - r.x_min + 1 = r.x_max + 1 - r.x_min := by ring
      have e2 : r.y_max - r.y_min + 1 = r.y_max + 1 - r.y_min := by ring
      rw [e1, e2]
      obtain ⟨m, hm⟩ := Int.eq_ofNat_of_zero_le hx
      obtain ⟨n, hn⟩ := Int.eq_ofNat_of_zero_le hy
      rw [hm, hn, ← Nat.cast_mul, Int.toNat_ofNat, Int.toNat_ofNat, Int.toNat_ofNat]
    · have : (r.y_max + 1 - r.y_min).toNat = 0 := Int.toNat_eq_zero.mpr (by omega)
      rw [this, Nat.mul_zero]
      exact Nat.zero_le _
  · have : (r.x_max + 1 - r.x_min).toNat = 0 := Int.toNat_eq_zero.mpr (by omega)
    rw [this, Nat.zero_mul]
    exact Nat.zero_le _

/-- Function `me_search_epzs` returns when every position of its search range
has a SAD; the position it returns is the one it was given or lies in the
range. -/
theorem me_search_epzs_ok (c : MotionEstContext) (x_mb y_mb : Int) (mv : Int × Int)
    (xg yg : Int) (r : SearchRange)
    (hxl : INT_MIN ≤ x_mb - c.search_param) (hxh : x_mb + c.search_param ≤ INT_MAX)
    (hyl : INT_MIN ≤ y_mb - c.search_param) (hyh : y_mb + c.search_param ≤ INT_MAX)
    (hxl2 : x_mb - c.search_param ≤ INT_MAX) (hxh2 : INT_MIN ≤ x_mb + c.search_param)
    (hyl2 : y_mb - c.search_param ≤ INT_MAX) (hyh2 : INT_MIN ≤ y_mb + c.search_param)
    (hxg : shiftLeft (c.b_width - 1) c.log2_mbSize = .ok xg)
    (hyg : shiftLeft (c.b_height - 1) c.log2_mbSize = .ok yg)
    (hr : r = { x_min := max 0 (x_mb - c.search_param),
                x_max := min (x_mb + c.search_param) xg,
                y_min := max 0 (y_mb - c.search_param),
                y_max := min (y_mb + c.search_param) yg })
    (hsad : ∀ q, InRange r q → ∃ v, me_comp_sad c x_mb y_mb q.1 q.2 = .ok v) :
    ∃ cost mv', me_search_epzs c x_mb y_mb mv = .ok (cost, mv') ∧ (mv' = mv ∨ InRange r mv') := by
  have hfin : ∀ s : EpzsSearch,
      SearchStep c x_mb y_mb r { cost_min := UINT64_MAX, mv0 := mv.1, mv1 := mv.2 } s →
        ((s.mv0, s.mv1) = mv ∨ InRange r (s.mv0, s.mv1)) := by
    intro s hs
    rcases hs with h | ⟨_, h, _⟩
    · left; rw [h]
    · right; exact h
  obtain ⟨s1, h1, hs1⟩ := COST_P_MV_step c r x_mb y_mb hsad
    { cost_min := UINT64_MAX, mv0 := mv.1, mv1 := mv.2 } (x_mb + c.pred_x) (y_mb + c.pred_y)
  obtain ⟨s2, h2, hs2⟩ := costOffsets_step c r x_mb y_mb hsad x_mb y_mb c.preds0.mvs s1
  obtain ⟨s3, h3, hs3⟩ := costOffsets_step c r x_mb y_mb hsad x_mb y_mb c.preds1.mvs s2
  obtain ⟨s4, h4, hs4⟩ := epzsDiamond_ok c r x_mb y_mb hsad _ s3
    (Nat.lt_add_one_of_le (betterPositions_card_le c x_mb y_mb r s3.cost_min))
  rw [hr] at h1 h2 h3 h4
  simp only [] at h4
  unfold me_search_epzs
  simp only [checkedInt_ok _ hxl hxl2, checkedInt_ok _ hyl hyl2, checkedInt_ok _ hxh2 hxh,
    checkedInt_ok _ hyh2 hyh, hxg, hyg, bind, Except.bind, pure, Except.pure, h1]
  by_cases c1 : s1.cost_min < 256
  · rw [if_pos c1]
    exact ⟨_, _, rfl, hfin s1 hs1⟩
  · rw [if_neg c1]
    simp only [h2]
    by_cases c2 : s2.cost_min < 256
    · rw [if_pos c2]
      exact ⟨_, _, rfl, hfin s2 (searchStep_trans hs1 hs2)⟩
    · rw [if_neg c2]
      simp only [h3]
      by_cases c3 : s3.cost_min < 256
      · rw [if_pos c3]
        exact ⟨_, _, rfl, hfin s3 (searchStep_trans (searchStep_trans hs1 hs2) hs3)⟩
      · rw [if_neg c3]
        simp only [h4]
        exact ⟨_, _, rfl, hfin s4 (searchStep_trans (searchStep_trans (searchStep_trans hs1 hs2) hs3) hs4)⟩

/-- A displacement within a search radius of at most 181 has a squared length
that fits 16 bits. -/
theorem radius_fits (dx dy p : Int) (hp : p ≤ 181) (hx : -p ≤ dx ∧ dx ≤ p)
    (hy : -p ≤ dy ∧ dy ≤ p) : dx * dx + dy * dy ≤ 65535 := by
  have h1 : dx * dx ≤ 181 * 181 := by
    have := abs_le.mpr (show -181 ≤ dx ∧ dx ≤ 181 by omega)
    nlinarith [abs_mul_abs_self dx, abs_nonneg dx]
  have h2 : dy * dy ≤ 181 * 181 := by
    have := abs_le.mpr (show -181 ≤ dy ∧ dy ≤ 181 by omega)
    nlinarith [abs_mul_abs_self dy, abs_nonneg dy]
  omega

/-- One macroblock of `motionEstEPZS` returns on a successfully initialised
context whose planes hold the image, with a search radius in 0..181. -/
theorem epzsBlock_ok (c : MotionEstContext) (cur ref : List Nat) (mb_x mb_y : Nat)
    (hready : EpzsReady c) (hcur : c.data_cur = some cur) (href : c.data_ref = some ref)
    (hlenc : c.width * c.height ≤ cur.length) (hlenr : c.width * c.height ≤ ref.length)
    (hp0 : 0 ≤ c.search_param) (hp1 : c.search_param ≤ 181)
    (hpw : c.width + c.search_param ≤ INT_MAX) (hph : c.height + c.search_param ≤ INT_MAX)
    (hx : (mb_x : Int) < c.b_width) (hy : (mb_y : Int) < c.b_height) :
    ∃ c', epzsBlock c mb_x mb_y = .ok c' := by
  obtain ⟨hgeo, hr0, hr1, hr2⟩ := hready
  obtain ⟨t0, ht0, hl0⟩ : ∃ t, c.mv_table.get 0 = some t ∧ t.length = c.b_count.toNat := by
    cases h : c.mv_table.get 0 with
    | none => rw [h] at hr0; simp at hr0
    | some t => rw [h] at hr0; exact ⟨t, rfl, by simpa using hr0⟩
  obtain ⟨t1, ht1, hl1⟩ : ∃ t, c.mv_table.get 1 = some t ∧ t.length = c.b_count.toNat := by
    cases h : c.mv_table.get 1 with
    | none => rw [h] at hr1; simp at hr1
    | some t => rw [h] at hr1; exact ⟨t, rfl, by simpa using hr1⟩
  obtain ⟨t2, ht2, hl2⟩ : ∃ t, c.mv_table.get 2 = some t ∧ t.length = c.b_count.toNat := by
    cases h : c.mv_table.get 2 with
    | none => rw [h] at hr2; simp at hr2
    | some t => rw [h] at hr2; exact ⟨t, rfl, by simpa using hr2⟩
  obtain ⟨hl0', hl31, hmb, hw0, hwmax, hh0, hhmax, hbw, hbh, hcount⟩ := hgeo
  have hmx : INT_MAX = 2147483647 := rfl
  have hmn : INT_MIN = -2147483648 := rfl
  have hmbpos : (0 : Int) < c.mbSize := by rw [hmb]; positivity
  obtain ⟨hB0, hB1, hB2, hB3⟩ := block_index_facts c.b_width c.b_height mb_x mb_y
    (Int.natCast_nonneg _) hx (Int.natCast_nonneg _) hy
  obtain ⟨hX0, hX1, hX2⟩ := block_origin_facts c.width c.mbSize mb_x hmbpos
    (Int.natCast_nonneg _) (by rw [← hbw]; exact hx)
  obtain ⟨hY0, hY1, hY2⟩ := block_origin_facts c.height c.mbSize mb_y hmbpos
    (Int.natCast_nonneg _) (by rw [← hbh]; exact hy)
  have hGX : 0 ≤ (c.b_width - 1) * c.mbSize ∧ (c.b_width - 1) * c.mbSize ≤ c.width := by
    rw [hbw]; exact last_origin_facts c.width c.mbSize hmbpos (by rw [← hbw]; omega)
  have hGY : 0 ≤ (c.b_height - 1) * c.mbSize ∧ (c.b_height - 1) * c.mbSize ≤ c.height := by
    rw [hbh]; exact last_origin_facts c.height c.mbSize hmbpos (by rw [← hbh]; omega)
  have hWX : (c.b_width - 1) * c.mbSize + c.mbSize ≤ c.width := by
    rw [hbw]; exact last_window_facts c.width c.mbSize hmbpos
  have hWY : (c.b_height - 1) * c.mbSize + c.mbSize ≤ c.height := by
    rw [hbh]; exact last_window_facts c.height c.mbSize hmbpos
  have hL0 : (t0.length : Int) = c.b_width * c.b_height := by rw [hl0, ← hcount]; omega
  have hL1 : (t1.length : Int) = c.b_width * c.b_height := by rw [hl1, ← hcount]; omega
  obtain ⟨p0, hcurp⟩ : ∃ p0, currentPredictors c mb_x mb_y = .ok p0 :=
    ⟨_, currentPredictors_eq c t0 mb_x mb_y ht0 hcount hl0 hx hy⟩
  obtain ⟨p1, hprev⟩ := previousPredictors_ok c t1 t2 mb_x mb_y ht1 ht2 hcount hl1 hl2 hx hy
  have hsx : shiftLeft (mb_x : Int) c.log2_mbSize = .ok ((mb_x : Int) * c.mbSize) := by
    rw [hmb]
    exact shiftLeft_ok _ _ hl0' (by omega) (by rw [← hmb]; omega) (by rw [← hmb]; omega)
  have hsy : shiftLeft (mb_y : Int) c.log2_mbSize = .ok ((mb_y : Int) * c.mbSize) := by
    rw [hmb]
    exact shiftLeft_ok _ _ hl0' (by omega) (by rw [← hmb]; omega) (by rw [← hmb]; omega)
  have hgx : shiftLeft (c.b_width - 1) c.log2_mbSize = .ok ((c.b_width - 1) * c.mbSize) := by
    rw [hmb]
    exact shiftLeft_ok _ _ hl0' (by omega) (by rw [← hmb]; omega) (by rw [← hmb]; omega)
  have hgy : shiftLeft (c.b_height - 1) c.log2_mbSize = .ok ((c.b_height - 1) * c.mbSize) := by
    rw [hmb]
    exact shiftLeft_ok _ _ hl0' (by omega) (by rw [← hmb]; omega) (by rw [← hmb]; omega)
  have hmbn : ((c.mbSize.toNat : Nat) : Int) = c.mbSize := Int.toNat_of_nonneg (le_of_lt hmbpos)
  have hsad : ∀ (d : MotionEstContext), d.data_ref = c.data_ref → d.data_cur = c.data_cur →
      d.width = c.width → d.mbSize = c.mbSize → ∀ q : Int × Int,
      InRange { x_min := max 0 ((mb_x : Int) * c.mbSize - c.search_param),
                x_max := min ((mb_x : Int) * c.mbSize + c.search_param) ((c.b_width - 1) * c.mbSize),
                y_min := max 0 ((mb_y : Int) * c.mbSize - c.search_param),
                y_max := min ((mb_y : Int) * c.mbSize + c.search_param)
                  ((c.b_height - 1) * c.mbSize) } q →
      ∃ v, me_comp_sad d ((mb_x : Int) * c.mbSize) ((mb_y : Int) * c.mbSize) q.1 q.2 = .ok v := by
    intro d h1 h2 h3 h4 q hq
    obtain ⟨q1, q2, q3, q4⟩ := hq
    simp only [max_le_iff, le_min_iff] at q1 q2 q3 q4
    unfold me_comp_sad
    rw [h1, h2, h3, h4, hcur, href]
    refine sadRows_ok ref cur c.width _ _ _ _ _ _ hw0 hX0 hY0 (by rw [hmbn]; exact hX1) ?_
      q1.1 q3.1 (by rw [hmbn]; omega) ?_
    · rw [hmbn]
      refine le_trans ?_ hlenc
      rw [mul_comm c.width c.height]
      exact mul_le_mul_of_nonneg_right hY1 hw0
    · rw [hmbn]
      refine le_trans ?_ hlenr
      rw [mul_comm c.width c.height]
      exact mul_le_mul_of_nonneg_right (by omega) hw0
  obtain ⟨cost, mv', hsearch, hmv⟩ := me_search_epzs_ok
    { c with pred_x := (medianPredictor p0).1, pred_y := (medianPredictor p0).2,
             preds0 := ADD_PRED p0
               (t1.getD ((mb_x : Int) + mb_y * c.b_width).toNat MotionVector16_t.zero).vx
               (t1.getD ((mb_x : Int) + mb_y * c.b_width).toNat MotionVector16_t.zero).vy,
             preds1 := p1 }
    ((mb_x : Int) * c.mbSize) ((mb_y : Int) * c.mbSize)
    ((mb_x : Int) * c.mbSize, (mb_y : Int) * c.mbSize)
    ((c.b_width - 1) * c.mbSize) ((c.b_height - 1) * c.mbSize) _
    (by simp only []; omega) (by simp only []; omega) (by simp only []; omega)
    (by simp only []; omega) (by simp only []; omega) (by simp only []; omega)
    (by simp only []; omega) (by simp only []; omega)
    hgx hgy rfl (hsad _ rfl rfl rfl rfl)
  have hd : (-c.search_param ≤ mv'.1 - (mb_x : Int) * c.mbSize
        ∧ mv'.1 - (mb_x : Int) * c.mbSize ≤ c.search_param)
      ∧ (-c.search_param ≤ mv'.2 - (mb_y : Int) * c.mbSize
        ∧ mv'.2 - (mb_y : Int) * c.mbSize ≤ c.search_param) := by
    rcases hmv with h | ⟨q1, q2, q3, q4⟩
    · rw [h]; simp only []; omega
    · simp only [max_le_iff, le_min_iff] at q1 q2 q3 q4
      omega
  have hmag := epzsMag2_ok _ _ (radius_fits _ _ c.search_param hp1 hd.1 hd.2)
  unfold epzsBlock
  simp only [hsx, hsy, hcurp, hprev, ht1, ht0, bind, Except.bind, pure, Except.pure]
  rw [readVector_ok t1 _ (by omega) (by omega)]
  simp only [hsearch, hmag]
  rw [writeVector_ok t0 _ _ (by omega) (by omega)]
  exact ⟨_, rfl⟩

/-- A state of the block loop is a successfully initialised context. -/
theorem magRun_ready {c0 c : MotionEstContext} {k : Nat} (h : MagRun c0 k c)
    (hready : EpzsReady c0) : EpzsReady c := by
  obtain ⟨hfr, t, ht, hl, _, _⟩ := h
  obtain ⟨hgeo, _, hr1, hr2⟩ := hready
  have hg := loopFrame_geometry hfr hgeo
  obtain ⟨_, _, _, _, _, _, f7, _, _, _, f11, f12⟩ := hfr
  exact ⟨hg, by rw [ht, f7]; simp [hl], by rw [f11, f7]; exact hr1, by rw [f12, f7]; exact hr2⟩

/-- The column loop of `motionEstEPZS` returns and keeps the relation between
the vectors written so far, their magnitudes and `max`. -/
theorem epzsCols_ok (c0 : MotionEstContext) (cur ref : List Nat) (y : Nat)
    (hready : EpzsReady c0) (hcur : c0.data_cur = some cur) (href : c0.data_ref = some ref)
    (hlenc : c0.width * c0.height ≤ cur.length) (hlenr : c0.width * c0.height ≤ ref.length)
    (hp0 : 0 ≤ c0.search_param) (hp1 : c0.search_param ≤ 181)
    (hpw : c0.width + c0.search_param ≤ INT_MAX) (hph : c0.height + c0.search_param ≤ INT_MAX)
    (hy : (y : Int) < c0.b_height) :
    ∀ n : Nat, (n : Int) ≤ c0.b_width → ∀ c, MagRun c0 ((y : Int) * c0.b_width).toNat c →
      ∃ c', epzsCols y n c = .ok c' ∧ MagRun c0 ((n : Int) + y * c0.b_width).toNat c' := by
  intro n
  induction n with
  | zero =>
    intro _ c hinv
    exact ⟨c, rfl, by simpa using hinv⟩
  | succ n ih =>
    intro hn c hinv
    obtain ⟨c1, hc1, hinv1⟩ := ih (by push_cast at hn; omega) c hinv
    have hr1 := magRun_ready hinv1 hready
    obtain ⟨f1, f2, f3, f4, f5, f6, f7, f8, f9, f10, f11, f12⟩ := hinv1.1
    obtain ⟨c2, hc2⟩ := epzsBlock_ok c1 cur ref n y hr1 (by rw [f1, hcur]) (by rw [f2, href])
      (by rw [f3, f4]; exact hlenc) (by rw [f3, f4]; exact hlenr) (by rw [f10]; exact hp0)
      (by rw [f10]; exact hp1) (by rw [f3, f10]; exact hpw) (by rw [f4, f10]; exact hph)
      (by rw [f5]; push_cast at hn; omega) (by rw [f6]; exact hy)
    have hinv2 := epzsBlock_mag_step c0 c1 c2 n y hinv1 hc2
    refine ⟨c2, ?_, ?_⟩
    · simp only [epzsCols, hc1, bind, Except.bind]
      exact hc2
    · have hb : (0 : Int) ≤ (y : Int) * c0.b_width :=
        mul_nonneg (Int.natCast_nonneg _) (by push_cast at hn; omega)
      have he : (((n + 1 : Nat) : Int) + (y : Int) * c0.b_width).toNat
          = ((n : Int) + (y : Int) * c0.b_width).toNat + 1 := by
        push_cast; omega
      rw [he]
      exact hinv2

/-- The row loop of `motionEstEPZS` returns and keeps the relation between the
vectors written so far, their magnitudes and `max`. -/
theorem epzsRows_ok (c0 : MotionEstContext) (cur ref : List Nat)
    (hready : EpzsReady c0) (hcur : c0.data_cur = some cur) (href : c0.data_ref = some ref)
    (hlenc : c0.width * c0.height ≤ cur.length) (hlenr : c0.width * c0.height ≤ ref.length)
    (hp0 : 0 ≤ c0.search_param) (hp1 : c0.search_param ≤ 181)
    (hpw : c0.width + c0.search_param ≤ INT_MAX) (hph : c0.height + c0.search_param ≤ INT_MAX)
    (hbw : 0 ≤ c0.b_width) :
    ∀ n : Nat, (n : Int) ≤ c0.b_height → ∀ c, MagRun c0 0 c →
      ∃ c', epzsRows n c = .ok c' ∧ MagRun c0 ((n : Int) * c0.b_width).toNat c' := by
  intro n
  induction n with
  | zero =>
    intro _ c hinv
    exact ⟨c, rfl, by simpa using hinv⟩
  | succ n ih =>
    intro hn c hinv
    obtain ⟨c1, hc1, hinv1⟩ := ih (by push_cast at hn; omega) c hinv
    have hbw1 : c1.b_width = c0.b_width := hinv1.1.2.2.2.2.1
    obtain ⟨c2, hc2, hinv2⟩ := epzsCols_ok c0 cur ref n hready hcur href hlenc hlenr hp0 hp1 hpw
      hph (by push_cast at hn; omega) c0.b_width.toNat (by omega) c1 hinv1
    refine ⟨c2, ?_, ?_⟩
    · simp only [epzsRows, hc1, bind, Except.bind, hbw1]
      exact hc2
    · have he : (((n + 1 : Nat) : Int) * c0.b_width)
          = ((c0.b_width.toNat : Nat) : Int) + (n : Int) * c0.b_width := by
        rw [Int.toNat_of_nonneg hbw]; push_cast; ring
      rw [he]
      exact hinv2

/-- Function `motionEstEPZS` returns on a successfully initialised context
whose planes hold the image, with a search radius in 0..181. -/
theorem motionEstEPZS_returns (ctx : MotionEstContext) (cur ref : List Nat)
    (hready : EpzsReady ctx) (hcur : ctx.data_cur = some cur) (href : ctx.data_ref = some ref)
    (hlenc : ctx.width * ctx.height ≤ cur.length) (hlenr : ctx.width * ctx.height ≤ ref.length)
    (hp0 : 0 ≤ ctx.search_param) (hp1 : ctx.search_param ≤ 181)
    (hpw : ctx.width + ctx.search_param ≤ INT_MAX)
    (hph : ctx.height + ctx.search_param ≤ INT_MAX) :
    ∃ ctx', motionEstEPZS ctx = .ok (true, ctx') := by
  obtain ⟨hgeo, hr0, hr1, hr2⟩ := hready
  obtain ⟨t0, ht0, hl0⟩ : ∃ t, ctx.mv_table.get 0 = some t ∧ t.length = ctx.b_count.toNat := by
    cases h : ctx.mv_table.get 0 with
    | none => rw [h] at hr0; simp at hr0
    | some t => rw [h] at hr0; exact ⟨t, rfl, by simpa using hr0⟩
  obtain ⟨t1, ht1, hl1⟩ : ∃ t, ctx.mv_table.get 1 = some t ∧ t.length = ctx.b_count.toNat := by
    cases h : ctx.mv_table.get 1 with
    | none => rw [h] at hr1; simp at hr1
    | some t => rw [h] at hr1; exact ⟨t, rfl, by simpa using hr1⟩
  obtain ⟨t2, ht2, hl2⟩ : ∃ t, ctx.mv_table.get 2 = some t ∧ t.length = ctx.b_count.toNat := by
    cases h : ctx.mv_table.get 2 with
    | none => rw [h] at hr2; simp at hr2
    | some t => rw [h] at hr2; exact ⟨t, rfl, by simpa using hr2⟩
  have hgeo' := hgeo
  obtain ⟨hl0', hl31, hmb, hw0, hwmax, hh0, hhmax, hbw, hbh, hcount⟩ := hgeo'
  have hmbpos : (0 : Int) < ctx.mbSize := by rw [hmb]; positivity
  have hbw0 : 0 ≤ ctx.b_width := by rw [hbw]; exact Int.ediv_nonneg hw0 (le_of_lt hmbpos)
  have hbh0 : 0 ≤ ctx.b_height := by rw [hbh]; exact Int.ediv_nonneg hh0 (le_of_lt hmbpos)
  have hcnt0 : 0 ≤ ctx.b_count := by rw [hcount]; exact mul_nonneg hbw0 hbh0
  have hstart : MagRun
      { ctx with max := 0, mv_table := ((ctx.mv_table.set 2 (some t1)).set 1 (some t0)) } 0
      { ctx with max := 0, mv_table := ((ctx.mv_table.set 2 (some t1)).set 1 (some t0)) } := by
    refine ⟨loopFrame_refl _, t0, ?_, hl0, fun i hi => absurd hi (Nat.not_lt_zero i), ?_⟩
    · simp only [MvTables.get_set _ 1 0 _ (by decide), MvTables.get_set _ 2 0 _ (by decide)]
      simpa using ht0
    · simp [maxMag2]
  obtain ⟨c', hrun, _⟩ := epzsRows_ok
    { ctx with max := 0, mv_table := ((ctx.mv_table.set 2 (some t1)).set 1 (some t0)) } cur ref
    ⟨hgeo, by
        simp only [MvTables.get_set _ 1 0 _ (by decide), MvTables.get_set _ 2 0 _ (by decide)]
        simpa using hr0,
      by simp [MvTables.get_set _ 1 1 _ (by decide), hl0],
      by simp [MvTables.get_set _ 1 2 _ (by decide), MvTables.get_set _ 2 2 _ (by decide), hl1]⟩
    hcur href hlenc hlenr hp0 hp1 hpw hph hbw0 ctx.b_height.toNat (by simp only []; omega) _ hstart
  refine ⟨c', ?_⟩
  unfold motionEstEPZS
  simp only [ht0, ht1, ht2, bind, Except.bind, pure, Except.pure,
    memcpyVectors_full t2 t1 ctx.b_count hcnt0 hl2 hl1,
    MvTables.get_set _ 2 1 _ (by decide), MvTables.get_set _ 2 0 _ (by decide)]
  simp only [show ((1 : Nat) = 2) = False from by decide, show ((0 : Nat) = 2) = False from by decide,
    if_false, ht0, ht1, memcpyVectors_full t1 t0 ctx.b_count hcnt0 hl1 hl0]
  rw [hrun]

/-- C17: on a successfully initialised EPZS context, whenever `motionEstEPZS`
returns, generation 0 holds `b_count` vectors, each with
`mag2 = vx * vx + vy * vy` (a sum that does not fit 16 bits makes the
conversion to `uint16_t` undefined), and `max` is the largest `mag2` among
them; and the call does return when the two planes hold `width * height`
samples and the search radius is in 0..181, where every sum fits. -/
theorem motionEstEPZS_mag2_exact (ctx : MotionEstContext) (hready : EpzsReady ctx) :
    (∀ r ctx', motionEstEPZS ctx = .ok (r, ctx') →
        ∃ t, ctx'.mv_table.get 0 = some t ∧ t.length = ctx.b_count.toNat
          ∧ (∀ v, v ∈ t → (v.mag2 : Int) = v.vx * v.vx + v.vy * v.vy)
          ∧ ctx'.max = maxMag2 t)
      ∧ (∀ cur ref, ctx.data_cur = some cur → ctx.data_ref = some ref →
          ctx.width * ctx.height ≤ cur.length → ctx.width * ctx.height ≤ ref.length →
          0 ≤ ctx.search_param → ctx.search_param ≤ 181 →
          ctx.width + ctx.search_param ≤ INT_MAX → ctx.height + ctx.search_param ≤ INT_MAX →
          ∃ ctx', motionEstEPZS ctx = .ok (true, ctx')) :=
  ⟨fun r ctx' h => motionEstEPZS_post ctx ctx' r hready h,
   fun cur ref h1 h2 h3 h4 h5 h6 h7 h8 =>
     motionEstEPZS_returns ctx cur ref hready h1 h2 h3 h4 h5 h6 h7 h8⟩


/-! ## Evaluations on the sample inputs -/

set_option maxRecDepth 1000000 in
/-- Witness for C13: the 10 x 2 ARPS configuration is initialised, released
and initialised again. -/
theorem init_context_reinit_same_witness :
    init_context (fun _ => true) false reinitConfig = .ok (true, true, reinitContext)
      ∧ ∃ ctx2, init_context (fun _ => true) (uninit true reinitContext).1
          (uninit true reinitContext).2 = .ok (true, true, ctx2)
        ∧ ctx2.mbSize = reinitContext.mbSize ∧ ctx2.log2_mbSize = reinitContext.log2_mbSize
        ∧ ctx2.b_width = reinitContext.b_width ∧ ctx2.b_height = reinitContext.b_height
        ∧ ctx2.b_count = reinitContext.b_count
        ∧ ∀ i, (ctx2.mv_table.get i).map List.length
            = (reinitContext.mv_table.get i).map List.length :=
  ⟨by decide, init_context_reinit_same (fun _ => true) (fun _ => true) false true reinitConfig
    reinitContext (by decide) (by decide) (fun _ => by decide) (fun _ _ => rfl)⟩

set_option maxRecDepth 1000000 in
/-- Witness for C14: the 10 x 4 textured plane against itself, over a non-zero
vector history. -/
theorem motionEstEPZS_identical_planes_witness :
    ∃ ctx', motionEstEPZS (epzsFrame texturePlane texturePlane) = .ok (true, ctx')
      ∧ ctx'.mv_table.get 0
          = some (List.replicate (epzsFrame texturePlane texturePlane).b_count.toNat
              MotionVector16_t.zero)
      ∧ ctx'.max = 0 :=
  motionEstEPZS_identical_planes (epzsFrame texturePlane texturePlane) texturePlane
    (by decide) rfl rfl (by decide) (by decide) (by decide) (by decide)

set_option maxRecDepth 1000000 in
/-- Example of `epzsBlock_translation`: the third macroblock of row 0 of
`texturePlane` against `shiftedPlane`, after the first two macroblocks; its
left neighbour got the vector (-1, 0). -/
theorem epzsBlock_translation_witness :
    epzsCols 0 2 epzsLoopStart = .ok epzsMidRow
      ∧ ∃ c', epzsBlock epzsMidRow ((2 : Nat) : Int) ((0 : Nat) : Int) = .ok c'
        ∧ (c'.mv_table.get 0).map
            (fun t => t.getD (((2 : Nat) : Int) + ((0 : Nat) : Int) * epzsMidRow.b_width).toNat
              MotionVector16_t.zero)
          = some { vx := -1, vy := 0, mag2 := ((-1 : Int) * (-1) + 0 * 0).toNat } :=
  ⟨by decide, epzsBlock_translation epzsMidRow texturePlane shiftedPlane 2 0 (-1) 0 (by decide) rfl
    rfl (by decide) (by decide) (by decide) (by decide) (by decide) (by decide) (by decide)
    (by decide) (by decide) (by decide)
    (fun j i hj hi => by
      have hj2 : (j : Int) < 2 := hj
      have hi2 : (i : Int) < 2 := hi
      have hj3 : j < 2 := by omega
      have hi3 : i < 2 := by omega
      interval_cases j <;> interval_cases i <;> decide)
    (by decide) (by decide)⟩

set_option maxRecDepth 1000000 in
/-- Witness for C17: `texturePlane` against `shiftedPlane`, where the search
runs into its final loop and 8 of the 10 vectors are (-1, 0). -/
theorem motionEstEPZS_mag2_exact_witness :
    motionEstEPZS (epzsFrame texturePlane shiftedPlane) = .ok (true, epzsShiftedResult)
      ∧ (∃ t, epzsShiftedResult.mv_table.get 0 = some t
          ∧ t.length = (epzsFrame texturePlane shiftedPlane).b_count.toNat
          ∧ (∀ v, v ∈ t → (v.mag2 : Int) = v.vx * v.vx + v.vy * v.vy)
          ∧ epzsShiftedResult.max = maxMag2 t)
      ∧ ∃ ctx', motionEstEPZS (epzsFrame texturePlane shiftedPlane) = .ok (true, ctx') :=
  ⟨by decide,
   (motionEstEPZS_mag2_exact (epzsFrame texturePlane shiftedPlane) (by decide)).1 true
     epzsShiftedResult (by decide),
   (motionEstEPZS_mag2_exact (epzsFrame texturePlane shiftedPlane) (by decide)).2 texturePlane
     shiftedPlane rfl rfl (by decide) (by decide) (by decide) (by decide) (by decide) (by decide)⟩

set_option maxRecDepth 1000000 in
/-- C18: on `movedBlockPlane` against `texturePlane` (10 x 4, macroblocks of 2,
search parameter 4, threshold 8) `motionEstARPS` emits for the second
macroblock the vector with `vx = 0`, `vy = 1` and `mag2 = 0`, where
`vx * vx + vy * vy` is 1. -/
theorem motionEstARPS_mag2_squares_vx_twice :
    motionEstARPS (some movedBlockPlane) (some texturePlane) 10 4 2 4
        (some (List.replicate 10 MotionVector16_t.zero)) 8
      = .ok (true,
          some ([MotionVector16_t.zero, { vx := 0, vy := 1, mag2 := 0 }]
            ++ List.replicate 8 MotionVector16_t.zero), 0) := by
  decide

set_option maxRecDepth 1000000 in
/-- Witness for C19: the 7 x 6 ramp of samples 0, 6, ..., 246. -/
theorem convolve2DSeparable8_identity_witness :
    ∃ out, convolve2DSeparable8 true true (some rampPlane) (some (List.replicate 42 0))
          ((7 : Nat) : Int) ((6 : Nat) : Int) (some identityKernel) 5 (some identityKernel) 5
          = .ok (true, some out)
      ∧ out.length = 7 * 6
      ∧ ∀ x y, 2 ≤ x → x + 2 < 7 → 2 ≤ y → y + 2 < 6 →
          out.get? (y * 7 + x) = rampPlane.get? (y * 7 + x) :=
  convolve2DSeparable8_identity rampPlane (List.replicate 42 0) 7 6 (by decide) (by decide)
    (by decide) (by decide) (by decide) (by decide)

/-! ## epzs.c: `mid_pred` -/

/-- C28: for all integers a, b, c, `mid_pred(a, b, c)` is the middle element
of the sorted triple (with a smallest element `lo` and a largest `hi` the
three values are `lo <= mid_pred <= hi`), so it is the same for every order
of its arguments; and for a block of the grid with a left, a top and a
top-right neighbour, `motionEstEPZS` takes as predicted point the
component-wise `mid_pred` of the vectors generation 0 holds for these three
neighbours. -/
theorem mid_pred_median (a b c : Int) :
    (∃ lo hi, List.Perm [lo, mid_pred a b c, hi] [a, b, c]
        ∧ lo ≤ mid_pred a b c ∧ mid_pred a b c ≤ hi)
      ∧ (mid_pred a b c = mid_pred a c b ∧ mid_pred a b c = mid_pred b a c
        ∧ mid_pred a b c = mid_pred b c a ∧ mid_pred a b c = mid_pred c a b
        ∧ mid_pred a b c = mid_pred c b a)
      ∧ ∀ (ctx : MotionEstContext) (t0 : List MotionVector16_t) (mb_x mb_y : Nat),
          ctx.mv_table.get 0 = some t0 → ctx.b_count = ctx.b_width * ctx.b_height →
          t0.length = ctx.b_count.toNat → 0 < mb_x → 0 < mb_y → (mb_x : Int) + 1 < ctx.b_width →
          (mb_y : Int) < ctx.b_height →
          (currentPredictors ctx mb_x mb_y).map medianPredictor = .ok
            (mid_pred
              (t0.getD ((mb_x : Int) + mb_y * ctx.b_width - 1).toNat MotionVector16_t.zero).vx
              (t0.getD ((mb_x : Int) + mb_y * ctx.b_width - ctx.b_width).toNat
                MotionVector16_t.zero).vx
              (t0.getD ((mb_x : Int) + mb_y * ctx.b_width - ctx.b_width + 1).toNat
                MotionVector16_t.zero).vx,
             mid_pred
              (t0.getD ((mb_x : Int) + mb_y * ctx.b_width - 1).toNat MotionVector16_t.zero).vy
              (t0.getD ((mb_x : Int) + mb_y * ctx.b_width - ctx.b_width).toNat
                MotionVector16_t.zero).vy
              (t0.getD ((mb_x : Int) + mb_y * ctx.b_width - ctx.b_width + 1).toNat
                MotionVector16_t.zero).vy) := by
  refine ⟨?_, ?_, ?_⟩
  · unfold mid_pred
    split_ifs with h1 h2 h3 h4 h5
    · exact ⟨b, c, List.Perm.swap a b [c], by omega, by omega⟩
    · exact ⟨b, a,
        (List.Perm.cons b (List.Perm.swap a c [])).trans (List.Perm.swap a b [c]),
        by omega, by omega⟩
    · exact ⟨c, a,
        (List.Perm.swap b c [a]).trans
          ((List.Perm.cons b (List.Perm.swap a c [])).trans (List.Perm.swap a b [c])),
        by omega, by omega⟩
    · exact ⟨a, b, List.Perm.cons a (List.Perm.swap b c []), by omega, by omega⟩
    · exact ⟨c, b,
        (List.Perm.swap a c [b]).trans (List.Perm.cons a (List.Perm.swap b c [])),
        by omega, by omega⟩
    · exact ⟨a, c, List.Perm.refl _, by omega, by omega⟩
  · unfold mid_pred
    refine ⟨?_, ?_, ?_, ?_, ?_⟩ <;> split_ifs <;> omega
  · intro ctx t0 mb_x mb_y ht0 hcount hl0 hx0 hy0 hx1 hy1
    rw [currentPredictors_eq ctx t0 mb_x mb_y ht0 hcount hl0 (by omega) hy1]
    rw [if_pos hx0, if_pos hy0, if_pos ⟨hy0, hx1⟩]
    rfl

/-! ## epzs.c: the exits of `me_search_epzs` -/

/-- The SAD is a value of `uint64_t`. -/
theorem sadRows_le (ref cur : Option (List Nat)) (w x_mb y_mb x_mv y_mv : Int) (mb n v : Nat)
    (h : sadRows ref cur w x_mb y_mb x_mv y_mv mb n = .ok v) : v ≤ UINT64_MAX := by
  cases n with
  | zero =>
    simp only [sadRows, pure, Except.pure] at h
    cases h
    exact Nat.zero_le _
  | succ n =>
    simp only [sadRows, bind, Except.bind, pure, Except.pure] at h
    cases h1 : sadRows ref cur w x_mb y_mb x_mv y_mv mb n with
    | error e => rw [h1] at h; cases h
    | ok a =>
      rw [h1] at h
      simp only [] at h
      cases h2 : sadRow ref cur (y_mv * w + x_mv + (n : Int) * w) (y_mb * w + x_mb + (n : Int) * w)
          mb with
      | error e => rw [h2] at h; cases h
      | ok b =>
        rw [h2] at h
        simp only [] at h
        cases h
        have := Nat.mod_lt (a + b) (show 0 < UINT64_MAX + 1 by decide)
        omega

/-- The search of a macroblock of the grid on a successfully initialised
context whose planes hold the image: the bounds of the range are computed
without overflow, the block origin lies in the range, and every position of
the range has a SAD. -/
theorem epzsRange_facts (c : MotionEstContext) (cur ref : List Nat) (mb_x mb_y : Nat)
    (hready : EpzsReady c) (hcur : c.data_cur = some cur) (href : c.data_ref = some ref)
    (hlenc : c.width * c.height ≤ cur.length) (hlenr : c.width * c.height ≤ ref.length)
    (hp0 : 0 ≤ c.search_param)
    (hpw : c.width + c.search_param ≤ INT_MAX) (hph : c.height + c.search_param ≤ INT_MAX)
    (hx : (mb_x : Int) < c.b_width) (hy : (mb_y : Int) < c.b_height) :
    (INT_MIN ≤ (mb_x : Int) * c.mbSize - c.search_param
        ∧ (mb_x : Int) * c.mbSize + c.search_param ≤ INT_MAX
        ∧ INT_MIN ≤ (mb_y : Int) * c.mbSize - c.search_param
        ∧ (mb_y : Int) * c.mbSize + c.search_param ≤ INT_MAX
        ∧ (mb_x : Int) * c.mbSize - c.search_param ≤ INT_MAX
        ∧ INT_MIN ≤ (mb_x : Int) * c.mbSize + c.search_param
        ∧ (mb_y : Int) * c.mbSize - c.search_param ≤ INT_MAX
        ∧ INT_MIN ≤ (mb_y : Int) * c.mbSize + c.search_param)
      ∧ shiftLeft (c.b_width - 1) c.log2_mbSize = .ok ((c.b_width - 1) * c.mbSize)
      ∧ shiftLeft (c.b_height - 1) c.log2_mbSize = .ok ((c.b_height - 1) * c.mbSize)
      ∧ InRange (epzsRange c ((mb_x : Int) * c.mbSize) ((mb_y : Int) * c.mbSize))
          ((mb_x : Int) * c.mbSize, (mb_y : Int) * c.mbSize)
      ∧ ∀ (d : MotionEstContext), d.data_ref = c.data_ref → d.data_cur = c.data_cur →
          d.width = c.width → d.mbSize = c.mbSize → ∀ q : Int × Int,
          InRange (epzsRange c ((mb_x : Int) * c.mbSize) ((mb_y : Int) * c.mbSize)) q →
          ∃ v, me_comp_sad d ((mb_x : Int) * c.mbSize) ((mb_y : Int) * c.mbSize) q.1 q.2 = .ok v := by
  obtain ⟨hgeo, hr0, hr1, hr2⟩ := hready
  obtain ⟨hl0', hl31, hmb, hw0, hwmax, hh0, hhmax, hbw, hbh, hcount⟩ := hgeo
  have hmx : INT_MAX = 2147483647 := rfl
  have hmn : INT_MIN = -2147483648 := rfl
  have hmbpos : (0 : Int) < c.mbSize := by rw [hmb]; positivity
  obtain ⟨hX0, hX1, hX2⟩ := block_origin_facts c.width c.mbSize mb_x hmbpos
    (Int.natCast_nonneg _) (by rw [← hbw]; exact hx)
  obtain ⟨hY0, hY1, hY2⟩ := block_origin_facts c.height c.mbSize mb_y hmbpos
    (Int.natCast_nonneg _) (by rw [← hbh]; exact hy)
  have hGX : 0 ≤ (c.b_width - 1) * c.mbSize ∧ (c.b_width - 1) * c.mbSize ≤ c.width := by
    rw [hbw]; exact last_origin_facts c.width c.mbSize hmbpos (by rw [← hbw]; omega)
  have hGY : 0 ≤ (c.b_height - 1) * c.mbSize ∧ (c.b_height - 1) * c.mbSize ≤ c.height := by
    rw [hbh]; exact last_origin_facts c.height c.mbSize hmbpos (by rw [← hbh]; omega)
  have hWX : (c.b_width - 1) * c.mbSize + c.mbSize ≤ c.width := by
    rw [hbw]; exact last_window_facts c.width c.mbSize hmbpos
  have hWY : (c.b_height - 1) * c.mbSize + c.mbSize ≤ c.height := by
    rw [hbh]; exact last_window_facts c.height c.mbSize hmbpos
  have hgx : shiftLeft (c.b_width - 1) c.log2_mbSize = .ok ((c.b_width - 1) * c.mbSize) := by
    rw [hmb]
    exact shiftLeft_ok _ _ hl0' (by omega) (by rw [← hmb]; omega) (by rw [← hmb]; omega)
  have hgy : shiftLeft (c.b_height - 1) c.log2_mbSize = .ok ((c.b_height - 1) * c.mbSize) := by
    rw [hmb]
    exact shiftLeft_ok _ _ hl0' (by omega) (by rw [← hmb]; omega) (by rw [← hmb]; omega)
  have hmbn : ((c.mbSize.toNat : Nat) : Int) = c.mbSize := Int.toNat_of_nonneg (le_of_lt hmbpos)
  refine ⟨⟨by omega, by omega, by omega, by omega, by omega, by omega, by omega, by omega⟩,
    hgx, hgy, ?_, ?_⟩
  · rw [← hbw] at hX2
    rw [← hbh] at hY2
    refine ⟨?_, ?_, ?_, ?_⟩ <;> simp only [epzsRange, max_le_iff, le_min_iff] <;> omega
  · intro d h1 h2 h3 h4 q hq
    obtain ⟨q1, q2, q3, q4⟩ := hq
    simp only [epzsRange, max_le_iff, le_min_iff] at q1 q2 q3 q4
    unfold me_comp_sad
    rw [h1, h2, h3, h4, hcur, href]
    refine sadRows_ok ref cur c.width _ _ _ _ _ _ hw0 hX0 hY0 (by rw [hmbn]; exact hX1) ?_
      q1.1 q3.1 (by rw [hmbn]; omega) ?_
    · rw [hmbn]
      refine le_trans ?_ hlenc
      rw [mul_comm c.width c.height]
      exact mul_le_mul_of_nonneg_right hY1 hw0
    · rw [hmbn]
      refine le_trans ?_ hlenr
      rw [mul_comm c.width c.height]
      exact mul_le_mul_of_nonneg_right (by omega) hw0

/-- C29: on a successfully initialised context whose planes hold the image,
for a macroblock of the grid: whenever the predicted point
(x_mb + pred_x, y_mb + pred_y) lies in the search range and its SAD is below
256, `me_search_epzs` returns that SAD, with the predicted point in `mv`,
whatever sets A and B hold; and when the predicted point is the one
`motionEstEPZS` computes for the block (the median of its current-frame
neighbours), the vector the block gets is (pred_x, pred_y). -/
theorem me_search_epzs_predicted_point (c : MotionEstContext) (cur ref : List Nat)
    (mb_x mb_y : Nat) (hready : EpzsReady c) (hcur : c.data_cur = some cur)
    (href : c.data_ref = some ref) (hlenc : c.width * c.height ≤ cur.length)
    (hlenr : c.width * c.height ≤ ref.length) (hp0 : 0 ≤ c.search_param)
    (hpw : c.width + c.search_param ≤ INT_MAX) (hph : c.height + c.search_param ≤ INT_MAX)
    (hx : (mb_x : Int) < c.b_width) (hy : (mb_y : Int) < c.b_height) :
    (InRange (epzsRange c ((mb_x : Int) * c.mbSize) ((mb_y : Int) * c.mbSize))
          ((mb_x : Int) * c.mbSize + c.pred_x, (mb_y : Int) * c.mbSize + c.pred_y) →
        sadAt c ((mb_x : Int) * c.mbSize) ((mb_y : Int) * c.mbSize)
          ((mb_x : Int) * c.mbSize + c.pred_x, (mb_y : Int) * c.mbSize + c.pred_y) < 256 →
        ∀ setA setB : MotionEstPredictor,
          me_search_epzs { c with preds0 := setA, preds1 := setB } ((mb_x : Int) * c.mbSize)
              ((mb_y : Int) * c.mbSize) ((mb_x : Int) * c.mbSize, (mb_y : Int) * c.mbSize)
            = .ok (sadAt c ((mb_x : Int) * c.mbSize) ((mb_y : Int) * c.mbSize)
                    ((mb_x : Int) * c.mbSize + c.pred_x, (mb_y : Int) * c.mbSize + c.pred_y),
                   ((mb_x : Int) * c.mbSize + c.pred_x, (mb_y : Int) * c.mbSize + c.pred_y)))
      ∧ ∀ dx dy : Int, (currentPredictors c mb_x mb_y).map medianPredictor = .ok (dx, dy) →
          InRange (epzsRange c ((mb_x : Int) * c.mbSize) ((mb_y : Int) * c.mbSize))
            ((mb_x : Int) * c.mbSize + dx, (mb_y : Int) * c.mbSize + dy) →
          sadAt c ((mb_x : Int) * c.mbSize) ((mb_y : Int) * c.mbSize)
            ((mb_x : Int) * c.mbSize + dx, (mb_y : Int) * c.mbSize + dy) < 256 →
          dx * dx + dy * dy ≤ 65535 →
          ∃ c', epzsBlock c mb_x mb_y = .ok c'
            ∧ (c'.mv_table.get 0).map
                (fun t => t.getD ((mb_x : Int) + mb_y * c.b_width).toNat MotionVector16_t.zero)
              = some { vx := dx, vy := dy, mag2 := (dx * dx + dy * dy).toNat } := by
  obtain ⟨⟨f1, f2, f3, f4, f5, f6, f7, f8⟩, hgx, hgy, horg, hsadAll⟩ :=
    epzsRange_facts c cur ref mb_x mb_y hready hcur href hlenc hlenr hp0 hpw hph hx hy
  constructor
  · intro hin h256 setA setB
    obtain ⟨q1, q2, q3, q4⟩ := hin
    simp only [epzsRange] at q1 q2 q3 q4
    obtain ⟨v, hv⟩ := hsadAll { c with preds0 := setA, preds1 := setB } rfl rfl rfl rfl
      ((mb_x : Int) * c.mbSize + c.pred_x, (mb_y : Int) * c.mbSize + c.pred_y)
      ⟨q1, q2, q3, q4⟩
    have hv' : me_comp_sad c ((mb_x : Int) * c.mbSize) ((mb_y : Int) * c.mbSize)
        ((mb_x : Int) * c.mbSize + c.pred_x) ((mb_y : Int) * c.mbSize + c.pred_y) = .ok v := hv
    have hs : sadAt c ((mb_x : Int) * c.mbSize) ((mb_y : Int) * c.mbSize)
        ((mb_x : Int) * c.mbSize + c.pred_x, (mb_y : Int) * c.mbSize + c.pred_y) = v := by
      simp only [sadAt, hv']
    rw [hs] at h256 ⊢
    exact me_search_epzs_pred_exit { c with preds0 := setA, preds1 := setB } _ _ _ v
      ((c.b_width - 1) * c.mbSize) ((c.b_height - 1) * c.mbSize) f1 f2 f3 f4 f5 f6 f7 f8 hgx hgy
      ⟨q1, q2⟩ ⟨q3, q4⟩ hv h256
  · intro dx dy hmed hin h256 hmag
    obtain ⟨hgeo, hr0, hr1, hr2⟩ := hready
    obtain ⟨t0, ht0, hl0⟩ : ∃ t, c.mv_table.get 0 = some t ∧ t.length = c.b_count.toNat := by
      cases h : c.mv_table.get 0 with
      | none => rw [h] at hr0; simp at hr0
      | some t => rw [h] at hr0; exact ⟨t, rfl, by simpa using hr0⟩
    obtain ⟨t1, ht1, hl1⟩ : ∃ t, c.mv_table.get 1 = some t ∧ t.length = c.b_count.toNat := by
      cases h : c.mv_table.get 1 with
      | none => rw [h] at hr1; simp at hr1
      | some t => rw [h] at hr1; exact ⟨t, rfl, by simpa using hr1⟩
    obtain ⟨t2, ht2, hl2⟩ : ∃ t, c.mv_table.get 2 = some t ∧ t.length = c.b_count.toNat := by
      cases h : c.mv_table.get 2 with
      | none => rw [h] at hr2; simp at hr2
      | some t => rw [h] at hr2; exact ⟨t, rfl, by simpa using hr2⟩
    have hcount := hgeo.2.2.2.2.2.2.2.2.2
    obtain ⟨p0, hcurp⟩ : ∃ p0, currentPredictors c mb_x mb_y = .ok p0 :=
      ⟨_, currentPredictors_eq c t0 mb_x mb_y ht0 hcount hl0 hx hy⟩
    rw [hcurp] at hmed
    have hmed' : medianPredictor p0 = (dx, dy) := by
      simpa [Except.map] using hmed
    obtain ⟨q1, q2, q3, q4⟩ := hin
    simp only [epzsRange] at q1 q2 q3 q4
    obtain ⟨v, hv⟩ := hsadAll c rfl rfl rfl rfl
      ((mb_x : Int) * c.mbSize + dx, (mb_y : Int) * c.mbSize + dy) ⟨q1, q2, q3, q4⟩
    have hs : sadAt c ((mb_x : Int) * c.mbSize) ((mb_y : Int) * c.mbSize)
        ((mb_x : Int) * c.mbSize + dx, (mb_y : Int) * c.mbSize + dy) = v := by
      simp only [sadAt, hv]
    rw [hs] at h256
    obtain ⟨p0, p1, hblock⟩ := epzsBlock_pred_exit c t0 t1 t2 mb_x mb_y dx dy v p0 hgeo ht0 ht1 ht2
      hl0 hl1 hl2 hx hy hp0 hpw hph hcurp hmed' ⟨q1, q2⟩ ⟨q3, q4⟩ hv h256 hmag
    refine ⟨_, hblock, ?_⟩
    obtain ⟨hB0, hB1, hB2, hB3⟩ := block_index_facts c.b_width c.b_height mb_x mb_y
      (Int.natCast_nonneg _) hx (Int.natCast_nonneg _) hy
    have hL0 : (t0.length : Int) = c.b_width * c.b_height := by rw [hl0, ← hcount]; omega
    have hlt : ((mb_x : Int) + mb_y * c.b_width).toNat < t0.length := by
      rw [hl0]
      have := hcount
      omega
    simp [MvTables.get_set _ 0 0 _ (by decide), List.getD, hlt]

/-- What one `COST_P_MV` leaves: a cost that has not grown, is at most the
SAD of the position tried when that lies in the range, and stays above every
bound that the cost before and that SAD are above. -/
theorem COST_P_MV_bounds (c : MotionEstContext) (r : SearchRange) (x_mb y_mb : Int)
    (s s' : EpzsSearch) (x y : Int) (h : COST_P_MV c r x_mb y_mb s x y = .ok s') :
    s'.cost_min ≤ s.cost_min
      ∧ (InRange r (x, y) → s'.cost_min ≤ sadAt c x_mb y_mb (x, y))
      ∧ ∀ B : Nat, B ≤ s.cost_min → (InRange r (x, y) → B ≤ sadAt c x_mb y_mb (x, y)) →
          B ≤ s'.cost_min := by
  unfold COST_P_MV at h
  by_cases hin : x ≥ r.x_min ∧ x ≤ r.x_max ∧ y ≥ r.y_min ∧ y ≤ r.y_max
  · rw [if_pos hin] at h
    unfold COST_MV at h
    cases hv : me_comp_sad c x_mb y_mb x y with
    | error e => rw [hv] at h; cases h
    | ok v =>
      rw [hv] at h
      simp only [bind, Except.bind, pure, Except.pure] at h
      have hs : sadAt c x_mb y_mb (x, y) = v := by simp only [sadAt, hv]
      have hr : InRange r (x, y) := ⟨hin.1, hin.2.1, hin.2.2.1, hin.2.2.2⟩
      by_cases hlt : v < s.cost_min
      · rw [if_pos hlt] at h
        cases h
        refine ⟨le_of_lt hlt, fun _ => by rw [hs], fun B _ hB => ?_⟩
        have := hB hr
        rw [hs] at this
        exact this
      · rw [if_neg hlt] at h
        cases h
        refine ⟨le_refl _, fun _ => by rw [hs]; omega, fun B hB _ => hB⟩
  · rw [if_neg hin] at h
    cases h
    refine ⟨le_refl _, fun hr => absurd ⟨hr.1, hr.2.1, hr.2.2.1, hr.2.2.2⟩ hin, fun B hB _ => hB⟩

/-- What a loop of `COST_P_MV` over offsets leaves: a cost that has not grown,
is at most the SAD of every position tried that lies in the range, and stays
above every bound that the cost before and those SADs are above. -/
theorem costOffsets_bounds (c : MotionEstContext) (r : SearchRange) (x_mb y_mb x y : Int) :
    ∀ (os : List (Int × Int)) (s s' : EpzsSearch),
      costOffsets c r x_mb y_mb x y os s = .ok s' →
      s'.cost_min ≤ s.cost_min
        ∧ (∀ o, o ∈ os → InRange r (x + o.1, y + o.2) →
            s'.cost_min ≤ sadAt c x_mb y_mb (x + o.1, y + o.2))
        ∧ ∀ B : Nat, B ≤ s.cost_min →
            (∀ o, o ∈ os → InRange r (x + o.1, y + o.2) →
              B ≤ sadAt c x_mb y_mb (x + o.1, y + o.2)) → B ≤ s'.cost_min := by
  intro os
  induction os with
  | nil =>
    intro s s' h
    simp only [costOffsets, pure, Except.pure] at h
    cases h
    exact ⟨le_refl _, fun o ho => absurd ho (List.not_mem_nil o), fun B hB _ => hB⟩
  | cons o os ih =>
    intro s s' h
    simp only [costOffsets, bind, Except.bind] at h
    cases h1 : COST_P_MV c r x_mb y_mb s (x + o.1) (y + o.2) with
    | error e => rw [h1] at h; cases h
    | ok s1 =>
      rw [h1] at h
      simp only [] at h
      obtain ⟨a1, a2, a3⟩ := COST_P_MV_bounds c r x_mb y_mb s s1 _ _ h1
      obtain ⟨b1, b2, b3⟩ := ih s1 s' h
      refine ⟨le_trans b1 a1, ?_, ?_⟩
      · intro o' ho' hr
        rcases List.mem_cons.mp ho' with rfl | hmem
        · exact le_trans b1 (a2 hr)
        · exact b2 o' hmem hr
      · intro B hB hall
        exact b3 B (a3 B hB (fun hr => hall o (List.mem_cons_self _ _) hr))
          (fun o' ho' hr => hall o' (List.mem_cons_of_mem _ ho') hr)

/-- Where the final loop of `me_search_epzs` stops, no neighbour of the
position in the search range has a smaller SAD, and the cost has not grown. -/
theorem epzsDiamond_bounds (c : MotionEstContext) (r : SearchRange) (x_mb y_mb : Int) :
    ∀ (fuel : Nat) (s s' : EpzsSearch), epzsDiamond c r x_mb y_mb fuel s = .ok s' →
      s'.cost_min ≤ s.cost_min
        ∧ ∀ o, o ∈ dia1 → InRange r (s'.mv0 + o.1, s'.mv1 + o.2) →
            s'.cost_min ≤ sadAt c x_mb y_mb (s'.mv0 + o.1, s'.mv1 + o.2) := by
  intro fuel
  induction fuel with
  | zero => intro s s' h; cases h
  | succ fuel ih =>
    intro s s' h
    simp only [epzsDiamond, bind, Except.bind] at h
    cases h1 : costOffsets c r x_mb y_mb s.mv0 s.mv1 dia1 s with
    | error e => rw [h1] at h; cases h
    | ok s1 =>
      rw [h1] at h
      simp only [] at h
      obtain ⟨a1, a2, _⟩ := costOffsets_bounds c r x_mb y_mb s.mv0 s.mv1 dia1 s s1 h1
      by_cases hmv : s.mv0 ≠ s1.mv0 ∨ s.mv1 ≠ s1.mv1
      · rw [if_pos hmv] at h
        obtain ⟨b1, b2⟩ := ih s1 s' h
        exact ⟨le_trans b1 a1, b2⟩
      · rw [if_neg hmv] at h
        simp only [pure, Except.pure] at h
        have e0 : s.mv0 = s1.mv0 := by
          by_contra hne; exact hmv (Or.inl hne)
        have e1 : s.mv1 = s1.mv1 := by
          by_contra hne; exact hmv (Or.inr hne)
        cases h
        refine ⟨a1, fun o ho hr => ?_⟩
        rw [← e0, ← e1] at hr ⊢
        exact a2 o ho hr

/-- The SAD at a position is a value of `uint64_t`. -/
theorem sadAt_le (c : MotionEstContext) (x_mb y_mb : Int) (q : Int × Int) :
    sadAt c x_mb y_mb q ≤ UINT64_MAX := by
  unfold sadAt
  cases h : me_comp_sad c x_mb y_mb q.1 q.2 with
  | error e => exact Nat.zero_le _
  | ok v => exact sadRows_le _ _ _ _ _ _ _ _ _ _ h

/-- C30: on a successfully initialised context whose planes hold the image,
for a macroblock of the grid whose set A holds the zero vector (as
`motionEstEPZS` builds it), when none of the three early exits fires (every
predictor in the search range, the predicted point and sets A and B, has a
SAD of at least 256), `me_search_epzs` returns; the value it returns is the
SAD at the position it leaves in `mv`, which lies in the search range; that
SAD is at most the SAD of each of the four unit-step neighbours of the
position in the search range, and at most the SAD of every predictor in the
search range, the zero vector included. -/
theorem me_search_epzs_local_minimum (c : MotionEstContext) (cur ref : List Nat)
    (mb_x mb_y : Nat) (hready : EpzsReady c) (hcur : c.data_cur = some cur)
    (href : c.data_ref = some ref) (hlenc : c.width * c.height ≤ cur.length)
    (hlenr : c.width * c.height ≤ ref.length) (hp0 : 0 ≤ c.search_param)
    (hpw : c.width + c.search_param ≤ INT_MAX) (hph : c.height + c.search_param ≤ INT_MAX)
    (hx : (mb_x : Int) < c.b_width) (hy : (mb_y : Int) < c.b_height)
    (hzero : ((0 : Int), (0 : Int)) ∈ c.preds0.mvs)
    (hnone : ∀ q, q ∈ epzsCandidates c ((mb_x : Int) * c.mbSize) ((mb_y : Int) * c.mbSize) →
      InRange (epzsRange c ((mb_x : Int) * c.mbSize) ((mb_y : Int) * c.mbSize)) q →
      256 ≤ sadAt c ((mb_x : Int) * c.mbSize) ((mb_y : Int) * c.mbSize) q) :
    ∃ cost mv,
      me_search_epzs c ((mb_x : Int) * c.mbSize) ((mb_y : Int) * c.mbSize)
          ((mb_x : Int) * c.mbSize, (mb_y : Int) * c.mbSize) = .ok (cost, mv)
        ∧ InRange (epzsRange c ((mb_x : Int) * c.mbSize) ((mb_y : Int) * c.mbSize)) mv
        ∧ cost = sadAt c ((mb_x : Int) * c.mbSize) ((mb_y : Int) * c.mbSize) mv
        ∧ (∀ o, o ∈ dia1 →
            InRange (epzsRange c ((mb_x : Int) * c.mbSize) ((mb_y : Int) * c.mbSize))
              (mv.1 + o.1, mv.2 + o.2) →
            cost ≤ sadAt c ((mb_x : Int) * c.mbSize) ((mb_y : Int) * c.mbSize)
              (mv.1 + o.1, mv.2 + o.2))
        ∧ (∀ q, q ∈ epzsCandidates c ((mb_x : Int) * c.mbSize) ((mb_y : Int) * c.mbSize) →
            InRange (epzsRange c ((mb_x : Int) * c.mbSize) ((mb_y : Int) * c.mbSize)) q →
            cost ≤ sadAt c ((mb_x : Int) * c.mbSize) ((mb_y : Int) * c.mbSize) q)
        ∧ cost ≤ sadAt c ((mb_x : Int) * c.mbSize) ((mb_y : Int) * c.mbSize)
            ((mb_x : Int) * c.mbSize, (mb_y : Int) * c.mbSize) := by
  obtain ⟨⟨f1, f2, f3, f4, f5, f6, f7, f8⟩, hgx, hgy, horg, hsadAll⟩ :=
    epzsRange_facts c cur ref mb_x mb_y hready hcur href hlenc hlenr hp0 hpw hph hx hy
  have hsad := hsadAll c rfl rfl rfl rfl
  generalize hX : (mb_x : Int) * c.mbSize = X at *
  generalize hY : (mb_y : Int) * c.mbSize = Y at *
  obtain ⟨s1, h1, hs1⟩ := COST_P_MV_step c (epzsRange c X Y) X Y hsad
    { cost_min := UINT64_MAX, mv0 := X, mv1 := Y } (X + c.pred_x) (Y + c.pred_y)
  obtain ⟨s2, h2, hs2⟩ := costOffsets_step c (epzsRange c X Y) X Y hsad X Y c.preds0.mvs s1
  obtain ⟨s3, h3, hs3⟩ := costOffsets_step c (epzsRange c X Y) X Y hsad X Y c.preds1.mvs s2
  obtain ⟨s4, h4, hs4⟩ := epzsDiamond_ok c (epzsRange c X Y) X Y hsad _ s3
    (Nat.lt_add_one_of_le (betterPositions_card_le c X Y (epzsRange c X Y) s3.cost_min))
  obtain ⟨a1, a2, a3⟩ := COST_P_MV_bounds c _ X Y _ s1 _ _ h1
  obtain ⟨b1, b2, b3⟩ := costOffsets_bounds c _ X Y X Y _ s1 s2 h2
  obtain ⟨c1, c2, c3⟩ := costOffsets_bounds c _ X Y X Y _ s2 s3 h3
  obtain ⟨d1, d2⟩ := epzsDiamond_bounds c _ X Y _ s3 s4 h4
  have g1 : 256 ≤ s1.cost_min :=
    a3 256 (show 256 ≤ UINT64_MAX by decide) (fun hr => hnone _ (List.mem_cons_self _ _) hr)
  have g2 : 256 ≤ s2.cost_min :=
    b3 256 g1 (fun o ho hr => hnone _
      (List.mem_cons_of_mem _ (List.mem_map.mpr ⟨o, List.mem_append_left _ ho, rfl⟩)) hr)
  have g3 : 256 ≤ s3.cost_min :=
    c3 256 g2 (fun o ho hr => hnone _
      (List.mem_cons_of_mem _ (List.mem_map.mpr ⟨o, List.mem_append_right _ ho, rfl⟩)) hr)
  have hz : s4.cost_min ≤ sadAt c X Y (X, Y) := by
    have := b2 (0, 0) hzero (by simpa using horg)
    simp only [add_zero] at this
    omega
  have hchain := searchStep_trans (searchStep_trans (searchStep_trans hs1 hs2) hs3) hs4
  simp only [epzsRange] at h1 h2 h3 h4
  refine ⟨s4.cost_min, (s4.mv0, s4.mv1), ?_, ?_, ?_, d2, ?_, hz⟩
  · unfold me_search_epzs
    simp only [checkedInt_ok _ f1 f5, checkedInt_ok _ f3 f7, checkedInt_ok _ f6 f2,
      checkedInt_ok _ f8 f4, hgx, hgy, bind, Except.bind, pure, Except.pure, h1]
    rw [if_neg (by omega)]
    simp only [h2]
    rw [if_neg (by omega)]
    simp only [h3]
    rw [if_neg (by omega)]
    simp only [h4]
  · rcases hchain with h | ⟨_, h, _⟩
    · rw [h]; exact horg
    · exact h
  · rcases hchain with h | ⟨_, _, h⟩
    · have hle := sadAt_le c X Y (X, Y)
      rw [h] at hz ⊢
      simp only [] at hz ⊢
      omega
    · exact h.symm
  · intro q hq hr
    rcases List.mem_cons.mp hq with rfl | hq
    · have := a2 hr
      omega
    · obtain ⟨o, ho, rfl⟩ := List.mem_map.mp hq
      rcases List.mem_append.mp ho with ho | ho
      · have := b2 o ho hr
        omega
      · have := c2 o ho hr
        omega

/-! ## deflicker.c: `clip_uint8` -/

/-- The mask `a & ~0xFF` of a natural number is zero exactly below 256. -/
theorem land_mask_natCast (n : Nat) : Int.land (n : Int) (~~~(0xFF : Int)) = 0 ↔ n < 256 := by
  have e : (~~~(0xFF : Int)) = Int.negSucc 255 := rfl
  rw [e]
  show ((Nat.ldiff n 255 : Nat) : Int) = 0 ↔ n < 256
  rw [Int.natCast_eq_zero]
  have h255 : ∀ i, Nat.testBit 255 i = decide (i < 8) := by
    intro i
    have := Nat.testBit_two_pow_sub_one 8 i
    simpa using this
  constructor
  · intro h
    apply @Nat.lt_pow_two_of_testBit 8 n
    intro i hi
    have := congrArg (fun m => Nat.testBit m i) h
    simp only [Nat.testBit_ldiff, Nat.zero_testBit, h255] at this
    have hd : decide (i < 8) = false := by simp; omega
    rw [hd] at this
    simpa using this
  · intro h
    apply Nat.eq_of_testBit_eq
    intro i
    simp only [Nat.testBit_ldiff, Nat.zero_testBit, h255]
    by_cases hi : i < 8
    · simp [hi]
    · have : Nat.testBit n i = false := by
        apply Nat.testBit_lt_two_pow
        calc n < 256 := h
          _ = 2 ^ 8 := by norm_num
          _ ≤ 2 ^ i := Nat.pow_le_pow_right (by norm_num) (by omega)
      rw [this]; simp

/-- The test `a & (~0xFF)` of `clip_uint8` is zero exactly for 0 <= a <= 255. -/
theorem land_mask_zero_iff (a : Int) : Int.land a (~~~(0xFF : Int)) = 0 ↔ 0 ≤ a ∧ a < 256 := by
  cases a with
  | ofNat n =>
    have := land_mask_natCast n
    simp only [Int.ofNat_eq_coe] at this ⊢
    rw [this]
    omega
  | negSucc n =>
    have e : (~~~(0xFF : Int)) = Int.negSucc 255 := rfl
    rw [e]
    constructor
    · intro h
      exact absurd h (by show Int.negSucc (n ||| 255) ≠ 0; exact Int.negSucc_ne_zero _)
    · intro h
      have := Int.negSucc_lt_zero n
      omega

/-- Function `clip_uint8` clamps every `int` other than `INT_MIN` to 0..255,
whether the negation wraps or not. -/
theorem clip_uint8_clamps (a : Int) (h1 : INT_MIN < a) (h2 : a ≤ INT_MAX) :
    clip_uint8 a = .ok (if a < 0 then 0 else if a > 255 then 255 else a.toNat)
      ∧ clip_uint8_wrapping a = (if a < 0 then 0 else if a > 255 then 255 else a.toNat) := by
  have hmx : INT_MAX = 2147483647 := rfl
  have hmn : INT_MIN = -2147483648 := rfl
  by_cases hin : 0 ≤ a ∧ a < 256
  · have hz := (land_mask_zero_iff a).mpr hin
    have e : (a % 256).toNat = a.toNat := by
      rw [Int.emod_eq_of_lt hin.1 hin.2]
    simp only [clip_uint8, clip_uint8_wrapping, hz, ne_eq, not_true_eq_false, if_false, e, pure,
      Except.pure]
    rw [if_neg (by omega), if_neg (by omega)]
    exact ⟨rfl, rfl⟩
  · have hz : Int.land a (~~~(0xFF : Int)) ≠ 0 := fun h => hin ((land_mask_zero_iff a).mp h)
    have hw : wrapInt (-a) = -a := by
      unfold wrapInt
      omega
    simp only [clip_uint8, clip_uint8_wrapping, hz, ne_eq, not_false_eq_true, if_true, hw,
      checkedInt_ok (-a) (by omega) (by omega), bind, Except.bind, pure, Except.pure]
    by_cases hneg : a < 0
    · have : (-a) >>> (31 : Nat) = 0 := by
        rw [Int.shiftRight_eq_div_pow]
        apply Int.ediv_eq_zero_of_lt (by omega)
        norm_num; omega
      rw [if_pos hneg, this]
      exact ⟨rfl, rfl⟩
    · have : (-a) >>> (31 : Nat) = -1 := by
        have h31 : ((2 ^ 31 : Nat) : Int) = 2147483648 := by norm_num
        rw [Int.shiftRight_eq_div_pow, h31]
        omega
      rw [if_neg hneg, if_pos (by omega), this]
      exact ⟨rfl, rfl⟩

/-- The summation loop of `calc_brightness` over samples of the plane. -/
theorem sumLoopF_ok (img : List Nat) (n : Nat) (h : n ≤ img.length) :
    sumLoopF img n = .ok (((img.take n).sum : Nat) : ℚ) := by
  induction n with
  | zero => simp [sumLoopF, pure, Except.pure]
  | succ n ih =>
    have hlt : n < img.length := by omega
    have e : img.take (n + 1) = img.take n ++ [img.getD n 0] := by
      rw [List.take_succ]
      simp [List.getD, List.getElem?_eq_getElem hlt]
    simp only [sumLoopF, ih (by omega), bind, Except.bind, pure, Except.pure,
      readPlane_ok img (n : Int) (Int.natCast_nonneg _) (by exact_mod_cast hlt), Int.toNat_ofNat]
    rw [e, List.sum_append, List.sum_singleton]
    push_cast
    rfl

/-- The brightness `calc_brightness` observes on a frame is its mean. -/
theorem calc_brightness_ok (f : DeflickerFrame) (hf : f.Sized) :
    calc_brightness f.img (f.w * f.h) = .ok (meanBrightness f) := by
  obtain ⟨h0, _, h2⟩ := hf
  have hne : ((f.w * f.h : Int) : ℚ) ≠ 0 := by
    have : (f.w * f.h : Int) ≠ 0 := by omega
    exact_mod_cast this
  simp only [calc_brightness, sumLoopF_ok f.img _ h2, bind, Except.bind, divF, hne, if_false,
    pure, Except.pure, meanBrightness]

/-- Storing into the first free slot of a queue that holds `known`. -/
theorem writeF_slot (known : List ℚ) (m : Nat) (b : ℚ) :
    writeF (known ++ List.replicate (m + 1) 0) (known.length : Int) b
      = .ok (known ++ [b] ++ List.replicate m 0) := by
  have h1 : ((known.length : Int)).toNat = known.length := Int.toNat_ofNat _
  have h2 : known.length < (known ++ List.replicate (m + 1) (0 : ℚ)).length := by
    simp
  simp only [writeF, Int.natCast_nonneg, h1, h2, and_self, if_true, pure, Except.pure]
  congr 1
  rw [List.set_append_right _ _ (le_refl _), Nat.sub_self, List.replicate_succ, List.set_cons_zero,
    List.append_assoc]
  rfl

/-- A call of `deflicker` on a queue that holds fewer than 9 values: the
brightness of the frame is appended, the call returns false and the plane is
as it was. -/
theorem deflicker_fill (known : List ℚ) (f : DeflickerFrame) (hk : known.length < 9)
    (hf : f.Sized) :
    deflicker { brightness := known ++ List.replicate (10 - known.length) 0,
                available := (known.length : Int) } f.img f.w f.h
      = .ok (false,
          { brightness := (known ++ [meanBrightness f])
              ++ List.replicate (10 - (known.length + 1)) 0,
            available := ((known.length + 1 : Nat) : Int) }, f.img) := by
  have hmx : INT_MAX = 2147483647 := rfl
  have hmn : INT_MIN = -2147483648 := rfl
  have hsz := hf
  obtain ⟨h0, h1, h2⟩ := hsz
  have e : 10 - known.length = (10 - (known.length + 1)) + 1 := by omega
  unfold deflicker
  rw [checkedInt_ok _ (show INT_MIN ≤ f.w * f.h by omega) h1]
  show (Except.bind (Except.ok (f.w * f.h)) _) = _
  rw [Except.bind]
  show (Except.bind (calc_brightness f.img (f.w * f.h)) _) = _
  rw [calc_brightness_ok f hf, Except.bind]
  rw [if_pos (by simp only [MAXSIZE, Nat.cast_ofNat]; omega)]
  dsimp only []
  have ha : (known.length : Int) + 1 = ((known.length + 1 : Nat) : Int) := by push_cast; ring
  rw [e, writeF_slot known _ (meanBrightness f)]
  show (Except.bind (Except.ok _) _) = _
  rw [Except.bind]
  show (Except.bind (checkedInt _) _) = _
  rw [checkedInt_ok ((known.length : Int) + 1) (by omega) (by omega), Except.bind]
  rw [if_pos (by simp only [MAXSIZE, Nat.cast_ofNat]; omega), ha]
  rfl

/-- From a queue that holds `known`, calls on frames
that leave it with at most 9 values all return false without touching the
plane, and append the brightness of each frame in call order. -/
theorem deflickerRun_fill (fs : List DeflickerFrame) :
    ∀ (known : List ℚ), known.length + fs.length ≤ 9 → (∀ f, f ∈ fs → f.Sized) →
      deflickerRun { brightness := known ++ List.replicate (10 - known.length) 0,
                     available := (known.length : Int) } fs
        = .ok ({ brightness := (known ++ fs.map meanBrightness)
                   ++ List.replicate (10 - (known.length + fs.length)) 0,
                 available := ((known.length + fs.length : Nat) : Int) },
               fs.map (fun f => (false, f.img))) := by
  induction fs with
  | nil =>
    intro known _ _
    simp [deflickerRun, pure, Except.pure]
  | cons f fs ih =>
    intro known hlen hall
    have hl : (f :: fs).length = fs.length + 1 := rfl
    have h1 := deflicker_fill known f (by omega) (hall f (List.mem_cons_self _ _))
    have h2 := ih (known ++ [meanBrightness f]) (by simp; omega)
      (fun g hg => hall g (List.mem_cons_of_mem _ hg))
    have e1 : (known ++ [meanBrightness f]).length = known.length + 1 := by simp
    rw [e1] at h2
    simp only [deflickerRun, h1, bind, Except.bind, pure, Except.pure, h2]
    simp [Nat.add_assoc, Nat.add_comm 1]

/-- The summation loop of `get_factor` over values of the queue. -/
theorem forK_sumF (l : List ℚ) (n : Nat) (h : n ≤ l.length) :
    forK (fun i sum => do
      let b ← readF l (i : Int)
      pure (sum + b)) n (0 : ℚ) = .ok (l.take n).sum := by
  induction n with
  | zero => simp [forK, pure, Except.pure]
  | succ n ih =>
    have hlt : n < l.length := by omega
    rw [forK]
    show (Except.bind (forK _ n 0) _) = _
    rw [ih (by omega), Except.bind]
    simp only [bind, Except.bind, pure, Except.pure,
      readF_ok l (n : Int) (Int.natCast_nonneg _) (by exact_mod_cast hlt), Int.toNat_ofNat]
    rw [← take_succ_getD l n hlt, List.sum_append, List.sum_singleton]

/-- Function `get_factor` on a queue of ten values whose last is not zero: the
mean of the queue over its last value. -/
theorem get_factor_ok (l : List ℚ) (a : Int) (hl : l.length = 10) (hlast : l.getD 9 0 ≠ 0) :
    get_factor { brightness := l, available := a } = .ok (l.sum / 10 / l.getD 9 0) := by
  have h1 := forK_sumF l 10 (by omega)
  rw [List.take_of_length_le (by omega)] at h1
  have h2 := readF_ok l 9 (by decide) (by rw [hl]; decide)
  have h3 : ((9 : Int)).toNat = 9 := rfl
  rw [h3] at h2
  unfold get_factor
  show (Except.bind (forK _ MAXSIZE 0) _) = _
  have hM : MAXSIZE = 10 := rfl
  rw [hM, h1, Except.bind]
  simp only [divF, Nat.cast_ofNat, OfNat.ofNat_ne_zero, if_false, bind, Except.bind, pure,
    Except.pure]
  have h4 : (10 : Int) - 1 = 9 := by decide
  rw [h4, h2]
  simp only [hlast, if_false]

/-- The conversion of a non-negative float to `int`. -/
theorem floatToInt_ok (v : ℚ) (h0 : 0 ≤ v) (h1 : ⌊v⌋ ≤ INT_MAX) : floatToInt v = .ok ⌊v⌋ := by
  have hmn : INT_MIN = -2147483648 := rfl
  have := Int.floor_nonneg.mpr h0
  unfold floatToInt
  rw [if_pos h0]
  exact checkedInt_ok _ (by omega) h1

/-- The rescaling loop with a non-negative factor: each sample becomes the
integer part of its product with the factor, clamped to 255. -/
theorem rescaleLoop_ok (F : ℚ) (hF : 0 ≤ F) (vs : List Nat)
    (hb : ∀ v, v ∈ vs → ⌊(v : ℚ) * F⌋ ≤ INT_MAX) :
    rescaleLoop F vs = .ok (vs.map (fun (v : Nat) => min 255 ⌊(v : ℚ) * F⌋.toNat)) := by
  have hmn : INT_MIN = -2147483648 := rfl
  induction vs with
  | nil => rfl
  | cons v vs ih =>
    have h0 : 0 ≤ (v : ℚ) * F := mul_nonneg (Nat.cast_nonneg v) hF
    have hfl := Int.floor_nonneg.mpr h0
    have h1 := hb v (List.mem_cons_self _ _)
    have hc := (clip_uint8_clamps ⌊(v : ℚ) * F⌋ (by omega) h1).1
    rw [if_neg (by omega)] at hc
    have hmin : (if ⌊(v : ℚ) * F⌋ > 255 then 255 else ⌊(v : ℚ) * F⌋.toNat)
        = min 255 ⌊(v : ℚ) * F⌋.toNat := by
      split_ifs with h <;> omega
    rw [hmin] at hc
    simp only [rescaleLoop, floatToInt_ok _ h0 h1, hc, bind, Except.bind, pure, Except.pure,
      ih (fun w hw => hb w (List.mem_cons_of_mem _ hw)), List.map_cons]

/-- Lines 59-64 of `deflicker` on a full queue whose last value is not zero,
with a non-negative factor. -/
theorem rescale_ok (l : List ℚ) (a : Int) (f : DeflickerFrame) (hl : l.length = 10)
    (hlast : l.getD 9 0 ≠ 0) (hF : 0 ≤ l.sum / 10 / l.getD 9 0) (hf : f.Sized)
    (hb : ∀ v, v ∈ f.img.take (f.w * f.h).toNat →
      ⌊(v : ℚ) * (l.sum / 10 / l.getD 9 0)⌋ ≤ INT_MAX) :
    rescale { brightness := l, available := a } f.img (f.w * f.h)
      = .ok (true, { brightness := l, available := a },
          f.rescaled (l.sum / 10 / l.getD 9 0)) := by
  unfold rescale
  rw [get_factor_ok l a hl hlast]
  show (Except.bind (Except.ok _) _) = _
  rw [Except.bind]
  rw [if_pos hf.2.2, rescaleLoop_ok _ hF _ hb]
  rfl

/-- The call of `deflicker` that fills the queue (9 values held before it):
the brightness of the frame is appended, and the call rescales the plane by
the factor of the full queue and returns true. -/
theorem deflicker_tenth (known : List ℚ) (f : DeflickerFrame) (hk : known.length = 9)
    (hf : f.Sized) (hb0 : meanBrightness f ≠ 0)
    (hF : 0 ≤ (known ++ [meanBrightness f]).sum / 10 / meanBrightness f)
    (hb : ∀ v, v ∈ f.img.take (f.w * f.h).toNat →
      ⌊(v : ℚ) * ((known ++ [meanBrightness f]).sum / 10 / meanBrightness f)⌋ ≤ INT_MAX) :
    deflicker { brightness := known ++ List.replicate (10 - known.length) 0,
                available := (known.length : Int) } f.img f.w f.h
      = .ok (true, { brightness := known ++ [meanBrightness f], available := 10 },
          f.rescaled ((known ++ [meanBrightness f]).sum / 10 / meanBrightness f)) := by
  have hmx : INT_MAX = 2147483647 := rfl
  have hmn : INT_MIN = -2147483648 := rfl
  have hsz := hf
  obtain ⟨h0, h1, h2⟩ := hsz
  have e : 10 - known.length = 0 + 1 := by omega
  have hlen : (known ++ [meanBrightness f]).length = 10 := by simp [hk]
  have hget : (known ++ [meanBrightness f]).getD 9 0 = meanBrightness f := by
    rw [List.getD_eq_getElem?_getD, List.getElem?_append_right (by omega), hk]
    rfl
  have hr := rescale_ok (known ++ [meanBrightness f]) 10 f hlen (by rw [hget]; exact hb0)
    (by rw [hget]; exact hF) hf (by rw [hget]; exact hb)
  rw [hget] at hr
  unfold deflicker
  rw [checkedInt_ok _ (show INT_MIN ≤ f.w * f.h by omega) h1]
  show (Except.bind (Except.ok (f.w * f.h)) _) = _
  rw [Except.bind]
  show (Except.bind (calc_brightness f.img (f.w * f.h)) _) = _
  rw [calc_brightness_ok f hf, Except.bind]
  rw [if_pos (by simp only [MAXSIZE, Nat.cast_ofNat]; omega)]
  dsimp only []
  rw [e, writeF_slot known _ (meanBrightness f)]
  show (Except.bind (Except.ok _) _) = _
  rw [Except.bind]
  show (Except.bind (checkedInt _) _) = _
  rw [checkedInt_ok ((known.length : Int) + 1) (by omega) (by omega), Except.bind]
  rw [if_neg (by simp only [MAXSIZE, Nat.cast_ofNat]; omega)]
  have ha : (known.length : Int) + 1 = 10 := by omega
  rw [ha]
  simp only [List.replicate_zero, List.append_nil]
  exact hr

/-- A call of `deflicker` on a full queue: the oldest value leaves, the
brightness of the frame is appended, and the call rescales the plane by the
factor of the queue and returns true. -/
theorem deflicker_full (l : List ℚ) (a : Int) (f : DeflickerFrame) (hl : l.length = 10)
    (ha : 10 ≤ a) (hf : f.Sized) (hb0 : meanBrightness f ≠ 0)
    (hF : 0 ≤ (l.drop 1 ++ [meanBrightness f]).sum / 10 / meanBrightness f)
    (hb : ∀ v, v ∈ f.img.take (f.w * f.h).toNat →
      ⌊(v : ℚ) * ((l.drop 1 ++ [meanBrightness f]).sum / 10 / meanBrightness f)⌋ ≤ INT_MAX) :
    deflicker { brightness := l, available := a } f.img f.w f.h
      = .ok (true, { brightness := l.drop 1 ++ [meanBrightness f], available := a },
          f.rescaled ((l.drop 1 ++ [meanBrightness f]).sum / 10 / meanBrightness f)) := by
  have hmx : INT_MAX = 2147483647 := rfl
  have hmn : INT_MIN = -2147483648 := rfl
  have hsz := hf
  obtain ⟨h0, h1, h2⟩ := hsz
  have hlen : (l.drop 1 ++ [meanBrightness f]).length = 10 := by simp [hl]
  have hget : (l.drop 1 ++ [meanBrightness f]).getD 9 0 = meanBrightness f := by
    rw [List.getD_eq_getElem?_getD, List.getElem?_append_right (by simp [hl])]
    simp [hl]
  have hr := rescale_ok (l.drop 1 ++ [meanBrightness f]) a f hlen (by rw [hget]; exact hb0)
    (by rw [hget]; exact hF) hf (by rw [hget]; exact hb)
  rw [hget] at hr
  have htake : (l.drop 1).take (MAXSIZE - 1) = l.drop 1 :=
    List.take_of_length_le (by simp [hl, MAXSIZE])
  unfold deflicker
  rw [checkedInt_ok _ (show INT_MIN ≤ f.w * f.h by omega) h1]
  show (Except.bind (Except.ok (f.w * f.h)) _) = _
  rw [Except.bind]
  show (Except.bind (calc_brightness f.img (f.w * f.h)) _) = _
  rw [calc_brightness_ok f hf, Except.bind]
  rw [if_neg (by simp only [MAXSIZE, Nat.cast_ofNat]; omega)]
  dsimp only []
  rw [htake]
  exact hr

/-- Calls on `fs ++ gs` are the calls on `fs` followed by the calls on `gs`. -/
theorem deflickerRun_append (fs gs : List DeflickerFrame) :
    ∀ (q q1 q2 : queue_t) (rs rs2 : List (Bool × List Nat)),
      deflickerRun q fs = .ok (q1, rs) → deflickerRun q1 gs = .ok (q2, rs2) →
      deflickerRun q (fs ++ gs) = .ok (q2, rs ++ rs2) := by
  induction fs with
  | nil =>
    intro q q1 q2 rs rs2 h1 h2
    simp only [deflickerRun, pure, Except.pure] at h1
    cases h1
    simpa using h2
  | cons f fs ih =>
    intro q q1 q2 rs rs2 h1 h2
    simp only [deflickerRun, bind, Except.bind] at h1
    cases hd : deflicker q f.img f.w f.h with
    | error e => rw [hd] at h1; cases h1
    | ok r =>
      obtain ⟨r0, qa, img⟩ := r
      rw [hd] at h1
      simp only [] at h1
      cases hrun : deflickerRun qa fs with
      | error e => rw [hrun] at h1; cases h1
      | ok p =>
        obtain ⟨qb, rsb⟩ := p
        rw [hrun] at h1
        simp only [pure, Except.pure] at h1
        cases h1
        have := ih qa q1 q2 rsb rs2 hrun h2
        rw [List.cons_append]
        simp only [deflickerRun, hd, bind, Except.bind, this, pure, Except.pure, List.cons_append]

/-- The mean brightness of a frame is not negative. -/
theorem meanBrightness_nonneg (f : DeflickerFrame) (hf : f.Sized) : 0 ≤ meanBrightness f := by
  unfold meanBrightness
  apply div_nonneg (Nat.cast_nonneg _)
  have : (0 : Int) ≤ f.w * f.h := le_of_lt hf.1
  exact_mod_cast this

/-- A sum of mean brightness values is not negative. -/
theorem meanBrightness_sum_nonneg (fs : List DeflickerFrame) (h : ∀ f, f ∈ fs → f.Sized) :
    0 ≤ (fs.map meanBrightness).sum := by
  apply List.sum_nonneg
  intro x hx
  obtain ⟨f, hf, rfl⟩ := List.mem_map.mp hx
  exact meanBrightness_nonneg f (h f hf)

/-- Ten calls of `deflicker` from the empty queue: the first nine return false
and leave their planes as they were, the tenth returns true and rescales its
plane by the factor of the ten values. -/
theorem deflickerRun_ten (fs : List DeflickerFrame) (g : DeflickerFrame) (hfs : fs.length = 9)
    (hall : ∀ f, f ∈ fs → f.Sized) (hg : g.Sized) (hg0 : 0 < meanBrightness g)
    (hb : ∀ v, v ∈ g.img.take (g.w * g.h).toNat →
      ⌊(v : ℚ) * ((fs.map meanBrightness ++ [meanBrightness g]).sum / 10 / meanBrightness g)⌋
        ≤ INT_MAX) :
    deflickerRun queue_t.empty (fs ++ [g])
      = .ok ({ brightness := fs.map meanBrightness ++ [meanBrightness g], available := 10 },
          fs.map (fun f => (false, f.img))
            ++ [(true, g.rescaled
                ((fs.map meanBrightness ++ [meanBrightness g]).sum / 10 / meanBrightness g))]) := by
  have h1 := deflickerRun_fill fs [] (by simp [hfs]) hall
  have hlen : (fs.map meanBrightness).length = 9 := by simp [hfs]
  have hF : 0 ≤ (fs.map meanBrightness ++ [meanBrightness g]).sum / 10 / meanBrightness g := by
    apply div_nonneg _ (le_of_lt hg0)
    apply div_nonneg _ (by norm_num)
    rw [List.sum_append, List.sum_singleton]
    exact add_nonneg (meanBrightness_sum_nonneg fs hall) (le_of_lt hg0)
  have h2 := deflicker_tenth (fs.map meanBrightness) g hlen hg (ne_of_gt hg0) hF hb
  have e0 : queue_t.empty
      = { brightness := ([] : List ℚ) ++ List.replicate (10 - ([] : List ℚ).length) 0,
          available := ((([] : List ℚ).length : Nat) : Int) } := rfl
  rw [e0]
  refine deflickerRun_append fs [g] _ _ _ _ _ h1 ?_
  simp only [List.nil_append, List.length_nil, Nat.zero_add]
  rw [List.length_map] at h2
  simp only [deflickerRun, bind, Except.bind, pure, Except.pure, h2]

/-- C22: starting from the empty queue, calls of `deflicker` on at most 9
frames (each with a positive sample count inside its plane) all return false
and leave every sample of their plane unchanged, and afterwards the queue
holds the mean brightness of the frames in call order, `available` being
their number. -/
theorem deflicker_first_nine (fs : List DeflickerFrame) (hn : fs.length ≤ 9)
    (hall : ∀ f, f ∈ fs → f.Sized) :
    deflickerRun queue_t.empty fs
      = .ok ({ brightness := fs.map meanBrightness ++ List.replicate (10 - fs.length) 0,
               available := (fs.length : Int) },
             fs.map (fun f => (false, f.img))) := by
  have h := deflickerRun_fill fs [] (by simpa using hn) hall
  simpa [queue_t.empty] using h

/-- The mean brightness of a frame of one level is the level. -/
theorem meanBrightness_level (v : Nat) : meanBrightness (levelFrame v) = (v : ℚ) := by
  have e : ((2 : Int) * 1).toNat = 2 := rfl
  simp only [meanBrightness, levelFrame, e, List.take, List.sum_cons, List.sum_nil]
  push_cast
  ring

/-- The factor of the queue after nine frames of level 100 and one of level
200. -/
theorem level_factor :
    ((List.replicate 9 (levelFrame 100)).map meanBrightness
      ++ [meanBrightness (levelFrame 200)]).sum / 10 / meanBrightness (levelFrame 200)
        = 11 / 20 := by
  rw [List.map_replicate, meanBrightness_level, meanBrightness_level]
  norm_num [List.replicate]

/-- The products of the samples of the frame of level 200 with the factor
11/20 are within `int`. -/
theorem level_bound (v : Nat) (hv : v ∈ (levelFrame 200).img.take
    ((levelFrame 200).w * (levelFrame 200).h).toNat) :
    ⌊(v : ℚ) * (((List.replicate 9 (levelFrame 100)).map meanBrightness
      ++ [meanBrightness (levelFrame 200)]).sum / 10 / meanBrightness (levelFrame 200))⌋
        ≤ INT_MAX := by
  rw [level_factor]
  have hv2 : v = 200 := by
    simp [levelFrame] at hv
    omega
  subst hv2
  have : ⌊((200 : Nat) : ℚ) * (11 / 20)⌋ = 110 := by norm_num
  rw [this]
  decide

/-- C23, counterexample: nine frames of level 100 and a tenth of level 200,
from the empty queue: the tenth call returns true and rescales its plane
from 200 to 110. -/
theorem deflicker_tenth_call_rescales :
    deflickerRun queue_t.empty (List.replicate 9 (levelFrame 100) ++ [levelFrame 200])
      = .ok ({ brightness := List.replicate 9 100 ++ [200], available := 10 },
             List.replicate 9 (false, [100, 100]) ++ [(true, [110, 110])]) := by
  have h := deflickerRun_ten (List.replicate 9 (levelFrame 100)) (levelFrame 200) (by simp)
    (fun f hf => by rw [List.eq_of_mem_replicate hf]; decide) (by decide)
    (by rw [meanBrightness_level]; norm_num) level_bound
  rw [h, level_factor, List.map_replicate, meanBrightness_level, meanBrightness_level]
  have hr : (levelFrame 200).rescaled (11 / 20) = [110, 110] := by
    have e : ((2 : Int) * 1).toNat = 2 := rfl
    have t2 : ⌊(200 : ℚ) * (11 / 20)⌋ = 110 := by norm_num
    simp [DeflickerFrame.rescaled, levelFrame, e, t2]
  rw [hr, List.map_replicate]
  norm_num [levelFrame]

/-- The mean brightness of a frame of bytes is at most 255. -/
theorem meanBrightness_le (f : DeflickerFrame) (hf : f.Sized) (hbytes : ∀ v, v ∈ f.img → v < 256) :
    meanBrightness f ≤ 255 := by
  obtain ⟨h0, _, h2⟩ := hf
  unfold meanBrightness
  have hpos : (0 : ℚ) < ((f.w * f.h : Int) : ℚ) := by exact_mod_cast h0
  rw [div_le_iff₀ hpos]
  have hsum : (f.img.take (f.w * f.h).toNat).sum ≤ (f.img.take (f.w * f.h).toNat).length • 255 :=
    List.sum_le_card_nsmul _ 255 (fun v hv => by
      have := hbytes v (List.mem_of_mem_take hv)
      omega)
  have hlen : (f.img.take (f.w * f.h).toNat).length = (f.w * f.h).toNat := by
    rw [List.length_take]
    omega
  rw [hlen, smul_eq_mul] at hsum
  have hn : (((f.w * f.h).toNat : Nat) : ℚ) = ((f.w * f.h : Int) : ℚ) := by
    have : (((f.w * f.h).toNat : Nat) : Int) = f.w * f.h := Int.toNat_of_nonneg (le_of_lt h0)
    exact_mod_cast this
  have hq : (((f.img.take (f.w * f.h).toNat).sum : Nat) : ℚ)
      ≤ (((f.w * f.h).toNat : Nat) : ℚ) * 255 := by exact_mod_cast hsum
  rw [hn] at hq
  linarith

/-- The mean brightness of a frame with a sample that is not black is at
least one over its sample count. -/
theorem meanBrightness_ge (f : DeflickerFrame) (hf : f.Sized)
    (hpos : ∃ v, v ∈ f.img.take (f.w * f.h).toNat ∧ v ≠ 0) :
    1 ≤ ((f.w * f.h : Int) : ℚ) * meanBrightness f := by
  obtain ⟨h0, _, _⟩ := hf
  obtain ⟨v, hv, hv0⟩ := hpos
  unfold meanBrightness
  have hsz : (0 : ℚ) < ((f.w * f.h : Int) : ℚ) := by exact_mod_cast h0
  rw [mul_div_cancel₀ _ (ne_of_gt hsz)]
  have h1 : v ≤ (f.img.take (f.w * f.h).toNat).sum :=
    List.single_le_sum (fun _ _ => Nat.zero_le _) v hv
  have h2 : 1 ≤ (f.img.take (f.w * f.h).toNat).sum := by omega
  exact_mod_cast h2

/-- The sum of the mean brightness of frames of bytes is at most 255 per
frame. -/
theorem meanBrightness_sum_le (fs : List DeflickerFrame) (h : ∀ f, f ∈ fs → f.Sized)
    (hbytes : ∀ f, f ∈ fs → ∀ v, v ∈ f.img → v < 256) :
    (fs.map meanBrightness).sum ≤ (fs.length : ℚ) * 255 := by
  have := List.sum_le_card_nsmul (fs.map meanBrightness) (255 : ℚ) (fun x hx => by
    obtain ⟨f, hf, rfl⟩ := List.mem_map.mp hx
    exact meanBrightness_le f (h f hf) (hbytes f hf))
  simpa [nsmul_eq_mul] using this

/-- The product of a byte with the factor of a queue of ten mean brightness
values of frames of bytes, the last of a frame of at most 33000 samples that
are not all black, fits an `int`. -/
theorem factor_product_fits (fs : List DeflickerFrame) (g : DeflickerFrame) (hfs : fs.length = 9)
    (hall : ∀ f, f ∈ fs → f.Sized) (hg : g.Sized)
    (hbytes : ∀ f, f ∈ fs → ∀ v, v ∈ f.img → v < 256) (hgbytes : ∀ v, v ∈ g.img → v < 256)
    (hpos : ∃ v, v ∈ g.img.take (g.w * g.h).toNat ∧ v ≠ 0) (hsize : g.w * g.h ≤ 33000)
    (v : Nat) (hv : v ∈ g.img.take (g.w * g.h).toNat) :
    0 < meanBrightness g
      ∧ ⌊(v : ℚ) * ((fs.map meanBrightness ++ [meanBrightness g]).sum / 10 / meanBrightness g)⌋
        ≤ INT_MAX := by
  have hS := meanBrightness_ge g hg hpos
  have hsz : (0 : ℚ) < ((g.w * g.h : Int) : ℚ) := by exact_mod_cast hg.1
  have hsz2 : ((g.w * g.h : Int) : ℚ) ≤ 33000 := by exact_mod_cast hsize
  have hmg0 : 0 < meanBrightness g := by
    by_contra hneg
    have : meanBrightness g ≤ 0 := not_lt.mp hneg
    nlinarith
  have hmg1 := meanBrightness_le g hg hgbytes
  have hT := meanBrightness_sum_le fs hall hbytes
  rw [hfs] at hT
  have hT0 := meanBrightness_sum_nonneg fs hall
  refine ⟨hmg0, ?_⟩
  rw [List.sum_append, List.sum_singleton]
  set T := (fs.map meanBrightness).sum with hTdef
  set m := meanBrightness g with hm
  set n := ((g.w * g.h : Int) : ℚ) with hn
  have hF0 : 0 ≤ (T + m) / 10 / m := by positivity
  have hF : (T + m) / 10 / m ≤ 255 * n := by
    rw [div_le_iff₀ hmg0]
    have : (255 : ℚ) ≤ 255 * (n * m) := by nlinarith
    have e : 255 * n * m = 255 * (n * m) := by ring
    rw [e]
    norm_num at hT
    linarith
  have hvb : (v : ℚ) ≤ 255 := by
    have := hgbytes v (List.mem_of_mem_take hv)
    have : v ≤ 255 := by omega
    exact_mod_cast this
  have hv0 : (0 : ℚ) ≤ (v : ℚ) := Nat.cast_nonneg v
  have hprod : (v : ℚ) * ((T + m) / 10 / m) ≤ 2145825000 := by
    calc (v : ℚ) * ((T + m) / 10 / m) ≤ 255 * (255 * n) :=
          mul_le_mul hvb hF hF0 (by norm_num)
      _ ≤ 255 * (255 * 33000) := by nlinarith
      _ = 2145825000 := by norm_num
  have hfl : ⌊(v : ℚ) * ((T + m) / 10 / m)⌋ ≤ (2145825000 : Int) := by
    have h1 := Int.floor_le ((v : ℚ) * ((T + m) / 10 / m))
    have h2 : ((⌊(v : ℚ) * ((T + m) / 10 / m)⌋ : Int) : ℚ) ≤ ((2145825000 : Int) : ℚ) := by
      push_cast
      linarith
    exact_mod_cast h2
  have hmx : INT_MAX = 2147483647 := rfl
  omega

/-- A sample of a rescaled plane: inside the first `w * h` samples it is the
integer part of the product with the factor, clamped to 255; behind them it
is the sample of the plane. -/
theorem rescaled_getD (f : DeflickerFrame) (F : ℚ) (hf : f.Sized) (i : Nat) :
    (i < (f.w * f.h).toNat →
        (f.rescaled F).getD i 0 = min 255 ⌊((f.img.getD i 0 : Nat) : ℚ) * F⌋.toNat)
      ∧ ((f.w * f.h).toNat ≤ i → (f.rescaled F).getD i 0 = f.img.getD i 0) := by
  obtain ⟨_, _, h2⟩ := hf
  have hlen : ((f.img.take (f.w * f.h).toNat).map
      (fun (v : Nat) => min 255 ⌊(v : ℚ) * F⌋.toNat)).length = (f.w * f.h).toNat := by
    rw [List.length_map, List.length_take]
    omega
  unfold DeflickerFrame.rescaled
  constructor
  · intro hi
    have hi2 : i < f.img.length := by omega
    rw [List.getD_eq_getElem?_getD, List.getElem?_append_left (by rw [hlen]; exact hi)]
    rw [List.getElem?_map, List.getElem?_take_of_lt hi, List.getD_eq_getElem?_getD,
      List.getElem?_eq_getElem hi2]
    rfl
  · intro hi
    rw [List.getD_eq_getElem?_getD, List.getElem?_append_right (by rw [hlen]; exact hi), hlen,
      List.getElem?_drop, List.getD_eq_getElem?_getD]
    congr 2
    omega

/-- The integer part of a product clamped to 255 lies between the clamped
integer parts of the product lowered and raised by one part in 100000. -/
theorem clamped_floor_between (x : ℚ) (hx : 0 ≤ x) :
    min 255 ⌊x * (99999 / 100000)⌋.toNat ≤ min 255 ⌊x⌋.toNat
      ∧ min 255 ⌊x⌋.toNat ≤ min 255 ⌊x * (100001 / 100000)⌋.toNat := by
  have h1 : ⌊x * (99999 / 100000)⌋ ≤ ⌊x⌋ := Int.floor_mono (by linarith)
  have h2 : ⌊x⌋ ≤ ⌊x * (100001 / 100000)⌋ := Int.floor_mono (by linarith)
  constructor <;> omega

/-- C23, amended: starting from the empty queue, each of the first 9 calls of
`deflicker` only appends the brightness of its frame to the queue and returns
false without rescaling its plane: every sample is as it was. Rescaling first
happens on the 10th call: it appends the tenth value, returns true and has
replaced each of the `w * h` samples `v` of its plane by the product `v * F`
cut to an integer and clamped to 255, `F` being the mean of the ten queued
values over the tenth; the samples behind the first `w * h` are as they were.
The frames have a positive sample count inside the plane. The queue is given
with the exact means, and the model computes `F` and the product exactly; the
statement about the samples written allows for the rounding of the `float`
operations of the source: the sample written lies between the clamped integer
parts of `v * F` lowered and raised by one part in 100000. This part is for
planes of bytes of at most 33000 samples, whose sums `calc_brightness` holds
exactly in a `float`, the tenth not all black: its brightness is the divisor
of `F`, and the products fit an `int`. -/
theorem deflicker_rescales_from_tenth (fs : List DeflickerFrame) (g : DeflickerFrame)
    (hfs : fs.length = 9) (hall : ∀ f, f ∈ fs → f.Sized) (hg : g.Sized) :
    deflickerRun queue_t.empty fs
        = .ok ({ brightness := fs.map meanBrightness ++ List.replicate (10 - fs.length) 0,
                 available := (fs.length : Int) },
               fs.map (fun f => (false, f.img)))
      ∧ ((∀ f, f ∈ fs → f.w * f.h ≤ 33000 ∧ ∀ v, v ∈ f.img → v < 256) →
          g.w * g.h ≤ 33000 → (∀ v, v ∈ g.img → v < 256) →
          (∃ v, v ∈ g.img.take (g.w * g.h).toNat ∧ v ≠ 0) →
          ∃ img, deflickerRun queue_t.empty (fs ++ [g])
              = .ok ({ brightness := fs.map meanBrightness ++ [meanBrightness g],
                       available := 10 },
                  fs.map (fun f => (false, f.img)) ++ [(true, img)])
            ∧ img.length = g.img.length
            ∧ (∀ i, i < (g.w * g.h).toNat →
                min 255 ⌊((g.img.getD i 0 : Nat) : ℚ)
                    * ((fs.map meanBrightness ++ [meanBrightness g]).sum / 10 / meanBrightness g)
                    * (99999 / 100000)⌋.toNat ≤ img.getD i 0
                ∧ img.getD i 0 ≤ min 255 ⌊((g.img.getD i 0 : Nat) : ℚ)
                    * ((fs.map meanBrightness ++ [meanBrightness g]).sum / 10 / meanBrightness g)
                    * (100001 / 100000)⌋.toNat)
            ∧ ∀ i, (g.w * g.h).toNat ≤ i → img.getD i 0 = g.img.getD i 0) := by
  constructor
  · have h := deflickerRun_fill fs [] (by simp [hfs]) hall
    simpa [queue_t.empty] using h
  · intro hfsb hsize hgbytes hpos
    have hbytes : ∀ f, f ∈ fs → ∀ v, v ∈ f.img → v < 256 := fun f hf => (hfsb f hf).2
    obtain ⟨v0, hv0, hv1⟩ := hpos
    have hg0 := (factor_product_fits fs g hfs hall hg hbytes hgbytes ⟨v0, hv0, hv1⟩ hsize v0 hv0).1
    have hF : 0 ≤ (fs.map meanBrightness ++ [meanBrightness g]).sum / 10 / meanBrightness g := by
      apply div_nonneg _ (le_of_lt hg0)
      apply div_nonneg _ (by norm_num)
      rw [List.sum_append, List.sum_singleton]
      exact add_nonneg (meanBrightness_sum_nonneg fs hall) (le_of_lt hg0)
    refine ⟨_, deflickerRun_ten fs g hfs hall hg hg0 (fun v hv =>
      (factor_product_fits fs g hfs hall hg hbytes hgbytes ⟨v0, hv0, hv1⟩ hsize v hv).2), ?_,
      fun i hi => ?_, fun i hi => (rescaled_getD g _ hg i).2 hi⟩
    · have := hg.2.2
      simp [DeflickerFrame.rescaled, List.length_take, List.length_drop]
      omega
    · rw [(rescaled_getD g _ hg i).1 hi]
      exact clamped_floor_between _ (mul_nonneg (Nat.cast_nonneg _) hF)

/-- Witness for C23: nine frames of level 5, then one of level 115. The factor
of the tenth call is 16/115 and the product with 115 is 16: the tenth call
returns true and writes 15 or 16 into each sample. -/
theorem deflicker_rescales_from_tenth_witness :
    deflickerRun queue_t.empty (List.replicate 9 (levelFrame 5))
        = .ok ({ brightness := List.replicate 9 5 ++ [0], available := 9 },
               List.replicate 9 (false, [5, 5]))
      ∧ ∃ img, deflickerRun queue_t.empty (List.replicate 9 (levelFrame 5) ++ [levelFrame 115])
            = .ok ({ brightness := List.replicate 9 5 ++ [115], available := 10 },
                List.replicate 9 (false, [5, 5]) ++ [(true, img)])
          ∧ img.length = 2
          ∧ ∀ i, i < 2 → 15 ≤ img.getD i 0 ∧ img.getD i 0 ≤ 16 := by
  obtain ⟨h1, h2⟩ := deflicker_rescales_from_tenth (List.replicate 9 (levelFrame 5))
    (levelFrame 115) (by simp) (fun f hf => by rw [List.eq_of_mem_replicate hf]; decide)
    (by decide)
  obtain ⟨img, hrun, hlen, hin, _⟩ := h2
    (fun f hf => by rw [List.eq_of_mem_replicate hf]; decide) (by decide) (by decide)
    ⟨115, by decide, by decide⟩
  have hF : (((List.replicate 9 (levelFrame 5)).map meanBrightness
      ++ [meanBrightness (levelFrame 115)]).sum / 10 / meanBrightness (levelFrame 115))
      = 16 / 115 := by
    rw [List.map_replicate, meanBrightness_level, meanBrightness_level]
    norm_num
  have hlo : ⌊((115 : Nat) : ℚ) * (16 / 115) * (99999 / 100000)⌋ = 15 := by
    rw [Int.floor_eq_iff]; constructor <;> norm_num
  have hhi : ⌊((115 : Nat) : ℚ) * (16 / 115) * (100001 / 100000)⌋ = 16 := by
    rw [Int.floor_eq_iff]; constructor <;> norm_num
  refine ⟨?_, img, ?_, by simpa [levelFrame] using hlen, fun i hi => ?_⟩
  · rw [h1, List.map_replicate, meanBrightness_level, List.map_replicate]
    simp [levelFrame]
  · rw [hrun, List.map_replicate, meanBrightness_level, meanBrightness_level, List.map_replicate]
    simp [levelFrame]
  · have hv : (levelFrame 115).img.getD i 0 = 115 := by
      interval_cases i <;> rfl
    have := hin i (by simpa [levelFrame] using hi)
    rw [hF, hv, hlo, hhi] at this
    simpa using this

/-- A plane of bytes rescaled by the factor 1 is the plane. -/
theorem rescaled_one (f : DeflickerFrame) (hbytes : ∀ v, v ∈ f.img → v < 256) :
    f.rescaled 1 = f.img := by
  unfold DeflickerFrame.rescaled
  have : (f.img.take (f.w * f.h).toNat).map (fun (v : Nat) => min 255 ⌊(v : ℚ) * 1⌋.toNat)
      = f.img.take (f.w * f.h).toNat := by
    conv_rhs => rw [← List.map_id (f.img.take (f.w * f.h).toNat)]
    apply List.map_congr_left
    intro v hv
    have hlt := hbytes v (List.mem_of_mem_take hv)
    have e : ⌊(v : ℚ) * 1⌋ = (v : Int) := by
      rw [mul_one]
      exact Int.floor_natCast v
    rw [e, Int.toNat_ofNat]
    simp only [id]
    omega
  rw [this, List.take_append_drop]

/-- The integer part of 11/20 of a byte is below 256. -/
theorem floor_factor_byte (v : Nat) (hv : v < 256) :
    0 ≤ ⌊(v : ℚ) * (11 / 20)⌋ ∧ ⌊(v : ℚ) * (11 / 20)⌋ ≤ 255 := by
  constructor
  · apply Int.floor_nonneg.mpr
    positivity
  · have h1 : (v : ℚ) * (11 / 20) ≤ (255 : ℚ) := by
      have : (v : ℚ) ≤ 255 := by exact_mod_cast Nat.lt_succ_iff.mp hv
      linarith
    have := Int.floor_le_floor h1
    have e : ⌊(255 : ℚ)⌋ = 255 := by norm_num
    rw [e] at this
    exact this

/-- A plane of bytes rescaled by the factor 11/20: no product reaches 255. -/
theorem rescaled_factor (f : DeflickerFrame) (hbytes : ∀ v, v ∈ f.img → v < 256) :
    f.rescaled (11 / 20)
      = (f.img.take (f.w * f.h).toNat).map (fun (v : Nat) => ⌊(v : ℚ) * (11 / 20)⌋.toNat)
          ++ f.img.drop (f.w * f.h).toNat := by
  unfold DeflickerFrame.rescaled
  congr 1
  apply List.map_congr_left
  intro v hv
  have := floor_factor_byte v (hbytes v (List.mem_of_mem_take hv))
  omega

/-- C24: in exact arithmetic, after 10 calls of `deflicker` from the empty
queue on frames of byte samples with the same mean brightness b > 0 and an
11th call on a frame of mean brightness 2 b: the first nine calls return
false, the tenth returns true with its plane unchanged (factor 1), the queue
holds nine values b followed by 2 b, `get_factor` on it returns 11/20, and
every sample v of the 11th frame is replaced by the integer part of
v * 11/20. -/
theorem deflicker_double_brightness (fs : List DeflickerFrame) (f10 g : DeflickerFrame) (b : ℚ)
    (hfs : fs.length = 9) (hb : 0 < b)
    (hall : ∀ f, f ∈ fs → f.Sized ∧ meanBrightness f = b)
    (h10 : f10.Sized ∧ meanBrightness f10 = b ∧ ∀ v, v ∈ f10.img → v < 256)
    (hg : g.Sized ∧ meanBrightness g = 2 * b ∧ ∀ v, v ∈ g.img → v < 256) :
    deflickerRun queue_t.empty (fs ++ [f10] ++ [g])
        = .ok ({ brightness := List.replicate 9 b ++ [2 * b], available := 10 },
            fs.map (fun f => (false, f.img)) ++ [(true, f10.img)]
              ++ [(true, (g.img.take (g.w * g.h).toNat).map
                      (fun (v : Nat) => ⌊(v : ℚ) * (11 / 20)⌋.toNat)
                    ++ g.img.drop (g.w * g.h).toNat)])
      ∧ get_factor { brightness := List.replicate 9 b ++ [2 * b], available := 10 }
        = .ok (11 / 20) := by
  have hmx : INT_MAX = 2147483647 := rfl
  obtain ⟨hs10, hm10, hbytes10⟩ := h10
  obtain ⟨hsg, hmg, hbytesg⟩ := hg
  have hbne : b ≠ 0 := ne_of_gt hb
  have hmap : fs.map meanBrightness = List.replicate 9 b := by
    rw [List.eq_replicate_iff]
    refine ⟨by simp [hfs], ?_⟩
    intro x hx
    obtain ⟨f, hf, rfl⟩ := List.mem_map.mp hx
    exact (hall f hf).2
  have hF10 : (fs.map meanBrightness ++ [meanBrightness f10]).sum / 10 / meanBrightness f10
      = 1 := by
    rw [hmap, hm10, List.sum_append, List.sum_replicate, List.sum_singleton]
    simp only [nsmul_eq_mul]
    field_simp
    ring
  have h1 := deflickerRun_ten fs f10 hfs (fun f hf => (hall f hf).1) hs10 (by rw [hm10]; exact hb)
    (fun v hv => by
      rw [hF10, mul_one, Int.floor_natCast]
      have := hbytes10 v (List.mem_of_mem_take hv)
      omega)
  rw [hF10, hmap, hm10, rescaled_one f10 hbytes10] at h1
  have hdrop : (List.replicate 9 b ++ [b]).drop 1 ++ [2 * b] = List.replicate 9 b ++ [2 * b] := by
    simp [List.replicate]
  have hFg : ((List.replicate 9 b ++ [b]).drop 1 ++ [meanBrightness g]).sum / 10
      / meanBrightness g = 11 / 20 := by
    rw [hmg, hdrop, List.sum_append, List.sum_replicate, List.sum_singleton]
    simp only [nsmul_eq_mul]
    field_simp
    ring
  have h2 := deflicker_full (List.replicate 9 b ++ [b]) 10 g (by simp) (le_refl _) hsg
    (by rw [hmg]; positivity) (by rw [hFg]; norm_num)
    (fun v hv => by
      rw [hFg]
      have := floor_factor_byte v (hbytesg v (List.mem_of_mem_take hv))
      omega)
  rw [hFg, hmg, hdrop, rescaled_factor g hbytesg] at h2
  constructor
  · refine deflickerRun_append (fs ++ [f10]) [g] _ _ _ _ _ h1 ?_
    simp only [deflickerRun, bind, Except.bind, pure, Except.pure, h2]
  · have hget : (List.replicate 9 b ++ [2 * b]).getD 9 0 = 2 * b := by
      simp [List.replicate]
    have h3 := get_factor_ok (List.replicate 9 b ++ [2 * b]) 10 (by simp)
      (by rw [hget]; positivity)
    rw [h3, hget, List.sum_append, List.sum_replicate, List.sum_singleton]
    simp only [nsmul_eq_mul]
    congr 1
    field_simp
    ring

/-! ## convolution.c: `convV` -/

/-- A loop whose passes all leave the state `s` as it is. -/
theorem forK_fixed {σ : Type} (f : Nat → σ → Except Fault σ) (s : σ) :
    ∀ n, (∀ i, i < n → f i s = .ok s) → forK f n s = .ok s := by
  intro n
  induction n with
  | zero => intro _; rfl
  | succ n ih =>
    intro h
    rw [forK]
    show (Except.bind (forK f n s) _) = _
    rw [ih (fun i hi => h i (by omega)), Except.bind]
    exact h n (by omega)

/-- A loop whose pass `i` takes the state `S (a + i)` to `S (a + i + 1)`. -/
theorem forK_chain {σ : Type} (f : Nat → σ → Except Fault σ) (S : Nat → σ) (a : Nat) :
    ∀ n, (∀ i, i < n → f i (S (a + i)) = .ok (S (a + i + 1))) →
      forK f n (S a) = .ok (S (a + n)) := by
  intro n
  induction n with
  | zero => intro _; rfl
  | succ n ih =>
    intro h
    rw [forK]
    show (Except.bind (forK f n (S a)) _) = _
    rw [ih (fun i hi => h i (by omega)), Except.bind]
    exact h n (by omega)

/-- Adding a row of the zeroed array `tmpx` leaves the zero sums as they are. -/
theorem cvAdd_zero (N X : Nat) (kernelY : List ℚ) (row k : Int) (hr0 : 0 ≤ row)
    (hr1 : row * (X : Int) + (X : Int) ≤ (N : Int)) (hk0 : 0 ≤ k) (hk1 : k < kernelY.length) :
    cvAdd (List.replicate N 0) kernelY X row k (List.replicate X 0) = .ok (List.replicate X 0) := by
  have hnn : 0 ≤ row * (X : Int) := mul_nonneg hr0 (Int.natCast_nonneg _)
  have hle : (row * (X : Int)).toNat + X ≤ N := by omega
  unfold cvAdd readRow
  rw [if_pos ⟨hnn, by rw [List.length_replicate]; exact hle⟩]
  simp only [bind, Except.bind, pure, Except.pure, readF_ok kernelY k hk0 hk1,
    List.drop_replicate, List.take_replicate, List.zipWith_replicate]
  have e1 : min X (N - (row * (X : Int)).toNat) = X := by omega
  rw [e1, Nat.min_self]
  simp

/-- The state of the row loops of `convV` before row `j`: zero sums, and an
output whose first `j` rows hold 1/2. -/
theorem cvEmit_row (out : List ℚ) (X j : Nat) (h : (j + 1) * X ≤ out.length) :
    cvEmit X (j : Int) (List.replicate X 0, List.replicate (j * X) (1 / 2) ++ out.drop (j * X))
      = .ok (List.replicate X 0,
          List.replicate ((j + 1) * X) (1 / 2) ++ out.drop ((j + 1) * X)) := by
  have hj : j * X + X = (j + 1) * X := by ring
  have hlen : (List.replicate (j * X) (1 / 2 : ℚ) ++ out.drop (j * X)).length = out.length := by
    simp only [List.length_append, List.length_replicate, List.length_drop]
    omega
  have hnn : (0 : Int) ≤ (j : Int) * (X : Int) := by positivity
  have htn : ((j : Int) * (X : Int)).toNat = j * X := by
    rw [← Nat.cast_mul, Int.toNat_ofNat]
  unfold cvEmit writeRow
  simp only [List.map_replicate, List.length_replicate, htn, hlen]
  rw [if_pos ⟨hnn, by omega⟩]
  simp only [bind, Except.bind, pure, Except.pure]
  have e1 : (List.replicate (j * X) (1 / 2 : ℚ) ++ out.drop (j * X)).take (j * X)
      = List.replicate (j * X) (1 / 2) := List.take_left' (by simp)
  have e2 : (List.replicate (j * X) (1 / 2 : ℚ) ++ out.drop (j * X)).drop (j * X + X)
      = out.drop ((j + 1) * X) := by
    rw [List.drop_append_eq_append_drop, List.drop_replicate, List.length_replicate,
      List.drop_drop]
    have : j * X - (j * X + X) = 0 := by omega
    rw [this, List.replicate_zero, List.nil_append]
    congr 1
    omega
  rw [e1, e2]
  congr 3
  rw [zero_add, List.append_replicate_replicate, hj]

/-- Function `convV` with an odd kernel of length 2 c + 1 on a plane of at
least that many rows: the call returns true and every output sample is 1/2,
whatever the input plane holds. -/
theorem convV_half (inp out kernelY : List ℚ) (X Y c : Nat) (hX : 0 < X) (hY : 2 * c + 1 ≤ Y)
    (hk : kernelY.length = 2 * c + 1) (hout : X * Y ≤ out.length)
    (hmax : ((X * Y : Nat) : Int) ≤ INT_MAX) :
    convV true true (some inp) (some out) (X : Int) (Y : Int) (some kernelY)
        ((2 * c + 1 : Nat) : Int)
      = .ok (true, some (List.replicate (X * Y) (1 / 2) ++ out.drop (X * Y))) := by
  have hmx : INT_MAX = 2147483647 := rfl
  have hmn : INT_MIN = -2147483648 := rfl
  have hkc : ((2 * c + 1 : Nat) : Int) / 2 = (c : Int) := by omega
  have hXY : (X : Int) * (Y : Int) = ((X * Y : Nat) : Int) := by push_cast; ring
  have hcY : c ≤ Y := by omega
  have hXle : X ≤ X * Y := Nat.le_mul_of_pos_right X (by omega)
  have hYle : Y ≤ X * Y := Nat.le_mul_of_pos_left Y hX
  have hYi : (Y : Int) ≤ 2147483647 := by omega
  have hXi : (X : Int) ≤ 2147483647 := by omega
  have hcX : (c : Int) ≤ 2147483647 := by omega
  -- the states of the row loops
  let S : Nat → List ℚ × List ℚ := fun j =>
    (List.replicate X 0, List.replicate (j * X) (1 / 2) ++ out.drop (j * X))
  have hS : ∀ j, S j = (List.replicate X 0, List.replicate (j * X) (1 / 2) ++ out.drop (j * X)) :=
    fun _ => rfl
  have hrow : ∀ j, j < Y → (j + 1) * X ≤ out.length := by
    intro j hj
    have : (j + 1) * X ≤ Y * X := Nat.mul_le_mul (by omega) (le_refl X)
    rw [Nat.mul_comm Y X] at this
    omega
  have hadd : ∀ (row k : Int), 0 ≤ row → row < (Y : Int) → 0 ≤ k → k ≤ 2 * (c : Int) →
      cvAdd (List.replicate (X * Y) 0) kernelY X row k (List.replicate X 0)
        = .ok (List.replicate X 0) := by
    intro row k h0 h1 h2 h3
    refine cvAdd_zero (X * Y) X kernelY row k h0 ?_ h2 (by rw [hk]; push_cast; omega)
    have : (row + 1) * (X : Int) ≤ (Y : Int) * (X : Int) :=
      mul_le_mul_of_nonneg_right (by omega) (Int.natCast_nonneg _)
    push_cast
    nlinarith
  have h1 : forK (cvFirst (List.replicate (X * Y) 0) kernelY X (c : Int)) c (S 0)
      = .ok (S (0 + c)) := by
    apply forK_chain
    intro j hj
    rw [Nat.zero_add, hS, hS]
    unfold cvFirst
    show (Except.bind (forK _ _ (List.replicate X 0)) _) = _
    rw [forK_fixed _ _ _ (fun r hr => hadd _ _ (Int.natCast_nonneg _) (by omega) (by omega)
      (by omega)), Except.bind]
    · exact cvEmit_row out X j (hrow j (by omega))
  have h2 : forK (cvMiddle (List.replicate (X * Y) 0) kernelY X ((2 * c + 1 : Nat) : Int) (c : Int)
      (((2 * c + 1 : Nat) : Int) - (c : Int) - 1)) (Y - 2 * c) (S c) = .ok (S (c + (Y - 2 * c))) := by
    apply forK_chain
    intro n hn
    rw [hS, hS]
    unfold cvMiddle
    show (Except.bind (forK _ _ (List.replicate X 0)) _) = _
    rw [forK_fixed _ _ _ (fun m hm => hadd _ _ (by push_cast; omega) (by push_cast; omega)
      (by push_cast; omega) (by push_cast; omega)), Except.bind]
    · have := cvEmit_row out X (c + n) (hrow (c + n) (by omega))
      rw [Nat.cast_add] at this
      exact this
  have h3 : forK (cvLast (List.replicate (X * Y) 0) kernelY X ((2 * c + 1 : Nat) : Int)
      ((Y : Int) - (c : Int)) (((2 * c + 1 : Nat) : Int) - (c : Int) - 1)) c (S (Y - c))
      = .ok (S (Y - c + c)) := by
    apply forK_chain
    intro n hn
    rw [hS, hS]
    unfold cvLast
    show (Except.bind (forK _ _ (List.replicate X 0)) _) = _
    rw [forK_fixed _ _ _ (fun m hm => hadd _ _ (by push_cast; omega) (by push_cast; omega)
      (by push_cast; omega) (by push_cast; omega)), Except.bind]
    · have := cvEmit_row out X (Y - c + n) (hrow (Y - c + n) (by omega))
      have e : (((Y - c + n : Nat)) : Int) = (Y : Int) - (c : Int) + (n : Int) := by omega
      rw [e] at this
      exact this
  have e0 : S 0 = (List.replicate X 0, out) := by simp [hS]
  have e1 : c + (Y - 2 * c) = Y - c := by omega
  have e2 : Y - c + c = Y := by omega
  rw [Nat.zero_add, e0] at h1
  rw [e1] at h2
  rw [e2] at h3
  unfold convV
  simp only [show ¬ ((X : Int) ≤ 0) by omega, if_false, hXY,
    checkedInt_ok _ (show INT_MIN ≤ ((X * Y : Nat) : Int) by omega) hmax, bind, Except.bind,
    Bool.not_true, Bool.false_eq_true, hkc, Int.toNat_ofNat,
    checkedInt_ok ((X : Int) - (c : Int)) (by omega) (by omega),
    checkedInt_ok ((Y : Int) - (c : Int)) (by omega) (by omega), pure, Except.pure, h1]
  have t1 : ((Y : Int) - (c : Int) - (c : Int)).toNat = Y - 2 * c := by omega
  have t2 : ((Y : Int) - ((Y : Int) - (c : Int))).toNat = c := by omega
  rw [t1, h2]
  simp only []
  rw [t2, h3]
  simp only [hS, Nat.mul_comm Y X]

/-! ## convolution.c: `convH` -/

/-- The accumulation loop over samples and coefficients inside their arrays
is the sum of the products. -/
theorem dotLoop_sum (inp kernel : List ℚ) (p s : Nat) :
    ∀ n, p + n ≤ inp.length → n ≤ s + 1 → s < kernel.length →
      dotLoop inp kernel (p : Int) (s : Int) n
        = .ok (∑ m ∈ Finset.range n, inp.getD (p + m) 0 * kernel.getD (s - m) 0) := by
  intro n
  induction n with
  | zero => intro _ _ _; simp [dotLoop, pure, Except.pure]
  | succ n ih =>
    intro h1 h2 h3
    have e1 : ((p : Int) + (n : Int)).toNat = p + n := by omega
    have e2 : ((s : Int) - (n : Int)).toNat = s - n := by omega
    rw [dotLoop]
    show (Except.bind (dotLoop inp kernel (p : Int) (s : Int) n) _) = _
    rw [ih (by omega) (by omega) h3, Except.bind]
    simp only [bind, Except.bind, pure, Except.pure,
      readF_ok inp ((p : Int) + (n : Int)) (by omega) (by omega),
      readF_ok kernel ((s : Int) - (n : Int)) (by omega) (by omega), e1, e2,
      Finset.sum_range_succ]

/-- The taps of a column as the run of products the code adds up: the columns
from `a` on, `n` of them, with coefficient index `c + j - a` at the first. -/
theorem truncatedTaps_run (inp kernel : List ℚ) (W c r j a n : Nat)
    (ha : a + c = j ∨ (a = 0 ∧ j ≤ c)) (hn : a + n = min W (j + c + 1)) :
    truncatedTaps inp kernel W c r j
      = ∑ m ∈ Finset.range n, inp.getD (r * W + a + m) 0 * kernel.getD (c + j - a - m) 0 := by
  unfold truncatedTaps
  have hset : (Finset.range W).filter (fun (i : Nat) => |(i : Int) - (j : Int)| ≤ (c : Int))
      = Finset.Ico a (a + n) := by
    ext i
    simp only [Finset.mem_filter, Finset.mem_range, Finset.mem_Ico, abs_le]
    omega
  rw [hset, Finset.sum_Ico_eq_sum_range]
  have e : a + n - a = n := by omega
  rw [e]
  apply Finset.sum_congr rfl
  intro m _
  have e1 : r * W + (a + m) = r * W + a + m := by omega
  have e2 : c + j - (a + m) = c + j - a - m := by omega
  rw [e1, e2]

/-- The entries of `truncatedPlane`. -/
theorem truncatedPlane_getD (inp kernel : List ℚ) (W H c r j : Nat) (hr : r < H) (hj : j < W) :
    (truncatedPlane inp kernel W H c).getD (r * W + j) 0 = truncatedTaps inp kernel W c r j := by
  have hlt : r * W + j < H * W := by
    have : (r + 1) * W ≤ H * W := Nat.mul_le_mul (by omega) (le_refl W)
    have e : (r + 1) * W = r * W + W := by ring
    omega
  have hW : 0 < W := by omega
  have e1 : (r * W + j) / W = r := by
    rw [Nat.add_comm, Nat.add_mul_div_right _ _ hW, Nat.div_eq_of_lt hj, Nat.zero_add]
  have e2 : (r * W + j) % W = j := by
    rw [Nat.add_comm, Nat.add_mul_mod_self_right, Nat.mod_eq_of_lt hj]
  unfold truncatedPlane
  rw [List.getD_eq_getElem?_getD, List.getElem?_map, List.getElem?_range hlt]
  simp only [Option.map_some', Option.getD_some, e1, e2]

/-- The length of `truncatedPlane`. -/
theorem truncatedPlane_length (inp kernel : List ℚ) (W H c : Nat) :
    (truncatedPlane inp kernel W H c).length = H * W := by
  simp [truncatedPlane]

/-- The store of the taps of column `j` of row `r` after the samples before
it. -/
theorem hStore_taps (inp kernel : List ℚ) (W H c cap r j : Nat) (P : Int) (v : ℚ) (hr : r < H)
    (hj : j < W) (hcap : H * W ≤ cap) (hv : v = truncatedTaps inp kernel W c r j) :
    hStore cap { inPtr := P, tmp := (truncatedPlane inp kernel W H c).take (r * W + j) } v
      = .ok ((truncatedPlane inp kernel W H c).take (r * W + j + 1)) := by
  have hlt : r * W + j < H * W := by
    have : (r + 1) * W ≤ H * W := Nat.mul_le_mul (by omega) (le_refl W)
    have e : (r + 1) * W = r * W + W := by ring
    omega
  rw [hv, ← truncatedPlane_getD inp kernel W H c r j hr hj]
  exact hStore_next _ cap _ P (by omega) (by rw [truncatedPlane_length]; exact hlt)

/-- Rows of the plane lie inside the input. -/
theorem row_inside (W H r len : Nat) (hr : r < H) (hlen : H * W ≤ len) : r * W + W ≤ len := by
  have : (r + 1) * W ≤ H * W := Nat.mul_le_mul (by omega) (le_refl W)
  have e : (r + 1) * W = r * W + W := by ring
  omega

/-- A pass over one of the first c columns of a row stores its taps. -/
theorem hFirst_taps (inp kernel : List ℚ) (W H c cap r j : Nat) (hW : 2 * c + 1 ≤ W)
    (hk : kernel.length = 2 * c + 1) (hin : H * W ≤ inp.length) (hcap : H * W ≤ cap)
    (hr : r < H) (hj : j < c) :
    hFirst inp kernel cap (c : Int) j
        { inPtr := ((r * W + (j - c) : Nat) : Int),
          tmp := (truncatedPlane inp kernel W H c).take (r * W + j) }
      = .ok { inPtr := ((r * W + (j + 1 - c) : Nat) : Int),
              tmp := (truncatedPlane inp kernel W H c).take (r * W + (j + 1)) } := by
  have hrow := row_inside W H r inp.length hr hin
  have e0 : j - c = 0 := by omega
  have e1 : j + 1 - c = 0 := by omega
  have ek : (c : Int) + (j : Int) = ((c + j : Nat) : Int) := by push_cast; ring
  have en : (((c + j : Nat) : Int) + 1).toNat = c + j + 1 := by omega
  have hd := dotLoop_sum inp kernel (r * W + 0) (c + j) (c + j + 1) (by omega) (by omega)
    (by omega)
  have ht := truncatedTaps_run inp kernel W c r j 0 (c + j + 1) (Or.inr ⟨rfl, by omega⟩)
    (by rw [Nat.zero_add]; omega)
  simp only [Nat.sub_zero] at ht
  rw [e0, e1]
  unfold hFirst
  rw [ek, en]
  dsimp only []
  rw [hd]
  simp only [bind, Except.bind, pure, Except.pure]
  rw [← ht, hStore_taps inp kernel W H c cap r j _ _ hr (by omega) hcap rfl]
  rfl

/-- A pass over a middle column of a row stores its taps. -/
theorem hMiddle_taps (inp kernel : List ℚ) (W H c cap r j n : Nat)
    (hk : kernel.length = 2 * c + 1) (hin : H * W ≤ inp.length) (hcap : H * W ≤ cap)
    (hr : r < H) (hj0 : c ≤ j) (hj1 : j + c < W) :
    hMiddle inp kernel cap ((2 * c + 1 : Nat) : Int) n
        { inPtr := ((r * W + (j - c) : Nat) : Int),
          tmp := (truncatedPlane inp kernel W H c).take (r * W + j) }
      = .ok { inPtr := ((r * W + (j + 1 - c) : Nat) : Int),
              tmp := (truncatedPlane inp kernel W H c).take (r * W + (j + 1)) } := by
  have hrow := row_inside W H r inp.length hr hin
  have ek : ((2 * c + 1 : Nat) : Int) - 1 = ((2 * c : Nat) : Int) := by push_cast; ring
  have hd := dotLoop_sum inp kernel (r * W + (j - c)) (2 * c) (2 * c + 1) (by omega) (by omega)
    (by omega)
  have ht := truncatedTaps_run inp kernel W c r j (j - c) (2 * c + 1) (Or.inl (by omega))
    (by omega)
  have e2 : c + j - (j - c) = 2 * c := by omega
  rw [e2] at ht
  have e3 : ((r * W + (j - c) : Nat) : Int) + 1 = ((r * W + (j + 1 - c) : Nat) : Int) := by
    omega
  unfold hMiddle
  rw [ek, Int.toNat_ofNat]
  dsimp only []
  rw [hd]
  simp only [bind, Except.bind, pure, Except.pure]
  rw [← ht, hStore_taps inp kernel W H c cap r j _ _ hr (by omega) hcap rfl, e3]
  rfl

/-- A pass over one of the last c columns of a row stores its taps. -/
theorem hLast_taps (inp kernel : List ℚ) (W H c cap r n : Nat) (hW : 2 * c + 1 ≤ W)
    (hk : kernel.length = 2 * c + 1) (hin : H * W ≤ inp.length) (hcap : H * W ≤ cap)
    (hr : r < H) (hn : n < c) :
    hLast inp kernel cap ((2 * c + 1 : Nat) : Int) n
        { inPtr := ((r * W + (W - c + n - c) : Nat) : Int),
          tmp := (truncatedPlane inp kernel W H c).take (r * W + (W - c + n)) }
      = .ok { inPtr := ((r * W + (W - c + n + 1 - c) : Nat) : Int),
              tmp := (truncatedPlane inp kernel W H c).take (r * W + (W - c + n + 1)) } := by
  have hrow := row_inside W H r inp.length hr hin
  have ek : ((2 * c + 1 : Nat) : Int) - 1 = ((2 * c : Nat) : Int) := by push_cast; ring
  have en : (((2 * c : Nat) : Int) - (n : Int)).toNat = 2 * c - n := by omega
  have hd := dotLoop_sum inp kernel (r * W + (W - c + n - c)) (2 * c) (2 * c - n) (by omega)
    (by omega) (by omega)
  have ht := truncatedTaps_run inp kernel W c r (W - c + n) (W - c + n - c) (2 * c - n)
    (Or.inl (by omega)) (by omega)
  have e2 : c + (W - c + n) - (W - c + n - c) = 2 * c := by omega
  rw [e2] at ht
  have e3 : ((r * W + (W - c + n - c) : Nat) : Int) + 1
      = ((r * W + (W - c + n + 1 - c) : Nat) : Int) := by omega
  unfold hLast
  rw [ek, en]
  dsimp only []
  rw [hd]
  simp only [bind, Except.bind, pure, Except.pure]
  rw [← ht, hStore_taps inp kernel W H c cap r (W - c + n) _ _ hr (by omega) hcap rfl, e3]
  rfl

/-- One pass of the row loop of the horizontal convolution stores the taps of
the row. -/
theorem hRow_taps (inp kernel : List ℚ) (W H c cap r : Nat) (hW : 2 * c + 1 ≤ W)
    (hk : kernel.length = 2 * c + 1) (hin : H * W ≤ inp.length) (hcap : H * W ≤ cap)
    (hr : r < H) :
    hRow inp kernel cap (W : Int) ((2 * c + 1 : Nat) : Int) r
        { inPtr := ((r * W : Nat) : Int),
          tmp := (truncatedPlane inp kernel W H c).take (r * W) }
      = .ok { inPtr := (((r + 1) * W : Nat) : Int),
              tmp := (truncatedPlane inp kernel W H c).take ((r + 1) * W) } := by
  have hkc : ((2 * c + 1 : Nat) : Int) / 2 = (c : Int) := by omega
  let S : Nat → HState := fun j =>
    { inPtr := ((r * W + (j - c) : Nat) : Int),
      tmp := (truncatedPlane inp kernel W H c).take (r * W + j) }
  have hS : ∀ j, S j =
      { inPtr := ((r * W + (j - c) : Nat) : Int),
        tmp := (truncatedPlane inp kernel W H c).take (r * W + j) } := fun _ => rfl
  have h1 : forK (hFirst inp kernel cap (c : Int)) c (S 0) = .ok (S (0 + c)) := by
    apply forK_chain
    intro j hj
    rw [Nat.zero_add, hS, hS]
    exact hFirst_taps inp kernel W H c cap r j hW hk hin hcap hr hj
  have h2 : forK (hMiddle inp kernel cap ((2 * c + 1 : Nat) : Int)) (W - 2 * c) (S c)
      = .ok (S (c + (W - 2 * c))) := by
    apply forK_chain
    intro n hn
    rw [hS, hS]
    exact hMiddle_taps inp kernel W H c cap r (c + n) n hk hin hcap hr (by omega) (by omega)
  have h3 : forK (hLast inp kernel cap ((2 * c + 1 : Nat) : Int)) c (S (W - c))
      = .ok (S (W - c + c)) := by
    apply forK_chain
    intro n hn
    rw [hS, hS]
    exact hLast_taps inp kernel W H c cap r n hW hk hin hcap hr hn
  have e0 : S 0 =
      { inPtr := ((r * W : Nat) : Int),
        tmp := (truncatedPlane inp kernel W H c).take (r * W) } := by
    rw [hS]; simp
  have e1 : c + (W - 2 * c) = W - c := by omega
  have e2 : W - c + c = W := by omega
  rw [Nat.zero_add] at h1
  rw [e1] at h2
  rw [e2] at h3
  have t1 : ((W : Int) - (c : Int) - (c : Int)).toNat = W - 2 * c := by omega
  have t2 : ((W : Int) - ((W : Int) - (c : Int))).toNat = c := by omega
  unfold hRow
  simp only [hkc, Int.toNat_ofNat, t1, t2]
  rw [← e0]
  show (Except.bind (forK _ c (S 0)) _) = _
  rw [h1, Except.bind]
  show (Except.bind (forK _ (W - 2 * c) (S c)) _) = _
  rw [h2, Except.bind]
  show (Except.bind (forK _ c (S (W - c))) _) = _
  rw [h3, Except.bind]
  simp only [hS, pure, Except.pure]
  have e3 : ((r * W + (W - c) : Nat) : Int) + (c : Int) = (((r + 1) * W : Nat) : Int) := by
    have : (r + 1) * W = r * W + W := by ring
    omega
  have e4 : r * W + W = (r + 1) * W := by ring
  rw [e3, e4]

/-- Function `convH` with an odd kernel of length 2 c + 1 on a plane of rows
at least that long: the call returns true and stores `truncatedPlane`. -/
theorem convH_taps (inp out kernel : List ℚ) (W H c : Nat) (hW : 2 * c + 1 ≤ W)
    (hk : kernel.length = 2 * c + 1) (hin : H * W ≤ inp.length) (hout : H * W ≤ out.length) :
    convH (some inp) (some out) (W : Int) (H : Int) (some kernel) ((2 * c + 1 : Nat) : Int)
      = .ok (true, some (truncatedPlane inp kernel W H c ++ out.drop (H * W))) := by
  let S : Nat → HState := fun r =>
    { inPtr := ((r * W : Nat) : Int), tmp := (truncatedPlane inp kernel W H c).take (r * W) }
  have hS : ∀ r, S r =
      { inPtr := ((r * W : Nat) : Int),
        tmp := (truncatedPlane inp kernel W H c).take (r * W) } := fun _ => rfl
  have h1 : forK (hRow inp kernel out.length (W : Int) ((2 * c + 1 : Nat) : Int)) H (S 0)
      = .ok (S (0 + H)) := by
    apply forK_chain
    intro r hr
    rw [Nat.zero_add, hS, hS]
    exact hRow_taps inp kernel W H c out.length r hW hk hin hout hr
  have e0 : S 0 = { inPtr := 0, tmp := [] } := by
    rw [hS]; simp
  rw [Nat.zero_add, e0] at h1
  unfold convH
  simp only [show ¬ ((W : Int) ≤ 0 ∨ ((2 * c + 1 : Nat) : Int) ≤ 0) by omega, if_false,
    Int.toNat_ofNat, h1, bind, Except.bind, pure, Except.pure, hS]
  rw [List.take_of_length_le (by rw [truncatedPlane_length]), truncatedPlane_length]

/-- C26: in exact arithmetic, for every odd kernel length 2 c + 1 and every
plane of `H` rows of `W >= 2 c + 1` samples, `convH` returns true and writes
for each row r and column j the value `truncatedTaps`: the sum over the
columns i of the row with |i - j| <= c and 0 <= i < W of
in[r][i] * kernel[c + j - i], the taps outside the row dropped. -/
theorem convH_truncated_taps (inp out kernel : List ℚ) (W H c : Nat) (hW : 2 * c + 1 ≤ W)
    (hk : kernel.length = 2 * c + 1) (hin : H * W ≤ inp.length) (hout : H * W ≤ out.length) :
    ∃ res, convH (some inp) (some out) (W : Int) (H : Int) (some kernel)
          ((2 * c + 1 : Nat) : Int) = .ok (true, some res)
      ∧ res.length = out.length
      ∧ ∀ r j, r < H → j < W →
          res.get? (r * W + j)
            = some (∑ i ∈ (Finset.range W).filter
                      (fun (i : Nat) => |(i : Int) - (j : Int)| ≤ (c : Int)),
                    inp.getD (r * W + i) 0 * kernel.getD (c + j - i) 0) := by
  refine ⟨_, convH_taps inp out kernel W H c hW hk hin hout, ?_, ?_⟩
  · simp only [List.length_append, truncatedPlane_length, List.length_drop]
    omega
  · intro r j hr hj
    have hlt : r * W + j < H * W := by
      have := row_inside W H r (H * W) hr (le_refl _)
      omega
    have hg := truncatedPlane_getD inp kernel W H c r j hr hj
    rw [List.get?_eq_getElem?, List.getElem?_append_left (by rw [truncatedPlane_length]; exact hlt)]
    rw [List.getD_eq_getElem?_getD,
      List.getElem?_eq_getElem (by rw [truncatedPlane_length]; exact hlt)] at hg
    rw [List.getElem?_eq_getElem (by rw [truncatedPlane_length]; exact hlt)]
    simp only [Option.getD_some] at hg
    rw [hg]
    rfl

/-- C21 (as the code behaves): `convH` with buffers present, a positive
`dataSizeX` and a positive kernel length returns true for every
`dataSizeY <= 0` (no row is visited and `out` is as it was); and with
`dataSizeY = 0` and a kernel of length 1 in the vertical direction, `convV`,
`convolve2DSeparable` and `convolve2DSeparable8` return true as well where
their zero-sized allocations succeed: no entry point tests `dataSizeY`. -/
theorem convH_rows_unchecked (inp out kernelX kernelY : List ℚ) (inp8 out8 : List Nat)
    (X Y kSizeX : Int) (hX : 0 < X) (hXmax : X ≤ INT_MAX) (hk : 0 < kSizeX) (hY : Y ≤ 0) :
    convH (some inp) (some out) X Y (some kernelX) kSizeX = .ok (true, some out)
      ∧ convV true true (some inp) (some out) X 0 (some kernelY) 1 = .ok (true, some out)
      ∧ convolve2DSeparable true true (some inp) (some out) X 0 (some kernelX) kSizeX
          (some kernelY) 1 = .ok (true, some out)
      ∧ convolve2DSeparable8 true true (some inp8) (some out8) X 0 (some kernelX) kSizeX
          (some kernelY) 1 = .ok (true, some out8) := by
  have hmx : INT_MAX = 2147483647 := rfl
  have hmn : INT_MIN = -2147483648 := rfl
  have hYn : Y.toNat = 0 := Int.toNat_eq_zero.mpr hY
  have h12 : (1 : Int) / 2 = 0 := by decide
  have hno : ¬ (X ≤ 0 ∨ kSizeX ≤ 0) := by omega
  refine ⟨?_, ?_, ?_, ?_⟩
  · unfold convH
    simp only [hno, if_false, hYn, forK, bind, Except.bind, pure, Except.pure, List.length_nil,
      List.drop_zero, List.nil_append]
  · unfold convV
    simp only [show ¬ (X ≤ 0) by omega, if_false, mul_zero,
      checkedInt_ok 0 (by decide) (by decide), bind, Except.bind, Bool.not_true,
      Bool.false_eq_true, h12, sub_zero, checkedInt_ok X (by omega) hXmax, pure, Except.pure,
      Int.toNat_zero, forK, sub_self]
  · unfold convolve2DSeparable convolveSeparable
    simp only [hno, if_false, mul_zero, checkedInt_ok 0 (by decide) (by decide), bind,
      Except.bind, Bool.not_true, Bool.false_eq_true, h12, sub_zero, pure, Except.pure,
      Int.toNat_zero, forK, sub_self]
  · unfold convolve2DSeparable8 convolveSeparable
    simp only [hno, if_false, mul_zero, checkedInt_ok 0 (by decide) (by decide), bind,
      Except.bind, Bool.not_true, Bool.false_eq_true, h12, sub_zero, pure, Except.pure,
      Int.toNat_zero, forK, sub_self]

/-- C27 (as the code behaves): for every odd kernel length 2 c + 1 and plane
height `Y >= 2 c + 1`, the output of `convV` is 1/2 at every position whatever
the input plane holds, so two inputs that differ give the same output: the
loops read the zeroed array `tmpx`, never `in`. -/
theorem convV_ignores_input (in1 in2 out kernelY : List ℚ) (X Y c : Nat) (hX : 0 < X)
    (hY : 2 * c + 1 ≤ Y) (hk : kernelY.length = 2 * c + 1) (hout : X * Y ≤ out.length)
    (hmax : ((X * Y : Nat) : Int) ≤ INT_MAX) :
    convV true true (some in1) (some out) (X : Int) (Y : Int) (some kernelY)
        ((2 * c + 1 : Nat) : Int)
      = .ok (true, some (List.replicate (X * Y) (1 / 2) ++ out.drop (X * Y)))
    ∧ convV true true (some in2) (some out) (X : Int) (Y : Int) (some kernelY)
        ((2 * c + 1 : Nat) : Int)
      = .ok (true, some (List.replicate (X * Y) (1 / 2) ++ out.drop (X * Y))) :=
  ⟨convV_half in1 out kernelY X Y c hX hY hk hout hmax,
   convV_half in2 out kernelY X Y c hX hY hk hout hmax⟩

/-! ## Evaluations on the sample inputs, continued -/

/-- Witness for C21: `convH` on a plane of 4 columns and 0 rows. -/
theorem convH_rows_unchecked_witness :
    convH (some [1, 2, 3, 4]) (some [9]) 4 0 (some [1, 1, 1]) 3 = .ok (true, some [9])
      ∧ convV true true (some [1, 2, 3, 4]) (some [9]) 4 0 (some [1]) 1 = .ok (true, some [9])
      ∧ convolve2DSeparable true true (some [1, 2, 3, 4]) (some [9]) 4 0 (some [1, 1, 1]) 3
          (some [1]) 1 = .ok (true, some [9])
      ∧ convolve2DSeparable8 true true (some [1, 2, 3, 4]) (some [9]) 4 0 (some [1, 1, 1]) 3
          (some [1]) 1 = .ok (true, some [9]) :=
  convH_rows_unchecked [1, 2, 3, 4] [9] [1, 1, 1] [1] [1, 2, 3, 4] [9] 4 0 3 (by decide)
    (by decide) (by decide) (by decide)

/-- Witness for C22: three frames of level 100. -/
theorem deflicker_first_nine_witness :
    deflickerRun queue_t.empty (List.replicate 3 (levelFrame 100))
      = .ok ({ brightness := (List.replicate 3 (levelFrame 100)).map meanBrightness
                 ++ List.replicate (10 - (List.replicate 3 (levelFrame 100)).length) 0,
               available := ((List.replicate 3 (levelFrame 100)).length : Int) },
             (List.replicate 3 (levelFrame 100)).map (fun f => (false, f.img))) :=
  deflicker_first_nine (List.replicate 3 (levelFrame 100)) (by decide)
    (fun f hf => by rw [List.eq_of_mem_replicate hf]; decide)

/-- Witness for C24: ten frames of level 100 and an eleventh of level 200. -/
theorem deflicker_double_brightness_witness :
    deflickerRun queue_t.empty
        (List.replicate 9 (levelFrame 100) ++ [levelFrame 100] ++ [levelFrame 200])
        = .ok ({ brightness := List.replicate 9 100 ++ [2 * 100], available := 10 },
            (List.replicate 9 (levelFrame 100)).map (fun f => (false, f.img))
              ++ [(true, (levelFrame 100).img)]
              ++ [(true, ((levelFrame 200).img.take
                      ((levelFrame 200).w * (levelFrame 200).h).toNat).map
                      (fun (v : Nat) => ⌊(v : ℚ) * (11 / 20)⌋.toNat)
                    ++ (levelFrame 200).img.drop
                      ((levelFrame 200).w * (levelFrame 200).h).toNat)])
      ∧ get_factor { brightness := List.replicate 9 100 ++ [2 * 100], available := 10 }
        = .ok (11 / 20) :=
  deflicker_double_brightness (List.replicate 9 (levelFrame 100)) (levelFrame 100)
    (levelFrame 200) 100 (by simp) (by norm_num)
    (fun f hf => by
      rw [List.eq_of_mem_replicate hf]
      exact ⟨by decide, by rw [meanBrightness_level]; norm_num⟩)
    ⟨by decide, by rw [meanBrightness_level]; norm_num, by decide⟩
    ⟨by decide, by rw [meanBrightness_level]; norm_num, by decide⟩

/-- Witness for C26: a plane of 2 rows of 3 samples and a kernel of length 3. -/
theorem convH_truncated_taps_witness :
    ∃ res, convH (some [1, 2, 3, 4, 5, 6]) (some (List.replicate 6 0)) ((3 : Nat) : Int)
          ((2 : Nat) : Int) (some [1, 2, 3]) ((2 * 1 + 1 : Nat) : Int) = .ok (true, some res)
      ∧ res.length = (List.replicate 6 (0 : ℚ)).length
      ∧ ∀ r j, r < 2 → j < 3 →
          res.get? (r * 3 + j)
            = some (∑ i ∈ (Finset.range 3).filter
                      (fun (i : Nat) => |(i : Int) - (j : Int)| ≤ ((1 : Nat) : Int)),
                    ([1, 2, 3, 4, 5, 6] : List ℚ).getD (r * 3 + i) 0
                      * ([1, 2, 3] : List ℚ).getD (1 + j - i) 0) :=
  convH_truncated_taps [1, 2, 3, 4, 5, 6] (List.replicate 6 0) [1, 2, 3] 3 2 1 (by decide) rfl
    (by decide) (by decide)

/-- Witness for C27: two planes of 3 rows of 1 sample that differ in the
first sample, with the kernel {1, 1, 1}. -/
theorem convV_ignores_input_witness :
    convV true true (some [1, 2, 3]) (some [9, 9, 9]) ((1 : Nat) : Int) ((3 : Nat) : Int)
        (some [1, 1, 1]) ((2 * 1 + 1 : Nat) : Int)
      = .ok (true, some [1 / 2, 1 / 2, 1 / 2])
    ∧ convV true true (some [5, 2, 3]) (some [9, 9, 9]) ((1 : Nat) : Int) ((3 : Nat) : Int)
        (some [1, 1, 1]) ((2 * 1 + 1 : Nat) : Int)
      = .ok (true, some [1 / 2, 1 / 2, 1 / 2]) :=
  convV_ignores_input [1, 2, 3] [5, 2, 3] [9, 9, 9] [1, 1, 1] 1 3 1 (by decide) (by decide) rfl
    (by decide) (by decide)

set_option maxRecDepth 1000000 in
/-- Witness for C28: the values 3, 1, 2, and the macroblock in column 1 of row
1 of `epzsFrame`. -/
theorem mid_pred_median_witness :
    mid_pred 3 1 2 = mid_pred 2 3 1
      ∧ (currentPredictors (epzsFrame texturePlane texturePlane) ((1 : Nat) : Int)
          ((1 : Nat) : Int)).map medianPredictor = .ok (mid_pred 3 3 3, mid_pred (-1) (-1) (-1)) :=
  ⟨(mid_pred_median 3 1 2).2.1.2.2.2.1,
   (mid_pred_median 3 1 2).2.2 (epzsFrame texturePlane texturePlane)
     (List.replicate 10 { vx := 3, vy := -1, mag2 := 10 }) 1 1 rfl rfl rfl (by decide)
     (by decide) (by decide) (by decide)⟩

set_option maxRecDepth 1000000 in
/-- Witness for C29: the third macroblock of row 0 of `texturePlane` against
`shiftedPlane`, whose predicted point (-1, 0) has SAD 0. -/
theorem me_search_epzs_predicted_point_witness :
    me_search_epzs { epzsPredicted with preds0 := { mvs := [(1, 1)] }, preds1 := { mvs := [] } }
        (((2 : Nat) : Int) * epzsPredicted.mbSize) (((0 : Nat) : Int) * epzsPredicted.mbSize)
        (((2 : Nat) : Int) * epzsPredicted.mbSize, ((0 : Nat) : Int) * epzsPredicted.mbSize)
      = .ok (sadAt epzsPredicted (((2 : Nat) : Int) * epzsPredicted.mbSize)
              (((0 : Nat) : Int) * epzsPredicted.mbSize)
              (((2 : Nat) : Int) * epzsPredicted.mbSize + epzsPredicted.pred_x,
               ((0 : Nat) : Int) * epzsPredicted.mbSize + epzsPredicted.pred_y),
             (((2 : Nat) : Int) * epzsPredicted.mbSize + epzsPredicted.pred_x,
              ((0 : Nat) : Int) * epzsPredicted.mbSize + epzsPredicted.pred_y))
      ∧ ∃ c', epzsBlock epzsPredicted ((2 : Nat) : Int) ((0 : Nat) : Int) = .ok c'
        ∧ (c'.mv_table.get 0).map
            (fun t => t.getD (((2 : Nat) : Int) + ((0 : Nat) : Int) * epzsPredicted.b_width).toNat
              MotionVector16_t.zero)
          = some { vx := -1, vy := 0, mag2 := ((-1 : Int) * (-1) + 0 * 0).toNat } :=
  ⟨(me_search_epzs_predicted_point epzsPredicted texturePlane shiftedPlane 2 0 (by decide) rfl rfl
      (by decide) (by decide) (by decide) (by decide) (by decide) (by decide) (by decide)).1
      (by decide) (by decide) { mvs := [(1, 1)] } { mvs := [] },
   (me_search_epzs_predicted_point epzsPredicted texturePlane shiftedPlane 2 0 (by decide) rfl rfl
      (by decide) (by decide) (by decide) (by decide) (by decide) (by decide) (by decide)).2
      (-1) 0 (by decide) (by decide) (by decide) (by decide)⟩

set_option maxRecDepth 1000000 in
/-- Witness for C30: the second macroblock of row 0 of `texturePlane` against
`shiftedPlane`, with the predictors `motionEstEPZS` gave it: every predictor in
the range has SAD 330. -/
theorem me_search_epzs_local_minimum_witness :
    ∃ cost mv,
      me_search_epzs epzsMidRow (((1 : Nat) : Int) * epzsMidRow.mbSize)
          (((0 : Nat) : Int) * epzsMidRow.mbSize)
          (((1 : Nat) : Int) * epzsMidRow.mbSize, ((0 : Nat) : Int) * epzsMidRow.mbSize)
          = .ok (cost, mv)
        ∧ InRange (epzsRange epzsMidRow (((1 : Nat) : Int) * epzsMidRow.mbSize)
            (((0 : Nat) : Int) * epzsMidRow.mbSize)) mv
        ∧ cost = sadAt epzsMidRow (((1 : Nat) : Int) * epzsMidRow.mbSize)
            (((0 : Nat) : Int) * epzsMidRow.mbSize) mv
        ∧ (∀ o, o ∈ dia1 →
            InRange (epzsRange epzsMidRow (((1 : Nat) : Int) * epzsMidRow.mbSize)
              (((0 : Nat) : Int) * epzsMidRow.mbSize)) (mv.1 + o.1, mv.2 + o.2) →
            cost ≤ sadAt epzsMidRow (((1 : Nat) : Int) * epzsMidRow.mbSize)
              (((0 : Nat) : Int) * epzsMidRow.mbSize) (mv.1 + o.1, mv.2 + o.2))
        ∧ (∀ q, q ∈ epzsCandidates epzsMidRow (((1 : Nat) : Int) * epzsMidRow.mbSize)
              (((0 : Nat) : Int) * epzsMidRow.mbSize) →
            InRange (epzsRange epzsMidRow (((1 : Nat) : Int) * epzsMidRow.mbSize)
              (((0 : Nat) : Int) * epzsMidRow.mbSize)) q →
            cost ≤ sadAt epzsMidRow (((1 : Nat) : Int) * epzsMidRow.mbSize)
              (((0 : Nat) : Int) * epzsMidRow.mbSize) q)
        ∧ cost ≤ sadAt epzsMidRow (((1 : Nat) : Int) * epzsMidRow.mbSize)
            (((0 : Nat) : Int) * epzsMidRow.mbSize)
            (((1 : Nat) : Int) * epzsMidRow.mbSize, ((0 : Nat) : Int) * epzsMidRow.mbSize) :=
  me_search_epzs_local_minimum epzsMidRow texturePlane shiftedPlane 1 0 (by decide) rfl rfl
    (by decide) (by decide) (by decide) (by decide) (by decide) (by decide) (by decide)
    (by decide) (by decide)

/-! ## EPZS: the vector history -/

/-- Whenever `motionEstEPZS` returns on a successfully initialised EPZS
context, the block loop ran from the context whose generations 2 and 1 hold
the former generations 1 and 0, and kept both. -/
theorem motionEstEPZS_history (ctx ctx' : MotionEstContext) (r : Bool)
    (hready : EpzsReady ctx) (h : motionEstEPZS ctx = .ok (r, ctx')) :
    ctx'.mv_table.get 1 = ctx.mv_table.get 0 ∧ ctx'.mv_table.get 2 = ctx.mv_table.get 1 := by
  obtain ⟨hgeo, hr0, hr1, hr2⟩ := hready
  obtain ⟨t0, ht0, hl0⟩ : ∃ t, ctx.mv_table.get 0 = some t ∧ t.length = ctx.b_count.toNat := by
    cases h : ctx.mv_table.get 0 with
    | none => rw [h] at hr0; simp at hr0
    | some t => rw [h] at hr0; exact ⟨t, rfl, by simpa using hr0⟩
  obtain ⟨t1, ht1, hl1⟩ : ∃ t, ctx.mv_table.get 1 = some t ∧ t.length = ctx.b_count.toNat := by
    cases h : ctx.mv_table.get 1 with
    | none => rw [h] at hr1; simp at hr1
    | some t => rw [h] at hr1; exact ⟨t, rfl, by simpa using hr1⟩
  obtain ⟨t2, ht2, hl2⟩ : ∃ t, ctx.mv_table.get 2 = some t ∧ t.length = ctx.b_count.toNat := by
    cases h : ctx.mv_table.get 2 with
    | none => rw [h] at hr2; simp at hr2
    | some t => rw [h] at hr2; exact ⟨t, rfl, by simpa using hr2⟩
  obtain ⟨hl0', hl31, hmb, hw0, hwmax, hh0, hhmax, hbw, hbh, hcount⟩ := hgeo
  have hmbpos : (0 : Int) < ctx.mbSize := by rw [hmb]; positivity
  have hbw0 : 0 ≤ ctx.b_width := by rw [hbw]; exact Int.ediv_nonneg hw0 (le_of_lt hmbpos)
  have hbh0 : 0 ≤ ctx.b_height := by rw [hbh]; exact Int.ediv_nonneg hh0 (le_of_lt hmbpos)
  have hcnt0 : 0 ≤ ctx.b_count := by rw [hcount]; exact mul_nonneg hbw0 hbh0
  have hstart : MagRun
      { ctx with max := 0, mv_table := ((ctx.mv_table.set 2 (some t1)).set 1 (some t0)) } 0
      { ctx with max := 0, mv_table := ((ctx.mv_table.set 2 (some t1)).set 1 (some t0)) } := by
    refine ⟨loopFrame_refl _, t0, ?_, hl0, fun i hi => absurd hi (Nat.not_lt_zero i), ?_⟩
    · simp only [MvTables.get_set _ 1 0 _ (by decide), MvTables.get_set _ 2 0 _ (by decide)]
      simpa using ht0
    · simp [maxMag2]
  unfold motionEstEPZS at h
  simp only [ht0, ht1, ht2, bind, Except.bind, pure, Except.pure,
    memcpyVectors_full t2 t1 ctx.b_count hcnt0 hl2 hl1,
    MvTables.get_set _ 2 1 _ (by decide), MvTables.get_set _ 2 0 _ (by decide)] at h
  simp only [show ((1 : Nat) = 2) = False from by decide, show ((0 : Nat) = 2) = False from by decide,
    if_false, ht0, ht1, memcpyVectors_full t1 t0 ctx.b_count hcnt0 hl1 hl0] at h
  split at h
  · exact Except.noConfusion h
  · rename_i c1 hc1
    injection h with h
    injection h with _ h
    subst h
    obtain ⟨hfr, _⟩ := epzsRows_mag
      { ctx with max := 0, mv_table := ((ctx.mv_table.set 2 (some t1)).set 1 (some t0)) }
      hbw0 ctx.b_height.toNat _ _ hstart hc1
    obtain ⟨_, _, _, _, _, _, _, _, _, _, f11, f12⟩ := hfr
    constructor
    · rw [f11]
      simp [MvTables.get_set _ 1 1 _ (by decide), ht0]
    · rw [f12]
      simp [MvTables.get_set _ 1 2 _ (by decide), MvTables.get_set _ 2 2 _ (by decide), ht1]

/-- C31: on a successfully initialised EPZS context, whenever `motionEstEPZS`
returns, generation 1 of the vector history is generation 0 as it was before
the call and generation 2 is generation 1 as it was before the call, each a
table of `b_count` vectors, equal entry by entry (the former generation 2 is
gone); and the call does return when the two planes hold `width * height`
samples and the search radius is in 0..181. -/
theorem motionEstEPZS_rotates_history (ctx : MotionEstContext) (hready : EpzsReady ctx) :
    (∀ r ctx', motionEstEPZS ctx = .ok (r, ctx') →
        ∃ g0 g1 h1 h2, ctx.mv_table.get 0 = some g0 ∧ ctx.mv_table.get 1 = some g1
          ∧ ctx'.mv_table.get 1 = some h1 ∧ ctx'.mv_table.get 2 = some h2
          ∧ g0.length = ctx.b_count.toNat ∧ g1.length = ctx.b_count.toNat
          ∧ h1.length = ctx.b_count.toNat ∧ h2.length = ctx.b_count.toNat
          ∧ ∀ i, i < ctx.b_count.toNat →
              h1.get? i = g0.get? i ∧ h2.get? i = g1.get? i)
      ∧ (∀ cur ref, ctx.data_cur = some cur → ctx.data_ref = some ref →
          ctx.width * ctx.height ≤ cur.length → ctx.width * ctx.height ≤ ref.length →
          0 ≤ ctx.search_param → ctx.search_param ≤ 181 →
          ctx.width + ctx.search_param ≤ INT_MAX → ctx.height + ctx.search_param ≤ INT_MAX →
          ∃ ctx', motionEstEPZS ctx = .ok (true, ctx')) := by
  refine ⟨fun r ctx' h => ?_, fun cur ref h1 h2 h3 h4 h5 h6 h7 h8 =>
     motionEstEPZS_returns ctx cur ref hready h1 h2 h3 h4 h5 h6 h7 h8⟩
  obtain ⟨e1, e2⟩ := motionEstEPZS_history ctx ctx' r hready h
  obtain ⟨_, hr0, hr1, _⟩ := hready
  obtain ⟨g0, hg0, hl0⟩ : ∃ t, ctx.mv_table.get 0 = some t ∧ t.length = ctx.b_count.toNat := by
    cases h : ctx.mv_table.get 0 with
    | none => rw [h] at hr0; simp at hr0
    | some t => rw [h] at hr0; exact ⟨t, rfl, by simpa using hr0⟩
  obtain ⟨g1, hg1, hl1⟩ : ∃ t, ctx.mv_table.get 1 = some t ∧ t.length = ctx.b_count.toNat := by
    cases h : ctx.mv_table.get 1 with
    | none => rw [h] at hr1; simp at hr1
    | some t => rw [h] at hr1; exact ⟨t, rfl, by simpa using hr1⟩
  exact ⟨g0, g1, g0, g1, hg0, hg1, by rw [e1, hg0], by rw [e2, hg1], hl0, hl1, hl0, hl1,
    fun i _ => ⟨rfl, rfl⟩⟩

/-! ## EPZS: the vectors stay in the search range -/

/-- One macroblock of `motionEstEPZS` on a successfully initialised context
whose planes hold the image: when the block returns it has written its own
entry of generation 0 with a vector within the range of the macroblock, and
left the rest of the frame alone. -/
theorem epzsBlock_in_range (c c' : MotionEstContext) (cur ref : List Nat) (mb_x mb_y : Nat)
    (hready : EpzsReady c) (hcur : c.data_cur = some cur) (href : c.data_ref = some ref)
    (hlenc : c.width * c.height ≤ cur.length) (hlenr : c.width * c.height ≤ ref.length)
    (hp0 : 0 ≤ c.search_param)
    (hpw : c.width + c.search_param ≤ INT_MAX) (hph : c.height + c.search_param ≤ INT_MAX)
    (hx : (mb_x : Int) < c.b_width) (hy : (mb_y : Int) < c.b_height)
    (h : epzsBlock c mb_x mb_y = .ok c') :
    ∃ t0 v, c.mv_table.get 0 = some t0
      ∧ ((mb_x : Int) + mb_y * c.b_width).toNat < t0.length ∧ LoopFrame c c'
      ∧ c'.mv_table.get 0 = some (t0.set ((mb_x : Int) + mb_y * c.b_width).toNat v)
      ∧ VectorInRange c mb_x mb_y v := by
  obtain ⟨hbounds, hgx, hgy, horigin, hsad⟩ := epzsRange_facts c cur ref mb_x mb_y hready hcur href
    hlenc hlenr hp0 hpw hph hx hy
  obtain ⟨b1, b2, b3, b4, b5, b6, b7, b8⟩ := hbounds
  obtain ⟨hgeo, hr0, hr1, hr2⟩ := hready
  obtain ⟨t0, ht0, hl0⟩ : ∃ t, c.mv_table.get 0 = some t ∧ t.length = c.b_count.toNat := by
    cases h : c.mv_table.get 0 with
    | none => rw [h] at hr0; simp at hr0
    | some t => rw [h] at hr0; exact ⟨t, rfl, by simpa using hr0⟩
  obtain ⟨t1, ht1, hl1⟩ : ∃ t, c.mv_table.get 1 = some t ∧ t.length = c.b_count.toNat := by
    cases h : c.mv_table.get 1 with
    | none => rw [h] at hr1; simp at hr1
    | some t => rw [h] at hr1; exact ⟨t, rfl, by simpa using hr1⟩
  obtain ⟨t2, ht2, hl2⟩ : ∃ t, c.mv_table.get 2 = some t ∧ t.length = c.b_count.toNat := by
    cases h : c.mv_table.get 2 with
    | none => rw [h] at hr2; simp at hr2
    | some t => rw [h] at hr2; exact ⟨t, rfl, by simpa using hr2⟩
  obtain ⟨hl0', hl31, hmb, hw0, hwmax, hh0, hhmax, hbw, hbh, hcount⟩ := hgeo
  have hmx : INT_MAX = 2147483647 := rfl
  have hmn : INT_MIN = -2147483648 := rfl
  have hmbpos : (0 : Int) < c.mbSize := by rw [hmb]; positivity
  obtain ⟨hB0, hB1, hB2, hB3⟩ := block_index_facts c.b_width c.b_height mb_x mb_y
    (Int.natCast_nonneg _) hx (Int.natCast_nonneg _) hy
  obtain ⟨hX0, hX1, hX2⟩ := block_origin_facts c.width c.mbSize mb_x hmbpos
    (Int.natCast_nonneg _) (by rw [← hbw]; exact hx)
  obtain ⟨hY0, hY1, hY2⟩ := block_origin_facts c.height c.mbSize mb_y hmbpos
    (Int.natCast_nonneg _) (by rw [← hbh]; exact hy)
  have hL0 : (t0.length : Int) = c.b_width * c.b_height := by rw [hl0, ← hcount]; omega
  have hL1 : (t1.length : Int) = c.b_width * c.b_height := by rw [hl1, ← hcount]; omega
  obtain ⟨p0, hcurp⟩ : ∃ p0, currentPredictors c mb_x mb_y = .ok p0 :=
    ⟨_, currentPredictors_eq c t0 mb_x mb_y ht0 hcount hl0 hx hy⟩
  obtain ⟨p1, hprev⟩ := previousPredictors_ok c t1 t2 mb_x mb_y ht1 ht2 hcount hl1 hl2 hx hy
  have hsx : shiftLeft (mb_x : Int) c.log2_mbSize = .ok ((mb_x : Int) * c.mbSize) := by
    rw [hmb]
    exact shiftLeft_ok _ _ hl0' (by omega) (by rw [← hmb]; omega) (by rw [← hmb]; omega)
  have hsy : shiftLeft (mb_y : Int) c.log2_mbSize = .ok ((mb_y : Int) * c.mbSize) := by
    rw [hmb]
    exact shiftLeft_ok _ _ hl0' (by omega) (by rw [← hmb]; omega) (by rw [← hmb]; omega)
  obtain ⟨cost, mv', hsearch, hmv⟩ := me_search_epzs_ok
    { c with pred_x := (medianPredictor p0).1, pred_y := (medianPredictor p0).2,
             preds0 := ADD_PRED p0
               (t1.getD ((mb_x : Int) + mb_y * c.b_width).toNat MotionVector16_t.zero).vx
               (t1.getD ((mb_x : Int) + mb_y * c.b_width).toNat MotionVector16_t.zero).vy,
             preds1 := p1 }
    ((mb_x : Int) * c.mbSize) ((mb_y : Int) * c.mbSize)
    ((mb_x : Int) * c.mbSize, (mb_y : Int) * c.mbSize)
    ((c.b_width - 1) * c.mbSize) ((c.b_height - 1) * c.mbSize)
    (epzsRange c ((mb_x : Int) * c.mbSize) ((mb_y : Int) * c.mbSize))
    b1 b2 b3 b4 b5 b6 b7 b8 hgx hgy rfl (hsad _ rfl rfl rfl rfl)
  have hin : InRange (epzsRange c ((mb_x : Int) * c.mbSize) ((mb_y : Int) * c.mbSize)) mv' := by
    rcases hmv with h | h
    · rw [h]; exact horigin
    · exact h
  obtain ⟨q1, q2, q3, q4⟩ := hin
  simp only [epzsRange, max_le_iff, le_min_iff] at q1 q2 q3 q4
  unfold epzsBlock at h
  simp only [hsx, hsy, hcurp, hprev, ht1, ht0, bind, Except.bind, pure, Except.pure] at h
  rw [readVector_ok t1 _ (by omega) (by omega)] at h
  simp only [hsearch] at h
  cases hm : epzsMag2 (mv'.1 - (mb_x : Int) * c.mbSize) (mv'.2 - (mb_y : Int) * c.mbSize) with
  | error e => rw [hm] at h; cases h
  | ok m =>
    rw [hm] at h
    simp only [] at h
    rw [writeVector_ok t0 _ _ (by omega) (by omega)] at h
    obtain ⟨_, hdx, hdy⟩ := epzsMag2_inv _ _ _ hm
    cases h
    refine ⟨t0, (⟨wrap16 (wrap16 mv'.1 - (mb_x : Int) * c.mbSize),
      wrap16 (wrap16 mv'.2 - (mb_y : Int) * c.mbSize), m⟩ : MotionVector16_t), ht0, by omega, ⟨rfl, rfl, rfl, rfl, rfl, rfl, rfl, rfl, rfl, rfl, ?_, ?_⟩, ?_, ?_⟩
    · simp only [MvTables.get_set _ 0 1 _ (by decide)]; rfl
    · simp only [MvTables.get_set _ 0 2 _ (by decide)]; rfl
    · simp only [MvTables.get_set _ 0 0 _ (by decide), if_true]
    · simp only [VectorInRange, wrap16_small _ _ hdx, wrap16_small _ _ hdy, abs_le]
      omega

/-- A state of the block loop is a successfully initialised context. -/
theorem rangeRun_ready {c0 c : MotionEstContext} {k : Nat} (h : RangeRun c0 k c)
    (hready : EpzsReady c0) : EpzsReady c := by
  obtain ⟨hfr, t, ht, hl, _⟩ := h
  obtain ⟨hgeo, _, hr1, hr2⟩ := hready
  have hg := loopFrame_geometry hfr hgeo
  obtain ⟨_, _, _, _, _, _, f7, _, _, _, f11, f12⟩ := hfr
  exact ⟨hg, by rw [ht, f7]; simp [hl], by rw [f11, f7]; exact hr1, by rw [f12, f7]; exact hr2⟩

/-- Column and row of the macroblock behind an entry of the vector table. -/
theorem block_of_index (bw x y : Int) (hx0 : 0 ≤ x) (hx1 : x < bw) :
    (x + y * bw) % bw = x ∧ (x + y * bw) / bw = y := by
  have hbw : bw ≠ 0 := by omega
  constructor
  · rw [Int.add_mul_emod_self]
    exact Int.emod_eq_of_lt hx0 hx1
  · rw [Int.add_mul_ediv_right _ _ hbw, Int.ediv_eq_zero_of_lt hx0 hx1, zero_add]

/-- One macroblock of `motionEstEPZS` keeps the vectors written so far within
the range of their macroblocks. -/
theorem epzsBlock_range_step (c0 c c' : MotionEstContext) (cur ref : List Nat) (x y : Nat)
    (hready : EpzsReady c0) (hcur : c0.data_cur = some cur) (href : c0.data_ref = some ref)
    (hlenc : c0.width * c0.height ≤ cur.length) (hlenr : c0.width * c0.height ≤ ref.length)
    (hp0 : 0 ≤ c0.search_param)
    (hpw : c0.width + c0.search_param ≤ INT_MAX) (hph : c0.height + c0.search_param ≤ INT_MAX)
    (hx : (x : Int) < c0.b_width) (hy : (y : Int) < c0.b_height)
    (hinv : RangeRun c0 ((x : Int) + y * c0.b_width).toNat c) (h : epzsBlock c x y = .ok c') :
    RangeRun c0 (((x : Int) + y * c0.b_width).toNat + 1) c' := by
  have hr1 := rangeRun_ready hinv hready
  obtain ⟨hfr, t, ht, hl, hm⟩ := hinv
  have hfr' := hfr
  obtain ⟨f1, f2, f3, f4, f5, f6, f7, f8, f9, f10, f11, f12⟩ := hfr'
  obtain ⟨t0, v, ht0, hi1, hfr2, ht', hv⟩ := epzsBlock_in_range c c' cur ref x y hr1
    (by rw [f1, hcur]) (by rw [f2, href]) (by rw [f3, f4]; exact hlenc)
    (by rw [f3, f4]; exact hlenr) (by rw [f10]; exact hp0) (by rw [f3, f10]; exact hpw)
    (by rw [f4, f10]; exact hph) (by rw [f5]; exact hx) (by rw [f6]; exact hy) h
  rw [f5] at hi1 ht'
  rw [ht] at ht0
  injection ht0 with ht0
  subst ht0
  have hv0 : VectorInRange c0 x y v := by
    unfold VectorInRange at hv ⊢
    rw [f10, f8, f5, f6] at hv
    exact hv
  have hy0 : (0 : Int) ≤ (y : Int) * c0.b_width :=
    mul_nonneg (Int.natCast_nonneg _) (by omega)
  refine ⟨loopFrame_trans hfr hfr2, _, ht', by simp [hl], ?_⟩
  intro i hi
  by_cases hik : i = ((x : Int) + y * c0.b_width).toNat
  · subst hik
    obtain ⟨e1, e2⟩ := block_of_index c0.b_width x y (Int.natCast_nonneg _) hx
    rw [Int.toNat_of_nonneg (by omega), e1, e2]
    simpa [List.getD, hi1] using hv0
  · have := hm i (by omega)
    simpa [List.getD, List.getElem?_set, Ne.symm hik] using this

/-- The column loop of `motionEstEPZS` keeps the vectors written so far within
the range of their macroblocks. -/
theorem epzsCols_range (c0 : MotionEstContext) (cur ref : List Nat) (y : Nat)
    (hready : EpzsReady c0) (hcur : c0.data_cur = some cur) (href : c0.data_ref = some ref)
    (hlenc : c0.width * c0.height ≤ cur.length) (hlenr : c0.width * c0.height ≤ ref.length)
    (hp0 : 0 ≤ c0.search_param)
    (hpw : c0.width + c0.search_param ≤ INT_MAX) (hph : c0.height + c0.search_param ≤ INT_MAX)
    (hy : (y : Int) < c0.b_height) :
    ∀ n : Nat, (n : Int) ≤ c0.b_width → ∀ c c', RangeRun c0 ((y : Int) * c0.b_width).toNat c →
      epzsCols y n c = .ok c' → RangeRun c0 ((n : Int) + y * c0.b_width).toNat c' := by
  intro n
  induction n with
  | zero =>
    intro _ c c' hinv h
    injection h with h
    subst h
    simpa using hinv
  | succ n ih =>
    intro hn c c' hinv h
    simp only [epzsCols, bind, Except.bind] at h
    split at h
    · exact Except.noConfusion h
    · rename_i c1 hc1
      have h1 := ih (by push_cast at hn; omega) c c1 hinv hc1
      have h2 := epzsBlock_range_step c0 c1 c' cur ref n y hready hcur href hlenc hlenr hp0 hpw
        hph (by push_cast at hn; omega) hy h1 h
      have hb : (0 : Int) ≤ (y : Int) * c0.b_width :=
        mul_nonneg (Int.natCast_nonneg _) (by push_cast at hn; omega)
      have he : (((n + 1 : Nat) : Int) + (y : Int) * c0.b_width).toNat
          = ((n : Int) + (y : Int) * c0.b_width).toNat + 1 := by
        push_cast; omega
      rw [he]
      exact h2

/-- The row loop of `motionEstEPZS` keeps the vectors written so far within the
range of their macroblocks. -/
theorem epzsRows_range (c0 : MotionEstContext) (cur ref : List Nat)
    (hready : EpzsReady c0) (hcur : c0.data_cur = some cur) (href : c0.data_ref = some ref)
    (hlenc : c0.width * c0.height ≤ cur.length) (hlenr : c0.width * c0.height ≤ ref.length)
    (hp0 : 0 ≤ c0.search_param)
    (hpw : c0.width + c0.search_param ≤ INT_MAX) (hph : c0.height + c0.search_param ≤ INT_MAX)
    (hbw : 0 ≤ c0.b_width) :
    ∀ n : Nat, (n : Int) ≤ c0.b_height → ∀ c c', RangeRun c0 0 c →
      epzsRows n c = .ok c' → RangeRun c0 ((n : Int) * c0.b_width).toNat c' := by
  intro n
  induction n with
  | zero =>
    intro _ c c' hinv h
    injection h with h
    subst h
    simpa using hinv
  | succ n ih =>
    intro hn c c' hinv h
    simp only [epzsRows, bind, Except.bind] at h
    split at h
    · exact Except.noConfusion h
    · rename_i c1 hc1
      have h1 := ih (by push_cast at hn; omega) c c1 hinv hc1
      have hbw1 : c1.b_width = c0.b_width := h1.1.2.2.2.2.1
      rw [hbw1] at h
      have h2 := epzsCols_range c0 cur ref n hready hcur href hlenc hlenr hp0 hpw hph
        (by push_cast at hn; omega) c0.b_width.toNat (by omega) c1 c' h1 h
      have he : (((n + 1 : Nat) : Int) * c0.b_width)
          = ((c0.b_width.toNat : Nat) : Int) + (n : Int) * c0.b_width := by
        rw [Int.toNat_of_nonneg hbw]; push_cast; ring
      rw [he]
      exact h2

/-- Every sample of a window whose origin lies in the search range of a
macroblock lies inside the image. -/
theorem window_in_image (c : MotionEstContext) (x_mb y_mb : Int) (hgeo : BlockGeometry c)
    (q : Int × Int)
    (hq : InRange (epzsRange c x_mb y_mb) q) (i j : Int) (hi0 : 0 ≤ i) (hi1 : i < c.mbSize)
    (hj0 : 0 ≤ j) (hj1 : j < c.mbSize) :
    0 ≤ q.1 + i ∧ q.1 + i < c.width ∧ 0 ≤ q.2 + j ∧ q.2 + j < c.height
      ∧ 0 ≤ (q.2 + j) * c.width + (q.1 + i)
      ∧ (q.2 + j) * c.width + (q.1 + i) < c.width * c.height := by
  obtain ⟨hl0', hl31, hmb, hw0, hwmax, hh0, hhmax, hbwe, hbhe, hcount⟩ := hgeo
  have hmbpos : (0 : Int) < c.mbSize := by rw [hmb]; positivity
  have hWX : (c.b_width - 1) * c.mbSize + c.mbSize ≤ c.width := by
    rw [hbwe]; exact last_window_facts c.width c.mbSize hmbpos
  have hWY : (c.b_height - 1) * c.mbSize + c.mbSize ≤ c.height := by
    rw [hbhe]; exact last_window_facts c.height c.mbSize hmbpos
  obtain ⟨q1, q2, q3, q4⟩ := hq
  simp only [epzsRange, max_le_iff, le_min_iff] at q1 q2 q3 q4
  have a1 : 0 ≤ q.1 + i := by omega
  have a2 : q.1 + i < c.width := by omega
  have a3 : 0 ≤ q.2 + j := by omega
  have a4 : q.2 + j < c.height := by omega
  refine ⟨a1, a2, a3, a4, ?_, ?_⟩
  · have := mul_nonneg a3 hw0
    omega
  · have : (q.2 + j + 1) * c.width ≤ c.height * c.width :=
      mul_le_mul_of_nonneg_right (by omega) hw0
    rw [mul_comm c.width c.height]
    have e : (q.2 + j + 1) * c.width = (q.2 + j) * c.width + c.width := by ring
    omega

/-- C38: on a successfully initialised EPZS context whose planes hold the
image, with any vector history and a search radius `search_param ≥ 0`:
whenever `motionEstEPZS` returns, the vector (vx, vy) it wrote for the
macroblock in column `mb_x` of row `mb_y` has |vx| ≤ search_param and
|vy| ≤ search_param, and the window origin (x_mb + vx, y_mb + vy) lies in
[0, (b_width - 1) * mbSize] x [0, (b_height - 1) * mbSize]; the call does
return when the radius is at most 181 (beyond, a squared length may not fit
`mag2`); and at every position of the search range, the only positions at
which the search calls `me_comp_sad`, the call returns (a read outside a plane
is a fault of the model) and every sample of the two windows has its column in
0..width-1, its row in 0..height-1 and its index in 0..width*height-1. -/
theorem motionEstEPZS_vectors_in_range (ctx : MotionEstContext) (cur ref : List Nat)
    (hready : EpzsReady ctx) (hcur : ctx.data_cur = some cur) (href : ctx.data_ref = some ref)
    (hlenc : ctx.width * ctx.height ≤ cur.length) (hlenr : ctx.width * ctx.height ≤ ref.length)
    (hp0 : 0 ≤ ctx.search_param)
    (hpw : ctx.width + ctx.search_param ≤ INT_MAX)
    (hph : ctx.height + ctx.search_param ≤ INT_MAX) :
    (∀ r ctx', motionEstEPZS ctx = .ok (r, ctx') →
        ∃ t, ctx'.mv_table.get 0 = some t ∧ t.length = ctx.b_count.toNat
          ∧ ∀ mb_x mb_y : Nat, (mb_x : Int) < ctx.b_width → (mb_y : Int) < ctx.b_height →
              VectorInRange ctx mb_x mb_y
                (t.getD ((mb_x : Int) + mb_y * ctx.b_width).toNat MotionVector16_t.zero))
      ∧ (ctx.search_param ≤ 181 → ∃ ctx', motionEstEPZS ctx = .ok (true, ctx'))
      ∧ ∀ mb_x mb_y : Nat, (mb_x : Int) < ctx.b_width → (mb_y : Int) < ctx.b_height →
          ∀ q, InRange (epzsRange ctx ((mb_x : Int) * ctx.mbSize) ((mb_y : Int) * ctx.mbSize)) q →
            (∃ v, me_comp_sad ctx ((mb_x : Int) * ctx.mbSize) ((mb_y : Int) * ctx.mbSize) q.1 q.2
                = .ok v)
              ∧ ∀ i j : Int, 0 ≤ i → i < ctx.mbSize → 0 ≤ j → j < ctx.mbSize →
                  (0 ≤ q.1 + i ∧ q.1 + i < ctx.width ∧ 0 ≤ q.2 + j ∧ q.2 + j < ctx.height
                    ∧ 0 ≤ (q.2 + j) * ctx.width + (q.1 + i)
                    ∧ (q.2 + j) * ctx.width + (q.1 + i) < ctx.width * ctx.height)
                  ∧ (0 ≤ (mb_x : Int) * ctx.mbSize + i ∧ (mb_x : Int) * ctx.mbSize + i < ctx.width
                    ∧ 0 ≤ (mb_y : Int) * ctx.mbSize + j
                    ∧ (mb_y : Int) * ctx.mbSize + j < ctx.height
                    ∧ 0 ≤ ((mb_y : Int) * ctx.mbSize + j) * ctx.width
                        + ((mb_x : Int) * ctx.mbSize + i)
                    ∧ ((mb_y : Int) * ctx.mbSize + j) * ctx.width
                        + ((mb_x : Int) * ctx.mbSize + i) < ctx.width * ctx.height) := by
  refine ⟨fun r ctx' h => ?_, fun hp1 => motionEstEPZS_returns ctx cur ref hready hcur href hlenc
    hlenr hp0 hp1 hpw hph, fun mb_x mb_y hx hy q hq => ?_⟩
  · have hready' := hready
    obtain ⟨hgeo, hr0, hr1, hr2⟩ := hready'
    obtain ⟨t0, ht0, hl0⟩ : ∃ t, ctx.mv_table.get 0 = some t ∧ t.length = ctx.b_count.toNat := by
      cases h : ctx.mv_table.get 0 with
      | none => rw [h] at hr0; simp at hr0
      | some t => rw [h] at hr0; exact ⟨t, rfl, by simpa using hr0⟩
    obtain ⟨t1, ht1, hl1⟩ : ∃ t, ctx.mv_table.get 1 = some t ∧ t.length = ctx.b_count.toNat := by
      cases h : ctx.mv_table.get 1 with
      | none => rw [h] at hr1; simp at hr1
      | some t => rw [h] at hr1; exact ⟨t, rfl, by simpa using hr1⟩
    obtain ⟨t2, ht2, hl2⟩ : ∃ t, ctx.mv_table.get 2 = some t ∧ t.length = ctx.b_count.toNat := by
      cases h : ctx.mv_table.get 2 with
      | none => rw [h] at hr2; simp at hr2
      | some t => rw [h] at hr2; exact ⟨t, rfl, by simpa using hr2⟩
    have hgeo' := hgeo
    obtain ⟨hl0', hl31, hmb, hw0, hwmax, hh0, hhmax, hbw, hbh, hcount⟩ := hgeo'
    have hmbpos : (0 : Int) < ctx.mbSize := by rw [hmb]; positivity
    have hbw0 : 0 ≤ ctx.b_width := by rw [hbw]; exact Int.ediv_nonneg hw0 (le_of_lt hmbpos)
    have hbh0 : 0 ≤ ctx.b_height := by rw [hbh]; exact Int.ediv_nonneg hh0 (le_of_lt hmbpos)
    have hcnt0 : 0 ≤ ctx.b_count := by rw [hcount]; exact mul_nonneg hbw0 hbh0
    have hstart : RangeRun
        { ctx with max := 0, mv_table := ((ctx.mv_table.set 2 (some t1)).set 1 (some t0)) } 0
        { ctx with max := 0, mv_table := ((ctx.mv_table.set 2 (some t1)).set 1 (some t0)) } := by
      refine ⟨loopFrame_refl _, t0, ?_, hl0, fun i hi => absurd hi (Nat.not_lt_zero i)⟩
      simp only [MvTables.get_set _ 1 0 _ (by decide), MvTables.get_set _ 2 0 _ (by decide)]
      simpa using ht0
    unfold motionEstEPZS at h
    simp only [ht0, ht1, ht2, bind, Except.bind, pure, Except.pure,
      memcpyVectors_full t2 t1 ctx.b_count hcnt0 hl2 hl1,
      MvTables.get_set _ 2 1 _ (by decide), MvTables.get_set _ 2 0 _ (by decide)] at h
    simp only [show ((1 : Nat) = 2) = False from by decide, show ((0 : Nat) = 2) = False from by decide,
      if_false, ht0, ht1, memcpyVectors_full t1 t0 ctx.b_count hcnt0 hl1 hl0] at h
    split at h
    · exact Except.noConfusion h
    · rename_i c1 hc1
      injection h with h
      injection h with _ h
      subst h
      obtain ⟨_, t, ht, hlt, hm⟩ := epzsRows_range
        { ctx with max := 0, mv_table := ((ctx.mv_table.set 2 (some t1)).set 1 (some t0)) } cur ref
        ⟨hgeo, by
            simp only [MvTables.get_set _ 1 0 _ (by decide), MvTables.get_set _ 2 0 _ (by decide)]
            simpa using hr0,
          by simp [MvTables.get_set _ 1 1 _ (by decide), hl0],
          by simp [MvTables.get_set _ 1 2 _ (by decide), MvTables.get_set _ 2 2 _ (by decide), hl1]⟩
        hcur href hlenc hlenr hp0 hpw hph hbw0 ctx.b_height.toNat (by simp only []; omega) _ _
        hstart hc1
      simp only [] at hm hlt
      refine ⟨t, ht, hlt, fun mb_x mb_y hx hy => ?_⟩
      obtain ⟨hB0, hB1, _, _⟩ := block_index_facts ctx.b_width ctx.b_height mb_x mb_y
        (Int.natCast_nonneg _) hx (Int.natCast_nonneg _) hy
      obtain ⟨e1, e2⟩ := block_of_index ctx.b_width mb_x mb_y (Int.natCast_nonneg _) hx
      have hi : ((mb_x : Int) + mb_y * ctx.b_width).toNat
          < (((ctx.b_height.toNat : Nat) : Int) * ctx.b_width).toNat := by
        rw [Int.toNat_of_nonneg hbh0, mul_comm ctx.b_height ctx.b_width]
        omega
      have := hm _ hi
      rw [Int.toNat_of_nonneg (by omega), e1, e2] at this
      exact this
  · obtain ⟨_, _, _, horigin, hsad⟩ := epzsRange_facts ctx cur ref mb_x mb_y hready hcur href
      hlenc hlenr hp0 hpw hph hx hy
    refine ⟨hsad ctx rfl rfl rfl rfl q hq, fun i j hi0 hi1 hj0 hj1 => ⟨?_, ?_⟩⟩
    · exact window_in_image ctx _ _ hready.1 q hq i j hi0 hi1 hj0 hj1
    · exact window_in_image ctx _ _ hready.1 _ horigin i j hi0 hi1 hj0 hj1

/-! ## Context initialisation: a change of method -/

/-- The allocation of one table leaves the other tables alone. -/
theorem set_zero_others (t : MvTables) (p : Option (List MotionVector16_t)) :
    (t.set 0 p).get 1 = t.get 1 ∧ (t.set 0 p).get 2 = t.get 2 :=
  ⟨rfl, rfl⟩

/-- The geometry step leaves the vector tables alone. -/
theorem blockGeometry_tables (ctx g : MotionEstContext) (h : blockGeometry ctx = .ok g) :
    g.mv_table = ctx.mv_table := by
  obtain ⟨m, _, _, _, _, _, _, _, hg⟩ := blockGeometry_inv ctx g h
  rw [hg]

/-- C37 (as the code behaves): `init_context` on a context marked allocated
whose `method` is now ARPS or an optical flow releases through `uninit` the
table of that method only: whenever the call returns, `mv_table[1]` and
`mv_table[2]` are what they were before the call, so that the generations 1 and
2 of a context that was initialised with EPZS stay allocated. -/
theorem init_context_keeps_old_generations (allocOk : Nat → Bool) (ctx ctx' : MotionEstContext)
    (r a1 : Bool)
    (hmeth : ctx.method = LK_OPTICAL_FLOW_8BIT ∨ ctx.method = LK_OPTICAL_FLOW
      ∨ ctx.method = BLOCK_MATCHING_ARPS)
    (h : init_context allocOk true ctx = .ok (r, a1, ctx')) :
    ctx'.mv_table.get 1 = ctx.mv_table.get 1 ∧ ctx'.mv_table.get 2 = ctx.mv_table.get 2 := by
  have hu := (uninit_tables ctx).1 hmeth
  unfold init_context at h
  simp only [if_true, hu, bind, Except.bind, pure, Except.pure] at h
  by_cases hlk : ctx.method = LK_OPTICAL_FLOW_8BIT ∨ ctx.method = LK_OPTICAL_FLOW
  · simp only [hlk, if_true] at h
    split at h
    · cases h
    · split at h <;> (cases h; exact ⟨rfl, rfl⟩)
  · have harps : ctx.method = BLOCK_MATCHING_ARPS := by
      rcases hmeth with h1 | h1 | h1
      · exact absurd (Or.inl h1) hlk
      · exact absurd (Or.inr h1) hlk
      · exact h1
    simp only [harps, show ¬ (BLOCK_MATCHING_ARPS = LK_OPTICAL_FLOW_8BIT
      ∨ BLOCK_MATCHING_ARPS = LK_OPTICAL_FLOW) from by decide, if_false, if_true] at h
    split at h
    · cases h
    · rename_i g hg
      have ht := blockGeometry_tables _ _ hg
      split at h <;> (cases h; simp [set_zero_others, ht])

/-! ## motionDetect.cpp: `bmp2gray` -/

/-- The inner loop of `bmp2gray` writes one sample per column, the luma of the
pixel `c * pixelSpan` bytes after the pointer it starts with. -/
theorem bmp2grayRow_sample (bmpBuf : Nat → Nat) (pixelSpan : Nat) :
    ∀ (n p c : Nat), c < n →
      (bmp2grayRow bmpBuf pixelSpan n p).get? c = some (lumaAt bmpBuf (p + c * pixelSpan)) := by
  intro n
  induction n with
  | zero => intro p c hc; exact absurd hc (Nat.not_lt_zero c)
  | succ n ih =>
    intro p c hc
    cases c with
    | zero => simp [bmp2grayRow, lumaAt]
    | succ c =>
      simp only [bmp2grayRow, List.get?_cons_succ]
      rw [ih (p + pixelSpan) c (by omega)]
      congr 2
      ring

/-- The inner loop of `bmp2gray` writes as many samples as there are columns. -/
theorem bmp2grayRow_length (bmpBuf : Nat → Nat) (pixelSpan : Nat) :
    ∀ (n p : Nat), (bmp2grayRow bmpBuf pixelSpan n p).length = n := by
  intro n
  induction n with
  | zero => intro p; rfl
  | succ n ih => intro p; simp [bmp2grayRow, ih]

/-- The outer loop of `bmp2gray`: the sample of output row `r`, column `c` is
the luma of the pixel `c * pixelSpan + r * (numCols * pixelSpan + bitmapWidth *
pixelSpan)` bytes after the pointer the loop starts with. -/
theorem bmp2grayRows_sample (bmpBuf : Nat → Nat) (numCols pixelSpan bitmapWidth : Nat) :
    ∀ (n p r c : Nat), r < n → c < numCols →
      (bmp2grayRows bmpBuf numCols pixelSpan bitmapWidth n p).get? (r * numCols + c)
        = some (lumaAt bmpBuf
            (p + (c * pixelSpan + r * (numCols * pixelSpan + bitmapWidth * pixelSpan)))) := by
  intro n
  induction n with
  | zero => intro p r c hr; exact absurd hr (Nat.not_lt_zero r)
  | succ n ih =>
    intro p r c hr hc
    have hlen := bmp2grayRow_length bmpBuf pixelSpan numCols p
    cases r with
    | zero =>
      simp only [bmp2grayRows, Nat.zero_mul, Nat.zero_add, Nat.add_zero]
      rw [List.get?_eq_getElem?, List.getElem?_append_left (by rw [hlen]; exact hc),
        ← List.get?_eq_getElem?]
      exact bmp2grayRow_sample bmpBuf pixelSpan numCols p c hc
    | succ r =>
      simp only [bmp2grayRows]
      rw [List.get?_eq_getElem?, List.getElem?_append_right (by rw [hlen]; nlinarith),
        ← List.get?_eq_getElem?]
      have e : (r + 1) * numCols + c - (bmp2grayRow bmpBuf pixelSpan numCols p).length
          = r * numCols + c := by
        rw [hlen]
        have : (r + 1) * numCols = r * numCols + numCols := by ring
        omega
      rw [e, ih _ r c (by omega) hc]
      congr 2
      ring

/-- C36 (as the code behaves): `bmp2gray` writes, for every output row
`r < numRows` and column `c < numCols`, the luma of the pixel at byte offset
`c * pixelSpan + r * (numCols * pixelSpan + bitmapWidth * pixelSpan)`: the
pointer has moved over `numCols * pixelSpan` bytes in the inner loop when
`bitmapWidth * pixelSpan` is added to it. With stride `N` (`pixelSpan = 3 N`,
`bitmapWidth = numCols * N` pixels) that is the pixel at row `r * (N + 1)`,
column `c * N` of the bitmap, not row `r * N`. -/
theorem bmp2gray_row_stride (bmpBuf : Nat → Nat) (numCols numRows pixelSpan bitmapWidth r c : Nat)
    (hr : r < numRows) (hc : c < numCols) :
    (bmp2gray bmpBuf numCols numRows pixelSpan bitmapWidth).get? (r * numCols + c)
        = some (lumaAt bmpBuf
            (c * pixelSpan + r * (numCols * pixelSpan + bitmapWidth * pixelSpan)))
      ∧ ∀ N, pixelSpan = 3 * N → bitmapWidth = numCols * N →
          (bmp2gray bmpBuf numCols numRows pixelSpan bitmapWidth).get? (r * numCols + c)
            = some (lumaAt bmpBuf (3 * (r * (N + 1) * bitmapWidth + c * N))) := by
  have h := bmp2grayRows_sample bmpBuf numCols pixelSpan bitmapWidth numRows 0 r c hr hc
  rw [Nat.zero_add] at h
  refine ⟨h, fun N h1 h2 => ?_⟩
  unfold bmp2gray
  rw [h]
  congr 2
  subst h1 h2
  ring

/-! ## ARPS: the calls that can only fail on undefined behaviour -/

/-- A value is returned. -/
theorem onlyUB_ok {α : Type} (a : α) : OnlyUB (Except.ok a : Except Fault α) := by
  intro e h; cases h

/-- Undefined behaviour is met. -/
theorem onlyUB_ub {α : Type} : OnlyUB (Except.error Fault.undefinedBehaviour : Except Fault α) := by
  intro e h; cases h; rfl

/-- Sequencing keeps the property. -/
theorem onlyUB_bind {α β : Type} (x : Except Fault α) (f : α → Except Fault β)
    (hx : OnlyUB x) (hf : ∀ a, OnlyUB (f a)) : OnlyUB (x >>= f) := by
  intro e h
  cases x with
  | error e' =>
    simp only [bind, Except.bind] at h
    cases h
    exact hx _ rfl
  | ok a => exact hf a e h

/-- A conditional keeps the property. -/
theorem onlyUB_ite {α : Type} (c : Prop) [Decidable c] (a b : Except Fault α)
    (ha : OnlyUB a) (hb : OnlyUB b) : OnlyUB (if c then a else b) := by
  split
  · exact ha
  · exact hb

/-- An `int` operation returns or overflows. -/
theorem onlyUB_checkedInt (x : Int) : OnlyUB (checkedInt x) := by
  unfold checkedInt
  exact onlyUB_ite _ _ _ (onlyUB_ok _) onlyUB_ub

/-- A read returns or is outside the plane. -/
theorem onlyUB_readPlane (buf : Option (List Nat)) (i : Int) : OnlyUB (readPlane buf i) := by
  unfold readPlane
  cases buf with
  | none => exact onlyUB_ub
  | some l =>
    simp only []
    split
    · split
      · exact onlyUB_ok _
      · exact onlyUB_ub
    · exact onlyUB_ub

/-- An access to `checkArray` is inside the array or undefined. -/
theorem onlyUB_checkIndex (p a b : Int) : OnlyUB (checkIndex p a b) := by
  unfold checkIndex
  exact onlyUB_ite _ _ _ (onlyUB_ok _) onlyUB_ub

/-- The operator `||` keeps the property. -/
theorem onlyUB_shortOr (a : Bool) (b : Except Fault Bool) (hb : OnlyUB b) :
    OnlyUB (shortOr a b) := by
  unfold shortOr
  exact onlyUB_ite _ _ _ (onlyUB_ok _) hb

/-- A `for` loop keeps the property of its body. -/
theorem onlyUB_forK {σ : Type} (f : Nat → σ → Except Fault σ) (hf : ∀ k s, OnlyUB (f k s)) :
    ∀ (n : Nat) (s : σ), OnlyUB (forK f n s) := by
  intro n
  induction n with
  | zero => intro s; exact onlyUB_ok _
  | succ n ih =>
    intro s
    unfold forK
    exact onlyUB_bind _ _ (ih s) (fun a => hf n a)

/-- The inner loop of `costFuncSAD` returns or meets undefined behaviour. -/
theorem onlyUB_sadCols (currentImg refImg : Option (List Nat)) (iw oc orf : Int) :
    ∀ (n : Nat) (err : Int), OnlyUB (sadCols currentImg refImg iw oc orf n err) := by
  intro n
  induction n with
  | zero => intro err; exact onlyUB_ok _
  | succ n ih =>
    intro err
    unfold sadCols
    refine onlyUB_bind _ _ (ih err) (fun a => ?_)
    refine onlyUB_bind _ _ (onlyUB_checkedInt _) (fun a => ?_)
    refine onlyUB_bind _ _ (onlyUB_checkedInt _) (fun a => ?_)
    refine onlyUB_bind _ _ (onlyUB_readPlane _ _) (fun a => ?_)
    refine onlyUB_bind _ _ (onlyUB_checkedInt _) (fun a => ?_)
    refine onlyUB_bind _ _ (onlyUB_readPlane _ _) (fun a => ?_)
    exact onlyUB_checkedInt _

/-- The outer loop of `costFuncSAD` returns or meets undefined behaviour. -/
theorem onlyUB_sadLines (currentImg refImg : Option (List Nat)) (oc orf : Int) (mbSize w : Nat) :
    ∀ (n : Nat) (err : Int), OnlyUB (sadLines currentImg refImg oc orf mbSize w n err) := by
  intro n
  induction n with
  | zero => intro err; exact onlyUB_ok _
  | succ n ih =>
    intro err
    unfold sadLines
    exact onlyUB_bind _ _ (ih err) (fun a => onlyUB_sadCols _ _ _ _ _ _ _)

/-- Function `costFuncSAD` returns or meets undefined behaviour. -/
theorem onlyUB_costFuncSAD (currentImg refImg : Option (List Nat)) (oc orf : Int)
    (mbSize w : Nat) : OnlyUB (costFuncSAD currentImg refImg oc orf mbSize w) := by
  unfold costFuncSAD
  exact onlyUB_ite _ _ _ onlyUB_ub (onlyUB_sadLines _ _ _ _ _ _ _ _)

/-! ## ARPS: the unit-step refinement loop -/

/-- A sequence that returns: its first part returned, and the rest returned on
its value. -/
theorem bind_ok_inv {α β : Type} {x : Except Fault α} {f : α → Except Fault β} {b : β}
    (h : (x >>= f) = .ok b) : ∃ a, x = .ok a ∧ f a = .ok b := by
  cases x with
  | error e => simp only [bind, Except.bind] at h; cases h
  | ok a => exact ⟨a, rfl, h⟩

/-- An `int` operation that returns has returned the exact value. -/
theorem checkedInt_inv {x v : Int} (h : checkedInt x = .ok v) : v = x := by
  unfold checkedInt at h
  split at h
  · cases h; rfl
  · cases h

/-- One pass of the body of the inner SDSP loop returns or meets undefined
behaviour. -/
theorem onlyUB_sdspPoint (imgP imgI : Option (List Nat)) (w h mbSize : Nat) (p off i j x y : Int)
    (k : Nat) (sb : ArpsState × ArpsBest) :
    OnlyUB (sdspPoint imgP imgI w h mbSize p off i j x y k sb) := by
  unfold sdspPoint
  simp only []
  refine onlyUB_bind _ _ (onlyUB_checkedInt _) (fun rv => ?_)
  refine onlyUB_bind _ _ (onlyUB_checkedInt _) (fun rh => ?_)
  refine onlyUB_ite _ _ _ (onlyUB_ok _) ?_
  refine onlyUB_ite _ _ _ (onlyUB_ok _) ?_
  refine onlyUB_bind _ _ (onlyUB_checkedInt _) (fun t1 => ?_)
  refine onlyUB_bind _ _ ?_ (fun outside => ?_)
  · refine onlyUB_shortOr _ _ ?_
    refine onlyUB_bind _ _ (onlyUB_checkedInt _) (fun t2 => ?_)
    refine onlyUB_shortOr _ _ ?_
    refine onlyUB_bind _ _ (onlyUB_checkedInt _) (fun t3 => ?_)
    refine onlyUB_shortOr _ _ ?_
    refine onlyUB_bind _ _ (onlyUB_checkedInt _) (fun t4 => ?_)
    exact onlyUB_ok _
  · refine onlyUB_ite _ _ _ (onlyUB_ok _) ?_
    refine onlyUB_bind _ _ (onlyUB_checkedInt _) (fun a1 => ?_)
    refine onlyUB_bind _ _ (onlyUB_checkedInt _) (fun a2 => ?_)
    refine onlyUB_bind _ _ (onlyUB_checkedInt _) (fun a3 => ?_)
    refine onlyUB_bind _ _ (onlyUB_checkedInt _) (fun a => ?_)
    refine onlyUB_bind _ _ (onlyUB_checkedInt _) (fun b1 => ?_)
    refine onlyUB_bind _ _ (onlyUB_checkedInt _) (fun b2 => ?_)
    refine onlyUB_bind _ _ (onlyUB_checkedInt _) (fun b3 => ?_)
    refine onlyUB_bind _ _ (onlyUB_checkedInt _) (fun b => ?_)
    refine onlyUB_bind _ _ (onlyUB_checkIndex _ _ _) (fun _ => ?_)
    refine onlyUB_ite _ _ _ (onlyUB_ite _ _ _ (onlyUB_ok _) (onlyUB_ok _)) ?_
    refine onlyUB_bind _ _ (onlyUB_costFuncSAD _ _ _ _ _ _) (fun c => ?_)
    exact onlyUB_ite _ _ _ (onlyUB_ok _) (onlyUB_ok _)

/-- What one pass of the body of the inner SDSP loop does when it returns, for
the neighbour `k` of the centre (`x`, `y`): nothing (the neighbour is outside
the image or the search range, is the centre, or was visited and its slot of
`costs` is not below `cost`); or the neighbour was visited and its slot of
`costs` becomes the minimum; or the SAD of the neighbour is computed, stored in
its slot of `costs`, and becomes the minimum when it is below `cost`. -/
theorem sdspPoint_spec (imgP imgI : Option (List Nat)) (w h mbSize : Nat) (p off i j x y : Int)
    (k : Nat) (s s' : ArpsState) (b b' : ArpsBest)
    (hh : sdspPoint imgP imgI w h mbSize p off i j x y k (s, b) = .ok (s', b')) :
    (s' = s ∧ b' = b)
      ∨ (k ≠ 2 ∧ s' = s ∧ b' = { cost := s.costs.getD k 0, point := k }
          ∧ s.costs.getD k 0 < b.cost)
      ∨ (k ≠ 2 ∧ ∃ c, costFuncSAD imgP imgI off
              (wrap32 ((y + (SDSP.getD k (0, 0)).2) * (w : Int) + (x + (SDSP.getD k (0, 0)).1)))
              mbSize w = .ok c
          ∧ s'.costs = s.costs.set k (u32 c)
          ∧ ((b' = b ∧ b.cost ≤ u32 c) ∨ (b' = { cost := u32 c, point := k } ∧ u32 c < b.cost))) := by
  unfold sdspPoint at hh
  simp only [] at hh
  obtain ⟨rv, h1, hh⟩ := bind_ok_inv hh
  obtain ⟨rh, h2, hh⟩ := bind_ok_inv hh
  have e1 := checkedInt_inv h1
  have e2 := checkedInt_inv h2
  subst e1 e2
  split at hh
  · cases hh; exact Or.inl ⟨rfl, rfl⟩
  split at hh
  · cases hh; exact Or.inl ⟨rfl, rfl⟩
  rename_i hk
  obtain ⟨t1, _, hh⟩ := bind_ok_inv hh
  obtain ⟨outside, _, hh⟩ := bind_ok_inv hh
  split at hh
  · cases hh; exact Or.inl ⟨rfl, rfl⟩
  obtain ⟨a1, _, hh⟩ := bind_ok_inv hh
  obtain ⟨a2, _, hh⟩ := bind_ok_inv hh
  obtain ⟨a3, _, hh⟩ := bind_ok_inv hh
  obtain ⟨a, _, hh⟩ := bind_ok_inv hh
  obtain ⟨b1, _, hh⟩ := bind_ok_inv hh
  obtain ⟨b2, _, hh⟩ := bind_ok_inv hh
  obtain ⟨b3, _, hh⟩ := bind_ok_inv hh
  obtain ⟨bb, _, hh⟩ := bind_ok_inv hh
  obtain ⟨_, _, hh⟩ := bind_ok_inv hh
  split at hh
  · split at hh
    · rename_i hlt
      cases hh
      exact Or.inr (Or.inl ⟨hk, rfl, rfl, hlt⟩)
    · cases hh; exact Or.inl ⟨rfl, rfl⟩
  · obtain ⟨c, hc, hh⟩ := bind_ok_inv hh
    split at hh
    · rename_i hlt
      cases hh
      exact Or.inr (Or.inr ⟨hk, c, hc, rfl, Or.inr ⟨rfl, hlt⟩⟩)
    · rename_i hlt
      cases hh
      exact Or.inr (Or.inr ⟨hk, c, hc, rfl, Or.inl ⟨rfl, Nat.le_of_not_lt hlt⟩⟩)

/-- The slot written by `costs[k] = v`. -/
theorem getD_set_self (l : List Nat) (k v : Nat) (hk : k < l.length) :
    (l.set k v).getD k 0 = v := by
  simp [List.getD, List.getElem?_set, hk]

/-- The slots left alone by `costs[k] = v`. -/
theorem getD_set_ne (l : List Nat) (k k' v : Nat) (h : k ≠ k') :
    (l.set k v).getD k' 0 = l.getD k' 0 := by
  simp [List.getD, List.getElem?_set, h]

/-- The array `costs` after `memset` and `costs[2] = cost`. -/
theorem resetCosts_facts (c0 : Nat) :
    (resetCosts c0).length = 6 ∧ (resetCosts c0).getD 2 0 = c0
      ∧ ∀ k, k < 6 → k ≠ 2 → (resetCosts c0).getD k 0 = UINT32_MAX := by
  refine ⟨by simp [resetCosts], by simp [resetCosts, List.getD], fun k hk hk2 => ?_⟩
  unfold resetCosts
  rw [getD_set_ne _ _ _ _ (Ne.symm hk2)]
  interval_cases k <;> rfl

/-- One pass of the `while` loop over the neighbours 0 .. n-1 of the centre
(`x`, `y`), entered with `costs` reset around the centre cost `c0`: the slot of
the centre keeps `c0`, the slots of the neighbours not reached keep the reset
value, the slot of a neighbour that was reached holds the reset value or the
SAD computed for it and is not below `cost`, and `point` is 2 with
`cost = c0` or a neighbour with `cost < c0`. -/
theorem sdspPass_spec (imgP imgI : Option (List Nat)) (w h mbSize : Nat) (p off i j x y : Int)
    (c0 : Nat) (hc0 : c0 ≤ UINT32_MAX) (s : ArpsState) (hs : s.costs = resetCosts c0) :
    ∀ (n : Nat), n ≤ 5 → ∀ (s1 : ArpsState) (b1 : ArpsBest),
      forK (sdspPoint imgP imgI w h mbSize p off i j x y) n (s, { cost := c0, point := 2 })
          = .ok (s1, b1) →
      s1.costs.length = 6 ∧ s1.costs.getD 2 0 = c0
        ∧ (∀ k, n ≤ k → k < 6 → k ≠ 2 → s1.costs.getD k 0 = UINT32_MAX)
        ∧ (∀ k, k < n → k ≠ 2 → b1.cost ≤ s1.costs.getD k 0
            ∧ (s1.costs.getD k 0 = UINT32_MAX
              ∨ ∃ c, costFuncSAD imgP imgI off
                    (wrap32 ((y + (SDSP.getD k (0, 0)).2) * (w : Int)
                      + (x + (SDSP.getD k (0, 0)).1))) mbSize w = .ok c
                  ∧ s1.costs.getD k 0 = u32 c))
        ∧ ((b1.point = 2 ∧ b1.cost = c0) ∨ (b1.point ≠ 2 ∧ b1.cost < c0)) := by
  obtain ⟨r1, r2, r3⟩ := resetCosts_facts c0
  intro n
  induction n with
  | zero =>
    intro _ s1 b1 hrun
    simp only [forK, pure, Except.pure] at hrun
    cases hrun
    rw [hs]
    exact ⟨r1, r2, fun k _ hk hk2 => r3 k hk hk2, fun k hk => absurd hk (Nat.not_lt_zero k),
      Or.inl ⟨rfl, rfl⟩⟩
  | succ n ih =>
    intro hn s1 b1 hrun
    rw [forK] at hrun
    obtain ⟨⟨s0, b0⟩, hprev, hstep⟩ := bind_ok_inv hrun
    obtain ⟨i1, i2, i3, i4, i5⟩ := ih (by omega) s0 b0 hprev
    have hb0 : b0.cost ≤ c0 := by
      rcases i5 with ⟨_, e⟩ | ⟨_, e⟩ <;> omega
    rcases sdspPoint_spec imgP imgI w h mbSize p off i j x y n s0 s1 b0 b1 hstep with
      ⟨e1, e2⟩ | ⟨hk, e1, e2, hlt⟩ | ⟨hk, c, hc, e1, hb⟩
    · subst e1 e2
      refine ⟨i1, i2, fun k hk1 hk2 hk3 => i3 k (by omega) hk2 hk3, fun k hk1 hk2 => ?_, i5⟩
      by_cases hkn : k = n
      · subst hkn
        have := i3 k (le_refl _) (by omega) hk2
        rw [this]
        exact ⟨by omega, Or.inl rfl⟩
      · exact i4 k (by omega) hk2
    · subst e1 e2
      have hn6 := i3 n (le_refl _) (by omega) hk
      refine ⟨i1, i2, fun k hk1 hk2 hk3 => i3 k (by omega) hk2 hk3, fun k hk1 hk2 => ?_,
        Or.inr ⟨hk, by simp only []; omega⟩⟩
      by_cases hkn : k = n
      · subst hkn
        exact ⟨le_refl _, Or.inl hn6⟩
      · obtain ⟨q1, q2⟩ := i4 k (by omega) hk2
        exact ⟨by simp only []; omega, q2⟩
    · have hlen : s1.costs.length = 6 := by rw [e1]; simpa using i1
      have hb1 : b1.cost ≤ b0.cost ∧ b1.cost ≤ u32 c := by
        rcases hb with ⟨e, h1⟩ | ⟨e, h1⟩
        · rw [e]; exact ⟨le_refl _, h1⟩
        · rw [e]; exact ⟨le_of_lt h1, le_refl _⟩
      refine ⟨hlen, by rw [e1, getD_set_ne _ _ _ _ hk]; exact i2, fun k hk1 hk2 hk3 => ?_,
        fun k hk1 hk2 => ?_, ?_⟩
      · rw [e1, getD_set_ne _ _ _ _ (by omega)]
        exact i3 k (by omega) hk2 hk3
      · by_cases hkn : k = n
        · subst hkn
          rw [e1, getD_set_self _ _ _ (by omega)]
          exact ⟨hb1.2, Or.inr ⟨c, hc, rfl⟩⟩
        · rw [e1, getD_set_ne _ _ _ _ (Ne.symm hkn)]
          obtain ⟨q1, q2⟩ := i4 k (by omega) hk2
          exact ⟨le_trans hb1.1 q1, q2⟩
      · rcases hb with ⟨e, _⟩ | ⟨e, h1⟩
        · rw [e]; exact i5
        · rw [e]; exact Or.inr ⟨hk, by simp only []; omega⟩

/-- The `while` loop of the unit-step refinement, entered at the centre
(`x`, `y`) with `costs` reset around the centre cost `c0` and run for more than
`c0` passes: it meets undefined behaviour, or it returns at a centre of the
same row `y`, where the slot of each neighbour holds the reset value or the SAD
computed for it in the last pass, and none is below the centre cost. -/
theorem sdspLoop_spec (imgP imgI : Option (List Nat)) (w h mbSize : Nat) (p off i j y : Int) :
    ∀ (fuel : Nat) (x : Int) (s : ArpsState) (c0 : Nat), s.costs = resetCosts c0 →
      c0 ≤ UINT32_MAX → c0 < fuel →
      sdspLoop imgP imgI w h mbSize p off i j fuel (x, y, s) = .error Fault.undefinedBehaviour
        ∨ ∃ x' s', sdspLoop imgP imgI w h mbSize p off i j fuel (x, y, s) = .ok (x', y, s')
          ∧ ∀ k, k < 5 → k ≠ 2 → s'.costs.getD 2 0 ≤ s'.costs.getD k 0
            ∧ (s'.costs.getD k 0 = UINT32_MAX
              ∨ ∃ c, costFuncSAD imgP imgI off
                    (wrap32 ((y + (SDSP.getD k (0, 0)).2) * (w : Int)
                      + (x' + (SDSP.getD k (0, 0)).1))) mbSize w = .ok c
                  ∧ s'.costs.getD k 0 = u32 c) := by
  intro fuel
  induction fuel with
  | zero => intro x s c0 _ _ hf; exact absurd hf (Nat.not_lt_zero _)
  | succ fuel ih =>
    intro x s c0 hs hc0 hf
    have hc2 : s.costs.getD 2 0 = c0 := by rw [hs]; exact (resetCosts_facts c0).2.1
    rw [sdspLoop, hc2]
    cases hrun : forK (sdspPoint imgP imgI w h mbSize p off i j x y) 5
        (s, { cost := c0, point := 2 }) with
    | error e =>
      have := onlyUB_forK _ (fun k sb => onlyUB_sdspPoint imgP imgI w h mbSize p off i j x y k sb)
        5 _ e hrun
      subst this
      exact Or.inl rfl
    | ok r =>
      obtain ⟨s1, b1⟩ := r
      obtain ⟨i1, i2, _, i4, i5⟩ := sdspPass_spec imgP imgI w h mbSize p off i j x y c0 hc0 s hs
        5 (le_refl _) s1 b1 hrun
      simp only [bind, Except.bind]
      rcases i5 with ⟨hp, hcst⟩ | ⟨hp, hcst⟩
      · rw [if_pos hp]
        refine Or.inr ⟨x, s1, rfl, fun k hk hk2 => ?_⟩
        obtain ⟨q1, q2⟩ := i4 k hk hk2
        rw [i2, ← hcst]
        exact ⟨q1, q2⟩
      · rw [if_neg hp]
        cases hx1 : checkedInt (x + (SDSP.getD b1.point (0, 0)).1) with
        | error e =>
          have := onlyUB_checkedInt _ e hx1
          subst this
          exact Or.inl rfl
        | ok x1 =>
          simp only []
          cases hx2 : checkedInt (x1 + (SDSP.getD b1.point (0, 0)).2) with
          | error e =>
            have := onlyUB_checkedInt _ e hx2
            subst this
            exact Or.inl rfl
          | ok x2 =>
            simp only []
            exact ih x2 { s1 with costs := resetCosts b1.cost } b1.cost rfl (by omega) (by omega)

/-- A read of a vector table returns or is undefined. -/
theorem onlyUB_readVector (t : Option (List MotionVector16_t)) (i : Int) :
    OnlyUB (readVector t i) := by
  unfold readVector
  cases t with
  | none => exact onlyUB_ub
  | some l =>
    simp only []
    split
    · split
      · exact onlyUB_ok _
      · exact onlyUB_ub
    · exact onlyUB_ub

/-- A write to a vector table returns or is undefined. -/
theorem onlyUB_writeVector (t : Option (List MotionVector16_t)) (i : Int) (v : MotionVector16_t) :
    OnlyUB (writeVector t i v) := by
  unfold writeVector
  cases t with
  | none => exact onlyUB_ub
  | some l =>
    simp only []
    exact onlyUB_ite _ _ _ (onlyUB_ok _) onlyUB_ub

/-- The conversion of the squared length returns or is undefined. -/
theorem onlyUB_arpsMag2 (vx : Int) : OnlyUB (arpsMag2 vx) := by
  unfold arpsMag2
  exact onlyUB_ite _ _ _ onlyUB_ub (onlyUB_ok _)

/-- One pass of the body of the LDSP loop returns or meets undefined
behaviour. -/
theorem onlyUB_ldspPoint (imgP imgI : Option (List Nat)) (w h mbSize : Nat) (p off x y : Int)
    (k : Nat) (sb : ArpsState × ArpsBest) :
    OnlyUB (ldspPoint imgP imgI w h mbSize p off x y k sb) := by
  unfold ldspPoint
  simp only []
  refine onlyUB_bind _ _ (onlyUB_checkedInt _) (fun rv => ?_)
  refine onlyUB_bind _ _ (onlyUB_checkedInt _) (fun rh => ?_)
  refine onlyUB_ite _ _ _ (onlyUB_ok _) ?_
  refine onlyUB_ite _ _ _ (onlyUB_ok _) ?_
  refine onlyUB_bind _ _ (onlyUB_costFuncSAD _ _ _ _ _ _) (fun c => ?_)
  refine onlyUB_bind _ _ (onlyUB_checkedInt _) (fun a1 => ?_)
  refine onlyUB_bind _ _ (onlyUB_checkedInt _) (fun a => ?_)
  refine onlyUB_bind _ _ (onlyUB_checkedInt _) (fun b1 => ?_)
  refine onlyUB_bind _ _ (onlyUB_checkedInt _) (fun b => ?_)
  refine onlyUB_bind _ _ (onlyUB_checkIndex _ _ _) (fun _ => ?_)
  exact onlyUB_ite _ _ _ (onlyUB_ok _) (onlyUB_ok _)

/-- One pass of the `while` loop over the neighbours 0 .. n-1 leaves `cost` and
`point` as they were or moves `point` to a neighbour with a smaller `cost`. -/
theorem sdspPass_cost (imgP imgI : Option (List Nat)) (w h mbSize : Nat) (p off i j x y : Int) :
    ∀ (n : Nat) (s s1 : ArpsState) (b b1 : ArpsBest),
      forK (sdspPoint imgP imgI w h mbSize p off i j x y) n (s, b) = .ok (s1, b1) →
      b1 = b ∨ (b1.point ≠ 2 ∧ b1.cost < b.cost) := by
  intro n
  induction n with
  | zero =>
    intro s s1 b b1 hrun
    simp only [forK, pure, Except.pure] at hrun
    cases hrun
    exact Or.inl rfl
  | succ n ih =>
    intro s s1 b b1 hrun
    rw [forK] at hrun
    obtain ⟨⟨s0, b0⟩, hprev, hstep⟩ := bind_ok_inv hrun
    have h0 := ih s s0 b b0 hprev
    have hle : b0.cost ≤ b.cost := by
      rcases h0 with e | ⟨_, e⟩
      · rw [e]
      · exact le_of_lt e
    rcases sdspPoint_spec imgP imgI w h mbSize p off i j x y n s0 s1 b0 b1 hstep with
      ⟨_, e2⟩ | ⟨hk, _, e2, hlt⟩ | ⟨hk, c, _, _, hb⟩
    · rw [e2]; exact h0
    · rw [e2]; exact Or.inr ⟨hk, by simp only []; omega⟩
    · rcases hb with ⟨e, _⟩ | ⟨e, h1⟩
      · rw [e]; exact h0
      · rw [e]; exact Or.inr ⟨hk, by simp only []; omega⟩

/-- The `while` loop of the unit-step refinement, run for more passes than the
centre cost it is entered with, returns or meets undefined behaviour: each
further pass follows a strict decrease of the centre cost. -/
theorem onlyUB_sdspLoop (imgP imgI : Option (List Nat)) (w h mbSize : Nat) (p off i j : Int) :
    ∀ (fuel : Nat) (x y : Int) (s : ArpsState), s.costs.getD 2 0 < fuel →
      OnlyUB (sdspLoop imgP imgI w h mbSize p off i j fuel (x, y, s)) := by
  intro fuel
  induction fuel with
  | zero => intro x y s hf; exact absurd hf (Nat.not_lt_zero _)
  | succ fuel ih =>
    intro x y s hf
    rw [sdspLoop]
    cases hrun : forK (sdspPoint imgP imgI w h mbSize p off i j x y) 5
        (s, { cost := s.costs.getD 2 0, point := 2 }) with
    | error e =>
      have := onlyUB_forK _ (fun k sb => onlyUB_sdspPoint imgP imgI w h mbSize p off i j x y k sb)
        5 _ e hrun
      subst this
      exact onlyUB_ub
    | ok r =>
      obtain ⟨s1, b1⟩ := r
      simp only [bind, Except.bind]
      rcases sdspPass_cost imgP imgI w h mbSize p off i j x y 5 s s1 _ b1 hrun with e | ⟨hp, hlt⟩
      · rw [if_pos (by rw [e])]
        exact onlyUB_ok _
      · rw [if_neg hp]
        refine onlyUB_bind _ _ (onlyUB_checkedInt _) (fun x1 => ?_)
        refine onlyUB_bind _ _ (onlyUB_checkedInt _) (fun x2 => ?_)
        refine ih x2 y _ ?_
        rw [(resetCosts_facts b1.cost).2.1]
        simp only [] at hlt
        omega

/-- The search of one macroblock by `motionEstARPS` returns or meets undefined
behaviour, for all planes, image sizes, macroblock sizes, search parameters and
states of the locals: the bound of `cost + 1` passes given to its `while` loop
is never used up. -/
theorem onlyUB_arpsBlock (imgP imgI : Option (List Nat)) (w h mbSize : Nat) (p zmp_T i iw j : Int)
    (s : ArpsState) : OnlyUB (arpsBlock imgP imgI w h mbSize p zmp_T i iw j s) := by
  unfold arpsBlock
  simp only []
  repeat' first
    | exact onlyUB_ok _
    | exact onlyUB_checkedInt _
    | exact onlyUB_costFuncSAD _ _ _ _ _ _
    | exact onlyUB_checkIndex _ _ _
    | exact onlyUB_readVector _ _
    | exact onlyUB_writeVector _ _ _
    | exact onlyUB_arpsMag2 _
    | exact onlyUB_forK _ (fun k sb => onlyUB_ldspPoint _ _ _ _ _ _ _ _ _ k sb) _ _
    | exact onlyUB_sdspLoop _ _ _ _ _ _ _ _ _ _ _ _ _
        (by rw [(resetCosts_facts _).2.1]; exact Nat.lt_succ_self _)
    | apply onlyUB_ite
    | apply onlyUB_bind
    | intro _

/-- Termination of the refinement loop: for all planes, image and macroblock
sizes, macroblock positions and search parameters, the `while (!doneFlag)` loop
of `motionEstARPS`, entered as `motionEstARPS` enters it (`costs` reset around
the centre cost `cost`, a value of `unsigned`) and given more than `cost`
passes, returns whenever none of its accesses is undefined (an index of
`checkArray` outside 0 .. 2 p, a read outside a plane, an `int` overflow): each
further pass follows a strict decrease of `cost`. Where it returns, the slot
`costs[k]` of each neighbour `k` of the last centre holds the SAD evaluated for
it in the last pass, or the reset value `UINT32_MAX` when it was not
evaluated, and is at least the variable `costs[2]`, the cost carried over from
the point selected in the pass before, which need not be the SAD of the centre
the loop stops at. In the same way the search of a whole macroblock never uses
up the `cost + 1` passes it gives to the loop. -/
theorem sdspLoop_terminates (imgP imgI : Option (List Nat)) (w h mbSize : Nat)
    (p zmp_T off i iw j x y : Int) (s s0 : ArpsState) (cost fuel : Nat)
    (hcosts : s.costs = resetCosts cost) (hcost : cost ≤ UINT32_MAX) (hfuel : cost < fuel)
    (hdef : sdspLoop imgP imgI w h mbSize p off i j fuel (x, y, s)
      ≠ .error Fault.undefinedBehaviour) :
    (∃ x' s', sdspLoop imgP imgI w h mbSize p off i j fuel (x, y, s) = .ok (x', y, s')
        ∧ ∀ k, k < 5 → k ≠ 2 → s'.costs.getD 2 0 ≤ s'.costs.getD k 0
          ∧ (s'.costs.getD k 0 = UINT32_MAX
            ∨ ∃ c, costFuncSAD imgP imgI off
                  (wrap32 ((y + (SDSP.getD k (0, 0)).2) * (w : Int)
                    + (x' + (SDSP.getD k (0, 0)).1))) mbSize w = .ok c
                ∧ s'.costs.getD k 0 = u32 c))
      ∧ OnlyUB (arpsBlock imgP imgI w h mbSize p zmp_T i iw j s0) := by
  refine ⟨?_, onlyUB_arpsBlock imgP imgI w h mbSize p zmp_T i iw j s0⟩
  rcases sdspLoop_spec imgP imgI w h mbSize p off i j y fuel x s cost hcosts hcost hfuel with
    e | e
  · exact absurd e hdef
  · exact e

/-! ## ARPS: the large-diamond stage -/

/-- What one pass of the body of the LDSP loop does when it returns, for the
pattern point `k`: nothing, or the SAD of the point is stored in its slot of
`costs`, the point is marked in `checkArray`, and it becomes the minimum when
its SAD is below `cost`. -/
theorem ldspPoint_spec (imgP imgI : Option (List Nat)) (w h mbSize : Nat) (p off x y : Int)
    (k : Nat) (s s' : ArpsState) (b b' : ArpsBest)
    (hh : ldspPoint imgP imgI w h mbSize p off x y k (s, b) = .ok (s', b')) :
    (s' = s ∧ b' = b)
      ∨ (k ≠ 2 ∧ ∃ c, s'.costs = s.costs.set k (u32 c) ∧ s'.LDSP = s.LDSP
          ∧ s'.checkArray = ((s.LDSP.getD k (0, 0)).2 + p + 1,
              (s.LDSP.getD k (0, 0)).1 + p + 1) :: s.checkArray
          ∧ (b' = b ∨ b' = { cost := u32 c, point := k })) := by
  unfold ldspPoint at hh
  simp only [] at hh
  obtain ⟨rv, h1, hh⟩ := bind_ok_inv hh
  obtain ⟨rh, h2, hh⟩ := bind_ok_inv hh
  split at hh
  · cases hh; exact Or.inl ⟨rfl, rfl⟩
  split at hh
  · cases hh; exact Or.inl ⟨rfl, rfl⟩
  rename_i hk
  have hk2 : k ≠ 2 := fun e => hk (Or.inl e)
  obtain ⟨c, _, hh⟩ := bind_ok_inv hh
  obtain ⟨a1, ha1, hh⟩ := bind_ok_inv hh
  obtain ⟨a, ha, hh⟩ := bind_ok_inv hh
  obtain ⟨b1, hb1, hh⟩ := bind_ok_inv hh
  obtain ⟨bb, hbb, hh⟩ := bind_ok_inv hh
  obtain ⟨_, _, hh⟩ := bind_ok_inv hh
  have e1 := checkedInt_inv ha1
  have e2 := checkedInt_inv ha
  have e3 := checkedInt_inv hb1
  have e4 := checkedInt_inv hbb
  subst e1 e2 e3 e4
  split at hh
  · cases hh
    exact Or.inr ⟨hk2, c, rfl, rfl, rfl, Or.inr rfl⟩
  · cases hh
    exact Or.inr ⟨hk2, c, rfl, rfl, rfl, Or.inl rfl⟩

/-- The LDSP loop over the pattern points 0 .. n-1: the pattern is left alone,
the slots of `costs` of the points from `n` on are left alone, `point` is what
it was or a point below `n`, and every mark added to `checkArray` is the mark of
a point below `n`. -/
theorem ldspStage_spec (imgP imgI : Option (List Nat)) (w h mbSize : Nat) (p off x y : Int) :
    ∀ (n : Nat) (s s' : ArpsState) (b b' : ArpsBest),
      forK (ldspPoint imgP imgI w h mbSize p off x y) n (s, b) = .ok (s', b') →
      s'.LDSP = s.LDSP
        ∧ (∀ k, n ≤ k → s'.costs.getD k 0 = s.costs.getD k 0)
        ∧ (b' = b ∨ b'.point < n)
        ∧ ∀ m, m ∈ s'.checkArray → m ∈ s.checkArray
            ∨ ∃ k, k < n ∧ m = ((s.LDSP.getD k (0, 0)).2 + p + 1, (s.LDSP.getD k (0, 0)).1 + p + 1) := by
  intro n
  induction n with
  | zero =>
    intro s s' b b' hrun
    simp only [forK, pure, Except.pure] at hrun
    cases hrun
    exact ⟨rfl, fun _ _ => rfl, Or.inl rfl, fun m hm => Or.inl hm⟩
  | succ n ih =>
    intro s s' b b' hrun
    rw [forK] at hrun
    obtain ⟨⟨s0, b0⟩, hprev, hstep⟩ := bind_ok_inv hrun
    obtain ⟨i1, i2, i3, i4⟩ := ih s s0 b b0 hprev
    have hb0 : b0 = b ∨ b0.point < n + 1 := by
      rcases i3 with e | e
      · exact Or.inl e
      · exact Or.inr (by omega)
    rcases ldspPoint_spec imgP imgI w h mbSize p off x y n s0 s' b0 b' hstep with
      ⟨e1, e2⟩ | ⟨_, c, e1, eL, eC, e2⟩
    · subst e1 e2
      refine ⟨i1, fun k hk => i2 k (by omega), hb0, fun m hm => ?_⟩
      rcases i4 m hm with q | ⟨k, hk, q⟩
      · exact Or.inl q
      · exact Or.inr ⟨k, by omega, q⟩
    · refine ⟨eL.trans i1, fun k hk => ?_, ?_, fun m hm => ?_⟩
      · rw [e1, getD_set_ne _ _ _ _ (by omega)]
        exact i2 k (by omega)
      · rcases e2 with e | e
        · rw [e]; exact hb0
        · rw [e]; exact Or.inr (Nat.lt_succ_self n)
      · rw [eC] at hm
        simp only [List.mem_cons] at hm
        rcases hm with q | q
        · rw [i1] at q
          exact Or.inr ⟨n, Nat.lt_succ_self n, q⟩
        · rcases i4 m q with q | ⟨k, hk, q⟩
          · exact Or.inl q
          · exact Or.inr ⟨k, by omega, q⟩

/-- C32 (as the code behaves): the LDSP loop `for (k = 0; k < maxIndex; k++)`
stops before the pattern point of index `maxIndex`: whenever the loop returns,
the slot `costs[maxIndex]` is what it was, `point` is not `maxIndex` unless it
was before, and `checkArray`, where every SAD-evaluated point is marked, has
got no mark but those of the points 0 .. maxIndex-1. With `maxIndex = 4` the
point left out is the rood arm `LDSP[4]` = (0, step), with `maxIndex = 5` it is
`LDSP[5]`, the vector of the previous macroblock. -/
theorem ldsp_stops_before_maxIndex (imgP imgI : Option (List Nat)) (w h mbSize : Nat)
    (p off x y : Int) (maxIndex : Nat) (s s' : ArpsState) (b b' : ArpsBest)
    (hrun : forK (ldspPoint imgP imgI w h mbSize p off x y) maxIndex (s, b) = .ok (s', b')) :
    s'.costs.getD maxIndex 0 = s.costs.getD maxIndex 0
      ∧ (b'.point = maxIndex → b.point = maxIndex)
      ∧ ∀ m, m ∈ s'.checkArray → m ∈ s.checkArray
          ∨ ∃ k, k < maxIndex
              ∧ m = ((s.LDSP.getD k (0, 0)).2 + p + 1, (s.LDSP.getD k (0, 0)).1 + p + 1) := by
  obtain ⟨_, i2, i3, i4⟩ := ldspStage_spec imgP imgI w h mbSize p off x y maxIndex s s' b b' hrun
  refine ⟨i2 maxIndex (le_refl _), fun hp => ?_, i4⟩
  rcases i3 with e | e
  · rw [← e]; exact hp
  · omega

/-! ## ARPS: the indices of `checkArray` -/

/-- C39 (as the code behaves): a pattern point of the LDSP loop that lies
inside the image and is at least `p` columns to the right of or `p` rows below
the macroblock, as the rood arms (step, 0) and (0, step) are as soon as
`step ≥ p`, is marked at `checkArray[dy + p + 1][dx + p + 1]` with an index of
`2 p + 1` or more, outside the `2 p + 1` entries 0 .. 2 p of the row or of the
array: the pass does not return, it meets undefined behaviour. -/
theorem ldspPoint_index_out_of_range (imgP imgI : Option (List Nat)) (w h mbSize : Nat)
    (p off x y : Int) (k : Nat) (s : ArpsState) (b : ArpsBest)
    (hin : ¬ (y + (s.LDSP.getD k (0, 0)).2 < 0
      ∨ u32 (y + (s.LDSP.getD k (0, 0)).2 + (mbSize : Int) - 1) > u32 ((h : Int) - 1)
      ∨ x + (s.LDSP.getD k (0, 0)).1 < 0
      ∨ u32 (x + (s.LDSP.getD k (0, 0)).1 + (mbSize : Int) - 1) > u32 ((w : Int) - 1)))
    (hk : k ≠ 2) (hstep : s.stepSize ≠ 0)
    (hfar : p ≤ (s.LDSP.getD k (0, 0)).1 ∨ p ≤ (s.LDSP.getD k (0, 0)).2) :
    ldspPoint imgP imgI w h mbSize p off x y k (s, b) = .error Fault.undefinedBehaviour := by
  cases hr : ldspPoint imgP imgI w h mbSize p off x y k (s, b) with
  | error e =>
    have := onlyUB_ldspPoint imgP imgI w h mbSize p off x y k (s, b) e hr
    rw [this]
  | ok r =>
    exfalso
    unfold ldspPoint at hr
    simp only [] at hr
    obtain ⟨rv, h1, hr⟩ := bind_ok_inv hr
    obtain ⟨rh, h2, hr⟩ := bind_ok_inv hr
    have e1 := checkedInt_inv h1
    have e2 := checkedInt_inv h2
    subst e1 e2
    rw [if_neg hin, if_neg (by rintro (h | h); exact hk h; exact hstep h)] at hr
    obtain ⟨c, _, hr⟩ := bind_ok_inv hr
    obtain ⟨a1, ha1, hr⟩ := bind_ok_inv hr
    obtain ⟨a, ha, hr⟩ := bind_ok_inv hr
    obtain ⟨b1, hb1, hr⟩ := bind_ok_inv hr
    obtain ⟨bb, hbb, hr⟩ := bind_ok_inv hr
    obtain ⟨_, hidx, _⟩ := bind_ok_inv hr
    have e1 := checkedInt_inv ha1
    have e2 := checkedInt_inv ha
    have e3 := checkedInt_inv hb1
    have e4 := checkedInt_inv hbb
    subst e1 e2 e3 e4
    unfold checkIndex at hidx
    split at hidx
    · rename_i hc
      omega
    · cases hidx

/-! ## Evaluations on the sample inputs of the block matchers and of the driver -/

set_option maxRecDepth 1000000 in
/-- Witness for C31: `texturePlane` against `shiftedPlane`; generations 1 and 2
of the result are the former generations 0 and 1. -/
theorem motionEstEPZS_rotates_history_witness :
    motionEstEPZS (epzsFrame texturePlane shiftedPlane) = .ok (true, epzsShiftedResult)
      ∧ epzsShiftedResult.mv_table.get 1 = (epzsFrame texturePlane shiftedPlane).mv_table.get 0
      ∧ epzsShiftedResult.mv_table.get 2 = (epzsFrame texturePlane shiftedPlane).mv_table.get 1
      ∧ (∃ g0 g1 h1 h2, (epzsFrame texturePlane shiftedPlane).mv_table.get 0 = some g0
          ∧ (epzsFrame texturePlane shiftedPlane).mv_table.get 1 = some g1
          ∧ epzsShiftedResult.mv_table.get 1 = some h1
          ∧ epzsShiftedResult.mv_table.get 2 = some h2
          ∧ g0.length = (epzsFrame texturePlane shiftedPlane).b_count.toNat
          ∧ g1.length = (epzsFrame texturePlane shiftedPlane).b_count.toNat
          ∧ h1.length = (epzsFrame texturePlane shiftedPlane).b_count.toNat
          ∧ h2.length = (epzsFrame texturePlane shiftedPlane).b_count.toNat
          ∧ ∀ i, i < (epzsFrame texturePlane shiftedPlane).b_count.toNat →
              h1.get? i = g0.get? i ∧ h2.get? i = g1.get? i)
      ∧ ∃ ctx', motionEstEPZS (epzsFrame texturePlane shiftedPlane) = .ok (true, ctx') :=
  ⟨by decide, by decide, by decide,
   (motionEstEPZS_rotates_history (epzsFrame texturePlane shiftedPlane) (by decide)).1 true
     epzsShiftedResult (by decide),
   (motionEstEPZS_rotates_history (epzsFrame texturePlane shiftedPlane) (by decide)).2 texturePlane
     shiftedPlane rfl rfl (by decide) (by decide) (by decide) (by decide) (by decide) (by decide)⟩

set_option maxRecDepth 1000000 in
/-- Witness for C32: the macroblock at columns 0-1 of rows 2-3 of `armCur`
against `armRef` (4 x 6, macroblocks of 2, search parameter 4). The rood arm
(0, 2) lies inside the image and has SAD 0, the centre and the arms (0, -2)
and (2, 0) have SAD 20; the LDSP loop marks the centre and these two arms only
and keeps the centre, and `motionEstARPS` emits (0, 0) for the macroblock. -/
theorem ldsp_stops_before_maxIndex_witness :
    forK (ldspPoint (some armCur) (some armRef) 4 6 2 4 8 0 2) 4
        (firstColumnState 6 20, { cost := 20, point := 2 })
      = .ok ({ firstColumnState 6 20 with
                costs := [20, 0, 20, 20, 0, 0], checkArray := [(5, 7), (3, 5), (5, 5)] },
             { cost := 20, point := 2 })
      ∧ costFuncSAD (some armCur) (some armRef) 8 8 2 4 = .ok 20
      ∧ costFuncSAD (some armCur) (some armRef) 8 16 2 4 = .ok 0
      ∧ motionEstARPS (some armCur) (some armRef) 4 6 2 4 (some (staleVectors 6)) 1
          = .ok (true, some (List.replicate 6 MotionVector16_t.zero), 0)
      ∧ ([20, 0, 20, 20, 0, 0].getD 4 0 = (firstColumnState 6 20).costs.getD 4 0
        ∧ ((2 : Nat) = 4 → (2 : Nat) = 4)
        ∧ ∀ m, m ∈ [((5 : Int), (7 : Int)), (3, 5), (5, 5)] → m ∈ (firstColumnState 6 20).checkArray
            ∨ ∃ k, k < 4
                ∧ m = (((firstColumnState 6 20).LDSP.getD k (0, 0)).2 + 4 + 1,
                       ((firstColumnState 6 20).LDSP.getD k (0, 0)).1 + 4 + 1)) :=
  ⟨by decide, by decide, by decide, by decide,
   ldsp_stops_before_maxIndex (some armCur) (some armRef) 4 6 2 4 8 0 2 4 (firstColumnState 6 20)
     { firstColumnState 6 20 with
       costs := [20, 0, 20, 20, 0, 0], checkArray := [(5, 7), (3, 5), (5, 5)] }
     { cost := 20, point := 2 } { cost := 20, point := 2 } (by decide)⟩

set_option maxRecDepth 1000000 in
/-- C33: on `stepCur` against `stepRef` (4 x 4, macroblocks of 2, search
parameter 4, threshold 1) the macroblock at columns 0-1 of rows 2-3 has SAD 30
at its own position and SAD 0 one column to the right, where the refinement
stops: x - j = 1 and y - i = 0; `motionEstARPS` emits `vx = 0`, `vy = 1` for
it. On `dropCur` against `dropRef` (4 x 6) the neighbour of minimum SAD of that
macroblock is the one a row below (SAD 0, the neighbour to the right has 200):
the first pass of the `while` loop selects it (`point = 4`) and the loop ends
at the centre (1, 2), one column to the right, in the row it started from. -/
theorem motionEstARPS_emits_swapped :
    costFuncSAD (some stepCur) (some stepRef) 8 8 2 4 = .ok 30
      ∧ costFuncSAD (some stepCur) (some stepRef) 8 9 2 4 = .ok 0
      ∧ (sdspLoop (some stepCur) (some stepRef) 4 4 2 4 8 2 0 31 (0, 2, refineState 4 30)).map
          (fun r => (r.1, r.2.1)) = .ok (1, 2)
      ∧ motionEstARPS (some stepCur) (some stepRef) 4 4 2 4 (some (staleVectors 4)) 1
          = .ok (true, some [MotionVector16_t.zero, MotionVector16_t.zero,
                             { vx := 0, vy := 1, mag2 := 0 }, MotionVector16_t.zero], 0)
      ∧ costFuncSAD (some dropCur) (some dropRef) 8 12 2 4 = .ok 0
      ∧ costFuncSAD (some dropCur) (some dropRef) 8 9 2 4 = .ok 200
      ∧ (forK (sdspPoint (some dropCur) (some dropRef) 4 6 2 4 8 2 0 0 2) 5
            (refineState 6 30, { cost := 30, point := 2 })).map (fun r => (r.1.costs, r.2))
          = .ok ([200, 190, 30, 200, 0, UINT32_MAX], { cost := 0, point := 4 })
      ∧ (sdspLoop (some dropCur) (some dropRef) 4 6 2 4 8 2 0 31 (0, 2, refineState 6 30)).map
          (fun r => (r.1, r.2.1)) = .ok (1, 2) := by
  decide

set_option maxRecDepth 1000000 in
/-- Example of `sdspLoop_terminates`: the macroblock at columns 0-1 of rows 2-3
of `stepCur` against `stepRef`, entered at its own position with centre cost 30: the loop
moves one column to the right in its first pass and stops in the second. -/
theorem sdspLoop_terminates_witness :
    (∃ x' s', sdspLoop (some stepCur) (some stepRef) 4 4 2 4 8 2 0 31 (0, 2, refineState 4 30)
          = .ok (x', 2, s')
        ∧ ∀ k, k < 5 → k ≠ 2 → s'.costs.getD 2 0 ≤ s'.costs.getD k 0
          ∧ (s'.costs.getD k 0 = UINT32_MAX
            ∨ ∃ c, costFuncSAD (some stepCur) (some stepRef) 8
                  (wrap32 ((2 + (SDSP.getD k (0, 0)).2) * ((4 : Nat) : Int)
                    + (x' + (SDSP.getD k (0, 0)).1))) 2 4 = .ok c
                ∧ s'.costs.getD k 0 = u32 c))
      ∧ OnlyUB (arpsBlock (some stepCur) (some stepRef) 4 4 2 4 1 2 8 0 (firstColumnState 4 30)) :=
  sdspLoop_terminates (some stepCur) (some stepRef) 4 4 2 4 1 8 2 8 0 0 2 (refineState 4 30)
    (firstColumnState 4 30) 30 31 rfl (by decide) (by decide) (by decide)

/-- C35: the window loop of `LK_optical_flow` shifts the index `m` by
`log2_window = ceil(log2(5)) = 3`, so that `i_window` is `m div 8 - 2`: the 25
passes pair `kernel[m]` with the offsets listed, where (-2, -2) comes at m = 0
and again at m = 5 (the offset of m = 5 is (-1, -2) in `LK_optical_flow8`, which
divides by `WINDOW`), (0, 0) comes at m = 17 and m = 22, and no pass reaches
the row of offset 2. `LK_optical_flow8` pairs `kernel[m]` with
(m div 5 - 2, m mod 5 - 2) and visits each offset of the window once. -/
theorem lk_window_offsets :
    log2_window = 3 ∧ half_window = 2 ∧ window_squared = 25 ∧ kernel.length = 25
      ∧ (List.range window_squared).map lkOffset
          = [(-2, -2), (-2, -1), (-2, 0), (-2, 1), (-2, 2), (-2, -2), (-2, -1), (-2, 0),
             (-1, 1), (-1, 2), (-1, -2), (-1, -1), (-1, 0), (-1, 1), (-1, 2), (-1, -2),
             (0, -1), (0, 0), (0, 1), (0, 2), (0, -2), (0, -1), (0, 0), (0, 1), (1, 2)]
      ∧ lkOffset 5 = lkOffset 0 ∧ lkOffset 5 ≠ lk8Offset 5
      ∧ (∀ m, m < window_squared → (lkOffset m).1 ≠ 2)
      ∧ (∀ m, m < window_squared →
          lk8Offset m = (((m / 5 : Nat) : Int) - 2, ((m % 5 : Nat) : Int) - 2))
      ∧ ((List.range window_squared).map lk8Offset).Nodup
      ∧ ∀ di dj : Int, -2 ≤ di → di ≤ 2 → -2 ≤ dj → dj ≤ 2 →
          (di, dj) ∈ (List.range window_squared).map lk8Offset := by
  refine ⟨by decide, by decide, by decide, by decide, by decide, by decide, by decide, by decide,
    by decide, by decide, fun di dj h1 h2 h3 h4 => ?_⟩
  have e : (List.range window_squared).map lk8Offset
      = [(-2, -2), (-2, -1), (-2, 0), (-2, 1), (-2, 2), (-1, -2), (-1, -1), (-1, 0), (-1, 1),
         (-1, 2), (0, -2), (0, -1), (0, 0), (0, 1), (0, 2), (1, -2), (1, -1), (1, 0), (1, 1),
         (1, 2), (2, -2), (2, -1), (2, 0), (2, 1), (2, 2)] := by decide
  rw [e]
  interval_cases di <;> interval_cases dj <;> decide

set_option maxRecDepth 1000000 in
/-- Witness for C36: a bitmap of 2 x 3 pixels with a white row 1, sampled with
stride 1 to 2 x 2: the sample of output row 1, column 0 is the luma of the
pixel at byte offset 12, in row 2 of the bitmap (black), not of the pixel at
byte offset 6 in row 1 (white, luma 255). -/
theorem bmp2gray_row_stride_witness :
    ((bmp2gray whiteRowBitmap 2 2 3 2).get? (1 * 2 + 0)
          = some (lumaAt whiteRowBitmap (0 * 3 + 1 * (2 * 3 + 2 * 3)))
        ∧ ∀ N, 3 = 3 * N → 2 = 2 * N →
            (bmp2gray whiteRowBitmap 2 2 3 2).get? (1 * 2 + 0)
              = some (lumaAt whiteRowBitmap (3 * (1 * (N + 1) * 2 + 0 * N))))
      ∧ bmp2gray whiteRowBitmap 2 2 3 2 = [0, 0, 0, 0]
      ∧ lumaAt whiteRowBitmap (0 * 3 + 1 * 2 * 3) = 255 :=
  ⟨bmp2gray_row_stride whiteRowBitmap 2 2 3 2 1 0 (by decide) (by decide), by decide, by decide⟩

set_option maxRecDepth 1000000 in
/-- Witness for C37: the 10 x 2 configuration is initialised with EPZS (three
generations of 5 vectors), its method is set to ARPS and it is initialised
again: generations 1 and 2 are still the tables of the first call. -/
theorem init_context_keeps_old_generations_witness :
    init_context (fun _ => true) false epzsConfig = .ok (true, true, epzsContext)
      ∧ init_context (fun _ => true) true { epzsContext with method := BLOCK_MATCHING_ARPS }
          = .ok (true, true, { epzsContext with method := BLOCK_MATCHING_ARPS })
      ∧ epzsContext.mv_table.get 1 = some (List.replicate 5 MotionVector16_t.zero)
      ∧ epzsContext.mv_table.get 2 = some (List.replicate 5 MotionVector16_t.zero)
      ∧ ({ epzsContext with method := BLOCK_MATCHING_ARPS } : MotionEstContext).mv_table.get 1
          = ({ epzsContext with method := BLOCK_MATCHING_ARPS } : MotionEstContext).mv_table.get 1
        ∧ ({ epzsContext with method := BLOCK_MATCHING_ARPS } : MotionEstContext).mv_table.get 2
          = ({ epzsContext with method := BLOCK_MATCHING_ARPS } : MotionEstContext).mv_table.get 2 :=
  ⟨by decide, by decide, by decide, by decide,
   init_context_keeps_old_generations (fun _ => true)
     { epzsContext with method := BLOCK_MATCHING_ARPS }
     { epzsContext with method := BLOCK_MATCHING_ARPS } true true (by decide) (by decide)⟩

set_option maxRecDepth 1000000 in
/-- Witness for C38: `texturePlane` against `shiftedPlane` (10 x 4, macroblocks
of 2, search radius 2) over a vector history from earlier frames. -/
theorem motionEstEPZS_vectors_in_range_witness :
    (∀ r ctx', motionEstEPZS (epzsFrame texturePlane shiftedPlane) = .ok (r, ctx') →
        ∃ t, ctx'.mv_table.get 0 = some t
          ∧ t.length = (epzsFrame texturePlane shiftedPlane).b_count.toNat
          ∧ ∀ mb_x mb_y : Nat, (mb_x : Int) < (epzsFrame texturePlane shiftedPlane).b_width →
              (mb_y : Int) < (epzsFrame texturePlane shiftedPlane).b_height →
              VectorInRange (epzsFrame texturePlane shiftedPlane) mb_x mb_y
                (t.getD ((mb_x : Int) + mb_y * (epzsFrame texturePlane shiftedPlane).b_width).toNat
                  MotionVector16_t.zero))
      ∧ ((epzsFrame texturePlane shiftedPlane).search_param ≤ 181 →
          ∃ ctx', motionEstEPZS (epzsFrame texturePlane shiftedPlane) = .ok (true, ctx'))
      ∧ ∀ mb_x mb_y : Nat, (mb_x : Int) < (epzsFrame texturePlane shiftedPlane).b_width →
          (mb_y : Int) < (epzsFrame texturePlane shiftedPlane).b_height →
          ∀ q, InRange (epzsRange (epzsFrame texturePlane shiftedPlane)
              ((mb_x : Int) * (epzsFrame texturePlane shiftedPlane).mbSize)
              ((mb_y : Int) * (epzsFrame texturePlane shiftedPlane).mbSize)) q →
            (∃ v, me_comp_sad (epzsFrame texturePlane shiftedPlane)
                ((mb_x : Int) * (epzsFrame texturePlane shiftedPlane).mbSize)
                ((mb_y : Int) * (epzsFrame texturePlane shiftedPlane).mbSize) q.1 q.2 = .ok v)
              ∧ ∀ i j : Int, 0 ≤ i → i < (epzsFrame texturePlane shiftedPlane).mbSize → 0 ≤ j →
                  j < (epzsFrame texturePlane shiftedPlane).mbSize →
                  (0 ≤ q.1 + i ∧ q.1 + i < (epzsFrame texturePlane shiftedPlane).width
                    ∧ 0 ≤ q.2 + j ∧ q.2 + j < (epzsFrame texturePlane shiftedPlane).height
                    ∧ 0 ≤ (q.2 + j) * (epzsFrame texturePlane shiftedPlane).width + (q.1 + i)
                    ∧ (q.2 + j) * (epzsFrame texturePlane shiftedPlane).width + (q.1 + i)
                        < (epzsFrame texturePlane shiftedPlane).width
                          * (epzsFrame texturePlane shiftedPlane).height)
                  ∧ (0 ≤ (mb_x : Int) * (epzsFrame texturePlane shiftedPlane).mbSize + i
                    ∧ (mb_x : Int) * (epzsFrame texturePlane shiftedPlane).mbSize + i
                        < (epzsFrame texturePlane shiftedPlane).width
                    ∧ 0 ≤ (mb_y : Int) * (epzsFrame texturePlane shiftedPlane).mbSize + j
                    ∧ (mb_y : Int) * (epzsFrame texturePlane shiftedPlane).mbSize + j
                        < (epzsFrame texturePlane shiftedPlane).height
                    ∧ 0 ≤ ((mb_y : Int) * (epzsFrame texturePlane shiftedPlane).mbSize + j)
                          * (epzsFrame texturePlane shiftedPlane).width
                        + ((mb_x : Int) * (epzsFrame texturePlane shiftedPlane).mbSize + i)
                    ∧ ((mb_y : Int) * (epzsFrame texturePlane shiftedPlane).mbSize + j)
                          * (epzsFrame texturePlane shiftedPlane).width
                        + ((mb_x : Int) * (epzsFrame texturePlane shiftedPlane).mbSize + i)
                        < (epzsFrame texturePlane shiftedPlane).width
                          * (epzsFrame texturePlane shiftedPlane).height) :=
  motionEstEPZS_vectors_in_range (epzsFrame texturePlane shiftedPlane) texturePlane shiftedPlane
    (by decide) rfl rfl (by decide) (by decide) (by decide) (by decide) (by decide)

set_option maxRecDepth 1000000 in
/-- Witness for C39: the macroblock at columns 0-1 of rows 2-3 of `armCur`
against `armRef` with search parameter 1, where `checkArray` has 3 x 3 entries:
the rood arm (2, 0) lies inside the image and is marked at `checkArray[2][4]`,
so that `motionEstARPS` meets undefined behaviour. With search parameter 4 the
first pass of the `while` loop evaluates the SAD of the neighbour (-1, 0) of
that macroblock, whose window starts in column -1: the read starts at sample
2 * 4 - 1 = 7, the last of row 1. -/
theorem ldspPoint_index_out_of_range_witness :
    ldspPoint (some armCur) (some armRef) 4 6 2 1 8 0 2 3
        ({ firstColumnState 6 20 with checkArray := [(2, 2)] }, { cost := 20, point := 2 })
      = .error Fault.undefinedBehaviour
      ∧ motionEstARPS (some armCur) (some armRef) 4 6 2 1 (some (staleVectors 6)) 1
          = .error Fault.undefinedBehaviour
      ∧ (sdspPoint (some armCur) (some armRef) 4 6 2 4 8 2 0 0 2 1
            (refineState 6 20, { cost := 20, point := 2 })).map
          (fun r => (r.1.costs, r.1.checkArray))
        = .ok ([UINT32_MAX, 20, 20, UINT32_MAX, UINT32_MAX, UINT32_MAX],
               [(5, 4), (5, 7), (3, 5), (5, 5)])
      ∧ costFuncSAD (some armCur) (some armRef) 8 (wrap32 (2 * 4 + -1)) 2 4 = .ok 20 :=
  ⟨ldspPoint_index_out_of_range (some armCur) (some armRef) 4 6 2 1 8 0 2 3
     { firstColumnState 6 20 with checkArray := [(2, 2)] } { cost := 20, point := 2 }
     (by decide) (by decide) (by decide) (by decide),
   by decide, by decide, by decide⟩

set_option maxRecDepth 1000000 in
/-- C40: `init_context` succeeds on the 11 x 4 ARPS configuration with
macroblocks of 2 and leaves `b_width = 5`; `motionEstARPS_wrapper` passes
`5 << 1 = 10` as the width, so that for the macroblock in column 0 of row 1
`motionEstARPS` computes the zero-displacement cost over the samples 20, 21,
30 and 31 of the planes, the rows of a plane of row length 10, and gets 50 on
planes that differ in sample 20 only; `me_comp_sad` for that macroblock, at
pixel origin (0, 2), reads the samples 22, 23, 33 and 34 of the rows of length
11 and returns 0. -/
theorem arps_zero_cost_row_length :
    init_context (fun _ => true) false oddWidthConfig
        = .ok (true, true, { oddWidthContext with data_cur := none, data_ref := none })
      ∧ shiftLeft oddWidthContext.b_width oddWidthContext.log2_mbSize = .ok 10
      ∧ arpsZeroCost oddWidthContext 0 1 = .ok 50
      ∧ me_comp_sad oddWidthContext (0 * oddWidthContext.mbSize) (1 * oddWidthContext.mbSize)
          (0 * oddWidthContext.mbSize) (1 * oddWidthContext.mbSize) = .ok 0 := by
  decide

/-! ## EPZS: a translation with a lone minimum is recovered -/

/-- The search of `me_search_epzs` ends at the position `T` when every other
position of the search range has a SAD of at least 256 and a unit-step
neighbour in the range with a smaller SAD: an early exit can only be taken at
`T`, and the final loop cannot stop elsewhere. -/
theorem me_search_epzs_lone (c : MotionEstContext) (X Y : Int) (T : Int × Int)
    (hb1 : INT_MIN ≤ X - c.search_param) (hb2 : X + c.search_param ≤ INT_MAX)
    (hb3 : INT_MIN ≤ Y - c.search_param) (hb4 : Y + c.search_param ≤ INT_MAX)
    (hb5 : X - c.search_param ≤ INT_MAX) (hb6 : INT_MIN ≤ X + c.search_param)
    (hb7 : Y - c.search_param ≤ INT_MAX) (hb8 : INT_MIN ≤ Y + c.search_param)
    (hgx : shiftLeft (c.b_width - 1) c.log2_mbSize = .ok ((c.b_width - 1) * c.mbSize))
    (hgy : shiftLeft (c.b_height - 1) c.log2_mbSize = .ok ((c.b_height - 1) * c.mbSize))
    (hsad : ∀ q, InRange (epzsRange c X Y) q → ∃ v, me_comp_sad c X Y q.1 q.2 = .ok v)
    (horg : InRange (epzsRange c X Y) (X, Y))
    (hlone : ∀ q : Int × Int, InRange (epzsRange c X Y) q → q ≠ T →
      256 ≤ sadAt c X Y q
        ∧ ∃ o ∈ dia1, InRange (epzsRange c X Y) (q.1 + o.1, q.2 + o.2)
            ∧ sadAt c X Y (q.1 + o.1, q.2 + o.2) < sadAt c X Y q) :
    ∃ cost, me_search_epzs c X Y (X, Y) = .ok (cost, T) := by
  obtain ⟨s1, h1, hs1⟩ := COST_P_MV_step c (epzsRange c X Y) X Y hsad
    { cost_min := UINT64_MAX, mv0 := X, mv1 := Y } (X + c.pred_x) (Y + c.pred_y)
  obtain ⟨s2, h2, hs2⟩ := costOffsets_step c (epzsRange c X Y) X Y hsad X Y c.preds0.mvs s1
  obtain ⟨s3, h3, hs3⟩ := costOffsets_step c (epzsRange c X Y) X Y hsad X Y c.preds1.mvs s2
  obtain ⟨s4, h4, hs4⟩ := epzsDiamond_ok c (epzsRange c X Y) X Y hsad _ s3
    (Nat.lt_add_one_of_le (betterPositions_card_le c X Y (epzsRange c X Y) s3.cost_min))
  obtain ⟨_, d2⟩ := epzsDiamond_bounds c _ X Y _ s3 s4 h4
  have hexit : ∀ s : EpzsSearch,
      SearchStep c X Y (epzsRange c X Y) { cost_min := UINT64_MAX, mv0 := X, mv1 := Y } s →
        s.cost_min < 256 → (s.mv0, s.mv1) = T := by
    intro s hs hlt
    rcases hs with h | ⟨_, hin, hs⟩
    · rw [h] at hlt
      have h256 : ¬ (UINT64_MAX < 256) := by decide
      exact absurd hlt h256
    · by_contra hne
      have := (hlone _ hin hne).1
      omega
  have hc12 := searchStep_trans hs1 hs2
  have hc123 := searchStep_trans hc12 hs3
  have hc := searchStep_trans hc123 hs4
  have hfinal : (s4.mv0, s4.mv1) = T := by
    by_contra hne
    have hin : InRange (epzsRange c X Y) (s4.mv0, s4.mv1) := by
      rcases hc with h | ⟨_, h, _⟩
      · rw [h]; exact horg
      · exact h
    have hle : sadAt c X Y (s4.mv0, s4.mv1) ≤ s4.cost_min := by
      rcases hc with h | ⟨_, _, h⟩
      · rw [h]; exact sadAt_le c X Y _
      · exact le_of_eq h
    obtain ⟨_, o, ho, hino, hlt⟩ := hlone _ hin hne
    simp only [] at hino hlt
    have := d2 o ho hino
    omega
  simp only [epzsRange] at h1 h2 h3 h4
  unfold me_search_epzs
  simp only [checkedInt_ok _ hb1 hb5, checkedInt_ok _ hb3 hb7, checkedInt_ok _ hb6 hb2,
    checkedInt_ok _ hb8 hb4, hgx, hgy, bind, Except.bind, pure, Except.pure, h1]
  by_cases c1 : s1.cost_min < 256
  · rw [if_pos c1, hexit s1 hs1 c1]
    exact ⟨_, rfl⟩
  · rw [if_neg c1]
    simp only [h2]
    by_cases c2 : s2.cost_min < 256
    · rw [if_pos c2, hexit s2 hc12 c2]
      exact ⟨_, rfl⟩
    · rw [if_neg c2]
      simp only [h3]
      by_cases c3 : s3.cost_min < 256
      · rw [if_pos c3, hexit s3 hc123 c3]
        exact ⟨_, rfl⟩
      · rw [if_neg c3]
        simp only [h4]
        rw [hfinal]
        exact ⟨_, rfl⟩

/-- One macroblock of `motionEstEPZS` on a successfully initialised context
whose planes hold the image: when the SAD of the macroblock has a lone minimum
at the displacement (dx, dy) and the block returns, it has written (dx, dy)
with its squared length into its own entry of generation 0, and left the rest
of the frame alone. -/
theorem epzsBlock_lone (c c' : MotionEstContext) (cur ref : List Nat) (mb_x mb_y : Nat)
    (dx dy : Int)
    (hready : EpzsReady c) (hcur : c.data_cur = some cur) (href : c.data_ref = some ref)
    (hlenc : c.width * c.height ≤ cur.length) (hlenr : c.width * c.height ≤ ref.length)
    (hp0 : 0 ≤ c.search_param)
    (hpw : c.width + c.search_param ≤ INT_MAX) (hph : c.height + c.search_param ≤ INT_MAX)
    (hx : (mb_x : Int) < c.b_width) (hy : (mb_y : Int) < c.b_height)
    (hlone : LoneMinimum c mb_x mb_y dx dy)
    (h : epzsBlock c mb_x mb_y = .ok c') :
    ∃ t0, c.mv_table.get 0 = some t0
      ∧ ((mb_x : Int) + mb_y * c.b_width).toNat < t0.length
      ∧ c'.mv_table.get 0 = some (t0.set ((mb_x : Int) + mb_y * c.b_width).toNat
          { vx := dx, vy := dy, mag2 := (dx * dx + dy * dy).toNat }) := by
  obtain ⟨hbounds, hgx, hgy, horigin, hsad⟩ := epzsRange_facts c cur ref mb_x mb_y hready hcur href
    hlenc hlenr hp0 hpw hph hx hy
  obtain ⟨b1, b2, b3, b4, b5, b6, b7, b8⟩ := hbounds
  obtain ⟨hgeo, hr0, hr1, hr2⟩ := hready
  obtain ⟨t0, ht0, hl0⟩ : ∃ t, c.mv_table.get 0 = some t ∧ t.length = c.b_count.toNat := by
    cases h : c.mv_table.get 0 with
    | none => rw [h] at hr0; simp at hr0
    | some t => rw [h] at hr0; exact ⟨t, rfl, by simpa using hr0⟩
  obtain ⟨t1, ht1, hl1⟩ : ∃ t, c.mv_table.get 1 = some t ∧ t.length = c.b_count.toNat := by
    cases h : c.mv_table.get 1 with
    | none => rw [h] at hr1; simp at hr1
    | some t => rw [h] at hr1; exact ⟨t, rfl, by simpa using hr1⟩
  obtain ⟨t2, ht2, hl2⟩ : ∃ t, c.mv_table.get 2 = some t ∧ t.length = c.b_count.toNat := by
    cases h : c.mv_table.get 2 with
    | none => rw [h] at hr2; simp at hr2
    | some t => rw [h] at hr2; exact ⟨t, rfl, by simpa using hr2⟩
  obtain ⟨hl0', hl31, hmb, hw0, hwmax, hh0, hhmax, hbw, hbh, hcount⟩ := hgeo
  have hmx : INT_MAX = 2147483647 := rfl
  have hmn : INT_MIN = -2147483648 := rfl
  have hmbpos : (0 : Int) < c.mbSize := by rw [hmb]; positivity
  obtain ⟨hB0, hB1, hB2, hB3⟩ := block_index_facts c.b_width c.b_height mb_x mb_y
    (Int.natCast_nonneg _) hx (Int.natCast_nonneg _) hy
  obtain ⟨hX0, hX1, hX2⟩ := block_origin_facts c.width c.mbSize mb_x hmbpos
    (Int.natCast_nonneg _) (by rw [← hbw]; exact hx)
  obtain ⟨hY0, hY1, hY2⟩ := block_origin_facts c.height c.mbSize mb_y hmbpos
    (Int.natCast_nonneg _) (by rw [← hbh]; exact hy)
  have hL0 : (t0.length : Int) = c.b_width * c.b_height := by rw [hl0, ← hcount]; omega
  have hL1 : (t1.length : Int) = c.b_width * c.b_height := by rw [hl1, ← hcount]; omega
  obtain ⟨p0, hcurp⟩ : ∃ p0, currentPredictors c mb_x mb_y = .ok p0 :=
    ⟨_, currentPredictors_eq c t0 mb_x mb_y ht0 hcount hl0 hx hy⟩
  obtain ⟨p1, hprev⟩ := previousPredictors_ok c t1 t2 mb_x mb_y ht1 ht2 hcount hl1 hl2 hx hy
  have hsx : shiftLeft (mb_x : Int) c.log2_mbSize = .ok ((mb_x : Int) * c.mbSize) := by
    rw [hmb]
    exact shiftLeft_ok _ _ hl0' (by omega) (by rw [← hmb]; omega) (by rw [← hmb]; omega)
  have hsy : shiftLeft (mb_y : Int) c.log2_mbSize = .ok ((mb_y : Int) * c.mbSize) := by
    rw [hmb]
    exact shiftLeft_ok _ _ hl0' (by omega) (by rw [← hmb]; omega) (by rw [← hmb]; omega)
  obtain ⟨cost, hsearch⟩ := me_search_epzs_lone
    { c with pred_x := (medianPredictor p0).1, pred_y := (medianPredictor p0).2,
             preds0 := ADD_PRED p0
               (t1.getD ((mb_x : Int) + mb_y * c.b_width).toNat MotionVector16_t.zero).vx
               (t1.getD ((mb_x : Int) + mb_y * c.b_width).toNat MotionVector16_t.zero).vy,
             preds1 := p1 }
    ((mb_x : Int) * c.mbSize) ((mb_y : Int) * c.mbSize)
    ((mb_x : Int) * c.mbSize + dx, (mb_y : Int) * c.mbSize + dy)
    b1 b2 b3 b4 b5 b6 b7 b8 hgx hgy (hsad _ rfl rfl rfl rfl) horigin hlone
  unfold epzsBlock at h
  simp only [hsx, hsy, hcurp, hprev, ht1, ht0, bind, Except.bind, pure, Except.pure] at h
  rw [readVector_ok t1 _ (by omega) (by omega)] at h
  simp only [hsearch, add_sub_cancel_left] at h
  cases hm : epzsMag2 dx dy with
  | error e => rw [hm] at h; cases h
  | ok m =>
    rw [hm] at h
    simp only [] at h
    rw [writeVector_ok t0 _ _ (by omega) (by omega)] at h
    obtain ⟨hm1, hdx, hdy⟩ := epzsMag2_inv _ _ _ hm
    cases h
    refine ⟨t0, ht0, by omega, ?_⟩
    have e1 : wrap16 (wrap16 ((mb_x : Int) * c.mbSize + dx) - (mb_x : Int) * c.mbSize) = dx := by
      rw [wrap16_small _ _ (by omega)]; omega
    have e2 : wrap16 (wrap16 ((mb_y : Int) * c.mbSize + dy) - (mb_y : Int) * c.mbSize) = dy := by
      rw [wrap16_small _ _ (by omega)]; omega
    have e3 : m = (dx * dx + dy * dy).toNat := by omega
    simp only [MvTables.get_set _ 0 0 _ (by decide), if_true, e1, e2, e3]

/-- The lone minimum of a macroblock speaks of fields the block loop leaves
alone. -/
theorem loneMinimum_frame {c0 c : MotionEstContext} (h : LoopFrame c0 c) (x y dx dy : Int)
    (hl : LoneMinimum c0 x y dx dy) : LoneMinimum c x y dx dy := by
  obtain ⟨f1, f2, f3, _, f5, f6, _, f8, _, f10, _, _⟩ := h
  unfold LoneMinimum epzsRange sadAt me_comp_sad at *
  rw [f1, f2, f3, f5, f6, f8, f10]
  exact hl

/-- A state of the block loop is a successfully initialised context. -/
theorem recoveredRun_ready {c0 c : MotionEstContext} {dx dy : Int} {k : Nat}
    (h : RecoveredRun c0 dx dy k c) (hready : EpzsReady c0) : EpzsReady c := by
  obtain ⟨hfr, t, ht, hl, _⟩ := h
  obtain ⟨hgeo, _, hr1, hr2⟩ := hready
  have hg := loopFrame_geometry hfr hgeo
  obtain ⟨_, _, _, _, _, _, f7, _, _, _, f11, f12⟩ := hfr
  exact ⟨hg, by rw [ht, f7]; simp [hl], by rw [f11, f7]; exact hr1, by rw [f12, f7]; exact hr2⟩

/-- One macroblock of `motionEstEPZS` keeps the vectors written so far and
writes (dx, dy) when the SAD of its macroblock has a lone minimum there. -/
theorem epzsBlock_recovered_step (c0 c c' : MotionEstContext) (cur ref : List Nat) (x y : Nat)
    (dx dy : Int)
    (hready : EpzsReady c0) (hcur : c0.data_cur = some cur) (href : c0.data_ref = some ref)
    (hlenc : c0.width * c0.height ≤ cur.length) (hlenr : c0.width * c0.height ≤ ref.length)
    (hp0 : 0 ≤ c0.search_param)
    (hpw : c0.width + c0.search_param ≤ INT_MAX) (hph : c0.height + c0.search_param ≤ INT_MAX)
    (hx : (x : Int) < c0.b_width) (hy : (y : Int) < c0.b_height)
    (hinv : RecoveredRun c0 dx dy ((x : Int) + y * c0.b_width).toNat c)
    (h : epzsBlock c x y = .ok c') :
    RecoveredRun c0 dx dy (((x : Int) + y * c0.b_width).toNat + 1) c' := by
  have hr1 := recoveredRun_ready hinv hready
  obtain ⟨hfr, t, ht, hl, hm⟩ := hinv
  have hfr' := hfr
  obtain ⟨f1, f2, f3, f4, f5, f6, f7, f8, f9, f10, f11, f12⟩ := hfr'
  obtain ⟨t0, v, ht0, _, hi1, hfr2, ht', _, _⟩ := epzsBlock_effect c c' x y h
  rw [f5] at hi1 ht'
  rw [ht] at ht0
  injection ht0 with ht0
  subst ht0
  have hv : LoneMinimum c0 x y dx dy →
      v = { vx := dx, vy := dy, mag2 := (dx * dx + dy * dy).toNat } := by
    intro hlone
    obtain ⟨t0', ht0', _, ht''⟩ := epzsBlock_lone c c' cur ref x y dx dy hr1
      (by rw [f1, hcur]) (by rw [f2, href]) (by rw [f3, f4]; exact hlenc)
      (by rw [f3, f4]; exact hlenr) (by rw [f10]; exact hp0) (by rw [f3, f10]; exact hpw)
      (by rw [f4, f10]; exact hph) (by rw [f5]; exact hx) (by rw [f6]; exact hy)
      (loneMinimum_frame hfr _ _ _ _ hlone) h
    rw [ht] at ht0'
    injection ht0' with ht0'
    subst ht0'
    rw [f5, ht'] at ht''
    injection ht'' with ht''
    have := congrArg (fun l => l.getD ((x : Int) + y * c0.b_width).toNat MotionVector16_t.zero) ht''
    simpa [List.getD, hi1] using this
  have hy0 : (0 : Int) ≤ (y : Int) * c0.b_width :=
    mul_nonneg (Int.natCast_nonneg _) (by omega)
  refine ⟨loopFrame_trans hfr hfr2, _, ht', by simp [hl], ?_⟩
  intro i hi hlone
  by_cases hik : i = ((x : Int) + y * c0.b_width).toNat
  · subst hik
    obtain ⟨e1, e2⟩ := block_of_index c0.b_width x y (Int.natCast_nonneg _) hx
    rw [Int.toNat_of_nonneg (by omega), e1, e2] at hlone
    have := hv hlone
    simpa [List.getD, hi1] using this
  · have := hm i (by omega) hlone
    simpa [List.getD, List.getElem?_set, Ne.symm hik] using this

/-- The column loop of `motionEstEPZS` keeps the vectors written so far and
writes (dx, dy) for the macroblocks whose SAD has a lone minimum there. -/
theorem epzsCols_recovered (c0 : MotionEstContext) (cur ref : List Nat) (y : Nat) (dx dy : Int)
    (hready : EpzsReady c0) (hcur : c0.data_cur = some cur) (href : c0.data_ref = some ref)
    (hlenc : c0.width * c0.height ≤ cur.length) (hlenr : c0.width * c0.height ≤ ref.length)
    (hp0 : 0 ≤ c0.search_param)
    (hpw : c0.width + c0.search_param ≤ INT_MAX) (hph : c0.height + c0.search_param ≤ INT_MAX)
    (hy : (y : Int) < c0.b_height) :
    ∀ n : Nat, (n : Int) ≤ c0.b_width → ∀ c c',
      RecoveredRun c0 dx dy ((y : Int) * c0.b_width).toNat c →
      epzsCols y n c = .ok c' → RecoveredRun c0 dx dy ((n : Int) + y * c0.b_width).toNat c' := by
  intro n
  induction n with
  | zero =>
    intro _ c c' hinv h
    injection h with h
    subst h
    simpa using hinv
  | succ n ih =>
    intro hn c c' hinv h
    simp only [epzsCols, bind, Except.bind] at h
    split at h
    · exact Except.noConfusion h
    · rename_i c1 hc1
      have h1 := ih (by push_cast at hn; omega) c c1 hinv hc1
      have h2 := epzsBlock_recovered_step c0 c1 c' cur ref n y dx dy hready hcur href hlenc hlenr
        hp0 hpw hph (by push_cast at hn; omega) hy h1 h
      have hb : (0 : Int) ≤ (y : Int) * c0.b_width :=
        mul_nonneg (Int.natCast_nonneg _) (by push_cast at hn; omega)
      have he : (((n + 1 : Nat) : Int) + (y : Int) * c0.b_width).toNat
          = ((n : Int) + (y : Int) * c0.b_width).toNat + 1 := by
        push_cast; omega
      rw [he]
      exact h2

/-- The row loop of `motionEstEPZS` keeps the vectors written so far and
writes (dx, dy) for the macroblocks whose SAD has a lone minimum there. -/
theorem epzsRows_recovered (c0 : MotionEstContext) (cur ref : List Nat) (dx dy : Int)
    (hready : EpzsReady c0) (hcur : c0.data_cur = some cur) (href : c0.data_ref = some ref)
    (hlenc : c0.width * c0.height ≤ cur.length) (hlenr : c0.width * c0.height ≤ ref.length)
    (hp0 : 0 ≤ c0.search_param)
    (hpw : c0.width + c0.search_param ≤ INT_MAX) (hph : c0.height + c0.search_param ≤ INT_MAX)
    (hbw : 0 ≤ c0.b_width) :
    ∀ n : Nat, (n : Int) ≤ c0.b_height → ∀ c c', RecoveredRun c0 dx dy 0 c →
      epzsRows n c = .ok c' → RecoveredRun c0 dx dy ((n : Int) * c0.b_width).toNat c' := by
  intro n
  induction n with
  | zero =>
    intro _ c c' hinv h
    injection h with h
    subst h
    simpa using hinv
  | succ n ih =>
    intro hn c c' hinv h
    simp only [epzsRows, bind, Except.bind] at h
    split at h
    · exact Except.noConfusion h
    · rename_i c1 hc1
      have h1 := ih (by push_cast at hn; omega) c c1 hinv hc1
      have hbw1 : c1.b_width = c0.b_width := h1.1.2.2.2.2.1
      rw [hbw1] at h
      have h2 := epzsCols_recovered c0 cur ref n dx dy hready hcur href hlenc hlenr hp0 hpw hph
        (by push_cast at hn; omega) c0.b_width.toNat (by omega) c1 c' h1 h
      have he : (((n + 1 : Nat) : Int) * c0.b_width)
          = ((c0.b_width.toNat : Nat) : Int) + (n : Int) * c0.b_width := by
        rw [Int.toNat_of_nonneg hbw]; push_cast; ring
      rw [he]
      exact h2

/-- C16, amended: on a successfully initialised EPZS context whose current
plane is the previous plane translated by (dx, dy), |dx| and |dy| within the
search radius, (1) the macroblock whose displaced window lies inside the plane
has SAD 0 at the displaced position; (2) whenever `motionEstEPZS` returns, the
table of current vectors holds exactly (dx, dy), with mag2 = dx*dx + dy*dy, for
every macroblock whose SAD has a lone minimum at the displaced position: every
other position of its search range has a SAD of at least 256 (the early-exit
threshold) and a neighbour one step to the left, right, top or bottom inside
the range with a smaller SAD; (3) the call returns true when the search radius
is at most 181. For ARPS the property is kept for the translation (0, 0): on a
plane against itself `motionEstARPS` returns true with the vector (0, 0) for
every macroblock. -/
theorem motionEstEPZS_translation (ctx : MotionEstContext) (cur ref : List Nat) (dx dy : Int)
    (hready : EpzsReady ctx) (hcur : ctx.data_cur = some cur) (href : ctx.data_ref = some ref)
    (hlenc : ctx.width * ctx.height ≤ cur.length) (hlenr : ctx.width * ctx.height ≤ ref.length)
    (hpw : ctx.width + ctx.search_param ≤ INT_MAX)
    (hph : ctx.height + ctx.search_param ≤ INT_MAX)
    (hdx : |dx| ≤ ctx.search_param) (hdy : |dy| ≤ ctx.search_param)
    (htrans : Translated cur ref ctx.width ctx.height dx dy) :
    (∀ mb_x mb_y : Nat, (mb_x : Int) < ctx.b_width → (mb_y : Int) < ctx.b_height →
        0 ≤ (mb_x : Int) * ctx.mbSize + dx →
        (mb_x : Int) * ctx.mbSize + dx + ctx.mbSize ≤ ctx.width →
        0 ≤ (mb_y : Int) * ctx.mbSize + dy →
        (mb_y : Int) * ctx.mbSize + dy + ctx.mbSize ≤ ctx.height →
        me_comp_sad ctx ((mb_x : Int) * ctx.mbSize) ((mb_y : Int) * ctx.mbSize)
          ((mb_x : Int) * ctx.mbSize + dx) ((mb_y : Int) * ctx.mbSize + dy) = .ok 0)
      ∧ (∀ r ctx', motionEstEPZS ctx = .ok (r, ctx') →
          ∃ t, ctx'.mv_table.get 0 = some t ∧ t.length = ctx.b_count.toNat
            ∧ ∀ mb_x mb_y : Nat, (mb_x : Int) < ctx.b_width → (mb_y : Int) < ctx.b_height →
                LoneMinimum ctx mb_x mb_y dx dy →
                t.getD ((mb_x : Int) + mb_y * ctx.b_width).toNat MotionVector16_t.zero
                  = { vx := dx, vy := dy, mag2 := (dx * dx + dy * dy).toNat })
      ∧ (ctx.search_param ≤ 181 → ∃ ctx', motionEstEPZS ctx = .ok (true, ctx'))
      ∧ ∀ (t : List MotionVector16_t) (bw bh mb : Nat) (p zmp_T : Int),
          0 < bw → 0 < bh → 0 < mb → bw * mb * (bh * mb) ≤ ref.length →
          ((bw * mb * (bh * mb) : Nat) : Int) ≤ INT_MAX → 0 < u32 zmp_T → 0 ≤ p →
          2 * p + 1 ≤ INT_MAX → t.length = bw * bh →
          motionEstARPS (some ref) (some ref) (bw * mb) (bh * mb) mb p (some t) zmp_T
            = .ok (true, some (List.replicate (bw * bh) MotionVector16_t.zero), 0) := by
  have hp0 : 0 ≤ ctx.search_param := le_trans (abs_nonneg dx) hdx
  have _ := hdy
  refine ⟨fun mb_x mb_y hx hy hx0 hx1 hy0 hy1 => ?_, fun r ctx' h => ?_,
    fun hp1 => motionEstEPZS_returns ctx cur ref hready hcur href hlenc hlenr hp0 hp1 hpw hph,
    fun t bw bh mb p zmp_T h1 h2 h3 h4 h5 h6 h7 h8 h9 =>
      motionEstARPS_identical ref t bw bh mb p zmp_T h1 h2 h3 h4 h5 h6 h7 h8 h9⟩
  · obtain ⟨hgeo, _, _, _⟩ := hready
    obtain ⟨hl0', hl31, hmb, hw0, hwmax, hh0, hhmax, hbw, hbh, hcount⟩ := hgeo
    have hmbpos : (0 : Int) < ctx.mbSize := by rw [hmb]; positivity
    obtain ⟨hX0, hX1, hX2⟩ := block_origin_facts ctx.width ctx.mbSize mb_x hmbpos
      (Int.natCast_nonneg _) (by rw [← hbw]; exact hx)
    obtain ⟨hY0, hY1, hY2⟩ := block_origin_facts ctx.height ctx.mbSize mb_y hmbpos
      (Int.natCast_nonneg _) (by rw [← hbh]; exact hy)
    have hmbn : ((ctx.mbSize.toNat : Nat) : Int) = ctx.mbSize :=
      Int.toNat_of_nonneg (le_of_lt hmbpos)
    unfold me_comp_sad
    rw [hcur, href]
    refine sadRows_match ref cur ctx.width _ _ _ _ _ _ hw0 hX0 hY0 (by rw [hmbn]; exact hX1) ?_
      hx0 hy0 (by rw [hmbn]; exact hx1) ?_ ?_
    · rw [hmbn]
      refine le_trans ?_ hlenc
      rw [mul_comm ctx.width ctx.height]
      exact mul_le_mul_of_nonneg_right hY1 hw0
    · rw [hmbn]
      refine le_trans ?_ hlenr
      rw [mul_comm ctx.width ctx.height]
      exact mul_le_mul_of_nonneg_right hy1 hw0
    · intro j i hj hi
      have hj' : (j : Int) < ctx.mbSize := by omega
      have hi' : (i : Int) < ctx.mbSize := by omega
      have := htrans ((mb_x : Int) * ctx.mbSize + i) ((mb_y : Int) * ctx.mbSize + j)
        (by omega) (by omega) (by omega) (by omega) (by omega) (by omega) (by omega) (by omega)
      have e1 : ((mb_y : Int) * ctx.mbSize + dy) * ctx.width + ((mb_x : Int) * ctx.mbSize + dx)
          + (j : Int) * ctx.width + (i : Int)
          = ((mb_y : Int) * ctx.mbSize + j + dy) * ctx.width
              + ((mb_x : Int) * ctx.mbSize + i + dx) := by
        ring
      have e2 : (mb_y : Int) * ctx.mbSize * ctx.width + (mb_x : Int) * ctx.mbSize
          + (j : Int) * ctx.width + (i : Int)
          = ((mb_y : Int) * ctx.mbSize + j) * ctx.width + ((mb_x : Int) * ctx.mbSize + i) := by
        ring
      rw [e1, e2]
      exact this.symm
  · have hready' := hready
    obtain ⟨hgeo, hr0, hr1, hr2⟩ := hready'
    obtain ⟨t0, ht0, hl0⟩ : ∃ t, ctx.mv_table.get 0 = some t ∧ t.length = ctx.b_count.toNat := by
      cases h : ctx.mv_table.get 0 with
      | none => rw [h] at hr0; simp at hr0
      | some t => rw [h] at hr0; exact ⟨t, rfl, by simpa using hr0⟩
    obtain ⟨t1, ht1, hl1⟩ : ∃ t, ctx.mv_table.get 1 = some t ∧ t.length = ctx.b_count.toNat := by
      cases h : ctx.mv_table.get 1 with
      | none => rw [h] at hr1; simp at hr1
      | some t => rw [h] at hr1; exact ⟨t, rfl, by simpa using hr1⟩
    obtain ⟨t2, ht2, hl2⟩ : ∃ t, ctx.mv_table.get 2 = some t ∧ t.length = ctx.b_count.toNat := by
      cases h : ctx.mv_table.get 2 with
      | none => rw [h] at hr2; simp at hr2
      | some t => rw [h] at hr2; exact ⟨t, rfl, by simpa using hr2⟩
    have hgeo' := hgeo
    obtain ⟨hl0', hl31, hmb, hw0, hwmax, hh0, hhmax, hbw, hbh, hcount⟩ := hgeo'
    have hmbpos : (0 : Int) < ctx.mbSize := by rw [hmb]; positivity
    have hbw0 : 0 ≤ ctx.b_width := by rw [hbw]; exact Int.ediv_nonneg hw0 (le_of_lt hmbpos)
    have hbh0 : 0 ≤ ctx.b_height := by rw [hbh]; exact Int.ediv_nonneg hh0 (le_of_lt hmbpos)
    have hcnt0 : 0 ≤ ctx.b_count := by rw [hcount]; exact mul_nonneg hbw0 hbh0
    have hstart : RecoveredRun
        { ctx with max := 0, mv_table := ((ctx.mv_table.set 2 (some t1)).set 1 (some t0)) } dx dy 0
        { ctx with max := 0, mv_table := ((ctx.mv_table.set 2 (some t1)).set 1 (some t0)) } := by
      refine ⟨loopFrame_refl _, t0, ?_, hl0, fun i hi => absurd hi (Nat.not_lt_zero i)⟩
      simp only [MvTables.get_set _ 1 0 _ (by decide), MvTables.get_set _ 2 0 _ (by decide)]
      simpa using ht0
    unfold motionEstEPZS at h
    simp only [ht0, ht1, ht2, bind, Except.bind, pure, Except.pure,
      memcpyVectors_full t2 t1 ctx.b_count hcnt0 hl2 hl1,
      MvTables.get_set _ 2 1 _ (by decide), MvTables.get_set _ 2 0 _ (by decide)] at h
    simp only [show ((1 : Nat) = 2) = False from by decide, show ((0 : Nat) = 2) = False from by decide,
      if_false, ht0, ht1, memcpyVectors_full t1 t0 ctx.b_count hcnt0 hl1 hl0] at h
    split at h
    · exact Except.noConfusion h
    · rename_i c1 hc1
      injection h with h
      injection h with _ h
      subst h
      obtain ⟨_, t, ht, hlt, hm⟩ := epzsRows_recovered
        { ctx with max := 0, mv_table := ((ctx.mv_table.set 2 (some t1)).set 1 (some t0)) } cur ref
        dx dy
        ⟨hgeo, by
            simp only [MvTables.get_set _ 1 0 _ (by decide), MvTables.get_set _ 2 0 _ (by decide)]
            simpa using hr0,
          by simp [MvTables.get_set _ 1 1 _ (by decide), hl0],
          by simp [MvTables.get_set _ 1 2 _ (by decide), MvTables.get_set _ 2 2 _ (by decide), hl1]⟩
        hcur href hlenc hlenr hp0 hpw hph hbw0 ctx.b_height.toNat (by simp only []; omega) _ _
        hstart hc1
      simp only [] at hm hlt
      refine ⟨t, ht, hlt, fun mb_x mb_y hx hy hlone => ?_⟩
      obtain ⟨hB0, hB1, _, _⟩ := block_index_facts ctx.b_width ctx.b_height mb_x mb_y
        (Int.natCast_nonneg _) hx (Int.natCast_nonneg _) hy
      obtain ⟨e1, e2⟩ := block_of_index ctx.b_width mb_x mb_y (Int.natCast_nonneg _) hx
      have hi : ((mb_x : Int) + mb_y * ctx.b_width).toNat
          < (((ctx.b_height.toNat : Nat) : Int) * ctx.b_width).toNat := by
        rw [Int.toNat_of_nonneg hbh0, mul_comm ctx.b_height ctx.b_width]
        omega
      refine hm _ hi ?_
      rw [Int.toNat_of_nonneg (by omega), e1, e2]
      exact hlone

set_option maxRecDepth 1000000 in
/-- C16, counterexample. (a) `gradientShifted` is `gradientPlane` translated by
(1, 0), within the search radius 2 of `epzsFrame` and 4 of `arpsFrame`, and no
sample of the two planes agrees at the same position; the window of the
macroblock at columns 2-3 of rows 0-1 and the window displaced by (1, 0) lie
inside the plane. Both EPZS and ARPS emit (0, 0) for it, as for every other
macroblock: the block at its own position already has SAD 4, below the exit
threshold 256 of EPZS and the zero-motion threshold 8 of ARPS.
(b) `stripeShifted` is `stripePlane` translated by (2, 0). For the first
macroblock of row 1 (origin (0, 2), search range columns 0..2 of rows 0..2,
displaced window at columns 2-3 of rows 2-3) the SAD is 0 at the displaced
position (2, 2) and at least 256 everywhere else in the range, yet EPZS emits
(0, -1): the position (0, 1) has SAD 256 and all its neighbours have more. For
the first macroblock of row 0 the SAD at its own position is 128, not below
the zero-motion threshold, and 0 at the displacement (2, 0), yet ARPS emits
vx = 0, vy = 2. -/
theorem translation_not_recovered :
    Translated gradientShifted gradientPlane 10 4 1 0
      ∧ (∀ i, i < 40 → gradientShifted.get? i ≠ gradientPlane.get? i)
      ∧ me_comp_sad (epzsFrame gradientShifted gradientPlane) 2 0 2 0 = .ok 4
      ∧ me_comp_sad (epzsFrame gradientShifted gradientPlane) 2 0 3 0 = .ok 0
      ∧ (motionEstEPZS (epzsFrame gradientShifted gradientPlane)).map
          (fun r => r.2.mv_table.get 0)
        = .ok (some (List.replicate 10 MotionVector16_t.zero))
      ∧ (motionEstARPS_wrapper
          { arpsFrame with data_cur := some gradientShifted, data_ref := some gradientPlane }).map
          (fun r => r.2.mv_table.get 0)
        = .ok (some (List.replicate 10 MotionVector16_t.zero))
      ∧ Translated stripeShifted stripePlane 10 4 2 0
      ∧ epzsRange (epzsFrame stripeShifted stripePlane) 0 2
          = { x_min := 0, x_max := 2, y_min := 0, y_max := 2 }
      ∧ (List.range 3).map (fun x => (List.range 3).map (fun y =>
            me_comp_sad (epzsFrame stripeShifted stripePlane) 0 2 (x : Int) (y : Int)))
          = [[.ok 512, .ok 256, .ok 512], [.ok 512, .ok 320, .ok 288], [.ok 512, .ok 384, .ok 0]]
      ∧ (motionEstEPZS (epzsFrame stripeShifted stripePlane)).map
          (fun r => (r.2.mv_table.get 0).map (fun t => t.getD 5 MotionVector16_t.zero))
        = .ok (some { vx := 0, vy := -1, mag2 := 1 })
      ∧ costFuncSAD (some stripeShifted) (some stripePlane) 0 0 2 10 = .ok 128
      ∧ costFuncSAD (some stripeShifted) (some stripePlane) 0 2 2 10 = .ok 0
      ∧ (motionEstARPS_wrapper
          { arpsFrame with data_cur := some stripeShifted, data_ref := some stripePlane }).map
          (fun r => (r.2.mv_table.get 0).map (fun t => t.getD 0 MotionVector16_t.zero))
        = .ok (some { vx := 0, vy := 2, mag2 := 0 }) := by
  refine ⟨?_, by decide, by decide, by decide, by decide, by decide, ?_, by decide, by decide,
    by decide, by decide, by decide, by decide⟩
  · intro x y hx0 hx1 hy0 hy1 _ _ _ _
    interval_cases x <;> interval_cases y <;> first | rfl | (exfalso; omega)
  · intro x y hx0 hx1 hy0 hy1 _ hx2 _ _
    have hx3 : x < 8 := by omega
    interval_cases x <;> interval_cases y <;> rfl

set_option maxRecDepth 1000000 in
/-- Witness for C16: `weaveShifted` is `weavePlane` translated by (0, 1), inside
the search radius 2 of `epzsFrame`. The SAD of the first macroblock has a lone
minimum at the displacement (0, 1), and EPZS emits (0, 1) for it. -/
theorem motionEstEPZS_translation_witness :
    Translated weaveShifted weavePlane 10 4 0 1
      ∧ LoneMinimum (epzsFrame weaveShifted weavePlane) ((0 : Nat) : Int) ((0 : Nat) : Int) 0 1
      ∧ me_comp_sad (epzsFrame weaveShifted weavePlane) 0 0 0 1 = .ok 0
      ∧ (∃ ctx' t, motionEstEPZS (epzsFrame weaveShifted weavePlane) = .ok (true, ctx')
          ∧ ctx'.mv_table.get 0 = some t
          ∧ t.getD 0 MotionVector16_t.zero = { vx := 0, vy := 1, mag2 := 1 })
      ∧ motionEstARPS (some weavePlane) (some weavePlane) (5 * 2) (2 * 2) 2 4
          (some (List.replicate 10 { vx := 3, vy := -1, mag2 := 10 })) 8
        = .ok (true, some (List.replicate (5 * 2) MotionVector16_t.zero), 0) := by
  have htr : Translated weaveShifted weavePlane 10 4 0 1 := by
    intro x y hx0 hx1 hy0 hy1 _ _ _ hy3
    have hy4 : y < 3 := by omega
    interval_cases x <;> interval_cases y <;> rfl
  have hlone : LoneMinimum (epzsFrame weaveShifted weavePlane) ((0 : Nat) : Int) ((0 : Nat) : Int)
      0 1 := by
    intro q hq hne
    obtain ⟨q1, q2⟩ := q
    have hr : epzsRange (epzsFrame weaveShifted weavePlane)
        (((0 : Nat) : Int) * (epzsFrame weaveShifted weavePlane).mbSize)
        (((0 : Nat) : Int) * (epzsFrame weaveShifted weavePlane).mbSize)
        = { x_min := 0, x_max := 2, y_min := 0, y_max := 2 } := by decide
    rw [hr] at hq ⊢
    obtain ⟨h1, h2, h3, h4⟩ := hq
    simp only [] at h1 h2 h3 h4
    interval_cases q1 <;> interval_cases q2 <;>
      first
      | exact absurd rfl hne
      | exact ⟨by decide, (1, 0), by decide, by decide, by decide⟩
      | exact ⟨by decide, (-1, 0), by decide, by decide, by decide⟩
      | exact ⟨by decide, (0, 1), by decide, by decide, by decide⟩
      | exact ⟨by decide, (0, -1), by decide, by decide, by decide⟩
  obtain ⟨hsad, hvec, hret, harps⟩ := motionEstEPZS_translation (epzsFrame weaveShifted weavePlane)
    weaveShifted weavePlane 0 1 (by decide) rfl rfl (by decide) (by decide) (by decide)
    (by decide) (by decide) (by decide) htr
  obtain ⟨ctx', hctx'⟩ := hret (by decide)
  obtain ⟨t, ht, _, hm⟩ := hvec true ctx' hctx'
  exact ⟨htr, hlone, hsad 0 0 (by decide) (by decide) (by decide) (by decide) (by decide)
      (by decide),
    ⟨ctx', t, hctx', ht, hm 0 0 (by decide) (by decide) hlone⟩,
    harps _ 5 2 2 4 8 (by decide) (by decide) (by decide) (by decide) (by decide) (by decide)
      (by decide) (by decide) (by decide)⟩

/-! ## ARPS: where the refinement loop stops -/

set_option maxRecDepth 1000000 in
/-- C34 (as the code behaves): on `trapCur` against `trapRef` (6 x 6,
macroblocks of 2, search parameter 4, threshold 1) the `while (!doneFlag)`
loop for the macroblock at columns 2-3 of rows 2-3 starts at the macroblock's
own position (2, 2) with cost 350. Its first pass evaluates the four
neighbours and selects the one a row below (`point = 4`, SAD 150); the centre
moves one column to the right, to (3, 2), and `costs[2]` becomes 150. The
second pass evaluates the neighbours (3, 1), (4, 2) and (3, 3) of the new
centre with SAD 200, 350 and 250, none below `costs[2]`, and the loop stops.
The SAD of the centre (3, 2) it stops at is 300: the evaluated neighbours
(3, 1) and (3, 3) have a lower SAD. `motionEstARPS` returns, with the vector
(0, 1) for the macroblock. -/
theorem sdspLoop_stops_above_neighbour :
    costFuncSAD (some trapCur) (some trapRef) 14 14 2 6 = .ok 350
      ∧ (forK (sdspPoint (some trapCur) (some trapRef) 6 6 2 4 14 2 2 2 2) 5
            (secondColumnState 350, { cost := 350, point := 2 })).map (fun r => (r.1.costs, r.2))
          = .ok ([300, 400, 350, 300, 150, UINT32_MAX], { cost := 150, point := 4 })
      ∧ (sdspLoop (some trapCur) (some trapRef) 6 6 2 4 14 2 2 351
            (2, 2, secondColumnState 350)).map (fun r => (r.1, r.2.1, r.2.2.costs))
          = .ok (3, 2, [200, UINT32_MAX, 150, 350, 250, UINT32_MAX])
      ∧ costFuncSAD (some trapCur) (some trapRef) 14 (2 * 6 + 3) 2 6 = .ok 300
      ∧ costFuncSAD (some trapCur) (some trapRef) 14 (1 * 6 + 3) 2 6 = .ok 200
      ∧ costFuncSAD (some trapCur) (some trapRef) 14 (3 * 6 + 3) 2 6 = .ok 250
      ∧ motionEstARPS (some trapCur) (some trapRef) 6 6 2 4 (some (staleVectors 9)) 1
          = .ok (true, some (List.replicate 4 MotionVector16_t.zero
                  ++ { vx := 0, vy := 1, mag2 := 0 } :: List.replicate 4 MotionVector16_t.zero),
                 0) := by
  decide

end Esp32Motion
